import Mathlib

/-!
# Balance-area detection study (`AutoBAs.cpp`)

A shallow embedding of the balance-area engine of `src/AutoBAs.cpp` and the
properties proved about it.

Conventions of the embedding:

* `float` values (prices, volumes, percentages, tick size) are rationals.  The
  arithmetic on them is exact, except in `CalculateProfileMetricsRunRounded`,
  the embedding of `CalculateProfileMetrics` in which every arithmetic result
  passes through a rounding function; `roundFloat` is the rounding of IEEE 754
  binary32.  The properties that depend on the rounding of sums of volumes are
  stated for the rounded embedding.  `FLT_MAX` is the value of the C constant;
  a rational stands for a `float` only between `-FLT_MAX` and `FLT_MAX`, which
  is the hypothesis `finiteKeys` where a property of the price keys depends on
  it.
* `int` / `size_t` values are `Int` / `Nat`; bar and profile indices of a chart
  are far below the 32-bit limit, so no wrap-around is modelled.
* `std::unordered_map<float, s_PriceLevelVolume>` is the list of its entries in
  iteration order; the keys of a map are pairwise distinct.
* `std::sort` is the stable insertion sort; for the pairwise distinct keys of
  a price list every sort gives the same result.  Where the order of equal
  elements matters, in the idempotence of `UpdateBAExtensions`, the sort is a
  parameter (`UpdateBAExtensionsWith`) of which only the guarantee of
  `std::sort` is assumed (`sortsByActivation`).
* Host arrays (`sc.High`, `sc.Low`, `sc.Close`, `sc.BaseDateTimeIn`) are
  functions of the bar index; `SCDateTime` values are rationals.
* Logging and drawing calls have no effect on the modelled state and are left
  out.
-/

namespace AutoBAs

/-! ## Data structures -/

/-- The C constant `FLT_MAX`, used by the source as the "unset" sentinel. -/
def FLT_MAX : ℚ := 340282346638528859811704183484516925440

/-- The literal `0.00001f` used throughout the source as volume epsilon. -/
def VOL_EPS : ℚ := 1 / 100000

/-- One price level of a volume profile (`s_PriceLevelVolume`). -/
structure s_PriceLevelVolume where
  Price : ℚ := 0
  TotalVolume : ℚ := 0
  NumberOfTrades : Int := 0
deriving DecidableEq

/-- The entries of a `PriceVolumeMap`, in iteration order. -/
abbrev PriceVolumeMap := List (ℚ × s_PriceLevelVolume)

/-- One session profile (`s_SessionProfile`). -/
structure s_SessionProfile where
  StartDateTime : ℚ := 0
  EndDateTime : ℚ := 0
  BeginIndex : Int := 0
  EndIndex : Int := 0
  POC : ℚ := 0
  ValueAreaHigh : ℚ := 0
  ValueAreaLow : ℚ := 0
  TotalVolume : ℚ := 0
  HighestPrice : ℚ := -FLT_MAX
  LowestPrice : ℚ := FLT_MAX
  PriceMap : PriceVolumeMap := []
  ChronologicalIndex : Int := -1
deriving DecidableEq

/-- The member `s_SessionProfile::GetRange`. -/
def s_SessionProfile.GetRange (p : s_SessionProfile) : ℚ :=
  if p.HighestPrice ≤ -FLT_MAX ∨ p.LowestPrice ≥ FLT_MAX ∨ p.HighestPrice < p.LowestPrice then 0
  else p.HighestPrice - p.LowestPrice

/-- A balance area with its activation and extension tracking
(`s_BalanceArea`). -/
structure s_BalanceArea where
  StartProfileChronoIndex : Int := -1
  EndProfileChronoIndex : Int := -1
  StartDateTime : ℚ := 0
  EndDateTime : ℚ := 0
  StartBarIndex : Int := -1
  EndBarIndex : Int := -1
  POC : ℚ := 0
  ValueAreaHigh : ℚ := 0
  ValueAreaLow : ℚ := 0
  HighestPrice : ℚ := -FLT_MAX
  LowestPrice : ℚ := FLT_MAX
  TotalVolume : ℚ := 0
  IncludedProfileIndices : List Int := []
  InitiationReason : String := "N/A"
  IsActivated : Bool := false
  ActivationDateTime : ℚ := 0
  ActivationBarIndex : Int := -1
  ActivationPrice : ℚ := 0
  ActivationType : String := ""
  ActivatedHigh : Bool := false
  ActivatedLow : Bool := false
  IsExtending : Bool := false
  ExtensionEndIndex : Int := -1
  ExtensionEndReason : String := ""
  WasCut : Bool := false
deriving DecidableEq

/-- The member `s_BalanceArea::GetRange`. -/
def s_BalanceArea.GetRange (b : s_BalanceArea) : ℚ :=
  if b.HighestPrice ≤ -FLT_MAX ∨ b.LowestPrice ≥ FLT_MAX ∨ b.HighestPrice < b.LowestPrice then 0
  else b.HighestPrice - b.LowestPrice

/-- A probe line recorded by the conditional-close extension
(`s_ProbeLineDrawingInfo`). -/
structure s_ProbeLineDrawingInfo where
  StartBarIndex : Int := -1
  EndBarIndexOfProfile : Int := -1
  Price : ℚ := 0
  IsHighProbe : Bool := false
deriving DecidableEq

/-- A pierce-beyond ray (`s_PBALDrawingInfo`).  The display text `OriginLabel`
is formatted from the cut balance area only and is not modelled. -/
structure s_PBALDrawingInfo where
  StartBarIndex : Int := -1
  EndBarIndex : Int := -1
  Price : ℚ := 0
  IsHigh : Bool := false
  EndReason : String := "Chart_End"
  OriginStartProfileIndex : Int := -1
  OriginEndProfileIndex : Int := -1
  WasCut : Bool := false
deriving DecidableEq

/-- A composite balance area (`s_CompositeBalanceArea`). -/
structure s_CompositeBalanceArea where
  FirstBAIndex : Int := -1
  SecondBAIndex : Int := -1
  ThirdBAIndex : Int := -1
  StartDateTime : ℚ := 0
  EndDateTime : ℚ := 0
  StartBarIndex : Int := -1
  EndBarIndex : Int := -1
  HighestPrice : ℚ := -FLT_MAX
  LowestPrice : ℚ := FLT_MAX
  QualificationReason : String := "N/A"
deriving DecidableEq

/-- The analysis state kept between calls (`s_BAStudyPersistentData`); the
drawing bookkeeping and the remembered input values are not part of the
balance-area engine and are left out. -/
structure s_BAStudyPersistentData where
  FinalizedBalanceAreas : List s_BalanceArea := []
  ProbeLinesToDraw : List s_ProbeLineDrawingInfo := []
  PBALsToDraw : List s_PBALDrawingInfo := []
  CompositeBAs : List s_CompositeBalanceArea := []
  ActiveBalanceAreas : List s_BalanceArea := []
deriving DecidableEq

/-- The part of the host interface `sc` read by the engine. -/
structure SCStudyInterface where
  ArraySize : Int
  High : Int → ℚ
  Low : Int → ℚ
  Close : Int → ℚ
  BaseDateTimeIn : Int → ℚ
  TickSize : ℚ

/-- The six reference outputs of `CalculateProfileMetrics`, initialised as in
the first lines of the function. -/
structure ProfileMetrics where
  poc : ℚ := 0
  valueAreaHigh : ℚ := 0
  valueAreaLow : ℚ := 0
  highestPrice : ℚ := -FLT_MAX
  lowestPrice : ℚ := FLT_MAX
  totalVolume : ℚ := 0
deriving DecidableEq

/-! ## `CalculateProfileMetrics` -/

/-- Locals of the first loop of `CalculateProfileMetrics` (lines 389-407). -/
structure MetricsScan where
  totalVolume : ℚ := 0
  maxVolumeAtPOC : ℚ := 0
  poc : ℚ := 0
  highestPrice : ℚ := -FLT_MAX
  lowestPrice : ℚ := FLT_MAX
  priceVolPairs : List (ℚ × ℚ) := []
deriving DecidableEq

/-- Body of the first loop: one map entry. -/
def scanLevel (s : MetricsScan) (e : ℚ × s_PriceLevelVolume) : MetricsScan :=
  let price := e.1
  let volume := e.2.TotalVolume
  if volume > VOL_EPS then
    let s1 : MetricsScan :=
      { s with totalVolume := s.totalVolume + volume,
               priceVolPairs := s.priceVolPairs ++ [(price, volume)] }
    let s2 : MetricsScan :=
      if volume > s1.maxVolumeAtPOC then { s1 with maxVolumeAtPOC := volume, poc := price }
      else if |volume - s1.maxVolumeAtPOC| < VOL_EPS ∧ price > s1.poc then { s1 with poc := price }
      else s1
    let s3 : MetricsScan :=
      if price > s2.highestPrice then { s2 with highestPrice := price } else s2
    if price < s3.lowestPrice then { s3 with lowestPrice := price } else s3
  else s

/-- Body of the key scan of the no-volume branch (lines 411-423); the state is
`(first, highestPrice, lowestPrice)`. -/
def scanKey (s : Bool × ℚ × ℚ) (e : ℚ × s_PriceLevelVolume) : Bool × ℚ × ℚ :=
  if s.1 then (false, e.1, e.1)
  else (false, (if e.1 > s.2.1 then e.1 else s.2.1), (if e.1 < s.2.2 then e.1 else s.2.2))

/-- The call `std::sort(priceVolPairs ..., a.first < b.first)`. -/
def sortByPrice (l : List (ℚ × ℚ)) : List (ℚ × ℚ) :=
  l.insertionSort (fun a b => a.1 ≤ b.1)

/-- Locals of the fallback POC search (lines 449-462). -/
structure PocScan where
  maxVolumeAtPOC : ℚ
  pocIndex : Nat
  poc : ℚ
deriving DecidableEq

/-- Body of the fallback POC search: entry `ie.2` at index `ie.1`. -/
def pocFallbackStep (s : PocScan) (ie : Nat × (ℚ × ℚ)) : PocScan :=
  if ie.2.2 > s.maxVolumeAtPOC then { maxVolumeAtPOC := ie.2.2, pocIndex := ie.1, poc := ie.2.1 }
  else if |ie.2.2 - s.maxVolumeAtPOC| < VOL_EPS ∧ ie.2.1 > s.poc then
    { s with pocIndex := ie.1, poc := ie.2.1 }
  else s

/-- Locals of the value-area expansion loop (lines 465-508). -/
structure VAState where
  currentVolumeInVA : ℚ
  valueAreaHigh : ℚ
  valueAreaLow : ℚ
  upperIndex : Nat
  lowerIndex : Nat
deriving DecidableEq

/-- One execution of the body of the `while` loop of the value-area expansion.
The Boolean is `false` when the body leaves the loop with a `break`. -/
def vaBody (pairs : List (ℚ × ℚ)) (s : VAState) : VAState × Bool :=
  let canGoHigher : Bool := decide (s.upperIndex + 1 < pairs.length)
  let canGoLower : Bool := decide (s.lowerIndex > 0)
  if !canGoHigher && !canGoLower then (s, false)
  else
    let higherVol : ℚ := if canGoHigher then (pairs.getD (s.upperIndex + 1) (0, 0)).2 else 0
    let lowerVol : ℚ := if canGoLower then (pairs.getD (s.lowerIndex - 1) (0, 0)).2 else 0
    let r : Option VAState :=
      if canGoHigher ∧ canGoLower ∧ higherVol > VOL_EPS ∧ |higherVol - lowerVol| < VOL_EPS then
        some { currentVolumeInVA := s.currentVolumeInVA + (higherVol + lowerVol),
               valueAreaHigh := (pairs.getD (s.upperIndex + 1) (0, 0)).1,
               valueAreaLow := (pairs.getD (s.lowerIndex - 1) (0, 0)).1,
               upperIndex := s.upperIndex + 1,
               lowerIndex := s.lowerIndex - 1 }
      else if canGoHigher ∧ (¬ canGoLower ∨ higherVol ≥ lowerVol) then
        some (if higherVol > VOL_EPS then
                { s with currentVolumeInVA := s.currentVolumeInVA + higherVol,
                         valueAreaHigh := (pairs.getD (s.upperIndex + 1) (0, 0)).1,
                         upperIndex := s.upperIndex + 1 }
              else { s with upperIndex := s.upperIndex + 1 })
      else if canGoLower then
        some (if lowerVol > VOL_EPS then
                { s with currentVolumeInVA := s.currentVolumeInVA + lowerVol,
                         valueAreaLow := (pairs.getD (s.lowerIndex - 1) (0, 0)).1,
                         lowerIndex := s.lowerIndex - 1 }
              else { s with lowerIndex := s.lowerIndex - 1 })
      else none
    match r with
    | none => (s, false)
    | some t =>
      if t.lowerIndex > t.upperIndex ∧ (t.lowerIndex ≠ 0 ∨ t.upperIndex ≠ pairs.length - 1) then
        (t, false)
      else (t, true)

/-- The `while (currentVolumeInVA < targetVolume)` loop, run for at most `fuel`
iterations.  Every iteration that does not leave the loop moves one of the two
cursors outward, so `pairs.length` iterations are enough (`vaLoop_cursor`). -/
def vaLoop (pairs : List (ℚ × ℚ)) (targetVolume : ℚ) : Nat → VAState → VAState
  | 0, s => s
  | fuel + 1, s =>
    if s.currentVolumeInVA < targetVolume then
      match vaBody pairs s with
      | (t, true) => vaLoop pairs targetVolume fuel t
      | (t, false) => t
    else s

/-- A run of `CalculateProfileMetrics`: its outputs together with the locals
the value-area claims speak about (the sorted level list, the target volume and
the final state of the expansion loop when the loop is reached). -/
structure MetricsRun where
  out : ProfileMetrics
  priceVolPairs : List (ℚ × ℚ) := []
  targetVolume : ℚ := 0
  va : Option VAState := none
deriving DecidableEq

/-- The function `CalculateProfileMetrics` (lines 380-509), with `sc.TickSize`
passed as `TickSize`. -/
def CalculateProfileMetricsRun (priceMap : PriceVolumeMap) (valueAreaPercentage TickSize : ℚ) :
    MetricsRun :=
  if priceMap.isEmpty then { out := {} }
  else
    let sc := priceMap.foldl scanLevel {}
    if sc.totalVolume ≤ VOL_EPS ∨ sc.priceVolPairs.isEmpty then
      let k := priceMap.foldl scanKey (true, sc.highestPrice, sc.lowestPrice)
      let highestPrice := k.2.1
      let lowestPrice := k.2.2
      if highestPrice > -FLT_MAX ∧ lowestPrice < FLT_MAX ∧ highestPrice ≥ lowestPrice then
        { out := { poc := lowestPrice + (highestPrice - lowestPrice) / 2,
                   valueAreaHigh := highestPrice, valueAreaLow := lowestPrice,
                   highestPrice := highestPrice, lowestPrice := lowestPrice,
                   totalVolume := sc.totalVolume } }
      else
        { out := { poc := 0, valueAreaHigh := 0, valueAreaLow := 0,
                   highestPrice := -FLT_MAX, lowestPrice := FLT_MAX,
                   totalVolume := sc.totalVolume } }
    else
      let pairs := sortByPrice sc.priceVolPairs
      let found := pairs.findIdx? (fun p => decide (|p.1 - sc.poc| < TickSize / 2))
      let ps : PocScan :=
        match found with
        | some i => { maxVolumeAtPOC := sc.maxVolumeAtPOC, pocIndex := i, poc := sc.poc }
        | none =>
          pairs.enum.foldl pocFallbackStep
            { maxVolumeAtPOC := 0, pocIndex := 0, poc := (pairs.getD 0 (0, 0)).1 }
      let targetVolume := sc.totalVolume * (valueAreaPercentage / 100)
      let start : VAState :=
        if ps.pocIndex < pairs.length then
          { currentVolumeInVA := (pairs.getD ps.pocIndex (0, 0)).2,
            valueAreaHigh := ps.poc, valueAreaLow := ps.poc,
            upperIndex := ps.pocIndex, lowerIndex := ps.pocIndex }
        else
          { currentVolumeInVA := (pairs.getD 0 (0, 0)).2,
            valueAreaHigh := (pairs.getD 0 (0, 0)).1, valueAreaLow := (pairs.getD 0 (0, 0)).1,
            upperIndex := 0, lowerIndex := 0 }
      let poc := if ps.pocIndex < pairs.length then ps.poc else (pairs.getD 0 (0, 0)).1
      let fin := vaLoop pairs targetVolume pairs.length start
      { out := { poc := poc, valueAreaHigh := fin.valueAreaHigh, valueAreaLow := fin.valueAreaLow,
                 highestPrice := sc.highestPrice, lowestPrice := sc.lowestPrice,
                 totalVolume := sc.totalVolume },
        priceVolPairs := pairs, targetVolume := targetVolume, va := some fin }

/-- The outputs of `CalculateProfileMetrics`. -/
def CalculateProfileMetrics (priceMap : PriceVolumeMap) (valueAreaPercentage TickSize : ℚ) :
    ProfileMetrics :=
  (CalculateProfileMetricsRun priceMap valueAreaPercentage TickSize).out

/-- A map entry with key `p` and volume `v`. -/
def level (p v : ℚ) : ℚ × s_PriceLevelVolume := (p, { Price := p, TotalVolume := v })

/-! ## Similarity measures -/

/-- The total of `TotalVolume` over a map (the two summing loops of
`CalculateVolumeProfileOverlap`). -/
def mapTotalVolume (m : PriceVolumeMap) : ℚ :=
  m.foldl (fun acc p => acc + p.2.TotalVolume) 0

/-- The expression `m.count(price) ? m.at(price).TotalVolume : 0.0f`. -/
def volumeAt (m : PriceVolumeMap) (price : ℚ) : ℚ :=
  match m.lookup price with
  | some l => l.TotalVolume
  | none => 0

/-- The `std::set<float>` of all keys of the two maps, in increasing order. -/
def allPrices (profile1 profile2 : PriceVolumeMap) : List ℚ :=
  ((profile1.map (fun p => p.1) ++ profile2.map (fun p => p.1)).dedup).insertionSort
    (fun a b => a ≤ b)

/-- The function `CalculateVolumeProfileOverlap` (lines 279-300). -/
def CalculateVolumeProfileOverlap (profile1 profile2 : PriceVolumeMap) : ℚ :=
  if profile1.isEmpty ∨ profile2.isEmpty then 0
  else
    let map1TotalVolume := mapTotalVolume profile1
    let map2TotalVolume := mapTotalVolume profile2
    if map1TotalVolume ≤ 0 ∧ map2TotalVolume ≤ 0 then 0
    else
      let overlapVolume := (allPrices profile1 profile2).foldl
        (fun acc price => acc + min (volumeAt profile1 price) (volumeAt profile2 price)) 0
      let unionVolume := map1TotalVolume + map2TotalVolume - overlapVolume
      if unionVolume > VOL_EPS then overlapVolume / unionVolume * 100 else 0

/-- The function `CalculateValueAreaOverlap` (lines 302-322). -/
def CalculateValueAreaOverlap (VAH1 VAL1 VAH2 VAL2 TickSize : ℚ) : ℚ :=
  if VAH1 < VAL1 ∨ VAH2 < VAL2 then 0
  else
    let vaRange1 := VAH1 - VAL1
    let vaRange2 := VAH2 - VAL2
    if vaRange1 < TickSize / 2 ∧ vaRange2 < TickSize / 2 then
      if |VAL1 - VAL2| < TickSize / 2 then 100 else 0
    else if vaRange1 < TickSize / 2 ∨ vaRange2 < TickSize / 2 then 0
    else
      let overlapStart := max VAL1 VAL2
      let overlapEnd := min VAH1 VAH2
      if overlapStart ≥ overlapEnd - TickSize / 2 then 0
      else
        let overlapLength := overlapEnd - overlapStart
        let unionStart := min VAL1 VAL2
        let unionEnd := max VAH1 VAH2
        let unionLength := unionEnd - unionStart
        if unionLength < TickSize / 2 then 0
        else overlapLength / unionLength * 100

/-- The function `CalculateRangeSimilarityDiff` (lines 324-332). -/
def CalculateRangeSimilarityDiff (profileN profileN1 : s_SessionProfile) (tickSize : ℚ) : ℚ :=
  let rangeN := profileN.GetRange
  let rangeN1 := profileN1.GetRange
  if rangeN ≤ tickSize / 2 ∧ rangeN1 ≤ tickSize / 2 then 0
  else if rangeN ≤ tickSize / 2 ∨ rangeN1 ≤ tickSize / 2 then 200
  else
    let avgRange := (rangeN + rangeN1) / 2
    if avgRange ≤ VOL_EPS then 200
    else |rangeN - rangeN1| / avgRange * 100

/-- The function `CheckRangeSimilarity`. -/
def CheckRangeSimilarity (diffPercent thresholdPercent : ℚ) : Bool :=
  decide (diffPercent ≤ thresholdPercent)

/-- The function `CalculateMaxAllowedHigh`. -/
def CalculateMaxAllowedHigh (referenceHigh referenceRange tolerancePercent tickSize : ℚ) : ℚ :=
  let rangeForTol := max referenceRange tickSize
  let toleranceValue := rangeForTol * (tolerancePercent / 100)
  referenceHigh + toleranceValue

/-- The function `CheckHighPosition`. -/
def CheckHighPosition (profileHigh maxAllowedHigh : ℚ) : Bool :=
  if maxAllowedHigh ≤ -FLT_MAX then false else decide (profileHigh ≤ maxAllowedHigh)

/-- The function `CalculateMinAllowedLow`. -/
def CalculateMinAllowedLow (referenceLow referenceRange tolerancePercent tickSize : ℚ) : ℚ :=
  let rangeForTol := max referenceRange tickSize
  let toleranceValue := rangeForTol * (tolerancePercent / 100)
  referenceLow - toleranceValue

/-- The function `CheckLowPosition`. -/
def CheckLowPosition (profileLow minAllowedLow : ℚ) : Bool :=
  if minAllowedLow ≥ FLT_MAX then false else decide (profileLow ≥ minAllowedLow)

/-! ## Merging volume profiles -/

/-- Body of the inner loop of `MergeMultipleVolumeProfiles`: one entry of a
source map is added to an existing level or inserted as a new one. -/
def mergeEntry (mergedProfile : PriceVolumeMap) (pairB : ℚ × s_PriceLevelVolume) :
    PriceVolumeMap :=
  if mergedProfile.any (fun x => x.1 == pairB.1) then
    mergedProfile.map (fun x =>
      if x.1 = pairB.1 then
        (x.1, { x.2 with TotalVolume := x.2.TotalVolume + pairB.2.TotalVolume,
                         NumberOfTrades := x.2.NumberOfTrades + pairB.2.NumberOfTrades })
      else x)
  else mergedProfile ++ [pairB]

/-- The function `MergeMultipleVolumeProfiles` (lines 360-378). -/
def MergeMultipleVolumeProfiles (profileMapsToMerge : List PriceVolumeMap) : PriceVolumeMap :=
  profileMapsToMerge.foldl (fun mergedProfile profileMap => profileMap.foldl mergeEntry mergedProfile)
    []

/-! ## Distribution statistics -/

/-- The result of `CalculateVolumeDistributionStats` (`s_DistributionStats`). -/
structure s_DistributionStats where
  mean : ℚ := 0
  stdDev : ℚ := 0
  skewness : ℚ := 0
  excessKurtosis : ℚ := 0
  sufficientData : Bool := false
  numPriceLevelsWithVolume : Int := 0
deriving DecidableEq

/-- The function `CalculateVolumeDistributionStats` (lines 191-277).  The
square root `std::sqrt` has no rational counterpart and is the parameter
`sqrtf`. -/
def CalculateVolumeDistributionStats (sqrtf : ℚ → ℚ) (priceMap : PriceVolumeMap)
    (tickSize : ℚ) : s_DistributionStats :=
  if priceMap.isEmpty then {}
  else
    let pvm_vec : List (ℚ × ℚ) :=
      (priceMap.filter (fun p => decide (p.2.TotalVolume > VOL_EPS))).map
        (fun p => (p.1, p.2.TotalVolume))
    let n : Int := pvm_vec.length
    let totalVolume : ℚ := pvm_vec.foldl (fun acc pv => acc + pv.2) 0
    let sumPriceTimesVolume : ℚ := pvm_vec.foldl (fun acc pv => acc + pv.1 * pv.2) 0
    if n < 3 then
      if n > 0 then
        if totalVolume > VOL_EPS then
          let mean := sumPriceTimesVolume / totalVolume
          if n > 1 then
            let sumSquaredDevTimesVolume : ℚ :=
              pvm_vec.foldl (fun acc pv => acc + pv.2 * (pv.1 - mean) * (pv.1 - mean)) 0
            { mean := mean, stdDev := sqrtf (sumSquaredDevTimesVolume / totalVolume),
              numPriceLevelsWithVolume := n }
          else { mean := mean, stdDev := 0, numPriceLevelsWithVolume := n }
        else { numPriceLevelsWithVolume := n }
      else { numPriceLevelsWithVolume := n }
    else if totalVolume ≤ VOL_EPS then { numPriceLevelsWithVolume := n }
    else
      let mean := sumPriceTimesVolume / totalVolume
      let sumSquaredDevTimesVolume : ℚ :=
        pvm_vec.foldl (fun acc pv => acc + pv.2 * (pv.1 - mean) * (pv.1 - mean)) 0
      let stdDev := sqrtf (sumSquaredDevTimesVolume / totalVolume)
      if stdDev < tickSize / 100 then
        { mean := mean, stdDev := stdDev, skewness := 0, excessKurtosis := 10,
          sufficientData := true, numPriceLevelsWithVolume := n }
      else
        let sumCubedStdDevTimesVolume : ℚ :=
          pvm_vec.foldl (fun acc pv => acc + pv.2 * ((pv.1 - mean) / stdDev) ^ 3) 0
        let sumQuartStdDevTimesVolume : ℚ :=
          pvm_vec.foldl (fun acc pv => acc + pv.2 * ((pv.1 - mean) / stdDev) ^ 4) 0
        let rawKurtosis := sumQuartStdDevTimesVolume / totalVolume
        { mean := mean, stdDev := stdDev,
          skewness := sumCubedStdDevTimesVolume / totalVolume,
          excessKurtosis := rawKurtosis - 3,
          sufficientData := true, numPriceLevelsWithVolume := n }

/-! ## Balance-area formation (lines 1243-1547) -/

/-- The study inputs read by the engine. -/
structure StudyInputs where
  ValueAreaPercentage : ℚ
  MinVolOverlap : ℚ
  MinVAOverlap : ℚ
  RangeSimilarityPercent : ℚ
  HighLowTolerancePercent : ℚ
  RangeContainmentPercent : ℚ
  FilterByNormality : Bool
  MaxAbsSkewness : ℚ
  MinExcessKurtosis : ℚ
  MaxExcessKurtosis : ℚ
  PBALPierceThreshold : ℚ

/-- The recurring validity test `H <= -FLT_MAX || L >= FLT_MAX || H < L`. -/
def invalidHL (h l : ℚ) : Bool :=
  decide (h ≤ -FLT_MAX) || decide (l ≥ FLT_MAX) || decide (h < l)

/-- The initiation tests for the adjacent pair (lines 1260-1287): the recorded
reason when a balance area is started. -/
def initiationReason (inp : StudyInputs) (TickSize : ℚ) (profile_i profile_i1 : s_SessionProfile) :
    Option String :=
  if CalculateVolumeProfileOverlap profile_i.PriceMap profile_i1.PriceMap ≥ inp.MinVolOverlap then
    some "Volume Overlap"
  else if CalculateValueAreaOverlap profile_i.ValueAreaHigh profile_i.ValueAreaLow
      profile_i1.ValueAreaHigh profile_i1.ValueAreaLow TickSize ≥ inp.MinVAOverlap then
    some "VA Overlap"
  else
    let rangeDiffPercent := CalculateRangeSimilarityDiff profile_i profile_i1 TickSize
    let maxAllowedHigh := CalculateMaxAllowedHigh profile_i.HighestPrice profile_i.GetRange
      inp.HighLowTolerancePercent TickSize
    let minAllowedLow := CalculateMinAllowedLow profile_i.LowestPrice profile_i.GetRange
      inp.HighLowTolerancePercent TickSize
    let similarRange := CheckRangeSimilarity rangeDiffPercent inp.RangeSimilarityPercent
    let controlledHigh := CheckHighPosition profile_i1.HighestPrice maxAllowedHigh
    let controlledLow := CheckLowPosition profile_i1.LowestPrice minAllowedLow
    if similarRange && controlledHigh && controlledLow then some "Geometric Proximity" else none

/-- The extension tests for profile `k` against the current balance area
(lines 1335-1414): the extension reason when one of the four criteria holds. -/
def extensionReason (sc : SCStudyInterface) (inp : StudyInputs) (TickSize : ℚ)
    (currentBA : s_BalanceArea) (currentMergedMap : PriceVolumeMap) (profile_k : s_SessionProfile) :
    Option String :=
  if CalculateVolumeProfileOverlap currentMergedMap profile_k.PriceMap ≥ inp.MinVolOverlap then
    some "Volume Overlap"
  else
    let tickTolerance := TickSize / 2
    let highContained : Bool := decide (profile_k.HighestPrice ≤ currentBA.HighestPrice + tickTolerance)
    let lowContained : Bool := decide (profile_k.LowestPrice ≥ currentBA.LowestPrice - tickTolerance)
    if highContained && lowContained then some "Range Containment"
    else
      let currentBARange := currentBA.GetRange
      let baMaxAllowedHigh := CalculateMaxAllowedHigh currentBA.HighestPrice currentBARange
        inp.HighLowTolerancePercent TickSize
      let baMinAllowedLow := CalculateMinAllowedLow currentBA.LowestPrice currentBARange
        inp.HighLowTolerancePercent TickSize
      let geoHighOK_ext := CheckHighPosition profile_k.HighestPrice baMaxAllowedHigh
      let geoLowOK_ext := CheckLowPosition profile_k.LowestPrice baMinAllowedLow
      if geoHighOK_ext && geoLowOK_ext then some "Geometric Proximity Lite"
      else if geoHighOK_ext != geoLowOK_ext then
        let closePrice : ℚ :=
          if profile_k.EndIndex ≥ 0 ∧ profile_k.EndIndex < sc.ArraySize then
            sc.Close profile_k.EndIndex
          else -FLT_MAX
        if closePrice > -FLT_MAX ∧ currentBA.LowestPrice < FLT_MAX ∧
            currentBA.HighestPrice > -FLT_MAX ∧ currentBA.HighestPrice > currentBA.LowestPrice then
          if (!geoLowOK_ext && geoHighOK_ext) ∧ closePrice > currentBA.LowestPrice then
            some "Close Above BA Low (Low Fail)"
          else if (!geoHighOK_ext && geoLowOK_ext) ∧ closePrice < currentBA.HighestPrice then
            some "Close Below BA High (High Fail)"
          else none
        else none
      else none

/-- The search for the bar of a probe (lines 1464-1470 and 1481-1487) over `n`
bars from bar `j`; `-1` when no bar matches. -/
def findProbeBar (sc : SCStudyInterface) (arr : Int → ℚ) (price tolerance : ℚ) : Nat → Int → Int
  | 0, _ => -1
  | n + 1, j =>
    if j < 0 ∨ j ≥ sc.ArraySize then findProbeBar sc arr price tolerance n (j + 1)
    else if |arr j - price| < tolerance then j
    else findProbeBar sc arr price tolerance n (j + 1)

/-- The probe lines recorded after a conditional-close extension (lines
1460-1494); `currentBA` still has the price range from before the merge. -/
def probeLines (sc : SCStudyInterface) (TickSize : ℚ) (currentBA : s_BalanceArea)
    (profile_k : s_SessionProfile) (probes : List s_ProbeLineDrawingInfo) :
    List s_ProbeLineDrawingInfo :=
  let tolerance := TickSize / 2
  let n : Nat := (profile_k.EndIndex - profile_k.BeginIndex + 1).toNat
  let searchable : Bool :=
    decide (profile_k.BeginIndex ≥ 0) && decide (profile_k.EndIndex ≥ profile_k.BeginIndex)
  let probes1 :=
    if profile_k.HighestPrice > currentBA.HighestPrice + tolerance then
      let exactHighProbeBarIndex : Int :=
        if searchable then
          findProbeBar sc sc.High profile_k.HighestPrice tolerance n profile_k.BeginIndex
        else -1
      if exactHighProbeBarIndex ≠ -1 then
        probes ++ [{ StartBarIndex := exactHighProbeBarIndex,
                     EndBarIndexOfProfile := profile_k.EndIndex,
                     Price := profile_k.HighestPrice, IsHighProbe := true }]
      else probes
    else probes
  if profile_k.LowestPrice < currentBA.LowestPrice - tolerance then
    let exactLowProbeBarIndex : Int :=
      if searchable then
        findProbeBar sc sc.Low profile_k.LowestPrice tolerance n profile_k.BeginIndex
      else -1
    if exactLowProbeBarIndex ≠ -1 then
      probes1 ++ [{ StartBarIndex := exactLowProbeBarIndex,
                    EndBarIndexOfProfile := profile_k.EndIndex,
                    Price := profile_k.LowestPrice, IsHighProbe := false }]
    else probes1
  else probes1

/-- Locals of the extension loop and the state it writes. -/
structure ExtensionState where
  currentBA : s_BalanceArea
  mapsToMerge : List PriceVolumeMap
  currentMergedMap : PriceVolumeMap
  profileUsed : List Bool
  ProbeLinesToDraw : List s_ProbeLineDrawingInfo
deriving DecidableEq

/-- One iteration of the extension loop for profile `k` (lines 1326-1505).  The
Boolean is `false` when the iteration leaves the loop with a `break`. -/
def extensionBody (sc : SCStudyInterface) (inp : StudyInputs)
    (SessionProfiles : List s_SessionProfile) (k : Nat) (s : ExtensionState) :
    ExtensionState × Bool :=
  let TickSize := sc.TickSize
  let profile_k := SessionProfiles.getD k {}
  if invalidHL profile_k.HighestPrice profile_k.LowestPrice then (s, false)
  else
    match extensionReason sc inp TickSize s.currentBA s.currentMergedMap profile_k with
    | none => (s, false)
    | some reason =>
      let mapsToMerge := s.mapsToMerge ++ [profile_k.PriceMap]
      let currentMergedMap := MergeMultipleVolumeProfiles mapsToMerge
      let m := CalculateProfileMetrics currentMergedMap inp.ValueAreaPercentage sc.TickSize
      let ba1 : s_BalanceArea :=
        { s.currentBA with
          IncludedProfileIndices := s.currentBA.IncludedProfileIndices ++ [(k : Int)]
          EndProfileChronoIndex := k
          EndDateTime := profile_k.EndDateTime
          EndBarIndex := profile_k.EndIndex
          POC := m.poc
          ValueAreaHigh := m.valueAreaHigh
          ValueAreaLow := m.valueAreaLow
          TotalVolume := m.totalVolume }
      if invalidHL m.highestPrice m.lowestPrice then
        let included := ba1.IncludedProfileIndices.dropLast
        let endIndex : Int := included.getLastD (-1)
        let mapsBack := mapsToMerge.dropLast
        let mergedBack := MergeMultipleVolumeProfiles mapsBack
        let mb := CalculateProfileMetrics mergedBack inp.ValueAreaPercentage sc.TickSize
        let ba2 : s_BalanceArea :=
          { ba1 with
            IncludedProfileIndices := included
            EndProfileChronoIndex := endIndex
            EndDateTime :=
              if endIndex ≠ -1 then (SessionProfiles.getD endIndex.toNat {}).EndDateTime else 0
            EndBarIndex :=
              if endIndex ≠ -1 then (SessionProfiles.getD endIndex.toNat {}).EndIndex else -1
            POC := mb.poc
            ValueAreaHigh := mb.valueAreaHigh
            ValueAreaLow := mb.valueAreaLow
            HighestPrice := mb.highestPrice
            LowestPrice := mb.lowestPrice
            TotalVolume := mb.totalVolume }
        ({ s with currentBA := ba2, mapsToMerge := mapsBack, currentMergedMap := mergedBack,
                  profileUsed := (s.profileUsed.set k true).set k false }, false)
      else
        let isConditionalClose : Bool :=
          reason == "Close Above BA Low (Low Fail)" || reason == "Close Below BA High (High Fail)"
        if isConditionalClose then
          ({ currentBA := ba1, mapsToMerge := mapsToMerge, currentMergedMap := currentMergedMap,
             profileUsed := s.profileUsed.set k true,
             ProbeLinesToDraw := probeLines sc TickSize ba1 profile_k s.ProbeLinesToDraw }, true)
        else
          ({ currentBA := { ba1 with HighestPrice := m.highestPrice, LowestPrice := m.lowestPrice },
             mapsToMerge := mapsToMerge, currentMergedMap := currentMergedMap,
             profileUsed := s.profileUsed.set k true,
             ProbeLinesToDraw := s.ProbeLinesToDraw }, true)

/-- The extension loop `for (k = i + 2; k < numProfilesCollected; ++k)`, with
`n` profiles left from profile `k`. -/
def extensionProfiles (sc : SCStudyInterface) (inp : StudyInputs)
    (SessionProfiles : List s_SessionProfile) : Nat → Nat → ExtensionState → ExtensionState
  | 0, _, s => s
  | n + 1, k, s =>
    match extensionBody sc inp SessionProfiles k s with
    | (t, true) => extensionProfiles sc inp SessionProfiles n (k + 1) t
    | (t, false) => t

/-- The normality filter (lines 1508-1526). -/
def meetsNormalityCriteria (sqrtf : ℚ → ℚ) (inp : StudyInputs) (TickSize : ℚ)
    (currentMergedMap : PriceVolumeMap) : Bool :=
  if inp.FilterByNormality then
    let distStats := CalculateVolumeDistributionStats sqrtf currentMergedMap TickSize
    if !distStats.sufficientData then false
    else
      let skewOK : Bool := decide (|distStats.skewness| ≤ inp.MaxAbsSkewness)
      let kurtOK : Bool :=
        decide (distStats.excessKurtosis ≥ inp.MinExcessKurtosis) &&
          decide (distStats.excessKurtosis ≤ inp.MaxExcessKurtosis)
      skewOK && kurtOK
  else true

/-- The state written by the formation loop. -/
structure FormationState where
  profileUsed : List Bool
  FinalizedBalanceAreas : List s_BalanceArea := []
  ProbeLinesToDraw : List s_ProbeLineDrawingInfo := []
deriving DecidableEq

/-- The body of the initiation loop for an unused profile `i` with a successor
(lines 1247-1546). -/
def formationBody (sc : SCStudyInterface) (inp : StudyInputs) (sqrtf : ℚ → ℚ)
    (SessionProfiles : List s_SessionProfile) (i : Nat) (s : FormationState) : FormationState :=
  let TickSize := sc.TickSize
  let numProfilesCollected := SessionProfiles.length
  let profile_i := SessionProfiles.getD i {}
  let profile_i1 := SessionProfiles.getD (i + 1) {}
  if invalidHL profile_i.HighestPrice profile_i.LowestPrice ||
      invalidHL profile_i1.HighestPrice profile_i1.LowestPrice then s
  else
    match initiationReason inp TickSize profile_i profile_i1 with
    | none => s
    | some reason =>
      let mapsToMerge := [profile_i.PriceMap, profile_i1.PriceMap]
      let currentMergedMap := MergeMultipleVolumeProfiles mapsToMerge
      let m := CalculateProfileMetrics currentMergedMap inp.ValueAreaPercentage sc.TickSize
      let currentBA : s_BalanceArea :=
        { StartProfileChronoIndex := i
          EndProfileChronoIndex := i + 1
          StartDateTime := profile_i.StartDateTime
          StartBarIndex := profile_i.BeginIndex
          EndDateTime := profile_i1.EndDateTime
          EndBarIndex := profile_i1.EndIndex
          IncludedProfileIndices := [(i : Int), (i : Int) + 1]
          InitiationReason := reason
          POC := m.poc
          ValueAreaHigh := m.valueAreaHigh
          ValueAreaLow := m.valueAreaLow
          TotalVolume := m.totalVolume
          HighestPrice := m.highestPrice
          LowestPrice := m.lowestPrice }
      if invalidHL currentBA.HighestPrice currentBA.LowestPrice then s
      else
        let e := extensionProfiles sc inp SessionProfiles (numProfilesCollected - (i + 2)) (i + 2)
          { currentBA := currentBA, mapsToMerge := mapsToMerge,
            currentMergedMap := currentMergedMap,
            profileUsed := (s.profileUsed.set i true).set (i + 1) true,
            ProbeLinesToDraw := s.ProbeLinesToDraw }
        let finalBA := e.currentBA
        if meetsNormalityCriteria sqrtf inp TickSize e.currentMergedMap then
          if finalBA.HighestPrice > -FLT_MAX ∧ finalBA.LowestPrice < FLT_MAX ∧
              finalBA.HighestPrice ≥ finalBA.LowestPrice ∧ finalBA.GetRange ≥ TickSize / 2 then
            { profileUsed := e.profileUsed,
              FinalizedBalanceAreas := s.FinalizedBalanceAreas ++ [finalBA],
              ProbeLinesToDraw := e.ProbeLinesToDraw }
          else
            { s with profileUsed := e.profileUsed, ProbeLinesToDraw := e.ProbeLinesToDraw }
        else
          { s with profileUsed := e.profileUsed, ProbeLinesToDraw := e.ProbeLinesToDraw }

/-- The initiation loop `for (i = 0; i < numProfilesCollected; ++i)`, with `n`
iterations left from index `i`. -/
def formationLoop (sc : SCStudyInterface) (inp : StudyInputs) (sqrtf : ℚ → ℚ)
    (SessionProfiles : List s_SessionProfile) : Nat → Nat → FormationState → FormationState
  | 0, _, s => s
  | n + 1, i, s =>
    if s.profileUsed.getD i false then formationLoop sc inp sqrtf SessionProfiles n (i + 1) s
    else if i + 1 ≥ SessionProfiles.length then s
    else
      formationLoop sc inp sqrtf SessionProfiles n (i + 1)
        (formationBody sc inp sqrtf SessionProfiles i s)

/-- The balance-area formation of a recalculation (lines 1243-1547), started
with `profileUsed` all false. -/
def formBalanceAreas (sc : SCStudyInterface) (inp : StudyInputs) (sqrtf : ℚ → ℚ)
    (SessionProfiles : List s_SessionProfile) : FormationState :=
  formationLoop sc inp sqrtf SessionProfiles SessionProfiles.length 0
    { profileUsed := List.replicate SessionProfiles.length false }

/-! ## Composite balance areas (lines 1549-1772) -/

/-- The function `CalculateRangeOverlapPercent_RelativeToSmaller` (lines
742-757). -/
def CalculateRangeOverlapPercent_RelativeToSmaller (ba1 ba2 : s_BalanceArea) (TickSize : ℚ) : ℚ :=
  if invalidHL ba1.HighestPrice ba1.LowestPrice || invalidHL ba2.HighestPrice ba2.LowestPrice then 0
  else
    let overlapStart := max ba1.LowestPrice ba2.LowestPrice
    let overlapEnd := min ba1.HighestPrice ba2.HighestPrice
    let intersectionLength := overlapEnd - overlapStart
    let tickTolerance := TickSize / 2
    if intersectionLength < tickTolerance then 0
    else
      let range1 := ba1.GetRange
      let range2 := ba2.GetRange
      if range1 < tickTolerance ∧ range2 < tickTolerance then 100
      else
        let smallerRange := min range1 range2
        let referenceRange := max smallerRange TickSize
        if referenceRange < tickTolerance then 100
        else
          let percentage := intersectionLength / referenceRange * 100
          max 0 (min 100 percentage)

/-- The function `CheckTemporalProximity` (lines 759-782).  The balance areas
`ba1` and `ba3` are passed by their positions `i1` and `i3` in
`allFinalizedBAs`, which is what the address comparisons of the source
test. -/
def CheckTemporalProximity (i1 i3 : Nat) (allSessionProfiles : List s_SessionProfile)
    (allFinalizedBAs : List s_BalanceArea) : Int :=
  let ba1 := allFinalizedBAs.getD i1 {}
  let ba3 := allFinalizedBAs.getD i3 {}
  let endProfileIndexOfBA1 := ba1.EndProfileChronoIndex
  let startProfileIndexOfBA3 := ba3.StartProfileChronoIndex
  let size : Int := allSessionProfiles.length
  if startProfileIndexOfBA3 < 0 ∨ endProfileIndexOfBA1 < 0 ∨ startProfileIndexOfBA3 ≥ size ∨
      endProfileIndexOfBA1 ≥ size then -1
  else if startProfileIndexOfBA3 ≤ endProfileIndexOfBA1 + 1 then 0
  else
    let allUsedProfileIndicesInBetween : List Int :=
      allFinalizedBAs.enum.foldl (fun used (ib : Nat × s_BalanceArea) =>
        if ib.1 = i1 ∨ ib.1 = i3 then used
        else if ib.2.StartProfileChronoIndex ≥ startProfileIndexOfBA3 ∨
            ib.2.EndProfileChronoIndex ≤ endProfileIndexOfBA1 then used
        else used ++ ib.2.IncludedProfileIndices.filter (fun profileIndex =>
          decide (profileIndex > endProfileIndexOfBA1) &&
            decide (profileIndex < startProfileIndexOfBA3))) []
    let gap : List Int :=
      (List.range (startProfileIndexOfBA3 - (endProfileIndexOfBA1 + 1)).toNat).map
        (fun (d : Nat) => endProfileIndexOfBA1 + 1 + (d : Int))
    ((gap.filter (fun p => !(allUsedProfileIndicesInBetween.contains p))).length : Int)

/-- The qualification of the triple at positions `j, j+1, j+2` (lines
1576-1733): the qualification reason when the triple is a composite. -/
def compositeReason (inp : StudyInputs) (TickSize : ℚ) (SessionProfiles : List s_SessionProfile)
    (finalized : List s_BalanceArea) (j : Nat) : Option String :=
  let compositeOverlapThreshold : ℚ := 30
  let shiftMagnitudePercent : ℚ := 20
  let temporalGapLimit : Int := 5
  let ba1 := finalized.getD j {}
  let ba2 := finalized.getD (j + 1) {}
  let ba3 := finalized.getD (j + 2) {}
  let overlap_12 := CalculateRangeOverlapPercent_RelativeToSmaller ba1 ba2 TickSize
  let overlap_13 := CalculateRangeOverlapPercent_RelativeToSmaller ba1 ba3 TickSize
  let overlap_23 := CalculateRangeOverlapPercent_RelativeToSmaller ba2 ba3 TickSize
  let numThresholdMet : Nat :=
    (if overlap_12 ≥ compositeOverlapThreshold then 1 else 0) +
    (if overlap_13 ≥ compositeOverlapThreshold then 1 else 0) +
    (if overlap_23 ≥ compositeOverlapThreshold then 1 else 0)
  let numAnyOverlap : Nat :=
    (if overlap_12 > 0 then 1 else 0) + (if overlap_13 > 0 then 1 else 0) +
    (if overlap_23 > 0 then 1 else 0)
  let overlapType : String :=
    if numThresholdMet = 3 then "Strong Overlap"
    else if numAnyOverlap = 3 then "Full Overlap"
    else if numAnyOverlap = 2 then "Partial Overlap"
    else if numAnyOverlap = 1 then "1 Overlap"
    else "No Overlap"
  let allSet : Bool :=
    decide (ba1.HighestPrice > -FLT_MAX) && decide (ba1.LowestPrice < FLT_MAX) &&
    decide (ba2.HighestPrice > -FLT_MAX) && decide (ba2.LowestPrice < FLT_MAX) &&
    decide (ba3.HighestPrice > -FLT_MAX) && decide (ba3.LowestPrice < FLT_MAX)
  let is_HLH : Bool :=
    allSet && (decide (ba2.HighestPrice < ba1.HighestPrice) &&
      decide (ba2.LowestPrice < ba1.LowestPrice) &&
      decide (ba3.HighestPrice > ba2.HighestPrice) && decide (ba3.LowestPrice > ba2.LowestPrice))
  let is_LHL : Bool :=
    allSet && !is_HLH && (decide (ba2.HighestPrice > ba1.HighestPrice) &&
      decide (ba2.LowestPrice > ba1.LowestPrice) &&
      decide (ba3.HighestPrice < ba2.HighestPrice) && decide (ba3.LowestPrice < ba2.LowestPrice))
  let patternType : String := if is_HLH then "HLH" else if is_LHL then "LHL" else "None"
  let referenceRange : ℚ :=
    max (max ba1.HighestPrice ba2.HighestPrice - min ba1.LowestPrice ba2.LowestPrice) TickSize
  let toleranceValue := referenceRange * (inp.RangeContainmentPercent / 100)
  let containmentPassed : Bool :=
    if is_HLH || is_LHL then
      (if is_HLH then decide (ba3.HighestPrice ≤ ba1.HighestPrice + toleranceValue)
       else decide (ba3.LowestPrice ≥ ba1.LowestPrice - toleranceValue))
    else true
  let ba2_range := max ba2.GetRange TickSize
  let shift_threshold_amount := ba2_range * (shiftMagnitudePercent / 100)
  let shiftMagnitudePassed : Bool :=
    if is_HLH || is_LHL then
      (if is_HLH then
         decide (ba3.HighestPrice > ba2.HighestPrice + shift_threshold_amount) &&
           decide (ba3.LowestPrice > ba2.LowestPrice + shift_threshold_amount)
       else
         decide (ba3.HighestPrice < ba2.HighestPrice - shift_threshold_amount) &&
           decide (ba3.LowestPrice < ba2.LowestPrice - shift_threshold_amount))
    else true
  let ba1_range := max ba1.GetRange TickSize
  let ba1_ba2_GapCheckPassed : Bool :=
    if is_HLH || is_LHL then
      (if is_HLH then decide (ba2.HighestPrice > ba1.LowestPrice - ba1_range)
       else decide (ba2.LowestPrice < ba1.HighestPrice + ba1_range))
    else true
  let temporalGap := CheckTemporalProximity j (j + 2) SessionProfiles finalized
  let temporalPassed : Bool := decide (temporalGap ≠ -1) && decide (temporalGap ≤ temporalGapLimit)
  if overlapType = "Strong Overlap" then some "Strong Overlap"
  else if overlapType = "Full Overlap" ∨ overlapType = "Partial Overlap" then
    if (is_HLH || is_LHL) && containmentPassed && shiftMagnitudePassed &&
        ba1_ba2_GapCheckPassed then
      some (patternType ++ "+Contain+Shift+Gap12")
    else none
  else if overlapType = "1 Overlap" then
    if (is_HLH || is_LHL) && containmentPassed && shiftMagnitudePassed &&
        ba1_ba2_GapCheckPassed && temporalPassed then
      some (patternType ++ "+Contain+Shift+Gap12+Temporal")
    else none
  else none

/-- The composite record built for the triple at `j` (lines 1735-1747). -/
def newComposite (finalized : List s_BalanceArea) (j : Nat) (finalReason : String) :
    s_CompositeBalanceArea :=
  let ba1 := finalized.getD j {}
  let ba2 := finalized.getD (j + 1) {}
  let ba3 := finalized.getD (j + 2) {}
  { FirstBAIndex := j
    SecondBAIndex := (j : Int) + 1
    ThirdBAIndex := (j : Int) + 2
    StartDateTime := ba1.StartDateTime
    EndDateTime := ba3.EndDateTime
    StartBarIndex := ba1.StartBarIndex
    EndBarIndex := ba3.EndBarIndex
    HighestPrice :=
      if ba1.HighestPrice ≤ -FLT_MAX ∨ ba2.HighestPrice ≤ -FLT_MAX ∨ ba3.HighestPrice ≤ -FLT_MAX
      then -FLT_MAX else max (max ba1.HighestPrice ba2.HighestPrice) ba3.HighestPrice
    LowestPrice :=
      if ba1.LowestPrice ≥ FLT_MAX ∨ ba2.LowestPrice ≥ FLT_MAX ∨ ba3.LowestPrice ≥ FLT_MAX
      then FLT_MAX else min (min ba1.LowestPrice ba2.LowestPrice) ba3.LowestPrice
    QualificationReason := finalReason }

/-- The composite loop `for (j = 0; j <= size - 3; ++j)`, with `n` iterations
left from position `j`; the state is `baAttributed` and `CompositeBAs`. -/
def compositeLoop (inp : StudyInputs) (TickSize : ℚ) (SessionProfiles : List s_SessionProfile)
    (finalized : List s_BalanceArea) :
    Nat → Nat → List Bool × List s_CompositeBalanceArea → List Bool × List s_CompositeBalanceArea
  | 0, _, s => s
  | n + 1, j, s =>
    if s.1.getD j false || s.1.getD (j + 1) false || s.1.getD (j + 2) false then
      compositeLoop inp TickSize SessionProfiles finalized n (j + 1) s
    else
      match compositeReason inp TickSize SessionProfiles finalized j with
      | some finalReason =>
        compositeLoop inp TickSize SessionProfiles finalized n (j + 1)
          (((s.1.set j true).set (j + 1) true).set (j + 2) true,
            s.2 ++ [newComposite finalized j finalReason])
      | none => compositeLoop inp TickSize SessionProfiles finalized n (j + 1) s

/-- The composite detection of a recalculation (lines 1549-1772): the list
`CompositeBAs`, starting from the cleared list. -/
def detectComposites (inp : StudyInputs) (TickSize : ℚ) (SessionProfiles : List s_SessionProfile)
    (finalized : List s_BalanceArea) : List s_CompositeBalanceArea :=
  if finalized.length ≥ 3 then
    (compositeLoop inp TickSize SessionProfiles finalized (finalized.length - 2) 0
      (List.replicate finalized.length false, [])).2
  else []

/-- The state after the rebuild of a recalculation (lines 1235-1772): cleared
lists, then formation and composite detection. -/
def rebuildState (sc : SCStudyInterface) (inp : StudyInputs) (sqrtf : ℚ → ℚ)
    (SessionProfiles : List s_SessionProfile) : s_BAStudyPersistentData :=
  let f := formBalanceAreas sc inp sqrtf SessionProfiles
  { FinalizedBalanceAreas := f.FinalizedBalanceAreas
    ProbeLinesToDraw := f.ProbeLinesToDraw
    PBALsToDraw := []
    CompositeBAs := detectComposites inp sc.TickSize SessionProfiles f.FinalizedBalanceAreas
    ActiveBalanceAreas := [] }

/-! ## Activation (`CheckForBAActivation`) -/

/-- The bar scan `for (i = checkStartIndex; i < sc.ArraySize; ++i)` of
`CheckForBAActivation`, with `n` bars left from bar `i`: the first bar that
breaks the value area, and whether it broke the high side. -/
def findBreakout (sc : SCStudyInterface) (ba : s_BalanceArea) (tolerance : ℚ) :
    Nat → Int → Option (Int × Bool)
  | 0, _ => none
  | n + 1, i =>
    if sc.High i > ba.ValueAreaHigh + tolerance then some (i, true)
    else if sc.Low i < ba.ValueAreaLow - tolerance then some (i, false)
    else findBreakout sc ba tolerance n (i + 1)

/-- The assignments made to `ba` at the breakout bar `i` (lines 530-554). -/
def activateAt (sc : SCStudyInterface) (ba : s_BalanceArea) (i : Int) (high : Bool) :
    s_BalanceArea :=
  { ba with
    IsActivated := true
    ActivationDateTime := sc.BaseDateTimeIn i
    ActivationBarIndex := i
    ActivationPrice := if high then sc.High i else sc.Low i
    ActivationType := if high then "Break_High" else "Break_Low"
    ActivatedHigh := if high then true else ba.ActivatedHigh
    ActivatedLow := if high then ba.ActivatedLow else true
    IsExtending := true
    ExtensionEndIndex := sc.ArraySize - 1
    ExtensionEndReason := "Chart_End" }

/-- What one iteration of the outer loop of `CheckForBAActivation` does to the
finalized balance area `ba`; the Boolean tells whether it was activated in this
iteration. -/
def activationBody (sc : SCStudyInterface) (TickSize : ℚ) (ba : s_BalanceArea) :
    s_BalanceArea × Bool :=
  if ba.IsActivated then (ba, false)
  else
    let checkStartIndex := ba.EndBarIndex + 1
    if checkStartIndex ≥ sc.ArraySize then (ba, false)
    else
      match findBreakout sc ba (TickSize / 2) (sc.ArraySize - checkStartIndex).toNat
          checkStartIndex with
      | some (i, high) => (activateAt sc ba i high, true)
      | none => (ba, false)

/-- The test that identifies a balance area in `ActiveBalanceAreas`: equal
start and end profile index. -/
def sameBA (a b : s_BalanceArea) : Bool :=
  a.StartProfileChronoIndex == b.StartProfileChronoIndex &&
    a.EndProfileChronoIndex == b.EndProfileChronoIndex

/-- The outer loop of `CheckForBAActivation` over the finalized balance areas,
threading `ActiveBalanceAreas`. -/
def activationLoop (sc : SCStudyInterface) (TickSize : ℚ) :
    List s_BalanceArea → List s_BalanceArea → List s_BalanceArea × List s_BalanceArea
  | [], active => ([], active)
  | ba :: rest, active =>
    let r := activationBody sc TickSize ba
    let active1 :=
      if r.2 then (if active.any (fun a => sameBA a r.1) then active else active ++ [r.1])
      else active
    let t := activationLoop sc TickSize rest active1
    (r.1 :: t.1, t.2)

/-- The function `CheckForBAActivation` (lines 512-572). -/
def CheckForBAActivation (sc : SCStudyInterface) (pData : s_BAStudyPersistentData)
    (TickSize : ℚ) : s_BAStudyPersistentData :=
  if pData.FinalizedBalanceAreas.isEmpty then pData
  else
    let r := activationLoop sc TickSize pData.FinalizedBalanceAreas pData.ActiveBalanceAreas
    { pData with FinalizedBalanceAreas := r.1, ActiveBalanceAreas := r.2 }

/-! ## Pierce-beyond rays (`CheckForPBALCreation`) -/

/-- The ray built for a side of the cut balance area (lines 591-598 and
619-626). -/
def pbalRay (sc : SCStudyInterface) (cutBA : s_BalanceArea) (isHigh : Bool) :
    s_PBALDrawingInfo :=
  { StartBarIndex := cutBA.ActivationBarIndex
    EndBarIndex := sc.ArraySize - 1
    Price := if isHigh then cutBA.ValueAreaHigh else cutBA.ValueAreaLow
    IsHigh := isHigh
    EndReason := "Chart_End"
    OriginStartProfileIndex := cutBA.StartProfileChronoIndex
    OriginEndProfileIndex := cutBA.EndProfileChronoIndex }

/-- The function `CheckForPBALCreation` (lines 574-644). -/
def CheckForPBALCreation (sc : SCStudyInterface) (pData : s_BAStudyPersistentData)
    (cutBA intersectingBA : s_BalanceArea) (pierceThresholdPercent _TickSize : ℚ) :
    s_BAStudyPersistentData :=
  let orangeBARange := cutBA.ValueAreaHigh - cutBA.ValueAreaLow
  if orangeBARange ≤ 0 then pData
  else
    let pierceThreshold := orangeBARange * (pierceThresholdPercent / 100)
    let createHighPBAL : Bool :=
      decide (cutBA.ValueAreaHigh > intersectingBA.HighestPrice + pierceThreshold)
    let createLowPBAL : Bool :=
      decide (cutBA.ValueAreaLow < intersectingBA.LowestPrice - pierceThreshold)
    let p1 : s_BAStudyPersistentData :=
      if createHighPBAL then
        { pData with PBALsToDraw := pData.PBALsToDraw ++ [pbalRay sc cutBA true] }
      else pData
    if createLowPBAL then { p1 with PBALsToDraw := p1.PBALsToDraw ++ [pbalRay sc cutBA false] }
    else p1

/-! ## Extension and cutting (`UpdateBAExtensions`) -/

/-- The call `std::sort(ActiveBalanceAreas ..., a.ActivationBarIndex <
b.ActivationBarIndex)`. -/
def sortByActivation (l : List s_BalanceArea) : List s_BalanceArea :=
  l.insertionSort (fun a b => a.ActivationBarIndex ≤ b.ActivationBarIndex)

/-- Locals of the cut search for one active balance area (lines 660-663). -/
structure CutScan where
  earliestCutPoint : Int
  shouldCut : Bool := false
  intersectingBA : s_BalanceArea := {}
  foundIntersectingBA : Bool := false
deriving DecidableEq

/-- Body of the scan over `FinalizedBalanceAreas` (lines 666-684). -/
def cutScanFinalized (activeBa : s_BalanceArea) (TickSize : ℚ) (s : CutScan)
    (newBa : s_BalanceArea) : CutScan :=
  if !newBa.IsActivated || decide (newBa.ActivationBarIndex ≤ activeBa.ActivationBarIndex) then s
  else
    let overlapStart := max activeBa.ValueAreaLow newBa.ValueAreaLow
    let overlapEnd := min activeBa.ValueAreaHigh newBa.ValueAreaHigh
    if overlapEnd > overlapStart + TickSize / 2 then
      if newBa.ActivationBarIndex > activeBa.ActivationBarIndex ∧
          newBa.ActivationBarIndex < s.earliestCutPoint then
        { earliestCutPoint := newBa.ActivationBarIndex, shouldCut := true,
          intersectingBA := newBa, foundIntersectingBA := true }
      else s
    else s

/-- Body of the scan over the later entries of `ActiveBalanceAreas` (lines
687-707). -/
def cutScanActive (activeBa : s_BalanceArea) (TickSize : ℚ) (s : CutScan)
    (laterActiveBa : s_BalanceArea) : CutScan :=
  if laterActiveBa.ActivationBarIndex ≤ activeBa.ActivationBarIndex then s
  else
    let overlapStart := max activeBa.ValueAreaLow laterActiveBa.ValueAreaLow
    let overlapEnd := min activeBa.ValueAreaHigh laterActiveBa.ValueAreaHigh
    if overlapEnd > overlapStart + TickSize / 2 then
      if laterActiveBa.ActivationBarIndex > activeBa.ActivationBarIndex ∧
          laterActiveBa.ActivationBarIndex < s.earliestCutPoint then
        { earliestCutPoint := laterActiveBa.ActivationBarIndex, shouldCut := true,
          intersectingBA := laterActiveBa, foundIntersectingBA := true }
      else s
    else s

/-- The two scans for the active balance area at the current position:
`later` are the entries after it in the sorted `ActiveBalanceAreas`. -/
def cutSearch (sc : SCStudyInterface) (finalized later : List s_BalanceArea)
    (TickSize : ℚ) (activeBa : s_BalanceArea) : CutScan :=
  later.foldl (cutScanActive activeBa TickSize)
    (finalized.foldl (cutScanFinalized activeBa TickSize) { earliestCutPoint := sc.ArraySize - 1 })

/-- The assignments of lines 711-714. -/
def applyCut (activeBa : s_BalanceArea) (earliestCutPoint : Int) : s_BalanceArea :=
  { activeBa with
    ExtensionEndIndex := earliestCutPoint
    ExtensionEndReason := "BA_Intersection"
    WasCut := true
    IsExtending := false }

/-- One iteration of the loop of `UpdateBAExtensions` (lines 657-720) for the
entry `activeBa`, followed in the sorted `ActiveBalanceAreas` by the entries
`later`: the entry after the iteration and the state, whose `PBALsToDraw` may
have grown. -/
def cutStep (sc : SCStudyInterface) (TickSize PBALPierceThreshold : ℚ)
    (later : List s_BalanceArea) (pData : s_BAStudyPersistentData) (activeBa : s_BalanceArea) :
    s_BalanceArea × s_BAStudyPersistentData :=
  if !activeBa.IsExtending then (activeBa, pData)
  else
    let s := cutSearch sc pData.FinalizedBalanceAreas later TickSize activeBa
    if s.shouldCut = true ∧ s.earliestCutPoint < activeBa.ExtensionEndIndex then
      let cut := applyCut activeBa s.earliestCutPoint
      (cut,
        if s.foundIntersectingBA then
          CheckForPBALCreation sc pData cut s.intersectingBA PBALPierceThreshold TickSize
        else pData)
    else (activeBa, pData)

/-- The loop of `UpdateBAExtensions` over the sorted `ActiveBalanceAreas`
(lines 656-721).  Iteration `i` writes entry `i` only and reads the entries
after it before any of them is written, so the loop is a recursion on the
remaining entries; `pData` carries `FinalizedBalanceAreas` (read) and
`PBALsToDraw` (appended to). -/
def extensionLoop (sc : SCStudyInterface) (TickSize PBALPierceThreshold : ℚ) :
    List s_BalanceArea → s_BAStudyPersistentData → List s_BalanceArea × s_BAStudyPersistentData
  | [], pData => ([], pData)
  | activeBa :: later, pData =>
    let r := cutStep sc TickSize PBALPierceThreshold later pData activeBa
    let t := extensionLoop sc TickSize PBALPierceThreshold later r.2
    (r.1 :: t.1, t.2)

/-- Body of the final loop of `UpdateBAExtensions` (lines 724-739): the
finalized record takes the extension state of the first matching active
entry. -/
def syncFinalized (active : List s_BalanceArea) (finalizedBa : s_BalanceArea) : s_BalanceArea :=
  if !finalizedBa.IsActivated then finalizedBa
  else
    match active.find? (fun activeBa => sameBA activeBa finalizedBa) with
    | some activeBa =>
      { finalizedBa with
        IsExtending := activeBa.IsExtending
        ExtensionEndIndex := activeBa.ExtensionEndIndex
        ExtensionEndReason := activeBa.ExtensionEndReason
        WasCut := activeBa.WasCut }
    | none => finalizedBa

/-- The function `UpdateBAExtensions` (lines 648-740). -/
def UpdateBAExtensions (sc : SCStudyInterface) (pData : s_BAStudyPersistentData)
    (TickSize PBALPierceThreshold : ℚ) : s_BAStudyPersistentData :=
  let sorted := sortByActivation pData.ActiveBalanceAreas
  let r := extensionLoop sc TickSize PBALPierceThreshold sorted
    { pData with ActiveBalanceAreas := sorted }
  { r.2 with
    ActiveBalanceAreas := r.1
    FinalizedBalanceAreas := r.2.FinalizedBalanceAreas.map (syncFinalized r.1) }

/-- The two calls made on every update (lines 1923-1925):
`CheckForBAActivation` followed by `UpdateBAExtensions`. -/
def lifecyclePass (sc : SCStudyInterface) (PBALPierceThreshold : ℚ)
    (pData : s_BAStudyPersistentData) : s_BAStudyPersistentData :=
  UpdateBAExtensions sc (CheckForBAActivation sc pData sc.TickSize) sc.TickSize
    PBALPierceThreshold

/-! ## Specification-level notions -/

/-- Bar `i` breaks out of the value area of `ba` by more than half a tick. -/
def breaksValueArea (sc : SCStudyInterface) (ba : s_BalanceArea) (TickSize : ℚ) (i : Int) : Prop :=
  sc.High i > ba.ValueAreaHigh + TickSize / 2 ∨ sc.Low i < ba.ValueAreaLow - TickSize / 2

/-- A chart of 100 bars on which bar 60 is the only bar with a high of 100.5;
tick size 0.25. -/
def chartA : SCStudyInterface :=
  { ArraySize := 100
    High := fun i => if i = 60 then 201 / 2 else 95
    Low := fun _ => 93
    Close := fun _ => 94
    BaseDateTimeIn := fun i => i
    TickSize := 1 / 4 }

/-- A finalized balance area over profiles 0..1 ending at bar 49, with value
area 90..100. -/
def areaA : s_BalanceArea :=
  { StartProfileChronoIndex := 0, EndProfileChronoIndex := 1, StartBarIndex := 0,
    EndBarIndex := 49, IncludedProfileIndices := [0, 1],
    POC := 95, ValueAreaHigh := 100, ValueAreaLow := 90, HighestPrice := 102, LowestPrice := 88 }

/-- A balance area over profiles 2..3 whose full price range is 94..98. -/
def areaX : s_BalanceArea :=
  { StartProfileChronoIndex := 2, EndProfileChronoIndex := 3, StartBarIndex := 50,
    EndBarIndex := 70, IncludedProfileIndices := [2, 3],
    POC := 96, ValueAreaHigh := 97, ValueAreaLow := 95, HighestPrice := 98, LowestPrice := 94 }

/-- The value areas of `A` and `X` intersect by more than half a tick (the
test of lines 671-674 and 694-697). -/
def valueAreasIntersect (A X : s_BalanceArea) (TickSize : ℚ) : Prop :=
  min A.ValueAreaHigh X.ValueAreaHigh > max A.ValueAreaLow X.ValueAreaLow + TickSize / 2

instance (A X : s_BalanceArea) (TickSize : ℚ) : Decidable (valueAreasIntersect A X TickSize) := by
  unfold valueAreasIntersect; infer_instance

/-- An activated finalized balance area `X` that was activated strictly later
than `A` and whose value area intersects that of `A`. -/
def finalizedCutter (A : s_BalanceArea) (TickSize : ℚ) (X : s_BalanceArea) : Prop :=
  X.IsActivated = true ∧ A.ActivationBarIndex < X.ActivationBarIndex ∧
    valueAreasIntersect A X TickSize

instance (A : s_BalanceArea) (TickSize : ℚ) (X : s_BalanceArea) :
    Decidable (finalizedCutter A TickSize X) := by
  unfold finalizedCutter; infer_instance

/-- An entry `X` of the active list that was activated strictly later than `A`
and whose value area intersects that of `A`. -/
def activeCutter (A : s_BalanceArea) (TickSize : ℚ) (X : s_BalanceArea) : Prop :=
  A.ActivationBarIndex < X.ActivationBarIndex ∧ valueAreasIntersect A X TickSize

instance (A : s_BalanceArea) (TickSize : ℚ) (X : s_BalanceArea) :
    Decidable (activeCutter A TickSize X) := by
  unfold activeCutter; infer_instance

/-- The fields of a balance area read by the cut search of another one. -/
def sameCore (a b : s_BalanceArea) : Prop :=
  a.IsActivated = b.IsActivated ∧ a.ActivationBarIndex = b.ActivationBarIndex ∧
    a.ValueAreaHigh = b.ValueAreaHigh ∧ a.ValueAreaLow = b.ValueAreaLow

/-- The relation between an active entry before and after its iteration of the
loop of `UpdateBAExtensions`: unchanged, or an extending entry cut at an
earlier bar. -/
def cutRel (a a1 : s_BalanceArea) : Prop :=
  a1 = a ∨ (a.IsExtending = true ∧ ∃ e : Int, e < a.ExtensionEndIndex ∧ a1 = applyCut a e)

/-- The balance area `X` of the state is a cutter of the active balance area
`A`: an activated finalized balance area, or an entry of the active list, that
was activated strictly later than `A` and whose value area intersects that of
`A` by more than half a tick. -/
def isCutterOf (pData : s_BAStudyPersistentData) (TickSize : ℚ) (A X : s_BalanceArea) : Prop :=
  (X ∈ pData.FinalizedBalanceAreas ∧ finalizedCutter A TickSize X) ∨
    (X ∈ pData.ActiveBalanceAreas ∧ activeCutter A TickSize X)

instance (pData : s_BAStudyPersistentData) (TickSize : ℚ) (A X : s_BalanceArea) :
    Decidable (isCutterOf pData TickSize A X) := by
  unfold isCutterOf; infer_instance

/-- A balance area over profiles 2..3 ending at bar 70, with value area
95..105. -/
def areaB : s_BalanceArea :=
  { StartProfileChronoIndex := 2, EndProfileChronoIndex := 3, StartBarIndex := 50,
    EndBarIndex := 70, IncludedProfileIndices := [2, 3],
    POC := 100, ValueAreaHigh := 105, ValueAreaLow := 95, HighestPrice := 106, LowestPrice := 94 }

/-- A chart of `n` bars with lows at 96 and highs at 99, except for a high of
101 at bar 50 and a high of 106 at bar `b`; tick size 0.25. -/
def chartB (n b : Int) : SCStudyInterface :=
  { ArraySize := n
    High := fun i => if i = 50 then 101 else if i = b then 106 else 99
    Low := fun _ => 96
    Close := fun _ => 98
    BaseDateTimeIn := fun i => i
    TickSize := 1 / 4 }

/-- The state after a rebuild that finalized `areaA` and `areaB`. -/
def stateAB : s_BAStudyPersistentData := { FinalizedBalanceAreas := [areaA, areaB] }

/-- The pair of profile indices by which `sameBA` identifies a balance
area. -/
def keyOf (a : s_BalanceArea) : Int × Int :=
  (a.StartProfileChronoIndex, a.EndProfileChronoIndex)

/-- The state right after a rebuild, as far as the lifecycle engine reads it:
no active balance area, and no finalized balance area activated or cut. -/
def FreshState (st : s_BAStudyPersistentData) : Prop :=
  st.ActiveBalanceAreas = [] ∧
    ∀ f ∈ st.FinalizedBalanceAreas, f.IsActivated = false ∧ f.WasCut = false

/-- A sequence of passes without a rebuild; each pass has its own chart (the
chart may have grown) and pierce percentage. -/
def runPasses (passes : List (SCStudyInterface × ℚ)) (st : s_BAStudyPersistentData) :
    s_BAStudyPersistentData :=
  passes.foldl (fun s q => lifecyclePass q.1 q.2 s) st

/-- The invariant of the lifecycle engine between passes: a cut active entry
no longer extends, active entries have pairwise different keys, every
activated finalized record has an active entry with its key and extension
state, and a finalized record that is not activated is not cut. -/
def LifecycleInv (st : s_BAStudyPersistentData) : Prop :=
  (∀ a ∈ st.ActiveBalanceAreas, a.WasCut = true → a.IsExtending = false) ∧
  (st.ActiveBalanceAreas.map keyOf).Nodup ∧
  (∀ f ∈ st.FinalizedBalanceAreas, f.IsActivated = true →
    ∃ a ∈ st.ActiveBalanceAreas, keyOf a = keyOf f ∧ a.IsExtending = f.IsExtending ∧
      a.ExtensionEndIndex = f.ExtensionEndIndex ∧ a.WasCut = f.WasCut) ∧
  (∀ f ∈ st.FinalizedBalanceAreas, f.IsActivated = false → f.WasCut = false)

/-- The levels of a map that carry volume (more than the epsilon), as
`(price, volume)` pairs in iteration order: the contents of `priceVolPairs`
before sorting. -/
def levelsWithVolume (priceMap : PriceVolumeMap) : List (ℚ × ℚ) :=
  (priceMap.filter (fun e => decide (e.2.TotalVolume > VOL_EPS))).map
    (fun e => (e.1, e.2.TotalVolume))

/-- The sum of the volumes of the levels at positions `lo..hi` of the sorted
level list. -/
def volumeBetween (pairs : List (ℚ × ℚ)) (lo hi : Nat) : ℚ :=
  (((pairs.take (hi + 1)).drop lo).map Prod.snd).sum

/-- The sum of the volumes of the levels priced in `[lo, hi]`. -/
def volumeInPriceRange (pairs : List (ℚ × ℚ)) (lo hi : ℚ) : ℚ :=
  ((pairs.filter (fun p => decide (lo ≤ p.1 ∧ p.1 ≤ hi))).map Prod.snd).sum

/-- Distinct keys of the map differ by at least half a tick (prices rounded to
the tick size differ by at least a whole tick). -/
def keysSeparated (priceMap : PriceVolumeMap) (TickSize : ℚ) : Prop :=
  ∀ a ∈ priceMap, ∀ b ∈ priceMap, a.1 ≠ b.1 → TickSize / 2 ≤ |a.1 - b.1|

instance (priceMap : PriceVolumeMap) (TickSize : ℚ) : Decidable (keysSeparated priceMap TickSize) := by
  unfold keysSeparated; infer_instance

/-- A map of three levels at prices 10, 11 and 12 with volumes 2, 2 and 5. -/
def threeLevels : PriceVolumeMap := [level 10 2, level 11 2, level 12 5]

/-- The sum of the volumes of the first `n` levels of the level list. -/
def prefixVolume (pairs : List (ℚ × ℚ)) (n : Nat) : ℚ :=
  ((pairs.take n).map Prod.snd).sum
/-- The expansion invariant: the cursors are in order and inside the list, and
the accumulated volume is the volume of the levels between them. -/
def cursorInv (pairs : List (ℚ × ℚ)) (s : VAState) : Prop :=
  s.lowerIndex ≤ s.upperIndex ∧ s.upperIndex < pairs.length ∧
    s.currentVolumeInVA = prefixVolume pairs (s.upperIndex + 1) - prefixVolume pairs s.lowerIndex

/-- The value-area bounds are the prices at the cursors. -/
def boundsAtCursors (pairs : List (ℚ × ℚ)) (s : VAState) : Prop :=
  s.valueAreaLow = (pairs.getD s.lowerIndex (0, 0)).1 ∧
    s.valueAreaHigh = (pairs.getD s.upperIndex (0, 0)).1

/-- The indices of the three balance areas of a composite. -/
def s_CompositeBalanceArea.members (c : s_CompositeBalanceArea) : List Int :=
  [c.FirstBAIndex, c.SecondBAIndex, c.ThirdBAIndex]

/-- The invariant of the composite loop before iteration `j`: every recorded
composite is a triple `m, m+1, m+2` below `j` whose members are marked
attributed, and the recorded triples are in increasing order. -/
def compositeInv (len j : Nat) (s : List Bool × List s_CompositeBalanceArea) : Prop :=
  s.1.length = len ∧
  (∀ c ∈ s.2, ∃ m : Nat, m < j ∧ m + 2 < len ∧ c.FirstBAIndex = m ∧ c.SecondBAIndex = m + 1 ∧
    c.ThirdBAIndex = m + 2 ∧ s.1.getD m false = true ∧ s.1.getD (m + 1) false = true ∧
    s.1.getD (m + 2) false = true) ∧
  s.2.Pairwise (fun c d => c.ThirdBAIndex < d.FirstBAIndex)

/-- The run of profile indices `i, i+1, ..., e`. -/
def profileRun (i e : Nat) : List Int :=
  (List.range' i (e + 1 - i)).map (fun (x : Nat) => (x : Int))

/-- The balance area `b` is the contiguous run of at least two profiles from
its start index to its end index. -/
def contiguousRun (b : s_BalanceArea) : Prop :=
  ∃ i e : Nat, i + 1 ≤ e ∧ b.StartProfileChronoIndex = i ∧ b.EndProfileChronoIndex = e ∧
    b.IncludedProfileIndices = profileRun i e

/-- The invariant of the extension loop before profile `k`, for a balance area
initiated at profile `i` when the flags were `used0`: the current balance area
is the run `i..k-1` and the flags of exactly these profiles have been set. -/
def candidateInv (used0 : List Bool) (i k : Nat) (s : ExtensionState) : Prop :=
  i + 2 ≤ k ∧ k ≤ used0.length ∧
  s.currentBA.StartProfileChronoIndex = i ∧ s.currentBA.EndProfileChronoIndex = (k : Int) - 1 ∧
  s.currentBA.IncludedProfileIndices = profileRun i (k - 1) ∧
  s.currentBA.IsActivated = false ∧ s.currentBA.WasCut = false ∧
  s.profileUsed.length = used0.length ∧
  ∀ x, s.profileUsed.getD x false = (used0.getD x false || (decide (i ≤ x) && decide (x < k)))

/-- The invariant of the initiation loop before index `i`: the flags are set
only below a bound `B` and everywhere from `i` up to `B`; every finalized
balance area is a contiguous run that ends below `B` and inside the profile
list, is neither activated nor cut, and the finalized balance areas are in
increasing order without overlap. -/
def formationInv (N i : Nat) (s : FormationState) : Prop :=
  s.profileUsed.length = N ∧
  ∃ B : Nat, (∀ x, s.profileUsed.getD x false = true → x < B) ∧
    (∀ x, i ≤ x → x < B → s.profileUsed.getD x false = true) ∧
    (∀ a ∈ s.FinalizedBalanceAreas, a.EndProfileChronoIndex < B ∧ a.EndProfileChronoIndex < N ∧
      contiguousRun a ∧ a.IsActivated = false ∧ a.WasCut = false) ∧
    s.FinalizedBalanceAreas.Pairwise
      (fun a b => a.EndProfileChronoIndex < b.StartProfileChronoIndex)

/-- A session profile over the levels of a map, with its metrics at 70 percent
and a tick of 1, covering ten bars from bar `10 * c`. -/
def sessionOf (c : Nat) (m : PriceVolumeMap) : s_SessionProfile :=
  let r := CalculateProfileMetrics m 70 1
  { StartDateTime := 10 * c, EndDateTime := 10 * c + 9, BeginIndex := 10 * c,
    EndIndex := 10 * c + 9, POC := r.poc, ValueAreaHigh := r.valueAreaHigh,
    ValueAreaLow := r.valueAreaLow, TotalVolume := r.totalVolume,
    HighestPrice := r.highestPrice, LowestPrice := r.lowestPrice, PriceMap := m,
    ChronologicalIndex := c }

/-- Five sessions: three around 10..12, then two around 40..42. -/
def fiveSessions : List s_SessionProfile :=
  [sessionOf 0 threeLevels, sessionOf 1 threeLevels, sessionOf 2 threeLevels,
   sessionOf 3 [level 40 2, level 41 5, level 42 2],
   sessionOf 4 [level 40 2, level 41 5, level 42 2]]

/-- Inputs with every overlap threshold at 50 percent and no normality filter. -/
def plainInputs : StudyInputs :=
  { ValueAreaPercentage := 70, MinVolOverlap := 50, MinVAOverlap := 50,
    RangeSimilarityPercent := 10, HighLowTolerancePercent := 10, RangeContainmentPercent := 50,
    FilterByNormality := false, MaxAbsSkewness := 1, MinExcessKurtosis := -1,
    MaxExcessKurtosis := 1, PBALPierceThreshold := 1 }

/-- A chart of fifty bars with tick 1. -/
def chartFive : SCStudyInterface :=
  { ArraySize := 50, High := fun i => if i < 30 then 12 else 42,
    Low := fun i => if i < 30 then 10 else 40, Close := fun i => if i < 30 then 11 else 41,
    BaseDateTimeIn := fun i => i, TickSize := 1 }

/-- A balance area whose price range is the single price `p`. -/
def pointArea (p : ℚ) : s_BalanceArea :=
  { StartProfileChronoIndex := 0, EndProfileChronoIndex := 1, IncludedProfileIndices := [0, 1],
    HighestPrice := p, LowestPrice := p, ValueAreaHigh := p, ValueAreaLow := p, POC := p }

/-- The level record stored at a key of a map (`find`), if the key is present. -/
def levelAt (m : PriceVolumeMap) (price : ℚ) : Option s_PriceLevelVolume :=
  m.lookup price

/-- The keys of a map are pairwise different, as in every `std::unordered_map`. -/
def uniqueKeys (m : PriceVolumeMap) : Prop := (m.map Prod.fst).Nodup

instance (m : PriceVolumeMap) : Decidable (uniqueKeys m) := by
  unfold uniqueKeys; infer_instance

/-- Every level record of the map carries its own key in the field `Price`, as
the records written by the profile builder do. -/
def carriesKey (m : PriceVolumeMap) : Prop := ∀ e ∈ m, e.2.Price = e.1

instance (m : PriceVolumeMap) : Decidable (carriesKey m) := by
  unfold carriesKey; infer_instance

/-- The record `a` after the volume and the trade count of `b` were added. -/
def addLevel (a b : s_PriceLevelVolume) : s_PriceLevelVolume :=
  { a with TotalVolume := a.TotalVolume + b.TotalVolume,
           NumberOfTrades := a.NumberOfTrades + b.NumberOfTrades }

/-- The level that a merge of two maps holds at a key, from the levels the two
maps hold there: the sum on a collision, else the one that is present. -/
def mergedLevel : Option s_PriceLevelVolume → Option s_PriceLevelVolume →
    Option s_PriceLevelVolume
  | some a, some b => some (addLevel a b)
  | some a, none => some a
  | none, b => b

/-- Two maps are the same map: they hold the same level record at every price
(and so have the same keys). -/
def sameMap (m1 m2 : PriceVolumeMap) : Prop := ∀ price, levelAt m1 price = levelAt m2 price

/-- A map with the single key 10 whose record carries the key as `Price`. -/
def keyedLevel : PriceVolumeMap := [(10, { Price := 10, TotalVolume := 1, NumberOfTrades := 1 })]

/-- A map with the single key 10 whose record has the default `Price` 0. -/
def unkeyedLevel : PriceVolumeMap := [(10, { Price := 0, TotalVolume := 2, NumberOfTrades := 1 })]

/-- A map of two levels at prices 12 and 13 with volumes 1 and 4. -/
def twoLevels : PriceVolumeMap := [level 12 1, level 13 4]

/-- The update of the two locals `(maxVolumeAtPOC, poc)` by one level
`(price, volume)`: the part that the body of the first scan (for a level with
volume above the epsilon) and the body of the fallback search have in
common. -/
def pocPick (s : ℚ × ℚ) (l : ℚ × ℚ) : ℚ × ℚ :=
  if l.2 > s.1 then (l.2, l.1)
  else if |l.2 - s.1| < VOL_EPS ∧ l.1 > s.2 then (s.1, l.1)
  else s

/-- The price `poc` is the key of a level of maximum volume. -/
def isMaxVolumePrice (m : PriceVolumeMap) (poc : ℚ) : Prop :=
  ∃ e ∈ m, e.1 = poc ∧ ∀ d ∈ m, d.2.TotalVolume ≤ e.2.TotalVolume

/-- The volume of the level `d` equals the maximum volume of the map within the
epsilon: no volume of the map exceeds it by the epsilon or more. -/
def nearMaxVolume (m : PriceVolumeMap) (d : ℚ × s_PriceLevelVolume) : Prop :=
  ∀ c ∈ m, c.2.TotalVolume - d.2.TotalVolume < VOL_EPS

/-- The price `poc` is the highest among the levels whose volume equals the
maximum within the epsilon. -/
def isTopOfNearMax (m : PriceVolumeMap) (poc : ℚ) : Prop :=
  (∃ e ∈ m, e.1 = poc ∧ nearMaxVolume m e) ∧ ∀ d ∈ m, nearMaxVolume m d → d.1 ≤ poc

/-- Any two volumes of the map are equal or differ by at least the epsilon, as
volumes that are whole numbers do. -/
def volumesSeparated (m : PriceVolumeMap) : Prop :=
  ∀ a ∈ m, ∀ b ∈ m, |a.2.TotalVolume - b.2.TotalVolume| < VOL_EPS →
    a.2.TotalVolume = b.2.TotalVolume

instance (m : PriceVolumeMap) (poc : ℚ) : Decidable (isMaxVolumePrice m poc) := by
  unfold isMaxVolumePrice; infer_instance

instance (m : PriceVolumeMap) (d : ℚ × s_PriceLevelVolume) : Decidable (nearMaxVolume m d) := by
  unfold nearMaxVolume; infer_instance

instance (m : PriceVolumeMap) (poc : ℚ) : Decidable (isTopOfNearMax m poc) := by
  unfold isTopOfNearMax; infer_instance

instance (m : PriceVolumeMap) : Decidable (volumesSeparated m) := by
  unfold volumesSeparated; infer_instance

/-- A map with the levels 11 and 10, in this iteration order, whose volumes
4.999995 and 5 differ by less than the epsilon. -/
def nearTieLevels : PriceVolumeMap := [level 11 (5 - 1 / 200000), level 10 5]

/-- The invariant of the POC search over a list of levels: the running maximum
is the largest volume seen, the running POC is the price of a level seen whose
volume is within the epsilon of it, and no level seen with the largest volume
is priced higher. -/
def pocInv (L : List (ℚ × ℚ)) (s : ℚ × ℚ) : Prop :=
  (∀ q ∈ L, q.2 ≤ s.1) ∧ (∃ q ∈ L, q.2 = s.1) ∧
  (∃ v, (s.2, v) ∈ L ∧ s.1 - VOL_EPS < v) ∧ (∀ q ∈ L, q.2 = s.1 → q.1 ≤ s.2)

/-- The balance area built when the pair `i, i+1` starts one (lines
1289-1302), with the recorded initiation reason. -/
def initialCandidate (sc : SCStudyInterface) (inp : StudyInputs)
    (SessionProfiles : List s_SessionProfile) (i : Nat) (reason : String) : s_BalanceArea :=
  let profile_i := SessionProfiles.getD i {}
  let profile_i1 := SessionProfiles.getD (i + 1) {}
  let m := CalculateProfileMetrics
    (MergeMultipleVolumeProfiles [profile_i.PriceMap, profile_i1.PriceMap])
    inp.ValueAreaPercentage sc.TickSize
  { StartProfileChronoIndex := i
    EndProfileChronoIndex := i + 1
    StartDateTime := profile_i.StartDateTime
    StartBarIndex := profile_i.BeginIndex
    EndDateTime := profile_i1.EndDateTime
    EndBarIndex := profile_i1.EndIndex
    IncludedProfileIndices := [(i : Int), (i : Int) + 1]
    InitiationReason := reason
    POC := m.poc
    ValueAreaHigh := m.valueAreaHigh
    ValueAreaLow := m.valueAreaLow
    TotalVolume := m.totalVolume
    HighestPrice := m.highestPrice
    LowestPrice := m.lowestPrice }

/-- The state in which the extension loop starts for the pair `i, i+1` (lines
1311-1312 and 1325). -/
def extensionStart (sc : SCStudyInterface) (inp : StudyInputs)
    (SessionProfiles : List s_SessionProfile) (i : Nat) (reason : String) (s : FormationState) :
    ExtensionState :=
  { currentBA := initialCandidate sc inp SessionProfiles i reason
    mapsToMerge := [(SessionProfiles.getD i {}).PriceMap, (SessionProfiles.getD (i + 1) {}).PriceMap]
    currentMergedMap := MergeMultipleVolumeProfiles
      [(SessionProfiles.getD i {}).PriceMap, (SessionProfiles.getD (i + 1) {}).PriceMap]
    profileUsed := (s.profileUsed.set i true).set (i + 1) true
    ProbeLinesToDraw := s.ProbeLinesToDraw }

/-- The finalization of a sealed candidate (lines 1508-1545): it is appended
when it passes the normality filter and has a valid range of at least half a
tick, and dropped otherwise. -/
def sealCandidate (sqrtf : ℚ → ℚ) (inp : StudyInputs) (TickSize : ℚ) (s : FormationState)
    (e : ExtensionState) : FormationState :=
  if meetsNormalityCriteria sqrtf inp TickSize e.currentMergedMap then
    if e.currentBA.HighestPrice > -FLT_MAX ∧ e.currentBA.LowestPrice < FLT_MAX ∧
        e.currentBA.HighestPrice ≥ e.currentBA.LowestPrice ∧
        e.currentBA.GetRange ≥ TickSize / 2 then
      { profileUsed := e.profileUsed,
        FinalizedBalanceAreas := s.FinalizedBalanceAreas ++ [e.currentBA],
        ProbeLinesToDraw := e.ProbeLinesToDraw }
    else
      { s with profileUsed := e.profileUsed, ProbeLinesToDraw := e.ProbeLinesToDraw }
  else
    { s with profileUsed := e.profileUsed, ProbeLinesToDraw := e.ProbeLinesToDraw }

/-- The volume profiles of the member profiles of a balance area, in the order
of `IncludedProfileIndices`. -/
def memberMaps (SessionProfiles : List s_SessionProfile) (included : List Int) :
    List PriceVolumeMap :=
  included.map (fun (j : Int) => (SessionProfiles.getD j.toNat {}).PriceMap)

/-- The extension reason is one of the two conditional-close reasons. -/
def isConditionalClose (reason : String) : Prop :=
  reason = "Close Above BA Low (Low Fail)" ∨ reason = "Close Below BA High (High Fail)"

instance (reason : String) : Decidable (isConditionalClose reason) := by
  unfold isConditionalClose; infer_instance

/-- The metrics of the merged volume profile of the maps in `maps`. -/
def mergedMetrics (sc : SCStudyInterface) (inp : StudyInputs) (maps : List PriceVolumeMap) :
    ProfileMetrics :=
  CalculateProfileMetrics (MergeMultipleVolumeProfiles maps) inp.ValueAreaPercentage sc.TickSize

/-- Three sessions: two around 10..12, then one with the levels 11 and 20,
whose high lies above the tolerance band while its low lies inside. -/
def probeSessions : List s_SessionProfile :=
  [sessionOf 0 threeLevels, sessionOf 1 threeLevels, sessionOf 2 [level 11 1, level 20 5]]

/-- The invariant of the extension loop on the metrics of the candidate: the
maps to merge are those of the member profiles, the merged map is their merge,
the four metrics `POC`, `ValueAreaHigh`, `ValueAreaLow` and `TotalVolume` are
those of the merged map, and the initiation reason is `reason`. -/
def candidateMetricsInv (sc : SCStudyInterface) (inp : StudyInputs)
    (SessionProfiles : List s_SessionProfile) (reason : String) (s : ExtensionState) : Prop :=
  s.mapsToMerge = memberMaps SessionProfiles s.currentBA.IncludedProfileIndices ∧
  s.currentMergedMap = MergeMultipleVolumeProfiles s.mapsToMerge ∧
  s.currentBA.POC = (mergedMetrics sc inp s.mapsToMerge).poc ∧
  s.currentBA.ValueAreaHigh = (mergedMetrics sc inp s.mapsToMerge).valueAreaHigh ∧
  s.currentBA.ValueAreaLow = (mergedMetrics sc inp s.mapsToMerge).valueAreaLow ∧
  s.currentBA.TotalVolume = (mergedMetrics sc inp s.mapsToMerge).totalVolume ∧
  s.currentBA.InitiationReason = reason

/-- Criterion (a) of the initiation: the volume overlap of the two profiles
reaches `MinVolOverlap`. -/
def volumeCriterion (inp : StudyInputs) (p q : s_SessionProfile) : Prop :=
  CalculateVolumeProfileOverlap p.PriceMap q.PriceMap ≥ inp.MinVolOverlap

/-- Criterion (b) of the initiation: the value-area overlap of the two profiles
reaches `MinVAOverlap`. -/
def valueAreaCriterion (inp : StudyInputs) (TickSize : ℚ) (p q : s_SessionProfile) : Prop :=
  CalculateValueAreaOverlap p.ValueAreaHigh p.ValueAreaLow q.ValueAreaHigh q.ValueAreaLow TickSize
    ≥ inp.MinVAOverlap

/-- Criterion (c) of the initiation: the range-similarity difference is within
the threshold, and the high and the low of the second profile are within the
geometric tolerance band of the first. -/
def geometricCriterion (inp : StudyInputs) (TickSize : ℚ) (p q : s_SessionProfile) : Prop :=
  CalculateRangeSimilarityDiff p q TickSize ≤ inp.RangeSimilarityPercent ∧
  CheckHighPosition q.HighestPrice
    (CalculateMaxAllowedHigh p.HighestPrice p.GetRange inp.HighLowTolerancePercent TickSize)
    = true ∧
  CheckLowPosition q.LowestPrice
    (CalculateMinAllowedLow p.LowestPrice p.GetRange inp.HighLowTolerancePercent TickSize) = true

instance (inp : StudyInputs) (p q : s_SessionProfile) : Decidable (volumeCriterion inp p q) := by
  unfold volumeCriterion; infer_instance

instance (inp : StudyInputs) (TickSize : ℚ) (p q : s_SessionProfile) :
    Decidable (valueAreaCriterion inp TickSize p q) := by
  unfold valueAreaCriterion; infer_instance

instance (inp : StudyInputs) (TickSize : ℚ) (p q : s_SessionProfile) :
    Decidable (geometricCriterion inp TickSize p q) := by
  unfold geometricCriterion; infer_instance

/-- Three sessions: two around 10..12, then one with the levels 5 and 45, whose
high and low both lie outside the tolerance band. -/
def wideSessions : List s_SessionProfile :=
  [sessionOf 0 threeLevels, sessionOf 1 threeLevels, sessionOf 2 [level 5 1, level 45 5]]

/-- Distinct price keys of the volume profiles of the sessions, within one
profile or across two, differ by at least half a tick (prices rounded to the
tick size differ by at least a whole tick). -/
def sessionKeysSeparated (SessionProfiles : List s_SessionProfile) (TickSize : ℚ) : Prop :=
  ∀ p ∈ SessionProfiles, ∀ q ∈ SessionProfiles, ∀ a ∈ p.PriceMap, ∀ b ∈ q.PriceMap,
    a.1 ≠ b.1 → TickSize / 2 ≤ |a.1 - b.1|

instance (SessionProfiles : List s_SessionProfile) (TickSize : ℚ) :
    Decidable (sessionKeysSeparated SessionProfiles TickSize) := by
  unfold sessionKeysSeparated; infer_instance

/-- A map of four levels at prices 0, 10, 11 and 12 with volumes 1, 2, 2
and 5. -/
def fourLevels : PriceVolumeMap := [level 0 1, level 10 2, level 11 2, level 12 5]

/-- Two sessions with the four-level map. -/
def closeKeySessions : List s_SessionProfile := [sessionOf 0 fourLevels, sessionOf 1 fourLevels]

/-- A chart of fifty bars with tick 6, more than the distance of the keys 10,
11 and 12. -/
def chartSix : SCStudyInterface := { chartFive with TickSize := 6 }

/-- The plain inputs with a value-area percentage of 30. -/
def thirtyInputs : StudyInputs := { plainInputs with ValueAreaPercentage := 30 }

/-- What the formation guarantees of a finalized balance area: both ends of the
price range are set and in order, the range is at least half a tick, and the
value area is that of the merged profile of some member list. -/
def finalizedOk (sc : SCStudyInterface) (inp : StudyInputs)
    (SessionProfiles : List s_SessionProfile) (b : s_BalanceArea) : Prop :=
  b.HighestPrice > -FLT_MAX ∧ b.LowestPrice < FLT_MAX ∧ b.HighestPrice ≥ b.LowestPrice ∧
  b.HighestPrice - b.LowestPrice ≥ sc.TickSize / 2 ∧
  ∃ included : List Int,
    b.ValueAreaHigh = (mergedMetrics sc inp (memberMaps SessionProfiles included)).valueAreaHigh ∧
    b.ValueAreaLow = (mergedMetrics sc inp (memberMaps SessionProfiles included)).valueAreaLow

/-- The overlap classes of a triple of balance areas: Strong, Full, Partial
(two overlaps), One and None. -/
inductive OverlapClass where
  | strongOverlap
  | fullOverlap
  | twoOverlaps
  | oneOverlap
  | noOverlap
deriving DecidableEq

/-- The three pairwise range overlaps (1,2), (1,3) and (2,3) of a triple. -/
def pairOverlaps (ba1 ba2 ba3 : s_BalanceArea) (TickSize : ℚ) : List ℚ :=
  [CalculateRangeOverlapPercent_RelativeToSmaller ba1 ba2 TickSize,
   CalculateRangeOverlapPercent_RelativeToSmaller ba1 ba3 TickSize,
   CalculateRangeOverlapPercent_RelativeToSmaller ba2 ba3 TickSize]

/-- The overlap class of a triple: Strong when all three pairwise overlaps are
at least 30, else Full, Partial or One when three, two or one of them are
positive, else None. -/
def overlapClass (ba1 ba2 ba3 : s_BalanceArea) (TickSize : ℚ) : OverlapClass :=
  if ∀ x ∈ pairOverlaps ba1 ba2 ba3 TickSize, x ≥ 30 then OverlapClass.strongOverlap
  else
    match ((pairOverlaps ba1 ba2 ba3 TickSize).filter (fun x => decide (x > 0))).length with
    | 3 => OverlapClass.fullOverlap
    | 2 => OverlapClass.twoOverlaps
    | 1 => OverlapClass.oneOverlap
    | _ => OverlapClass.noOverlap

/-- Both ends of the price ranges of the three balance areas are set. -/
def rangesSet (ba1 ba2 ba3 : s_BalanceArea) : Prop :=
  ba1.HighestPrice > -FLT_MAX ∧ ba1.LowestPrice < FLT_MAX ∧
  ba2.HighestPrice > -FLT_MAX ∧ ba2.LowestPrice < FLT_MAX ∧
  ba3.HighestPrice > -FLT_MAX ∧ ba3.LowestPrice < FLT_MAX

/-- The pattern HLH: the second balance area lies below the first, the third
above the second. -/
def isHLH (ba1 ba2 ba3 : s_BalanceArea) : Prop :=
  rangesSet ba1 ba2 ba3 ∧
  ba2.HighestPrice < ba1.HighestPrice ∧ ba2.LowestPrice < ba1.LowestPrice ∧
  ba3.HighestPrice > ba2.HighestPrice ∧ ba3.LowestPrice > ba2.LowestPrice

/-- The pattern LHL: the second balance area lies above the first, the third
below the second. -/
def isLHL (ba1 ba2 ba3 : s_BalanceArea) : Prop :=
  rangesSet ba1 ba2 ba3 ∧
  ba2.HighestPrice > ba1.HighestPrice ∧ ba2.LowestPrice > ba1.LowestPrice ∧
  ba3.HighestPrice < ba2.HighestPrice ∧ ba3.LowestPrice < ba2.LowestPrice

/-- The containment tolerance: `RangeContainmentPercent` of the range spanned
by the first two balance areas, at least one tick. -/
def containmentTolerance (inp : StudyInputs) (TickSize : ℚ) (ba1 ba2 : s_BalanceArea) : ℚ :=
  max (max ba1.HighestPrice ba2.HighestPrice - min ba1.LowestPrice ba2.LowestPrice) TickSize *
    (inp.RangeContainmentPercent / 100)

/-- The required shift: 20 percent of the range of the second balance area, at
least one tick. -/
def shiftAmount (TickSize : ℚ) (ba2 : s_BalanceArea) : ℚ :=
  max ba2.GetRange TickSize * (20 / 100)

/-- An HLH pattern is present and passes containment, shift magnitude and
gap-12. -/
def passesHLH (inp : StudyInputs) (TickSize : ℚ) (ba1 ba2 ba3 : s_BalanceArea) : Prop :=
  isHLH ba1 ba2 ba3 ∧
  ba3.HighestPrice ≤ ba1.HighestPrice + containmentTolerance inp TickSize ba1 ba2 ∧
  (ba3.HighestPrice > ba2.HighestPrice + shiftAmount TickSize ba2 ∧
    ba3.LowestPrice > ba2.LowestPrice + shiftAmount TickSize ba2) ∧
  ba2.HighestPrice > ba1.LowestPrice - max ba1.GetRange TickSize

/-- An LHL pattern is present and passes containment, shift magnitude and
gap-12. -/
def passesLHL (inp : StudyInputs) (TickSize : ℚ) (ba1 ba2 ba3 : s_BalanceArea) : Prop :=
  isLHL ba1 ba2 ba3 ∧
  ba3.LowestPrice ≥ ba1.LowestPrice - containmentTolerance inp TickSize ba1 ba2 ∧
  (ba3.HighestPrice < ba2.HighestPrice - shiftAmount TickSize ba2 ∧
    ba3.LowestPrice < ba2.LowestPrice - shiftAmount TickSize ba2) ∧
  ba2.LowestPrice < ba1.HighestPrice + max ba1.GetRange TickSize

/-- The flag `temporalPassed` of the triple at `j` (lines 1674-1676): the
result of `CheckTemporalProximity` is not the error value -1 and at most 5. -/
def temporalCheckPassed (SessionProfiles : List s_SessionProfile)
    (finalized : List s_BalanceArea) (j : Nat) : Prop :=
  CheckTemporalProximity j (j + 2) SessionProfiles finalized ≠ -1 ∧
  CheckTemporalProximity j (j + 2) SessionProfiles finalized ≤ 5

/-- The qualification rule for the triple at positions `j, j+1, j+2`, with the
flag `temporalPassed` as its temporal criterion. -/
def qualifiesByCheck (inp : StudyInputs) (TickSize : ℚ)
    (SessionProfiles : List s_SessionProfile) (finalized : List s_BalanceArea) (j : Nat) : Prop :=
  let ba1 := finalized.getD j {}
  let ba2 := finalized.getD (j + 1) {}
  let ba3 := finalized.getD (j + 2) {}
  overlapClass ba1 ba2 ba3 TickSize = OverlapClass.strongOverlap ∨
  ((overlapClass ba1 ba2 ba3 TickSize = OverlapClass.fullOverlap ∨
      overlapClass ba1 ba2 ba3 TickSize = OverlapClass.twoOverlaps) ∧
    (passesHLH inp TickSize ba1 ba2 ba3 ∨ passesLHL inp TickSize ba1 ba2 ba3)) ∨
  (overlapClass ba1 ba2 ba3 TickSize = OverlapClass.oneOverlap ∧
    (passesHLH inp TickSize ba1 ba2 ba3 ∨ passesLHL inp TickSize ba1 ba2 ba3) ∧
    temporalCheckPassed SessionProfiles finalized j)

instance (ba1 ba2 ba3 : s_BalanceArea) : Decidable (rangesSet ba1 ba2 ba3) := by
  unfold rangesSet; infer_instance

instance (ba1 ba2 ba3 : s_BalanceArea) : Decidable (isHLH ba1 ba2 ba3) := by
  unfold isHLH; infer_instance

instance (ba1 ba2 ba3 : s_BalanceArea) : Decidable (isLHL ba1 ba2 ba3) := by
  unfold isLHL; infer_instance

instance (inp : StudyInputs) (TickSize : ℚ) (ba1 ba2 ba3 : s_BalanceArea) :
    Decidable (passesHLH inp TickSize ba1 ba2 ba3) := by
  unfold passesHLH; infer_instance

instance (inp : StudyInputs) (TickSize : ℚ) (ba1 ba2 ba3 : s_BalanceArea) :
    Decidable (passesLHL inp TickSize ba1 ba2 ba3) := by
  unfold passesLHL; infer_instance

instance (SessionProfiles : List s_SessionProfile) (finalized : List s_BalanceArea) (j : Nat) :
    Decidable (temporalCheckPassed SessionProfiles finalized j) := by
  unfold temporalCheckPassed; infer_instance

instance (inp : StudyInputs) (TickSize : ℚ) (SessionProfiles : List s_SessionProfile)
    (finalized : List s_BalanceArea) (j : Nat) :
    Decidable (qualifiesByCheck inp TickSize SessionProfiles finalized j) := by
  unfold qualifiesByCheck; infer_instance

/-- The body of the composite loop at position `j`: the state after the
iteration. -/
def compositeStep (inp : StudyInputs) (TickSize : ℚ) (SessionProfiles : List s_SessionProfile)
    (finalized : List s_BalanceArea) (j : Nat)
    (s : List Bool × List s_CompositeBalanceArea) : List Bool × List s_CompositeBalanceArea :=
  if s.1.getD j false || s.1.getD (j + 1) false || s.1.getD (j + 2) false then s
  else
    match compositeReason inp TickSize SessionProfiles finalized j with
    | some finalReason =>
      (((s.1.set j true).set (j + 1) true).set (j + 2) true,
        s.2 ++ [newComposite finalized j finalReason])
    | none => s

/-- The state of the composite loop when it reaches position `j`. -/
def compositeStateAt (inp : StudyInputs) (TickSize : ℚ) (SessionProfiles : List s_SessionProfile)
    (finalized : List s_BalanceArea) (j : Nat) : List Bool × List s_CompositeBalanceArea :=
  compositeLoop inp TickSize SessionProfiles finalized j 0
    (List.replicate finalized.length false, [])

/-- The triple at positions `j, j+1, j+2` is unattributed when the composite
loop reaches it. -/
def unattributedTriple (inp : StudyInputs) (TickSize : ℚ)
    (SessionProfiles : List s_SessionProfile) (finalized : List s_BalanceArea) (j : Nat) : Prop :=
  (compositeStateAt inp TickSize SessionProfiles finalized j).1.getD j false = false ∧
  (compositeStateAt inp TickSize SessionProfiles finalized j).1.getD (j + 1) false = false ∧
  (compositeStateAt inp TickSize SessionProfiles finalized j).1.getD (j + 2) false = false

instance (inp : StudyInputs) (TickSize : ℚ) (SessionProfiles : List s_SessionProfile)
    (finalized : List s_BalanceArea) (j : Nat) :
    Decidable (unattributedTriple inp TickSize SessionProfiles finalized j) := by
  unfold unattributedTriple; infer_instance

/-- A balance area over the profiles `s..e` with the price range `lo..hi`. -/
def rangeArea (lo hi : ℚ) (s e : Int) : s_BalanceArea :=
  { StartProfileChronoIndex := s, EndProfileChronoIndex := e, LowestPrice := lo,
    HighestPrice := hi, ValueAreaLow := lo, ValueAreaHigh := hi, POC := lo }

/-- Four balance areas, the first three with the same price range 10..20. -/
def fourAreas : List s_BalanceArea :=
  [rangeArea 10 20 0 1, rangeArea 10 20 2 3, rangeArea 10 20 4 5, rangeArea 50 60 6 7]

/-- Every level of the map has a volume of at least 0. -/
def nonNegativeVolumes (m : PriceVolumeMap) : Prop := ∀ e ∈ m, 0 ≤ e.2.TotalVolume

instance (m : PriceVolumeMap) : Decidable (nonNegativeVolumes m) := by
  unfold nonNegativeVolumes; infer_instance

/-- A map with the levels 10 and 11 of volume 0. -/
def emptyVolumeLevels : PriceVolumeMap := [level 10 0, level 11 0]

/-- The length of the intersection of the intervals `[lo1, hi1]` and
`[lo2, hi2]`; 0 when they do not intersect. -/
def intersectionLength (lo1 hi1 lo2 hi2 : ℚ) : ℚ := max 0 (min hi1 hi2 - max lo1 lo2)

/-- The length of the span from the lower of the two low ends to the higher of
the two high ends. -/
def unionSpan (lo1 hi1 lo2 hi2 : ℚ) : ℚ := max hi1 hi2 - min lo1 lo2

/-- A session profile with the price range `lo..hi` and no volume profile. -/
def rangeSession (lo hi : ℚ) : s_SessionProfile := { HighestPrice := hi, LowestPrice := lo }

/-- The profile indices strictly between `lo` and `hi`, in increasing order. -/
def gapIndices (lo hi : Int) : List Int :=
  (List.range (hi - (lo + 1)).toNat).map (fun (d : Nat) => lo + 1 + (d : Int))

/-- The profile index `p` is a member of a finalized balance area other than
the ones at the positions `i1` and `i3`. -/
def claimedByOther (finalized : List s_BalanceArea) (i1 i3 : Nat) (p : Int) : Prop :=
  ∃ x ∈ List.range finalized.length, x ≠ i1 ∧ x ≠ i3 ∧
    p ∈ (finalized.getD x {}).IncludedProfileIndices

instance (finalized : List s_BalanceArea) (i1 i3 : Nat) (p : Int) :
    Decidable (claimedByOther finalized i1 i3 p) := by
  unfold claimedByOther; infer_instance

/-- The number of profile indices strictly between the end of the balance area
at `i1` and the start of the one at `i3` that no other finalized balance area
has as a member. -/
def unclaimedGapCount (finalized : List s_BalanceArea) (i1 i3 : Nat) : Nat :=
  ((gapIndices (finalized.getD i1 {}).EndProfileChronoIndex
      (finalized.getD i3 {}).StartProfileChronoIndex).filter
    (fun p => decide (¬ claimedByOther finalized i1 i3 p))).length

/-- The members of every balance area of the list lie between its start and
its end index, as those of the balance areas built by the formation loop
do. -/
def membersWithinBounds (finalized : List s_BalanceArea) : Prop :=
  ∀ b ∈ finalized, ∀ p ∈ b.IncludedProfileIndices,
    b.StartProfileChronoIndex ≤ p ∧ p ≤ b.EndProfileChronoIndex

instance (finalized : List s_BalanceArea) : Decidable (membersWithinBounds finalized) := by
  unfold membersWithinBounds; infer_instance

/-- The temporal-gap criterion of the qualification rule for the triple at
`j`: at most 5 profile indices strictly between the end of the first and the
start of the third balance area are not a member of any other finalized
balance area. -/
def temporalGapOk (finalized : List s_BalanceArea) (j : Nat) : Prop :=
  unclaimedGapCount finalized j (j + 2) ≤ 5

instance (finalized : List s_BalanceArea) (j : Nat) : Decidable (temporalGapOk finalized j) := by
  unfold temporalGapOk; infer_instance

/-- The qualification rule for the triple at positions `j, j+1, j+2`: Strong
overlap; or Full or Partial overlap with a pattern passing containment, shift
and gap-12; or One overlap with such a pattern and the temporal-gap
criterion. -/
def qualifiesAsComposite (inp : StudyInputs) (TickSize : ℚ) (finalized : List s_BalanceArea)
    (j : Nat) : Prop :=
  let ba1 := finalized.getD j {}
  let ba2 := finalized.getD (j + 1) {}
  let ba3 := finalized.getD (j + 2) {}
  overlapClass ba1 ba2 ba3 TickSize = OverlapClass.strongOverlap ∨
  ((overlapClass ba1 ba2 ba3 TickSize = OverlapClass.fullOverlap ∨
      overlapClass ba1 ba2 ba3 TickSize = OverlapClass.twoOverlaps) ∧
    (passesHLH inp TickSize ba1 ba2 ba3 ∨ passesLHL inp TickSize ba1 ba2 ba3)) ∨
  (overlapClass ba1 ba2 ba3 TickSize = OverlapClass.oneOverlap ∧
    (passesHLH inp TickSize ba1 ba2 ba3 ∨ passesLHL inp TickSize ba1 ba2 ba3) ∧
    temporalGapOk finalized j)

instance (inp : StudyInputs) (TickSize : ℚ) (finalized : List s_BalanceArea) (j : Nat) :
    Decidable (qualifiesAsComposite inp TickSize finalized j) := by
  unfold qualifiesAsComposite; infer_instance

/-- The finalized balance areas are runs of profiles of the profile list: the
start index is not negative and not after the end index, the end index is
inside the profile list, and the members lie between start and end, as those
of the balance areas built by the formation loop do. -/
def areasWithinProfiles (SessionProfiles : List s_SessionProfile)
    (finalized : List s_BalanceArea) : Prop :=
  ∀ b ∈ finalized, 0 ≤ b.StartProfileChronoIndex ∧
    b.StartProfileChronoIndex ≤ b.EndProfileChronoIndex ∧
    b.EndProfileChronoIndex < SessionProfiles.length ∧
    ∀ p ∈ b.IncludedProfileIndices, b.StartProfileChronoIndex ≤ p ∧ p ≤ b.EndProfileChronoIndex

instance (SessionProfiles : List s_SessionProfile) (finalized : List s_BalanceArea) :
    Decidable (areasWithinProfiles SessionProfiles finalized) := by
  unfold areasWithinProfiles; infer_instance

/-- A balance area over the profiles `s..e` with the price range `lo..hi` and
the given members. -/
def memberArea (lo hi : ℚ) (s e : Int) (members : List Int) : s_BalanceArea :=
  { StartProfileChronoIndex := s, EndProfileChronoIndex := e, IncludedProfileIndices := members,
    LowestPrice := lo, HighestPrice := hi, ValueAreaLow := lo, ValueAreaHigh := hi, POC := lo }

/-- Three balance areas in the pattern HLH of which only the first and the
third overlap, over the adjoining profiles 0..1, 2..3 and 4..5. -/
def oneOverlapNear : List s_BalanceArea :=
  [memberArea 100 110 0 1 [0, 1], memberArea 85 95 2 3 [2, 3], memberArea 100 110 4 5 [4, 5]]

/-- The same three price ranges over the profiles 0..1, 5..6 and 14..15: of
the twelve profiles between the first and the third, ten belong to no balance
area. -/
def oneOverlapFar : List s_BalanceArea :=
  [memberArea 100 110 0 1 [0, 1], memberArea 85 95 5 6 [5, 6],
   memberArea 100 110 14 15 [14, 15]]

/-- Three balance-area records: one over the profiles 0..1, one over 5..6, and
one with the bounds 7..8 whose member list is `[3]`. -/
def strayMemberAreas : List s_BalanceArea :=
  [{ StartProfileChronoIndex := 0, EndProfileChronoIndex := 1, IncludedProfileIndices := [0, 1] },
   { StartProfileChronoIndex := 5, EndProfileChronoIndex := 6, IncludedProfileIndices := [5, 6] },
   { StartProfileChronoIndex := 7, EndProfileChronoIndex := 8, IncludedProfileIndices := [3] }]

/-- Three balance areas over the profiles 0..1, 3..3 and 6..7. -/
def gappedAreas : List s_BalanceArea :=
  [{ StartProfileChronoIndex := 0, EndProfileChronoIndex := 1, IncludedProfileIndices := [0, 1] },
   { StartProfileChronoIndex := 3, EndProfileChronoIndex := 3, IncludedProfileIndices := [3] },
   { StartProfileChronoIndex := 6, EndProfileChronoIndex := 7, IncludedProfileIndices := [6, 7] }]

/-- The price range of profile `k` passes the validity test of the formation
loop: both ends are set and the high is not below the low. -/
def validProfile (SessionProfiles : List s_SessionProfile) (k : Nat) : Prop :=
  invalidHL (SessionProfiles.getD k {}).HighestPrice (SessionProfiles.getD k {}).LowestPrice
    = false

instance (SessionProfiles : List s_SessionProfile) (k : Nat) :
    Decidable (validProfile SessionProfiles k) := by
  unfold validProfile; infer_instance

/-- Every member in the list is the index of a profile with a valid range. -/
def membersValid (SessionProfiles : List s_SessionProfile) (included : List Int) : Prop :=
  ∀ p ∈ included, ∃ k : Nat, p = (k : Int) ∧ validProfile SessionProfiles k

/-- Every consumed profile has a valid range. -/
def usedValid (SessionProfiles : List s_SessionProfile) (profileUsed : List Bool) : Prop :=
  ∀ x, profileUsed.getD x false = true → validProfile SessionProfiles x

/-- The plain inputs with a volume-overlap threshold of 20 percent. -/
def lowOverlapInputs : StudyInputs := { plainInputs with MinVolOverlap := 20 }

/-- Two sessions: one with the three-level map, one with the single level
11, whose price range is 11..11. -/
def pointSessions : List s_SessionProfile :=
  [sessionOf 0 threeLevels, sessionOf 1 [level 11 2]]

/-- Five sessions of which the third has an unset price range. -/
def brokenSessions : List s_SessionProfile :=
  [sessionOf 0 threeLevels, sessionOf 1 threeLevels, {}, sessionOf 3 threeLevels,
   sessionOf 4 threeLevels]

/-! ## The recalculation test of `scsf_BalanceAreaDetection` -/

/-- The inputs read at lines 961-994 that the recalculation test compares
besides the algorithm parameters of `StudyInputs`. -/
structure DisplayInputs where
  ReferenceStudyID : Int
  NumberOfSessions : Int
  DrawProbeLines : Bool
  HighProbeColor : Nat
  LowProbeColor : Nat
  ProbeLineWidth : Int
  ProbeLineStyle : Int
  ExtendProbeLines : Bool
  DrawCompositeRect : Bool
  DebugCompositeBA : Bool
  DebugBAFormation : Bool
  AllowUserAdjustment : Bool
  DrawActiveBAs : Bool
deriving DecidableEq

/-- The `Last*` fields of `s_BAStudyPersistentData` (lines 148-175) with their
initial values. -/
structure LastInputs where
  LastProfileCount : Int := 0
  LastNumberOfSessions : Int := 0
  LastReferenceStudyID : Int := 0
  LastVAPercentage : ℚ := 0
  LastMinVolOverlap : ℚ := 0
  LastMinVAOverlap : ℚ := 0
  LastRangeSimilarityPercent : ℚ := 0
  LastHighLowTolerancePercent : ℚ := 0
  LastRangeContPercent : ℚ := 0
  LastDrawProbeLines : Bool := false
  LastHighProbeColor : Nat := 0
  LastLowProbeColor : Nat := 0
  LastProbeLineWidth : Int := 0
  LastProbeLineStyle : Int := 0
  LastExtendProbeLines : Bool := false
  LastDebugCompositeBA : Bool := false
  LastDebugBAFormation : Bool := false
  LastDrawCompositeRect : Bool := false
  LastFilterByNormality : Bool := false
  LastMaxAbsSkewness : ℚ := 0
  LastMinExcessKurtosis : ℚ := 0
  LastMaxExcessKurtosis : ℚ := 0
  LastAllowUserAdjustment : Bool := false
  LastDrawActiveBAs : Bool := false
deriving DecidableEq

/-- The persistent data of the study: the remembered inputs and the lists of
the engine. -/
structure StudyState where
  last : LastInputs := {}
  data : s_BAStudyPersistentData := {}
deriving DecidableEq

/-- The flags of the host interface read by the study function. -/
structure HostFlags where
  IsFullRecalculation : Bool := false
  LastCallToFunction : Bool := false
deriving DecidableEq

/-- The initialiser of `needRecalculation` (lines 1148-1171). The statement
ends at line 1171; the expression statement of lines 1172-1173, which compares
`LastDrawActiveBAs`, has no effect and is not part of the value. -/
def needRecalculation (IsFullRecalculation : Bool) (pData : LastInputs)
    (numProfilesCollected : Int) (inp : StudyInputs) (d : DisplayInputs) : Bool :=
  IsFullRecalculation ||
  decide (pData.LastProfileCount ≠ numProfilesCollected) ||
  decide (pData.LastNumberOfSessions ≠ d.NumberOfSessions) ||
  decide (pData.LastReferenceStudyID ≠ d.ReferenceStudyID) ||
  decide (|pData.LastVAPercentage - inp.ValueAreaPercentage| > 1 / 1000) ||
  decide (|pData.LastMinVolOverlap - inp.MinVolOverlap| > 1 / 1000) ||
  decide (|pData.LastMinVAOverlap - inp.MinVAOverlap| > 1 / 1000) ||
  decide (|pData.LastRangeSimilarityPercent - inp.RangeSimilarityPercent| > 1 / 1000) ||
  decide (|pData.LastHighLowTolerancePercent - inp.HighLowTolerancePercent| > 1 / 1000) ||
  decide (|pData.LastRangeContPercent - inp.RangeContainmentPercent| > 1 / 1000) ||
  decide (pData.LastDrawProbeLines ≠ d.DrawProbeLines) ||
  decide (pData.LastHighProbeColor ≠ d.HighProbeColor) ||
  decide (pData.LastLowProbeColor ≠ d.LowProbeColor) ||
  decide (pData.LastProbeLineWidth ≠ d.ProbeLineWidth) ||
  decide (pData.LastProbeLineStyle ≠ d.ProbeLineStyle) ||
  decide (pData.LastExtendProbeLines ≠ d.ExtendProbeLines) ||
  decide (pData.LastDrawCompositeRect ≠ d.DrawCompositeRect) ||
  decide (pData.LastDebugCompositeBA ≠ d.DebugCompositeBA) ||
  decide (pData.LastDebugBAFormation ≠ d.DebugBAFormation) ||
  decide (pData.LastFilterByNormality ≠ inp.FilterByNormality) ||
  decide (|pData.LastMaxAbsSkewness - inp.MaxAbsSkewness| > 1 / 1000) ||
  decide (|pData.LastMinExcessKurtosis - inp.MinExcessKurtosis| > 1 / 1000) ||
  decide (|pData.LastMaxExcessKurtosis - inp.MaxExcessKurtosis| > 1 / 1000) ||
  decide (pData.LastAllowUserAdjustment ≠ d.AllowUserAdjustment)

/-- The assignments of lines 1209-1233: the current inputs are remembered. -/
def storeInputs (numProfilesCollected : Int) (inp : StudyInputs) (d : DisplayInputs) :
    LastInputs :=
  { LastAllowUserAdjustment := d.AllowUserAdjustment
    LastProfileCount := numProfilesCollected
    LastNumberOfSessions := d.NumberOfSessions
    LastReferenceStudyID := d.ReferenceStudyID
    LastVAPercentage := inp.ValueAreaPercentage
    LastMinVolOverlap := inp.MinVolOverlap
    LastMinVAOverlap := inp.MinVAOverlap
    LastRangeSimilarityPercent := inp.RangeSimilarityPercent
    LastHighLowTolerancePercent := inp.HighLowTolerancePercent
    LastRangeContPercent := inp.RangeContainmentPercent
    LastDrawProbeLines := d.DrawProbeLines
    LastHighProbeColor := d.HighProbeColor
    LastLowProbeColor := d.LowProbeColor
    LastProbeLineWidth := d.ProbeLineWidth
    LastProbeLineStyle := d.ProbeLineStyle
    LastExtendProbeLines := d.ExtendProbeLines
    LastDrawCompositeRect := d.DrawCompositeRect
    LastDebugCompositeBA := d.DebugCompositeBA
    LastDebugBAFormation := d.DebugBAFormation
    LastFilterByNormality := inp.FilterByNormality
    LastMaxAbsSkewness := inp.MaxAbsSkewness
    LastMinExcessKurtosis := inp.MinExcessKurtosis
    LastMaxExcessKurtosis := inp.MaxExcessKurtosis
    LastDrawActiveBAs := d.DrawActiveBAs }

/-- One call of the study function `scsf_BalanceAreaDetection` after the
defaults call (lines 961-1925), as far as the persistent data goes; the
profiles loaded from the reference study in this call are `SessionProfiles`.
The call returns early on a missing study reference, a tick size that is not
positive, the removal of the study, or when no profile could be loaded. -/
def scsf_BalanceAreaDetection (sc : SCStudyInterface) (flags : HostFlags) (sqrtf : ℚ → ℚ)
    (inp : StudyInputs) (d : DisplayInputs) (SessionProfiles : List s_SessionProfile)
    (pData : StudyState) : StudyState :=
  if d.ReferenceStudyID ≤ 0 then pData
  else if sc.TickSize ≤ 0 then pData
  else if flags.LastCallToFunction then
    { pData with data := { pData.data with ActiveBalanceAreas := [] } }
  else if SessionProfiles.isEmpty && decide (d.NumberOfSessions > 0) then pData
  else
    let numProfilesCollected : Int := SessionProfiles.length
    let rebuilt : StudyState :=
      if needRecalculation flags.IsFullRecalculation pData.last numProfilesCollected inp d then
        { last := storeInputs numProfilesCollected inp d
          data := rebuildState sc inp sqrtf SessionProfiles }
      else pData
    { rebuilt with data := lifecyclePass sc inp.PBALPierceThreshold rebuilt.data }

/-- Display inputs for the examples: study 1, five sessions, nothing drawn. -/
def plainDisplay : DisplayInputs :=
  { ReferenceStudyID := 1, NumberOfSessions := 5, DrawProbeLines := false, HighProbeColor := 0,
    LowProbeColor := 0, ProbeLineWidth := 1, ProbeLineStyle := 0, ExtendProbeLines := false,
    DrawCompositeRect := false, DebugCompositeBA := false, DebugBAFormation := false,
    AllowUserAdjustment := false, DrawActiveBAs := true }

/-- The persistent data after the first call on the five sessions. -/
def firstCallState : StudyState :=
  scsf_BalanceAreaDetection chartFive {} (fun x => x) plainInputs plainDisplay fiveSessions {}

/-- Some algorithm parameter that the recalculation test compares differs from
its remembered value: a numeric parameter by more than 0.001, or the normality
toggle. -/
def comparedParameterChanged (pData : LastInputs) (inp : StudyInputs) : Prop :=
  |pData.LastVAPercentage - inp.ValueAreaPercentage| > 1 / 1000 ∨
  |pData.LastMinVolOverlap - inp.MinVolOverlap| > 1 / 1000 ∨
  |pData.LastMinVAOverlap - inp.MinVAOverlap| > 1 / 1000 ∨
  |pData.LastRangeSimilarityPercent - inp.RangeSimilarityPercent| > 1 / 1000 ∨
  |pData.LastHighLowTolerancePercent - inp.HighLowTolerancePercent| > 1 / 1000 ∨
  |pData.LastRangeContPercent - inp.RangeContainmentPercent| > 1 / 1000 ∨
  pData.LastFilterByNormality ≠ inp.FilterByNormality ∨
  |pData.LastMaxAbsSkewness - inp.MaxAbsSkewness| > 1 / 1000 ∨
  |pData.LastMinExcessKurtosis - inp.MinExcessKurtosis| > 1 / 1000 ∨
  |pData.LastMaxExcessKurtosis - inp.MaxExcessKurtosis| > 1 / 1000

instance (pData : LastInputs) (inp : StudyInputs) :
    Decidable (comparedParameterChanged pData inp) := by
  unfold comparedParameterChanged; infer_instance

/-! ## Drawing identifiers -/

/-- The line number of the rectangle of an active balance area (lines 1931
and 1984). -/
def activeRectLineNumber (activeBa : s_BalanceArea) : Int :=
  50000 + activeBa.StartProfileChronoIndex * 100 + activeBa.EndProfileChronoIndex

/-- The line number of a PBAL ray (lines 1941 and 2056). -/
def pbalLineNumber (pbal : s_PBALDrawingInfo) : Int :=
  60000 + pbal.OriginStartProfileIndex * 100 + pbal.OriginEndProfileIndex +
    (if pbal.IsHigh then 50 else 0)

/-- The profile indices of the balance area lie in `0..499`, the range allowed
by the limits of the input for the number of sessions (line 854). -/
def indicesInRange (b : s_BalanceArea) : Prop :=
  0 ≤ b.StartProfileChronoIndex ∧ b.StartProfileChronoIndex ≤ b.EndProfileChronoIndex ∧
    b.EndProfileChronoIndex ≤ 499

instance (b : s_BalanceArea) : Decidable (indicesInRange b) := by
  unfold indicesInRange; infer_instance

/-- The two balance areas share no profile: one ends before the other
starts. -/
def nonOverlapping (a b : s_BalanceArea) : Prop :=
  a.EndProfileChronoIndex < b.StartProfileChronoIndex ∨
    b.EndProfileChronoIndex < a.StartProfileChronoIndex

instance (a b : s_BalanceArea) : Decidable (nonOverlapping a b) := by
  unfold nonOverlapping; infer_instance

/-- A balance area over the profiles `s..e` with the value area 90..100. -/
def profileArea (s e : Int) : s_BalanceArea :=
  { StartProfileChronoIndex := s, EndProfileChronoIndex := e, ValueAreaHigh := 100,
    ValueAreaLow := 90, HighestPrice := 102, LowestPrice := 88 }

/-- The fields of a finalized balance area that the formation writes and the
lifecycle engine only reads. -/
def sameFormation (f g : s_BalanceArea) : Prop :=
  g.StartProfileChronoIndex = f.StartProfileChronoIndex ∧
  g.EndProfileChronoIndex = f.EndProfileChronoIndex ∧
  g.StartBarIndex = f.StartBarIndex ∧ g.EndBarIndex = f.EndBarIndex ∧
  g.IncludedProfileIndices = f.IncludedProfileIndices ∧
  g.POC = f.POC ∧ g.ValueAreaHigh = f.ValueAreaHigh ∧ g.ValueAreaLow = f.ValueAreaLow ∧
  g.HighestPrice = f.HighestPrice ∧ g.LowestPrice = f.LowestPrice ∧
  g.TotalVolume = f.TotalVolume

/-- Neither activation flag of the balance area is set. -/
def flagsClear (b : s_BalanceArea) : Prop := b.ActivatedHigh = false ∧ b.ActivatedLow = false

/-- Exactly one activation flag of the balance area is set, and it is the one
named by `ActivationType`. -/
def oneSideSet (b : s_BalanceArea) : Prop :=
  (b.ActivatedHigh = true ∧ b.ActivatedLow = false ∧ b.ActivationType = "Break_High") ∨
  (b.ActivatedHigh = false ∧ b.ActivatedLow = true ∧ b.ActivationType = "Break_Low")

instance (b : s_BalanceArea) : Decidable (flagsClear b) := by
  unfold flagsClear; infer_instance

instance (b : s_BalanceArea) : Decidable (oneSideSet b) := by
  unfold oneSideSet; infer_instance

/-- The activation flags of the finalized balance areas agree with
`IsActivated`: none is set before the activation and exactly one after it. -/
def flagsInv (st : s_BAStudyPersistentData) : Prop :=
  ∀ f ∈ st.FinalizedBalanceAreas,
    (f.IsActivated = false → flagsClear f) ∧ (f.IsActivated = true → oneSideSet f)

/-- A chart of 100 bars with highs at 95 and lows at 93, except for bar 60
with a high of 101 and a low of 89; tick size 0.25. -/
def chartBoth : SCStudyInterface :=
  { ArraySize := 100
    High := fun i => if i = 60 then 101 else 95
    Low := fun i => if i = 60 then 89 else 93
    Close := fun _ => 94
    BaseDateTimeIn := fun i => i
    TickSize := 1 / 4 }

/-- Distinct keys of the map differ by at least one tick, as prices rounded to
the tick size do. -/
def keysOneTickApart (priceMap : PriceVolumeMap) (TickSize : ℚ) : Prop :=
  ∀ a ∈ priceMap, ∀ b ∈ priceMap, a.1 ≠ b.1 → TickSize ≤ |a.1 - b.1|

instance (priceMap : PriceVolumeMap) (TickSize : ℚ) :
    Decidable (keysOneTickApart priceMap TickSize) := by
  unfold keysOneTickApart; infer_instance

/-- The keys of the map are values of the type `float`: they lie between
`-FLT_MAX` and `FLT_MAX`. -/
def finiteKeys (priceMap : PriceVolumeMap) : Prop :=
  ∀ e ∈ priceMap, -FLT_MAX ≤ e.1 ∧ e.1 ≤ FLT_MAX

instance (priceMap : PriceVolumeMap) : Decidable (finiteKeys priceMap) := by
  unfold finiteKeys; infer_instance

/-! ## Sealed candidates of the formation loop -/

/-- The state at the end of the extension loop of the initiation attempt at
profile `i` (lines 1247-1506), when the pair `i, i+1` starts a balance area;
the sealed candidate is its `currentBA`. -/
def sealedAt (sc : SCStudyInterface) (inp : StudyInputs)
    (SessionProfiles : List s_SessionProfile) (i : Nat) (s : FormationState) :
    Option ExtensionState :=
  if invalidHL (SessionProfiles.getD i {}).HighestPrice (SessionProfiles.getD i {}).LowestPrice ||
      invalidHL (SessionProfiles.getD (i + 1) {}).HighestPrice
        (SessionProfiles.getD (i + 1) {}).LowestPrice then none
  else
    match initiationReason inp sc.TickSize (SessionProfiles.getD i {})
        (SessionProfiles.getD (i + 1) {}) with
    | none => none
    | some reason =>
      if invalidHL (initialCandidate sc inp SessionProfiles i reason).HighestPrice
          (initialCandidate sc inp SessionProfiles i reason).LowestPrice then none
      else
        some (extensionProfiles sc inp SessionProfiles (SessionProfiles.length - (i + 2)) (i + 2)
          (extensionStart sc inp SessionProfiles i reason s))

/-- The candidates sealed by the initiation loop with `n` iterations left from
index `i`, finalized or discarded, in the order in which they are sealed. -/
def sealedCandidates (sc : SCStudyInterface) (inp : StudyInputs) (sqrtf : ℚ → ℚ)
    (SessionProfiles : List s_SessionProfile) : Nat → Nat → FormationState → List s_BalanceArea
  | 0, _, _ => []
  | n + 1, i, s =>
    if s.profileUsed.getD i false then sealedCandidates sc inp sqrtf SessionProfiles n (i + 1) s
    else if i + 1 ≥ SessionProfiles.length then []
    else
      ((sealedAt sc inp SessionProfiles i s).map (fun e => e.currentBA)).toList ++
        sealedCandidates sc inp sqrtf SessionProfiles n (i + 1)
          (formationBody sc inp sqrtf SessionProfiles i s)

/-- The candidates sealed by the formation of a recalculation. -/
def formedCandidates (sc : SCStudyInterface) (inp : StudyInputs) (sqrtf : ℚ → ℚ)
    (SessionProfiles : List s_SessionProfile) : List s_BalanceArea :=
  sealedCandidates sc inp sqrtf SessionProfiles SessionProfiles.length 0
    { profileUsed := List.replicate SessionProfiles.length false }

/-- The candidate `c` of a list of `N` profiles is the contiguous run `a..e`
of at least two profiles, starts at or after `lo` and after every profile
flagged in `used`, and all its members are flagged in `final`. -/
def candidateOk (N lo : Nat) (used final : List Bool) (c : s_BalanceArea) : Prop :=
  ∃ a e : Nat, a + 1 ≤ e ∧ e < N ∧ lo ≤ a ∧ c.StartProfileChronoIndex = a ∧
    c.EndProfileChronoIndex = e ∧ c.IncludedProfileIndices = profileRun a e ∧
    (∀ x, used.getD x false = true → x < a) ∧
    (∀ x, a ≤ x → x ≤ e → final.getD x false = true)

/-- The inputs of the examples with the normality filter switched on. -/
def filterInputs : StudyInputs := { plainInputs with FilterByNormality := true }

/-- The bars of an activated balance area are in order: it is activated after
its last formation bar, its extension does not end before the activation bar,
and a cut ends it strictly after the activation bar. -/
def barsOrdered (b : s_BalanceArea) : Prop :=
  b.EndBarIndex < b.ActivationBarIndex ∧ b.ActivationBarIndex ≤ b.ExtensionEndIndex ∧
    (b.WasCut = true → b.ActivationBarIndex < b.ExtensionEndIndex)

instance (b : s_BalanceArea) : Decidable (barsOrdered b) := by
  unfold barsOrdered; infer_instance

/-- The active entry `a` is the copy of an activated finalized balance area:
same key, activation bar and last formation bar. -/
def hasCounterpart (finalized : List s_BalanceArea) (a : s_BalanceArea) : Prop :=
  ∃ f ∈ finalized, keyOf f = keyOf a ∧ f.IsActivated = true ∧
    f.ActivationBarIndex = a.ActivationBarIndex ∧ f.EndBarIndex = a.EndBarIndex

/-- The invariant of the lifecycle engine on the bar indices: finalized
balance areas have pairwise different keys, every active entry is activated,
has its bars in order and is the copy of a finalized balance area, and every
activated finalized balance area has its bars in order. -/
def ActivationInv (st : s_BAStudyPersistentData) : Prop :=
  (st.FinalizedBalanceAreas.map keyOf).Nodup ∧
  (∀ a ∈ st.ActiveBalanceAreas,
    a.IsActivated = true ∧ barsOrdered a ∧ hasCounterpart st.FinalizedBalanceAreas a) ∧
  (∀ f ∈ st.FinalizedBalanceAreas, f.IsActivated = true → barsOrdered f)

/-- The relation `cutRel` with the position of the cut: an entry is cut
strictly after its activation bar, at the activation bar of a balance area of
the lists `finalized` and `later` that was activated strictly later. -/
def cutRelStrict (finalized later : List s_BalanceArea) (a a1 : s_BalanceArea) : Prop :=
  a1 = a ∨ (a.IsExtending = true ∧ ∃ X, (X ∈ finalized ∨ X ∈ later) ∧
    a.ActivationBarIndex < X.ActivationBarIndex ∧ X.ActivationBarIndex < a.ExtensionEndIndex ∧
    a1 = applyCut a X.ActivationBarIndex)

/-- The origin balance area and the side of a ray: what the line number of the
ray is computed from. -/
def rayKey (r : s_PBALDrawingInfo) : (Int × Int) × Bool :=
  ((r.OriginStartProfileIndex, r.OriginEndProfileIndex), r.IsHigh)

/-- The invariant of the lifecycle engine on the rays: no two rays have the
same origin and side, and the origin of every ray is an active balance area
that has been cut. -/
def RayInv (st : s_BAStudyPersistentData) : Prop :=
  (st.PBALsToDraw.map rayKey).Nodup ∧
  ∀ r ∈ st.PBALsToDraw, ∃ a ∈ st.ActiveBalanceAreas, keyOf a = (rayKey r).1 ∧ a.WasCut = true

/-! ## `UpdateBAExtensions` without the scan over the later active entries -/

/-- The cut search with the second scan (lines 687-707) removed: only the scan
over `FinalizedBalanceAreas` is left. -/
def cutSearchFinalizedOnly (sc : SCStudyInterface) (finalized : List s_BalanceArea)
    (TickSize : ℚ) (activeBa : s_BalanceArea) : CutScan :=
  finalized.foldl (cutScanFinalized activeBa TickSize) { earliestCutPoint := sc.ArraySize - 1 }

/-- The loop body `cutStep` with the second scan removed. -/
def cutStepFinalizedOnly (sc : SCStudyInterface) (TickSize PBALPierceThreshold : ℚ)
    (pData : s_BAStudyPersistentData) (activeBa : s_BalanceArea) :
    s_BalanceArea × s_BAStudyPersistentData :=
  if !activeBa.IsExtending then (activeBa, pData)
  else
    let s := cutSearchFinalizedOnly sc pData.FinalizedBalanceAreas TickSize activeBa
    if s.shouldCut = true ∧ s.earliestCutPoint < activeBa.ExtensionEndIndex then
      let cut := applyCut activeBa s.earliestCutPoint
      (cut,
        if s.foundIntersectingBA then
          CheckForPBALCreation sc pData cut s.intersectingBA PBALPierceThreshold TickSize
        else pData)
    else (activeBa, pData)

/-- The loop `extensionLoop` with the second scan removed. -/
def extensionLoopFinalizedOnly (sc : SCStudyInterface) (TickSize PBALPierceThreshold : ℚ) :
    List s_BalanceArea → s_BAStudyPersistentData → List s_BalanceArea × s_BAStudyPersistentData
  | [], pData => ([], pData)
  | activeBa :: later, pData =>
    let r := cutStepFinalizedOnly sc TickSize PBALPierceThreshold pData activeBa
    let t := extensionLoopFinalizedOnly sc TickSize PBALPierceThreshold later r.2
    (r.1 :: t.1, t.2)

/-- The function `UpdateBAExtensions` with the second scan removed. -/
def UpdateBAExtensionsFinalizedOnly (sc : SCStudyInterface) (pData : s_BAStudyPersistentData)
    (TickSize PBALPierceThreshold : ℚ) : s_BAStudyPersistentData :=
  let sorted := sortByActivation pData.ActiveBalanceAreas
  let r := extensionLoopFinalizedOnly sc TickSize PBALPierceThreshold sorted
    { pData with ActiveBalanceAreas := sorted }
  { r.2 with
    ActiveBalanceAreas := r.1
    FinalizedBalanceAreas := r.2.FinalizedBalanceAreas.map (syncFinalized r.1) }

/-- The entry `a` has a finalized counterpart with `IsActivated = true` and
the same `ActivationBarIndex`, `ValueAreaHigh` and `ValueAreaLow`. -/
def hasActivatedTwin (finalized : List s_BalanceArea) (a : s_BalanceArea) : Prop :=
  ∃ f ∈ finalized, f.IsActivated = true ∧ f.ActivationBarIndex = a.ActivationBarIndex ∧
    f.ValueAreaHigh = a.ValueAreaHigh ∧ f.ValueAreaLow = a.ValueAreaLow

instance (finalized : List s_BalanceArea) (a : s_BalanceArea) :
    Decidable (hasActivatedTwin finalized a) := by
  unfold hasActivatedTwin; infer_instance

/-- Every entry of `ActiveBalanceAreas` has an activated finalized
counterpart. -/
def activeHaveTwins (pData : s_BAStudyPersistentData) : Prop :=
  ∀ a ∈ pData.ActiveBalanceAreas, hasActivatedTwin pData.FinalizedBalanceAreas a

instance (pData : s_BAStudyPersistentData) : Decidable (activeHaveTwins pData) := by
  unfold activeHaveTwins; infer_instance

/-- The state `stateAB` after the activation pass on the chart of 100 bars
whose bar 80 activates `areaB`. -/
def stateABActivated : s_BAStudyPersistentData :=
  CheckForBAActivation (chartB 100 80) stateAB (1 / 4)

/-! ## `CalculateProfileMetrics` with the rounding of `float` arithmetic -/

/-- Body of the first loop with rounded arithmetic: `rnd` is the rounding of a
result to the type `float`, applied to every sum and difference and to the
literal `0.00001f`. -/
def scanLevelRounded (rnd : ℚ → ℚ) (s : MetricsScan) (e : ℚ × s_PriceLevelVolume) :
    MetricsScan :=
  let price := e.1
  let volume := e.2.TotalVolume
  if volume > rnd VOL_EPS then
    let s1 : MetricsScan :=
      { s with totalVolume := rnd (s.totalVolume + volume),
               priceVolPairs := s.priceVolPairs ++ [(price, volume)] }
    let s2 : MetricsScan :=
      if volume > s1.maxVolumeAtPOC then { s1 with maxVolumeAtPOC := volume, poc := price }
      else if |rnd (volume - s1.maxVolumeAtPOC)| < rnd VOL_EPS ∧ price > s1.poc then
        { s1 with poc := price }
      else s1
    let s3 : MetricsScan :=
      if price > s2.highestPrice then { s2 with highestPrice := price } else s2
    if price < s3.lowestPrice then { s3 with lowestPrice := price } else s3
  else s

/-- Body of the fallback POC search with rounded arithmetic. -/
def pocFallbackStepRounded (rnd : ℚ → ℚ) (s : PocScan) (ie : Nat × (ℚ × ℚ)) : PocScan :=
  if ie.2.2 > s.maxVolumeAtPOC then { maxVolumeAtPOC := ie.2.2, pocIndex := ie.1, poc := ie.2.1 }
  else if |rnd (ie.2.2 - s.maxVolumeAtPOC)| < rnd VOL_EPS ∧ ie.2.1 > s.poc then
    { s with pocIndex := ie.1, poc := ie.2.1 }
  else s

/-- One execution of the body of the expansion loop with rounded
arithmetic. -/
def vaBodyRounded (rnd : ℚ → ℚ) (pairs : List (ℚ × ℚ)) (s : VAState) : VAState × Bool :=
  let canGoHigher : Bool := decide (s.upperIndex + 1 < pairs.length)
  let canGoLower : Bool := decide (s.lowerIndex > 0)
  if !canGoHigher && !canGoLower then (s, false)
  else
    let higherVol : ℚ := if canGoHigher then (pairs.getD (s.upperIndex + 1) (0, 0)).2 else 0
    let lowerVol : ℚ := if canGoLower then (pairs.getD (s.lowerIndex - 1) (0, 0)).2 else 0
    let r : Option VAState :=
      if canGoHigher ∧ canGoLower ∧ higherVol > rnd VOL_EPS ∧
          |rnd (higherVol - lowerVol)| < rnd VOL_EPS then
        some { currentVolumeInVA := rnd (s.currentVolumeInVA + rnd (higherVol + lowerVol)),
               valueAreaHigh := (pairs.getD (s.upperIndex + 1) (0, 0)).1,
               valueAreaLow := (pairs.getD (s.lowerIndex - 1) (0, 0)).1,
               upperIndex := s.upperIndex + 1,
               lowerIndex := s.lowerIndex - 1 }
      else if canGoHigher ∧ (¬ canGoLower ∨ higherVol ≥ lowerVol) then
        some (if higherVol > rnd VOL_EPS then
                { s with currentVolumeInVA := rnd (s.currentVolumeInVA + higherVol),
                         valueAreaHigh := (pairs.getD (s.upperIndex + 1) (0, 0)).1,
                         upperIndex := s.upperIndex + 1 }
              else { s with upperIndex := s.upperIndex + 1 })
      else if canGoLower then
        some (if lowerVol > rnd VOL_EPS then
                { s with currentVolumeInVA := rnd (s.currentVolumeInVA + lowerVol),
                         valueAreaLow := (pairs.getD (s.lowerIndex - 1) (0, 0)).1,
                         lowerIndex := s.lowerIndex - 1 }
              else { s with lowerIndex := s.lowerIndex - 1 })
      else none
    match r with
    | none => (s, false)
    | some t =>
      if t.lowerIndex > t.upperIndex ∧ (t.lowerIndex ≠ 0 ∨ t.upperIndex ≠ pairs.length - 1) then
        (t, false)
      else (t, true)

/-- The expansion loop with rounded arithmetic, run for at most `fuel`
iterations. -/
def vaLoopRounded (rnd : ℚ → ℚ) (pairs : List (ℚ × ℚ)) (targetVolume : ℚ) :
    Nat → VAState → VAState
  | 0, s => s
  | fuel + 1, s =>
    if s.currentVolumeInVA < targetVolume then
      match vaBodyRounded rnd pairs s with
      | (t, true) => vaLoopRounded rnd pairs targetVolume fuel t
      | (t, false) => t
    else s

/-- The function `CalculateProfileMetrics` (lines 380-509) with rounded
arithmetic: `rnd` is applied to the result of every arithmetic operation on
`float` values (lines 396, 401, 427, 442, 456, 465, 484-498) and to the literal
`0.00001f`; comparisons, copies and the sort are exact.  With the identity as
`rnd` this is `CalculateProfileMetricsRun`. -/
def CalculateProfileMetricsRunRounded (rnd : ℚ → ℚ) (priceMap : PriceVolumeMap)
    (valueAreaPercentage TickSize : ℚ) : MetricsRun :=
  if priceMap.isEmpty then { out := {} }
  else
    let sc := priceMap.foldl (scanLevelRounded rnd) {}
    if sc.totalVolume ≤ rnd VOL_EPS ∨ sc.priceVolPairs.isEmpty then
      let k := priceMap.foldl scanKey (true, sc.highestPrice, sc.lowestPrice)
      let highestPrice := k.2.1
      let lowestPrice := k.2.2
      if highestPrice > -FLT_MAX ∧ lowestPrice < FLT_MAX ∧ highestPrice ≥ lowestPrice then
        { out := { poc := rnd (lowestPrice + rnd (rnd (highestPrice - lowestPrice) / 2)),
                   valueAreaHigh := highestPrice, valueAreaLow := lowestPrice,
                   highestPrice := highestPrice, lowestPrice := lowestPrice,
                   totalVolume := sc.totalVolume } }
      else
        { out := { poc := 0, valueAreaHigh := 0, valueAreaLow := 0,
                   highestPrice := -FLT_MAX, lowestPrice := FLT_MAX,
                   totalVolume := sc.totalVolume } }
    else
      let pairs := sortByPrice sc.priceVolPairs
      let found := pairs.findIdx? (fun p => decide (|rnd (p.1 - sc.poc)| < rnd (TickSize / 2)))
      let ps : PocScan :=
        match found with
        | some i => { maxVolumeAtPOC := sc.maxVolumeAtPOC, pocIndex := i, poc := sc.poc }
        | none =>
          pairs.enum.foldl (pocFallbackStepRounded rnd)
            { maxVolumeAtPOC := 0, pocIndex := 0, poc := (pairs.getD 0 (0, 0)).1 }
      let targetVolume := rnd (sc.totalVolume * rnd (valueAreaPercentage / 100))
      let start : VAState :=
        if ps.pocIndex < pairs.length then
          { currentVolumeInVA := (pairs.getD ps.pocIndex (0, 0)).2,
            valueAreaHigh := ps.poc, valueAreaLow := ps.poc,
            upperIndex := ps.pocIndex, lowerIndex := ps.pocIndex }
        else
          { currentVolumeInVA := (pairs.getD 0 (0, 0)).2,
            valueAreaHigh := (pairs.getD 0 (0, 0)).1, valueAreaLow := (pairs.getD 0 (0, 0)).1,
            upperIndex := 0, lowerIndex := 0 }
      let poc := if ps.pocIndex < pairs.length then ps.poc else (pairs.getD 0 (0, 0)).1
      let fin := vaLoopRounded rnd pairs targetVolume pairs.length start
      { out := { poc := poc, valueAreaHigh := fin.valueAreaHigh, valueAreaLow := fin.valueAreaLow,
                 highestPrice := sc.highestPrice, lowestPrice := sc.lowestPrice,
                 totalVolume := sc.totalVolume },
        priceVolPairs := pairs, targetVolume := targetVolume, va := some fin }

/-- The outputs of `CalculateProfileMetrics` with rounded arithmetic. -/
def CalculateProfileMetricsRounded (rnd : ℚ → ℚ) (priceMap : PriceVolumeMap)
    (valueAreaPercentage TickSize : ℚ) : ProfileMetrics :=
  (CalculateProfileMetricsRunRounded rnd priceMap valueAreaPercentage TickSize).out

/-- The position of the leading binary digit of `n`: the largest `e` with
`2 ^ e ≤ n`, for `0 < n < 2 ^ fuel`. -/
def log2Floor : Nat → Nat → Nat
  | 0, _ => 0
  | fuel + 1, n => if n < 2 then 0 else log2Floor fuel (n / 2) + 1

/-- The binary exponent of a positive rational `a`: the integer `e` with
`2 ^ e ≤ a < 2 ^ (e + 1)`. -/
def binaryExponent (a : ℚ) : Int :=
  if 1 ≤ a then (log2Floor a.num.toNat (a.num.toNat / a.den) : Int)
  else
    let k := log2Floor a.den (a.den / a.num.toNat)
    if a.den = 2 ^ k * a.num.toNat then -(k : Int) else -(k : Int) - 1

/-- The power `2 ^ e` for an integer exponent `e`. -/
def twoPow (e : Int) : ℚ :=
  if 0 ≤ e then ((2 ^ e.toNat : Nat) : ℚ) else 1 / ((2 ^ (-e).toNat : Nat) : ℚ)

/-- Rounding of a rational `x ≥ 0` to the nearest whole number, a tie going to
the even one. -/
def roundHalfEven (x : ℚ) : Nat :=
  let f := x.num.toNat / x.den
  let r := x - f
  if r < 1 / 2 then f else if 1 / 2 < r then f + 1 else if f % 2 = 0 then f else f + 1

/-- Rounding to the nearest binary floating-point number with a significand of
`p` digits, ties to even (the default rounding of IEEE 754).  The exponent
range is not limited: overflow and subnormal numbers are not modelled. -/
def roundToPrecision (p : Nat) (x : ℚ) : ℚ :=
  if x = 0 then 0
  else
    let q := twoPow (binaryExponent |x| - ((p : Int) - 1))
    let n := (roundHalfEven (|x| / q) : ℚ) * q
    if x < 0 then -n else n

/-- Rounding to the type `float` (IEEE 754 binary32, significand of 24
digits). -/
def roundFloat (x : ℚ) : ℚ := roundToPrecision 24 x

/-- A map with the levels 10, 11 and 12 of volumes 16777216 (2 ^ 24), 1 and 1,
enumerated in this order. -/
def largeVolumeLevels : PriceVolumeMap := [level 10 16777216, level 11 1, level 12 1]

/-- The same map enumerated in the order 11, 12, 10. -/
def largeVolumeLevelsReordered : PriceVolumeMap := [level 11 1, level 12 1, level 10 16777216]

/-- The rational `x` is a whole number that is not negative. -/
def isWhole (x : ℚ) : Prop := x.den = 1 ∧ 0 ≤ x

instance (x : ℚ) : Decidable (isWhole x) := by
  unfold isWhole; infer_instance

/-- Every volume of the map is a whole number, as the volumes the loader
copies from the host are. -/
def wholeVolumes (m : PriceVolumeMap) : Prop := ∀ e ∈ m, isWhole e.2.TotalVolume

instance (m : PriceVolumeMap) : Decidable (wholeVolumes m) := by
  unfold wholeVolumes; infer_instance

/-- The sum of the volumes of all levels of the map. -/
def mapVolume (m : PriceVolumeMap) : ℚ := (m.map (fun e => e.2.TotalVolume)).sum

/-- The rounding `rnd` leaves the sums of the volumes of the map exact: the
volumes are whole numbers, the rounded literal `0.00001f` lies strictly between
0 and 1, and `rnd` is exact on every whole number up to the total volume of the
map and on its negative. -/
def exactVolumeSums (rnd : ℚ → ℚ) (m : PriceVolumeMap) : Prop :=
  wholeVolumes m ∧ (0 < rnd VOL_EPS ∧ rnd VOL_EPS < 1) ∧
  ∀ n : Nat, (n : ℚ) ≤ mapVolume m → rnd n = n ∧ rnd (-(n : ℚ)) = -(n : ℚ)

/-- The half-tick test of line 442 gives the same answer with rounded as with
exact arithmetic on the keys of the map. -/
def halfTickTestExact (rnd : ℚ → ℚ) (m : PriceVolumeMap) (TickSize : ℚ) : Prop :=
  ∀ a ∈ m, ∀ b ∈ m, (|rnd (a.1 - b.1)| < rnd (TickSize / 2)) ↔ (|a.1 - b.1| < TickSize / 2)

instance (rnd : ℚ → ℚ) (m : PriceVolumeMap) (TickSize : ℚ) :
    Decidable (halfTickTestExact rnd m TickSize) := by
  unfold halfTickTestExact; infer_instance

/-- The keys of the map are on the tick grid: every key is a whole multiple of
the tick size, as the prices rounded by `sc.RoundToTickSize` (line 1092)
are. -/
def onTickGrid (priceMap : PriceVolumeMap) (TickSize : ℚ) : Prop :=
  ∀ e ∈ priceMap, (e.1 / TickSize).den = 1

instance (priceMap : PriceVolumeMap) (TickSize : ℚ) :
    Decidable (onTickGrid priceMap TickSize) := by
  unfold onTickGrid; infer_instance

/-- The volume profiles of all sessions have their keys on the tick grid. -/
def sessionsOnTickGrid (SessionProfiles : List s_SessionProfile) (TickSize : ℚ) : Prop :=
  ∀ p ∈ SessionProfiles, onTickGrid p.PriceMap TickSize

instance (SessionProfiles : List s_SessionProfile) (TickSize : ℚ) :
    Decidable (sessionsOnTickGrid SessionProfiles TickSize) := by
  unfold sessionsOnTickGrid; infer_instance

/-- A balance area with the price range `lo..hi` narrower than any tick used
here. -/
def narrowArea (lo hi : ℚ) : s_BalanceArea :=
  { StartProfileChronoIndex := 0, EndProfileChronoIndex := 1, IncludedProfileIndices := [0, 1],
    HighestPrice := hi, LowestPrice := lo, ValueAreaHigh := hi, ValueAreaLow := lo, POC := lo }

/-! ## `UpdateBAExtensions` with an arbitrary sort -/

/-- What the call of `std::sort` at line 650 guarantees of its result `srt l`:
it is a permutation of `l` in nondecreasing order of `ActivationBarIndex`.  The
order in which entries with equal `ActivationBarIndex` are left is not
specified (`std::sort` is not stable). -/
def sortsByActivation (srt : List s_BalanceArea → List s_BalanceArea) : Prop :=
  ∀ l, (srt l).Perm l ∧
    (srt l).Sorted (fun a b => a.ActivationBarIndex ≤ b.ActivationBarIndex)

/-- The function `UpdateBAExtensions` (lines 648-740) with the call of
`std::sort` given as `srt`; `UpdateBAExtensions` is the instance with the
stable insertion sort. -/
def UpdateBAExtensionsWith (srt : List s_BalanceArea → List s_BalanceArea)
    (sc : SCStudyInterface) (pData : s_BAStudyPersistentData)
    (TickSize PBALPierceThreshold : ℚ) : s_BAStudyPersistentData :=
  let sorted := srt pData.ActiveBalanceAreas
  let r := extensionLoop sc TickSize PBALPierceThreshold sorted
    { pData with ActiveBalanceAreas := sorted }
  { r.2 with
    ActiveBalanceAreas := r.1
    FinalizedBalanceAreas := r.2.FinalizedBalanceAreas.map (syncFinalized r.1) }

/-- A sort by activation bar that leaves entries with equal
`ActivationBarIndex` in the reverse of the order they had. -/
def sortByActivationReversing (l : List s_BalanceArea) : List s_BalanceArea :=
  sortByActivation l.reverse

/-- A balance area over profiles 4..5 ending at bar 49, with value area
92..99. -/
def areaC : s_BalanceArea :=
  { StartProfileChronoIndex := 4, EndProfileChronoIndex := 5, StartBarIndex := 0,
    EndBarIndex := 49, IncludedProfileIndices := [4, 5],
    POC := 95, ValueAreaHigh := 99, ValueAreaLow := 92, HighestPrice := 101, LowestPrice := 90 }

/-- The state after the activation pass on the chart of 100 bars for the
finalized balance areas `areaA`, `areaC` (both activated at bar 50) and `areaB`
(activated at bar 80). -/
def stateTied : s_BAStudyPersistentData :=
  CheckForBAActivation (chartB 100 80) { FinalizedBalanceAreas := [areaA, areaC, areaB] } (1 / 4)

/-- A balance area over profiles 0..1 (bars 0..29) with value area 90..100 and
price range 88..102. -/
def areaEarly : s_BalanceArea :=
  { StartProfileChronoIndex := 0, EndProfileChronoIndex := 1, StartBarIndex := 0,
    EndBarIndex := 29, IncludedProfileIndices := [0, 1],
    POC := 95, ValueAreaHigh := 100, ValueAreaLow := 90, HighestPrice := 102, LowestPrice := 88 }

/-- A balance area over profiles 2..3 (bars 30..49) with value area 95..105 and
price range 94..106. -/
def areaLate : s_BalanceArea :=
  { StartProfileChronoIndex := 2, EndProfileChronoIndex := 3, StartBarIndex := 30,
    EndBarIndex := 49, IncludedProfileIndices := [2, 3],
    POC := 100, ValueAreaHigh := 105, ValueAreaLow := 95, HighestPrice := 106, LowestPrice := 94 }

/-- A chart of `n` bars: bars 0..29 trade 88..102, bars 30..49 trade 94..106,
and the bars from 50 on trade 96..104, except for a high of 106 at bar 80;
tick size 0.25. -/
def chartGrowing (n : Int) : SCStudyInterface :=
  { ArraySize := n
    High := fun i => if i < 30 then 102 else if i < 50 then 106 else if i = 80 then 106 else 104
    Low := fun i => if i < 30 then 88 else if i < 50 then 94 else 96
    Close := fun _ => 98
    BaseDateTimeIn := fun i => i
    TickSize := 1 / 4 }

/-- The state after a rebuild that finalized `areaEarly` and `areaLate`. -/
def stateGrowing : s_BAStudyPersistentData :=
  { FinalizedBalanceAreas := [areaEarly, areaLate] }

/-! # Properties -/

/-! ## Lifecycle: frame lemmas -/

theorem CheckForPBALCreation_frame (sc : SCStudyInterface) (pData : s_BAStudyPersistentData)
    (cutBA X : s_BalanceArea) (p t : ℚ) :
    (CheckForPBALCreation sc pData cutBA X p t).FinalizedBalanceAreas = pData.FinalizedBalanceAreas ∧
    (CheckForPBALCreation sc pData cutBA X p t).ActiveBalanceAreas = pData.ActiveBalanceAreas ∧
    (CheckForPBALCreation sc pData cutBA X p t).CompositeBAs = pData.CompositeBAs ∧
    (CheckForPBALCreation sc pData cutBA X p t).ProbeLinesToDraw = pData.ProbeLinesToDraw := by
  unfold CheckForPBALCreation
  simp only
  split_ifs <;> simp

theorem cutStep_frame (sc : SCStudyInterface) (t p : ℚ) (later : List s_BalanceArea)
    (pData : s_BAStudyPersistentData) (a : s_BalanceArea) :
    (cutStep sc t p later pData a).2.FinalizedBalanceAreas = pData.FinalizedBalanceAreas ∧
    (cutStep sc t p later pData a).2.ActiveBalanceAreas = pData.ActiveBalanceAreas ∧
    (cutStep sc t p later pData a).2.CompositeBAs = pData.CompositeBAs ∧
    (cutStep sc t p later pData a).2.ProbeLinesToDraw = pData.ProbeLinesToDraw := by
  unfold cutStep
  simp only
  split_ifs
  · simp
  · exact CheckForPBALCreation_frame sc pData _ _ p t
  · simp
  · simp

theorem extensionLoop_frame (sc : SCStudyInterface) (t p : ℚ) (l : List s_BalanceArea) :
    ∀ pData : s_BAStudyPersistentData,
    (extensionLoop sc t p l pData).2.FinalizedBalanceAreas = pData.FinalizedBalanceAreas ∧
    (extensionLoop sc t p l pData).2.ActiveBalanceAreas = pData.ActiveBalanceAreas ∧
    (extensionLoop sc t p l pData).2.CompositeBAs = pData.CompositeBAs ∧
    (extensionLoop sc t p l pData).2.ProbeLinesToDraw = pData.ProbeLinesToDraw := by
  induction l with
  | nil => intro pData; simp [extensionLoop]
  | cons a later ih =>
    intro pData
    have h := ih (cutStep sc t p later pData a).2
    have f := cutStep_frame sc t p later pData a
    simp only [extensionLoop]
    rw [h.1, h.2.1, h.2.2.1, h.2.2.2]
    exact f

theorem activationLoop_fst (sc : SCStudyInterface) (t : ℚ) (l : List s_BalanceArea) :
    ∀ active, (activationLoop sc t l active).1 = l.map (fun b => (activationBody sc t b).1) := by
  induction l with
  | nil => intro active; rfl
  | cons a rest ih => intro active; simp [activationLoop, ih]

theorem CheckForBAActivation_finalized (sc : SCStudyInterface) (pData : s_BAStudyPersistentData)
    (t : ℚ) :
    (CheckForBAActivation sc pData t).FinalizedBalanceAreas =
      pData.FinalizedBalanceAreas.map (fun b => (activationBody sc t b).1) := by
  unfold CheckForBAActivation
  split_ifs with h
  · simp at h; simp [h]
  · simp [activationLoop_fst]

theorem UpdateBAExtensions_finalized (sc : SCStudyInterface) (pData : s_BAStudyPersistentData)
    (t p : ℚ) :
    (UpdateBAExtensions sc pData t p).FinalizedBalanceAreas =
      pData.FinalizedBalanceAreas.map
        (syncFinalized (UpdateBAExtensions sc pData t p).ActiveBalanceAreas) := by
  unfold UpdateBAExtensions
  simp only
  rw [(extensionLoop_frame sc t p _ _).1]

/-! ## Activation: the bar scan -/

theorem findBreakout_some (sc : SCStudyInterface) (ba : s_BalanceArea) (TickSize : ℚ) :
    ∀ (n : Nat) (i j : Int) (high : Bool),
      findBreakout sc ba (TickSize / 2) n i = some (j, high) →
        i ≤ j ∧ j < i + n ∧ breaksValueArea sc ba TickSize j ∧
        (∀ m, i ≤ m → m < j → ¬ breaksValueArea sc ba TickSize m) ∧
        (high = true ↔ sc.High j > ba.ValueAreaHigh + TickSize / 2) := by
  intro n
  induction n with
  | zero => intro i j high h; simp [findBreakout] at h
  | succ n ih =>
    intro i j high h
    unfold findBreakout at h
    split_ifs at h with h1 h2
    · simp only [Option.some.injEq, Prod.mk.injEq] at h
      obtain ⟨rfl, rfl⟩ := h
      refine ⟨le_refl _, by push_cast; omega, Or.inl h1, ?_, by simp [h1]⟩
      intro m hm1 hm2; omega
    · simp only [Option.some.injEq, Prod.mk.injEq] at h
      obtain ⟨rfl, rfl⟩ := h
      refine ⟨le_refl _, by push_cast; omega, Or.inr h2, ?_, by simp [h1]⟩
      intro m hm1 hm2; omega
    · obtain ⟨a, b, c, d, e⟩ := ih (i + 1) j high h
      refine ⟨by omega, by push_cast; omega, c, ?_, e⟩
      intro m hm1 hm2
      by_cases hmi : m = i
      · subst hmi
        intro hb
        rcases hb with hb | hb
        · exact h1 hb
        · exact h2 hb
      · exact d m (by omega) hm2

theorem findBreakout_none (sc : SCStudyInterface) (ba : s_BalanceArea) (TickSize : ℚ) :
    ∀ (n : Nat) (i : Int), findBreakout sc ba (TickSize / 2) n i = none →
      ∀ m, i ≤ m → m < i + n → ¬ breaksValueArea sc ba TickSize m := by
  intro n
  induction n with
  | zero => intro i _ m h1 h2; simp at h2; omega
  | succ n ih =>
    intro i h m hm1 hm2
    unfold findBreakout at h
    split_ifs at h with h1 h2
    by_cases hmi : m = i
    · subst hmi
      intro hb
      rcases hb with hb | hb
      · exact h1 hb
      · exact h2 hb
    · exact ih (i + 1) h m (by omega) (by push_cast at hm2; omega)

/-- The effect of one iteration of `CheckForBAActivation` on a balance area
that is not yet activated. -/
theorem activationBody_spec (sc : SCStudyInterface) (TickSize : ℚ) (ba : s_BalanceArea)
    (hna : ba.IsActivated = false) :
    ((activationBody sc TickSize ba).1.IsActivated = true ↔
        ∃ i, ba.EndBarIndex < i ∧ i < sc.ArraySize ∧ breaksValueArea sc ba TickSize i) ∧
    ((activationBody sc TickSize ba).1.IsActivated = true →
      (∃ high, (activationBody sc TickSize ba).1 =
          activateAt sc ba (activationBody sc TickSize ba).1.ActivationBarIndex high ∧
          (high = true ↔ sc.High (activationBody sc TickSize ba).1.ActivationBarIndex >
            ba.ValueAreaHigh + TickSize / 2)) ∧
      ba.EndBarIndex < (activationBody sc TickSize ba).1.ActivationBarIndex ∧
      (activationBody sc TickSize ba).1.ActivationBarIndex < sc.ArraySize ∧
      breaksValueArea sc ba TickSize (activationBody sc TickSize ba).1.ActivationBarIndex ∧
      ∀ m, ba.EndBarIndex < m → m < (activationBody sc TickSize ba).1.ActivationBarIndex →
        ¬ breaksValueArea sc ba TickSize m) := by
  unfold activationBody
  simp only [hna, Bool.false_eq_true, if_false]
  by_cases hs : ba.EndBarIndex + 1 ≥ sc.ArraySize
  · simp only [hs, if_true, hna, Bool.false_eq_true, false_iff, false_imp_iff, and_true]
    rintro ⟨i, h1, h2, _⟩
    omega
  · simp only [hs, if_false]
    cases hf : findBreakout sc ba (TickSize / 2) (sc.ArraySize - (ba.EndBarIndex + 1)).toNat
        (ba.EndBarIndex + 1) with
    | none =>
      simp only [hna, Bool.false_eq_true, false_iff, false_imp_iff, and_true]
      rintro ⟨i, h1, h2, h3⟩
      exact findBreakout_none sc ba TickSize _ _ hf i (by omega) (by omega) h3
    | some r =>
      obtain ⟨j, high⟩ := r
      obtain ⟨a, b, c, d, e⟩ := findBreakout_some sc ba TickSize _ _ j high hf
      have hj : j < sc.ArraySize := by omega
      simp only [activateAt, true_iff, forall_true_left]
      refine ⟨⟨j, by omega, hj, c⟩, ⟨high, rfl, e⟩, by omega, hj, c, ?_⟩
      intro m hm1 hm2
      exact d m (by omega) hm2

theorem activationBody_activated (sc : SCStudyInterface) (TickSize : ℚ) (ba : s_BalanceArea)
    (h : ba.IsActivated = true) : activationBody sc TickSize ba = (ba, false) := by
  simp [activationBody, h]

theorem syncFinalized_activation (active : List s_BalanceArea) (b : s_BalanceArea) :
    (syncFinalized active b).IsActivated = b.IsActivated ∧
    (syncFinalized active b).ActivationBarIndex = b.ActivationBarIndex ∧
    (syncFinalized active b).ActivationPrice = b.ActivationPrice ∧
    (syncFinalized active b).ActivationType = b.ActivationType := by
  unfold syncFinalized
  split_ifs
  · simp
  · split <;> simp

/-! ## Claims on activation and pierce-beyond rays -/

/-- C4: `CheckForBAActivation` activates a not yet activated finalized balance
area exactly when some bar after its `EndBarIndex` (and before `ArraySize`)
has its high above VAH + tick/2 or its low below VAL - tick/2; the activation
bar is then the least such bar, `IsExtending` is set, `ExtensionEndIndex` is
`ArraySize - 1`, and a bar that breaks the high side gives `Break_High`. -/
theorem CheckForBAActivation_first_breakout (sc : SCStudyInterface)
    (pData : s_BAStudyPersistentData) (TickSize : ℚ) (k : Nat) (ba : s_BalanceArea)
    (hk : pData.FinalizedBalanceAreas[k]? = some ba) (hna : ba.IsActivated = false) :
    ∃ ba', (CheckForBAActivation sc pData TickSize).FinalizedBalanceAreas[k]? = some ba' ∧
      (ba'.IsActivated = true ↔
        ∃ i, ba.EndBarIndex < i ∧ i < sc.ArraySize ∧ breaksValueArea sc ba TickSize i) ∧
      (ba'.IsActivated = true →
        ba.EndBarIndex < ba'.ActivationBarIndex ∧ ba'.ActivationBarIndex < sc.ArraySize ∧
        breaksValueArea sc ba TickSize ba'.ActivationBarIndex ∧
        (∀ m, ba.EndBarIndex < m → m < ba'.ActivationBarIndex →
          ¬ breaksValueArea sc ba TickSize m) ∧
        ba'.IsExtending = true ∧ ba'.ExtensionEndIndex = sc.ArraySize - 1 ∧
        (sc.High ba'.ActivationBarIndex > ba.ValueAreaHigh + TickSize / 2 →
          ba'.ActivationType = "Break_High")) := by
  refine ⟨(activationBody sc TickSize ba).1, ?_, ?_⟩
  · rw [CheckForBAActivation_finalized, List.getElem?_map, hk]
    rfl
  · obtain ⟨h1, h2⟩ := activationBody_spec sc TickSize ba hna
    refine ⟨h1, fun hact => ?_⟩
    obtain ⟨⟨high, heq, hhigh⟩, a, b, c, d⟩ := h2 hact
    refine ⟨a, b, c, d, ?_, ?_, ?_⟩
    · rw [heq]; rfl
    · rw [heq]; rfl
    · intro hh
      have : high = true := hhigh.2 hh
      rw [heq, this]; rfl

/-- C4, on the scenario of the specification: VAH 100, VAL 90, tick 0.25 and a
bar with high 100.5. -/
theorem CheckForBAActivation_first_breakout_witness :
    (({ FinalizedBalanceAreas := [areaA] } : s_BAStudyPersistentData).FinalizedBalanceAreas[0]?
        = some areaA ∧ areaA.IsActivated = false) ∧
    ∃ ba', (CheckForBAActivation chartA { FinalizedBalanceAreas := [areaA] }
        (1 / 4)).FinalizedBalanceAreas[0]? = some ba' ∧
      (ba'.IsActivated = true ↔
        ∃ i, areaA.EndBarIndex < i ∧ i < chartA.ArraySize ∧
          breaksValueArea chartA areaA (1 / 4) i) ∧
      (ba'.IsActivated = true →
        areaA.EndBarIndex < ba'.ActivationBarIndex ∧ ba'.ActivationBarIndex < chartA.ArraySize ∧
        breaksValueArea chartA areaA (1 / 4) ba'.ActivationBarIndex ∧
        (∀ m, areaA.EndBarIndex < m → m < ba'.ActivationBarIndex →
          ¬ breaksValueArea chartA areaA (1 / 4) m) ∧
        ba'.IsExtending = true ∧ ba'.ExtensionEndIndex = chartA.ArraySize - 1 ∧
        (chartA.High ba'.ActivationBarIndex > areaA.ValueAreaHigh + (1 / 4) / 2 →
          ba'.ActivationType = "Break_High")) :=
  ⟨⟨rfl, rfl⟩,
    CheckForBAActivation_first_breakout chartA { FinalizedBalanceAreas := [areaA] } (1 / 4) 0
      areaA rfl rfl⟩

/-- C7: a finalized balance area that is activated before a pass
(`CheckForBAActivation` followed by `UpdateBAExtensions`) is activated after
it, with the same activation bar, price and type. -/
theorem lifecyclePass_keeps_activation (sc : SCStudyInterface) (PBALPierceThreshold : ℚ)
    (pData : s_BAStudyPersistentData) (k : Nat) (ba : s_BalanceArea)
    (hk : pData.FinalizedBalanceAreas[k]? = some ba) (hact : ba.IsActivated = true) :
    ∃ ba', (lifecyclePass sc PBALPierceThreshold pData).FinalizedBalanceAreas[k]? = some ba' ∧
      ba'.IsActivated = true ∧ ba'.ActivationBarIndex = ba.ActivationBarIndex ∧
      ba'.ActivationPrice = ba.ActivationPrice ∧ ba'.ActivationType = ba.ActivationType := by
  unfold lifecyclePass
  rw [UpdateBAExtensions_finalized, CheckForBAActivation_finalized]
  simp only [List.getElem?_map, hk, Option.map_some', activationBody_activated sc _ ba hact]
  refine ⟨_, rfl, ?_⟩
  obtain ⟨a, b, c, d⟩ := syncFinalized_activation
    (UpdateBAExtensions sc (CheckForBAActivation sc pData sc.TickSize) sc.TickSize
      PBALPierceThreshold).ActiveBalanceAreas ba
  exact ⟨a.trans hact, b, c, d⟩

/-- C7 applied to a concrete state with one activated balance area. -/
theorem lifecyclePass_keeps_activation_witness :
    ∃ ba', (lifecyclePass chartA 15
        { FinalizedBalanceAreas := [activateAt chartA areaA 60 true] }).FinalizedBalanceAreas[0]?
          = some ba' ∧
      ba'.IsActivated = true ∧ ba'.ActivationBarIndex = 60 ∧
      ba'.ActivationPrice = 201 / 2 ∧ ba'.ActivationType = "Break_High" := by
  obtain ⟨ba', h1, h2, h3, h4, h5⟩ := lifecyclePass_keeps_activation chartA 15
    { FinalizedBalanceAreas := [activateAt chartA areaA 60 true] } 0
    (activateAt chartA areaA 60 true) rfl rfl
  exact ⟨ba', h1, h2, h3.trans rfl, h4.trans (by decide!), h5.trans rfl⟩

/-! ## The cut search -/

/-- The common shape of the two scans of the cut search. -/
theorem cutScanFinalized_eq (A : s_BalanceArea) (t : ℚ) (s : CutScan) (X : s_BalanceArea) :
    cutScanFinalized A t s X =
      if finalizedCutter A t X ∧ X.ActivationBarIndex < s.earliestCutPoint then
        { earliestCutPoint := X.ActivationBarIndex, shouldCut := true, intersectingBA := X,
          foundIntersectingBA := true }
      else s := by
  unfold cutScanFinalized finalizedCutter valueAreasIntersect
  by_cases h1 : X.IsActivated = true
  · by_cases h2 : X.ActivationBarIndex ≤ A.ActivationBarIndex
    · have : ¬ A.ActivationBarIndex < X.ActivationBarIndex := by omega
      simp [h1, h2, this]
    · have h2' : A.ActivationBarIndex < X.ActivationBarIndex := by omega
      by_cases h3 : min A.ValueAreaHigh X.ValueAreaHigh
          > max A.ValueAreaLow X.ValueAreaLow + t / 2
      · simp only [h1, h2, h2', h3]
        simp
      · simp only [h1, h2, h2', h3]
        simp
  · simp [h1]

theorem cutScanActive_eq (A : s_BalanceArea) (t : ℚ) (s : CutScan) (X : s_BalanceArea) :
    cutScanActive A t s X =
      if activeCutter A t X ∧ X.ActivationBarIndex < s.earliestCutPoint then
        { earliestCutPoint := X.ActivationBarIndex, shouldCut := true, intersectingBA := X,
          foundIntersectingBA := true }
      else s := by
  unfold cutScanActive activeCutter valueAreasIntersect
  by_cases h2 : X.ActivationBarIndex ≤ A.ActivationBarIndex
  · have : ¬ A.ActivationBarIndex < X.ActivationBarIndex := by omega
    simp [h2, this]
  · have h2' : A.ActivationBarIndex < X.ActivationBarIndex := by omega
    by_cases h3 : min A.ValueAreaHigh X.ValueAreaHigh
        > max A.ValueAreaLow X.ValueAreaLow + t / 2
    · simp only [h2, h2', h3]
      simp
    · simp only [h2, h2', h3]
      simp

/-- A fold of a scan step that keeps the earliest candidate. -/
theorem scan_fold (c : s_BalanceArea → Prop) [DecidablePred c]
    (step : CutScan → s_BalanceArea → CutScan)
    (hstep : ∀ s X, step s X =
      if c X ∧ X.ActivationBarIndex < s.earliestCutPoint then
        { earliestCutPoint := X.ActivationBarIndex, shouldCut := true, intersectingBA := X,
          foundIntersectingBA := true }
      else s) :
    ∀ (l : List s_BalanceArea) (s0 : CutScan),
      (l.foldl step s0).earliestCutPoint ≤ s0.earliestCutPoint ∧
      (∀ X ∈ l, c X → (l.foldl step s0).earliestCutPoint ≤ X.ActivationBarIndex) ∧
      (l.foldl step s0 = s0 ∨
        ∃ X ∈ l, c X ∧ X.ActivationBarIndex < s0.earliestCutPoint ∧
          l.foldl step s0 = { earliestCutPoint := X.ActivationBarIndex, shouldCut := true,
                              intersectingBA := X, foundIntersectingBA := true }) := by
  intro l
  induction l with
  | nil => intro s0; simp
  | cons Y rest ih =>
    intro s0
    simp only [List.foldl_cons]
    obtain ⟨h1, h2, h3⟩ := ih (step s0 Y)
    have hY : (step s0 Y).earliestCutPoint ≤ s0.earliestCutPoint := by
      rw [hstep]; split_ifs with h
      · exact le_of_lt h.2
      · exact le_refl _
    refine ⟨le_trans h1 hY, ?_, ?_⟩
    · intro X hX hc
      rcases List.mem_cons.1 hX with rfl | hX
      · refine le_trans h1 ?_
        rw [hstep]; split_ifs with h
        · exact le_refl _
        · have : ¬ X.ActivationBarIndex < s0.earliestCutPoint := fun h' => h ⟨hc, h'⟩
          omega
      · exact h2 X hX hc
    · rcases h3 with h3 | ⟨X, hX, hc, hlt, heq⟩
      · rw [h3, hstep]
        split_ifs with h
        · exact Or.inr ⟨Y, List.mem_cons_self _ _, h.1, h.2, rfl⟩
        · exact Or.inl rfl
      · exact Or.inr ⟨X, List.mem_cons_of_mem _ hX, hc, lt_of_lt_of_le hlt hY, heq⟩

/-- The result of the cut search of `A`: the earliest cut point is at most the
activation bar of every cutter, and when the search found a cut point it is
the activation bar of a cutter before the chart end. -/
theorem cutSearch_spec (sc : SCStudyInterface) (fin later : List s_BalanceArea) (t : ℚ)
    (A : s_BalanceArea) :
    (cutSearch sc fin later t A).earliestCutPoint ≤ sc.ArraySize - 1 ∧
    (∀ X ∈ fin, finalizedCutter A t X →
      (cutSearch sc fin later t A).earliestCutPoint ≤ X.ActivationBarIndex) ∧
    (∀ X ∈ later, activeCutter A t X →
      (cutSearch sc fin later t A).earliestCutPoint ≤ X.ActivationBarIndex) ∧
    (((cutSearch sc fin later t A).shouldCut = false ∧
        (cutSearch sc fin later t A).earliestCutPoint = sc.ArraySize - 1) ∨
      ((cutSearch sc fin later t A).shouldCut = true ∧
        (cutSearch sc fin later t A).foundIntersectingBA = true ∧
        (cutSearch sc fin later t A).earliestCutPoint
          = (cutSearch sc fin later t A).intersectingBA.ActivationBarIndex ∧
        (cutSearch sc fin later t A).earliestCutPoint < sc.ArraySize - 1 ∧
        (((cutSearch sc fin later t A).intersectingBA ∈ fin ∧
            finalizedCutter A t (cutSearch sc fin later t A).intersectingBA) ∨
          ((cutSearch sc fin later t A).intersectingBA ∈ later ∧
            activeCutter A t (cutSearch sc fin later t A).intersectingBA)))) := by
  unfold cutSearch
  obtain ⟨a1, a2, a3⟩ := scan_fold (finalizedCutter A t) (cutScanFinalized A t)
    (cutScanFinalized_eq A t) fin { earliestCutPoint := sc.ArraySize - 1 }
  obtain ⟨b1, b2, b3⟩ := scan_fold (activeCutter A t) (cutScanActive A t)
    (cutScanActive_eq A t) later
    (fin.foldl (cutScanFinalized A t) { earliestCutPoint := sc.ArraySize - 1 })
  simp only at a1
  refine ⟨le_trans b1 a1, fun X hX hc => le_trans b1 (a2 X hX hc), b2, ?_⟩
  rcases b3 with b3 | ⟨X, hX, hc, hlt, heq⟩
  · rw [b3]
    rcases a3 with a3 | ⟨X, hX, hc, hlt, heq⟩
    · rw [a3]; exact Or.inl ⟨rfl, rfl⟩
    · rw [heq]
      exact Or.inr ⟨rfl, rfl, rfl, hlt, Or.inl ⟨hX, hc⟩⟩
  · rw [heq]
    exact Or.inr ⟨rfl, rfl, rfl, lt_of_lt_of_le hlt a1, Or.inr ⟨hX, hc⟩⟩

/-- The cut point and the cut flag depend only on the fields of `sameCore` of
the scanned balance areas. -/
theorem scan_fold_congr (c : s_BalanceArea → Prop) [DecidablePred c]
    (step : CutScan → s_BalanceArea → CutScan)
    (hstep : ∀ s X, step s X =
      if c X ∧ X.ActivationBarIndex < s.earliestCutPoint then
        { earliestCutPoint := X.ActivationBarIndex, shouldCut := true, intersectingBA := X,
          foundIntersectingBA := true }
      else s)
    (hc : ∀ X Y, sameCore X Y → (c X ↔ c Y)) :
    ∀ (l l' : List s_BalanceArea), List.Forall₂ sameCore l l' → ∀ (s0 s0' : CutScan),
      s0.earliestCutPoint = s0'.earliestCutPoint → s0.shouldCut = s0'.shouldCut →
      (l.foldl step s0).earliestCutPoint = (l'.foldl step s0').earliestCutPoint ∧
      (l.foldl step s0).shouldCut = (l'.foldl step s0').shouldCut := by
  intro l l' h
  induction h with
  | nil => intro s0 s0' h1 h2; exact ⟨h1, h2⟩
  | @cons X Y _ _ hxy _ ih =>
    intro s0 s0' h1 h2
    simp only [List.foldl_cons]
    have hcXY := hc X Y hxy
    have hb : X.ActivationBarIndex = Y.ActivationBarIndex := hxy.2.1
    apply ih
    · rw [hstep, hstep]
      by_cases h : c X ∧ X.ActivationBarIndex < s0.earliestCutPoint
      · have h' : c Y ∧ Y.ActivationBarIndex < s0'.earliestCutPoint :=
          ⟨hcXY.1 h.1, by rw [← hb, ← h1]; exact h.2⟩
        rw [if_pos h, if_pos h']; exact hb
      · have h' : ¬ (c Y ∧ Y.ActivationBarIndex < s0'.earliestCutPoint) := fun h' =>
          h ⟨hcXY.2 h'.1, by rw [hb, h1]; exact h'.2⟩
        rw [if_neg h, if_neg h']; exact h1
    · rw [hstep, hstep]
      by_cases h : c X ∧ X.ActivationBarIndex < s0.earliestCutPoint
      · have h' : c Y ∧ Y.ActivationBarIndex < s0'.earliestCutPoint :=
          ⟨hcXY.1 h.1, by rw [← hb, ← h1]; exact h.2⟩
        rw [if_pos h, if_pos h']
      · have h' : ¬ (c Y ∧ Y.ActivationBarIndex < s0'.earliestCutPoint) := fun h' =>
          h ⟨hcXY.2 h'.1, by rw [hb, h1]; exact h'.2⟩
        rw [if_neg h, if_neg h']; exact h2

theorem finalizedCutter_congr (A : s_BalanceArea) (t : ℚ) (X Y : s_BalanceArea)
    (h : sameCore X Y) : finalizedCutter A t X ↔ finalizedCutter A t Y := by
  obtain ⟨h1, h2, h3, h4⟩ := h
  unfold finalizedCutter valueAreasIntersect
  rw [h1, h2, h3, h4]

theorem activeCutter_congr (A : s_BalanceArea) (t : ℚ) (X Y : s_BalanceArea)
    (h : sameCore X Y) : activeCutter A t X ↔ activeCutter A t Y := by
  obtain ⟨_, h2, h3, h4⟩ := h
  unfold activeCutter valueAreasIntersect
  rw [h2, h3, h4]

theorem cutSearch_congr (sc : SCStudyInterface) (fin fin' later later' : List s_BalanceArea)
    (t : ℚ) (A : s_BalanceArea) (hf : List.Forall₂ sameCore fin fin')
    (hl : List.Forall₂ sameCore later later') :
    (cutSearch sc fin later t A).earliestCutPoint = (cutSearch sc fin' later' t A).earliestCutPoint ∧
    (cutSearch sc fin later t A).shouldCut = (cutSearch sc fin' later' t A).shouldCut := by
  unfold cutSearch
  obtain ⟨a1, a2⟩ := scan_fold_congr (finalizedCutter A t) (cutScanFinalized A t)
    (cutScanFinalized_eq A t) (finalizedCutter_congr A t) fin fin' hf
    { earliestCutPoint := sc.ArraySize - 1 } { earliestCutPoint := sc.ArraySize - 1 } rfl rfl
  exact scan_fold_congr (activeCutter A t) (cutScanActive A t)
    (cutScanActive_eq A t) (activeCutter_congr A t) later later' hl _ _ a1 a2

/-! ## The loop over the active balance areas -/

theorem cutRel_sameCore {a a1 : s_BalanceArea} (h : cutRel a a1) : sameCore a a1 := by
  rcases h with rfl | ⟨_, e, _, rfl⟩
  · exact ⟨rfl, rfl, rfl, rfl⟩
  · exact ⟨rfl, rfl, rfl, rfl⟩

theorem cutRel_key {a a1 : s_BalanceArea} (h : cutRel a a1) :
    a1.StartProfileChronoIndex = a.StartProfileChronoIndex ∧
    a1.EndProfileChronoIndex = a.EndProfileChronoIndex := by
  rcases h with rfl | ⟨_, e, _, rfl⟩
  · exact ⟨rfl, rfl⟩
  · exact ⟨rfl, rfl⟩

theorem cutRel_extensionEnd {a a1 : s_BalanceArea} (h : cutRel a a1) :
    a1.ExtensionEndIndex ≤ a.ExtensionEndIndex := by
  rcases h with rfl | ⟨_, e, he, rfl⟩
  · exact le_refl _
  · exact le_of_lt he

theorem cutRel_not_extending {a a1 : s_BalanceArea} (h : cutRel a a1)
    (hx : a.IsExtending = false) : a1 = a := by
  rcases h with rfl | ⟨h1, _⟩
  · rfl
  · rw [hx] at h1; exact absurd h1 (by simp)

theorem cutRel_wasCut {a a1 : s_BalanceArea} (h : cutRel a a1)
    (hx : a.WasCut = true → a.IsExtending = false) :
    a1.WasCut = true → a1.IsExtending = false := by
  rcases h with rfl | ⟨_, e, _, rfl⟩
  · exact hx
  · intro _; rfl

theorem cutStep_fst (sc : SCStudyInterface) (t p : ℚ) (later : List s_BalanceArea)
    (pd : s_BAStudyPersistentData) (a : s_BalanceArea) :
    (cutStep sc t p later pd a).1 =
      if a.IsExtending = true ∧ (cutSearch sc pd.FinalizedBalanceAreas later t a).shouldCut = true ∧
          (cutSearch sc pd.FinalizedBalanceAreas later t a).earliestCutPoint < a.ExtensionEndIndex
      then applyCut a (cutSearch sc pd.FinalizedBalanceAreas later t a).earliestCutPoint
      else a := by
  unfold cutStep
  by_cases h : a.IsExtending = true
  · simp only [h, Bool.not_true, Bool.false_eq_true, if_false, true_and]
    split_ifs <;> rfl
  · simp [h]

theorem cutStep_noop (sc : SCStudyInterface) (t p : ℚ) (later : List s_BalanceArea)
    (pd : s_BAStudyPersistentData) (a : s_BalanceArea)
    (h : ¬ (a.IsExtending = true ∧
      (cutSearch sc pd.FinalizedBalanceAreas later t a).shouldCut = true ∧
      (cutSearch sc pd.FinalizedBalanceAreas later t a).earliestCutPoint < a.ExtensionEndIndex)) :
    cutStep sc t p later pd a = (a, pd) := by
  unfold cutStep
  by_cases hx : a.IsExtending = true
  · have h' : ¬ ((cutSearch sc pd.FinalizedBalanceAreas later t a).shouldCut = true ∧
        (cutSearch sc pd.FinalizedBalanceAreas later t a).earliestCutPoint
          < a.ExtensionEndIndex) := fun h' => h ⟨hx, h'⟩
    simp only [hx, Bool.not_true, Bool.false_eq_true, if_false]
    rw [if_neg h']
  · simp [hx]

theorem cutStep_rel (sc : SCStudyInterface) (t p : ℚ) (later : List s_BalanceArea)
    (pd : s_BAStudyPersistentData) (a : s_BalanceArea) :
    cutRel a (cutStep sc t p later pd a).1 := by
  rw [cutStep_fst]
  split_ifs with h
  · exact Or.inr ⟨h.1, _, h.2.2, rfl⟩
  · exact Or.inl rfl

theorem extensionLoop_rel (sc : SCStudyInterface) (t p : ℚ) (l : List s_BalanceArea) :
    ∀ pd : s_BAStudyPersistentData, List.Forall₂ cutRel l (extensionLoop sc t p l pd).1 := by
  induction l with
  | nil => intro pd; simp [extensionLoop]
  | cons a later ih =>
    intro pd
    simp only [extensionLoop]
    exact List.Forall₂.cons (cutStep_rel sc t p later pd a) (ih _)

/-- Entry `i` of the active list after the loop is the result of the loop
body on entry `i`, with the entries after it as the later active balance
areas. -/
theorem extensionLoop_getElem (sc : SCStudyInterface) (t p : ℚ) (l : List s_BalanceArea) :
    ∀ (pd : s_BAStudyPersistentData) (i : Nat) (a : s_BalanceArea), l[i]? = some a →
      (extensionLoop sc t p l pd).1[i]? = some (cutStep sc t p (l.drop (i + 1)) pd a).1 := by
  induction l with
  | nil => intro pd i a h; simp at h
  | cons b later ih =>
    intro pd i a h
    cases i with
    | zero =>
      simp only [List.getElem?_cons_zero, Option.some.injEq] at h
      subst h
      simp [extensionLoop]
    | succ i =>
      simp only [List.getElem?_cons_succ] at h
      simp only [extensionLoop, List.getElem?_cons_succ, List.drop_succ_cons]
      rw [ih _ i a h, cutStep_fst, cutStep_fst, (cutStep_frame sc t p later pd b).1]

/-- The loop changes nothing when it is run on its own result, against any
finalized list with the same core fields. -/
theorem extensionLoop_idem (sc : SCStudyInterface) (t p : ℚ) (l : List s_BalanceArea) :
    ∀ (pd pd1 : s_BAStudyPersistentData),
      List.Forall₂ sameCore pd.FinalizedBalanceAreas pd1.FinalizedBalanceAreas →
      extensionLoop sc t p (extensionLoop sc t p l pd).1 pd1 =
        ((extensionLoop sc t p l pd).1, pd1) := by
  induction l with
  | nil => intro pd pd1 _; simp [extensionLoop]
  | cons a later ih =>
    intro pd pd1 hf
    have hfr := (cutStep_frame sc t p later pd a).1
    have hstep : cutStep sc t p (extensionLoop sc t p later (cutStep sc t p later pd a).2).1 pd1
        (cutStep sc t p later pd a).1 = ((cutStep sc t p later pd a).1, pd1) := by
      apply cutStep_noop
      rintro ⟨hx, hs, he⟩
      have h1 := cutStep_fst sc t p later pd a
      by_cases hc : a.IsExtending = true ∧
          (cutSearch sc pd.FinalizedBalanceAreas later t a).shouldCut = true ∧
          (cutSearch sc pd.FinalizedBalanceAreas later t a).earliestCutPoint
            < a.ExtensionEndIndex
      · rw [if_pos hc] at h1
        rw [h1] at hx
        simp [applyCut] at hx
      · rw [if_neg hc] at h1
        rw [h1] at hx hs he
        have hl : List.Forall₂ sameCore later
            (extensionLoop sc t p later (cutStep sc t p later pd a).2).1 :=
          (extensionLoop_rel sc t p later _).imp (fun _ _ h => cutRel_sameCore h)
        obtain ⟨e1, e2⟩ := cutSearch_congr sc _ _ _ _ t a hf hl
        rw [← e2] at hs
        rw [← e1] at he
        exact hc ⟨hx, hs, he⟩
    conv_lhs => simp only [extensionLoop]
    rw [hstep]
    simp only
    rw [ih (cutStep sc t p later pd a).2 pd1 (by rw [hfr]; exact hf)]
    simp [extensionLoop]

/-! ## Synchronising the finalized records -/

theorem sameBA_syncFinalized (active : List s_BalanceArea) (a f : s_BalanceArea) :
    sameBA a (syncFinalized active f) = sameBA a f := by
  unfold syncFinalized
  split_ifs
  · rfl
  · split <;> rfl

theorem syncFinalized_sameCore (active : List s_BalanceArea) (f : s_BalanceArea) :
    sameCore f (syncFinalized active f) := by
  unfold syncFinalized
  split_ifs
  · exact ⟨rfl, rfl, rfl, rfl⟩
  · split <;> exact ⟨rfl, rfl, rfl, rfl⟩

theorem syncFinalized_of_find (active : List s_BalanceArea) (g a : s_BalanceArea)
    (h : g.IsActivated = true) (hf : active.find? (fun x => sameBA x g) = some a) :
    syncFinalized active g =
      { g with IsExtending := a.IsExtending, ExtensionEndIndex := a.ExtensionEndIndex,
               ExtensionEndReason := a.ExtensionEndReason, WasCut := a.WasCut } := by
  unfold syncFinalized
  rw [hf]
  simp only [h, Bool.not_true, Bool.false_eq_true, if_false]

theorem syncFinalized_of_not_found (active : List s_BalanceArea) (g : s_BalanceArea)
    (hf : active.find? (fun x => sameBA x g) = none) : syncFinalized active g = g := by
  unfold syncFinalized
  rw [hf]
  split_ifs <;> rfl

theorem syncFinalized_of_not_activated (active : List s_BalanceArea) (g : s_BalanceArea)
    (h : g.IsActivated = false) : syncFinalized active g = g := by
  unfold syncFinalized
  simp [h]

theorem syncFinalized_idem (active : List s_BalanceArea) (f : s_BalanceArea) :
    syncFinalized active (syncFinalized active f) = syncFinalized active f := by
  by_cases h : f.IsActivated = true
  · cases hf : active.find? (fun a => sameBA a f) with
    | none =>
      rw [syncFinalized_of_not_found active f hf, syncFinalized_of_not_found active f hf]
    | some a =>
      rw [syncFinalized_of_find active f a h hf]
      exact syncFinalized_of_find active _ a h hf
  · have h' : f.IsActivated = false := by simpa using h
    rw [syncFinalized_of_not_activated active f h', syncFinalized_of_not_activated active f h']

theorem sortByActivation_sorted (l : List s_BalanceArea) :
    List.Sorted (fun a b => a.ActivationBarIndex ≤ b.ActivationBarIndex) (sortByActivation l) := by
  unfold sortByActivation
  have : IsTotal s_BalanceArea (fun a b => a.ActivationBarIndex ≤ b.ActivationBarIndex) :=
    ⟨fun a b => le_total _ _⟩
  have : IsTrans s_BalanceArea (fun a b => a.ActivationBarIndex ≤ b.ActivationBarIndex) :=
    ⟨fun a b c h1 h2 => le_trans h1 h2⟩
  exact List.sorted_insertionSort _ l

theorem forall₂_sameCore_bars {l l' : List s_BalanceArea} (h : List.Forall₂ sameCore l l') :
    l.map (fun a => a.ActivationBarIndex) = l'.map (fun a => a.ActivationBarIndex) := by
  induction h with
  | nil => rfl
  | cons hxy _ ih => simp [ih, hxy.2.1]

theorem sorted_of_sameCore {l l' : List s_BalanceArea} (h : List.Forall₂ sameCore l l')
    (hs : List.Sorted (fun a b => a.ActivationBarIndex ≤ b.ActivationBarIndex) l) :
    List.Sorted (fun a b => a.ActivationBarIndex ≤ b.ActivationBarIndex) l' := by
  have h1 : List.Pairwise (fun x y : Int => x ≤ y) (l.map (fun a => a.ActivationBarIndex)) :=
    List.pairwise_map.2 hs
  rw [forall₂_sameCore_bars h] at h1
  exact List.pairwise_map.1 h1

theorem sortByActivation_of_sorted {l : List s_BalanceArea}
    (hs : List.Sorted (fun a b => a.ActivationBarIndex ≤ b.ActivationBarIndex) l) :
    sortByActivation l = l :=
  List.Sorted.insertionSort_eq hs

/-! ## Idempotence of `UpdateBAExtensions` -/

/-- With the stable insertion sort as `std::sort`, applying `UpdateBAExtensions`
twice on a fixed chart gives the same state (finalized balance areas, active
list, rays and all other fields) as applying it once. -/
theorem UpdateBAExtensions_idempotent_stable (sc : SCStudyInterface) (pData : s_BAStudyPersistentData)
    (TickSize PBALPierceThreshold : ℚ) :
    UpdateBAExtensions sc (UpdateBAExtensions sc pData TickSize PBALPierceThreshold) TickSize
        PBALPierceThreshold
      = UpdateBAExtensions sc pData TickSize PBALPierceThreshold := by
  have hsorted : List.Sorted (fun a b => a.ActivationBarIndex ≤ b.ActivationBarIndex)
      (UpdateBAExtensions sc pData TickSize PBALPierceThreshold).ActiveBalanceAreas := by
    unfold UpdateBAExtensions
    exact sorted_of_sameCore
      ((extensionLoop_rel sc TickSize PBALPierceThreshold _ _).imp
        (fun _ _ h => cutRel_sameCore h))
      (sortByActivation_sorted _)
  have hfin := UpdateBAExtensions_finalized sc pData TickSize PBALPierceThreshold
  generalize hst : UpdateBAExtensions sc pData TickSize PBALPierceThreshold = st1 at hsorted hfin
  have hact : st1.ActiveBalanceAreas = (extensionLoop sc TickSize PBALPierceThreshold
      (sortByActivation pData.ActiveBalanceAreas)
      { pData with ActiveBalanceAreas := sortByActivation pData.ActiveBalanceAreas }).1 := by
    rw [← hst]; rfl
  have hcore : List.Forall₂ sameCore
      ({ pData with ActiveBalanceAreas := sortByActivation pData.ActiveBalanceAreas } :
        s_BAStudyPersistentData).FinalizedBalanceAreas
      ({ st1 with ActiveBalanceAreas := st1.ActiveBalanceAreas } :
        s_BAStudyPersistentData).FinalizedBalanceAreas := by
    simp only [hfin]
    rw [List.forall₂_map_right_iff]
    exact List.forall₂_same.2 (fun f _ => syncFinalized_sameCore _ f)
  have hloop := extensionLoop_idem sc TickSize PBALPierceThreshold
    (sortByActivation pData.ActiveBalanceAreas)
    { pData with ActiveBalanceAreas := sortByActivation pData.ActiveBalanceAreas }
    { st1 with ActiveBalanceAreas := st1.ActiveBalanceAreas } hcore
  rw [← hact] at hloop
  conv_lhs => unfold UpdateBAExtensions
  simp only [sortByActivation_of_sorted hsorted, hloop]
  have hmap : st1.FinalizedBalanceAreas.map (syncFinalized st1.ActiveBalanceAreas)
      = st1.FinalizedBalanceAreas := by
    conv_rhs => rw [hfin]
    conv_lhs => rw [hfin]
    rw [List.map_map]
    apply List.map_congr_left
    intro f _
    exact syncFinalized_idem _ f
  rw [hmap]

/-! ## First cutter wins -/

theorem sorted_later_mem {l : List s_BalanceArea}
    (hs : List.Sorted (fun a b => a.ActivationBarIndex ≤ b.ActivationBarIndex) l)
    {i : Nat} {A X : s_BalanceArea} (hA : l[i]? = some A) (hX : X ∈ l)
    (hlt : A.ActivationBarIndex < X.ActivationBarIndex) : X ∈ l.drop (i + 1) := by
  induction l generalizing i with
  | nil => simp at hX
  | cons b rest ih =>
    have hs' := List.pairwise_cons.1 hs
    cases i with
    | zero =>
      simp only [List.getElem?_cons_zero, Option.some.injEq] at hA
      subst hA
      rcases List.mem_cons.1 hX with rfl | hX
      · omega
      · simpa using hX
    | succ i =>
      simp only [List.getElem?_cons_succ] at hA
      rcases List.mem_cons.1 hX with rfl | hX
      · have hAm : A ∈ rest := List.getElem?_mem hA
        have := hs'.1 A hAm
        omega
      · simpa using ih hs'.2 hA hX

/-- The cut that `UpdateBAExtensions` makes: when the active balance area `A`
is still extending and the earliest activation bar among its cutters lies
before the chart end `ArraySize - 1` and before the `ExtensionEndIndex` stored
in `A`, the function cuts `A` at that bar: `ExtensionEndIndex` becomes the
earliest cutter's activation bar, `ExtensionEndReason` becomes
`BA_Intersection`, `WasCut` becomes true and `IsExtending` false. -/
theorem UpdateBAExtensions_first_cutter (sc : SCStudyInterface)
    (pData : s_BAStudyPersistentData) (TickSize PBALPierceThreshold : ℚ) (i : Nat)
    (A X : s_BalanceArea)
    (hA : (sortByActivation pData.ActiveBalanceAreas)[i]? = some A)
    (hext : A.IsExtending = true)
    (hX : isCutterOf pData TickSize A X)
    (hmin : ∀ Y, isCutterOf pData TickSize A Y → X.ActivationBarIndex ≤ Y.ActivationBarIndex)
    (hend : X.ActivationBarIndex < sc.ArraySize - 1)
    (hlt : X.ActivationBarIndex < A.ExtensionEndIndex) :
    ∃ A', (UpdateBAExtensions sc pData TickSize PBALPierceThreshold).ActiveBalanceAreas[i]?
        = some A' ∧
      A' = applyCut A X.ActivationBarIndex ∧
      A'.ExtensionEndIndex = X.ActivationBarIndex ∧ A'.ExtensionEndReason = "BA_Intersection" ∧
      A'.WasCut = true ∧ A'.IsExtending = false := by
  have hperm : ∀ Y, Y ∈ sortByActivation pData.ActiveBalanceAreas ↔
      Y ∈ pData.ActiveBalanceAreas := fun Y =>
    (List.perm_insertionSort _ pData.ActiveBalanceAreas).mem_iff
  have hget := extensionLoop_getElem sc TickSize PBALPierceThreshold
    (sortByActivation pData.ActiveBalanceAreas)
    { pData with ActiveBalanceAreas := sortByActivation pData.ActiveBalanceAreas } i A hA
  obtain ⟨s1, s2, s3, s4⟩ := cutSearch_spec sc pData.FinalizedBalanceAreas
    ((sortByActivation pData.ActiveBalanceAreas).drop (i + 1)) TickSize A
  -- the search result is at most the activation bar of `X`
  have hle : (cutSearch sc pData.FinalizedBalanceAreas
      ((sortByActivation pData.ActiveBalanceAreas).drop (i + 1)) TickSize A).earliestCutPoint
      ≤ X.ActivationBarIndex := by
    rcases hX with ⟨hm, hc⟩ | ⟨hm, hc⟩
    · exact s2 X hm hc
    · exact s3 X (sorted_later_mem (sortByActivation_sorted _) hA ((hperm X).2 hm) hc.1) hc
  -- so a cutter was found, and it is a cutter of the state
  have hcut : (cutSearch sc pData.FinalizedBalanceAreas
      ((sortByActivation pData.ActiveBalanceAreas).drop (i + 1)) TickSize A).shouldCut = true ∧
      (cutSearch sc pData.FinalizedBalanceAreas
      ((sortByActivation pData.ActiveBalanceAreas).drop (i + 1)) TickSize A).earliestCutPoint
        = X.ActivationBarIndex := by
    rcases s4 with ⟨_, h2⟩ | ⟨h1, _, h3, _, h5⟩
    · omega
    · refine ⟨h1, le_antisymm hle ?_⟩
      rw [h3]
      apply hmin
      rcases h5 with ⟨hm, hc⟩ | ⟨hm, hc⟩
      · exact Or.inl ⟨hm, hc⟩
      · exact Or.inr ⟨(hperm _).1 (List.mem_of_mem_drop hm), hc⟩
  refine ⟨applyCut A X.ActivationBarIndex, ?_, rfl, rfl, rfl, rfl, rfl⟩
  unfold UpdateBAExtensions
  simp only
  rw [hget, cutStep_fst]
  simp only
  rw [if_pos ⟨hext, hcut.1, by rw [hcut.2]; exact hlt⟩, hcut.2]

/-- The scenario of the specification on a chart that has 100 bars from the
start: `areaA` (value area 90..100) activated at bar 50 is cut by `areaB`
(value area 95..105) activated at bar 80. -/
theorem UpdateBAExtensions_first_cutter_witness :
    ∃ A', (UpdateBAExtensions (chartB 100 80)
        (CheckForBAActivation (chartB 100 80) stateAB (1 / 4)) (1 / 4) 15).ActiveBalanceAreas[0]?
          = some A' ∧
      A' = applyCut (activateAt (chartB 100 80) areaA 50 true) 80 ∧
      A'.ExtensionEndIndex = 80 ∧ A'.ExtensionEndReason = "BA_Intersection" ∧
      A'.WasCut = true ∧ A'.IsExtending = false :=
  UpdateBAExtensions_first_cutter (chartB 100 80)
    (CheckForBAActivation (chartB 100 80) stateAB (1 / 4)) (1 / 4) 15 0
    (activateAt (chartB 100 80) areaA 50 true) (activateAt (chartB 100 80) areaB 80 true)
    (by decide!) (by decide!) (by decide!)
    (by
      intro Y hY
      have hm : Y = activateAt (chartB 100 80) areaA 50 true ∨
          Y = activateAt (chartB 100 80) areaB 80 true := by
        have e1 : (CheckForBAActivation (chartB 100 80) stateAB (1 / 4)).FinalizedBalanceAreas
            = [activateAt (chartB 100 80) areaA 50 true,
               activateAt (chartB 100 80) areaB 80 true] := by decide!
        have e2 : (CheckForBAActivation (chartB 100 80) stateAB (1 / 4)).ActiveBalanceAreas
            = [activateAt (chartB 100 80) areaA 50 true,
               activateAt (chartB 100 80) areaB 80 true] := by decide!
        rcases hY with ⟨hm, _⟩ | ⟨hm, _⟩
        · rw [e1] at hm; simpa using hm
        · rw [e2] at hm; simpa using hm
      rcases hm with rfl | rfl
      · rcases hY with ⟨_, _, h, _⟩ | ⟨_, h, _⟩ <;> exact absurd h (by decide!)
      · exact le_refl _)
    (by decide!) (by decide!)

/-- Two states in which a cutter leaves `areaA` uncut.  On a chart of 100 bars
where `areaB` is activated on the last bar (99), `areaA` (activated at bar 50,
still extending, value areas intersecting) is left uncut.  And when `areaA`
was activated on a chart of 60 bars (`ExtensionEndIndex` 59) and `areaB` is
activated at bar 80 of the chart grown to 100 bars, `areaA` is left uncut as
well. -/
theorem UpdateBAExtensions_cutter_without_cut :
    (isCutterOf (CheckForBAActivation (chartB 100 99) stateAB (1 / 4)) (1 / 4)
        (activateAt (chartB 100 99) areaA 50 true) (activateAt (chartB 100 99) areaB 99 true) ∧
      (CheckForBAActivation (chartB 100 99) stateAB (1 / 4)).ActiveBalanceAreas[0]?
        = some (activateAt (chartB 100 99) areaA 50 true) ∧
      (activateAt (chartB 100 99) areaA 50 true).IsExtending = true ∧
      (UpdateBAExtensions (chartB 100 99)
        (CheckForBAActivation (chartB 100 99) stateAB (1 / 4)) (1 / 4) 15).ActiveBalanceAreas[0]?
        = some (activateAt (chartB 100 99) areaA 50 true) ∧
      (activateAt (chartB 100 99) areaA 50 true).WasCut = false) ∧
    (isCutterOf
        (CheckForBAActivation (chartB 100 80) (lifecyclePass (chartB 60 80) 15 stateAB) (1 / 4))
        (1 / 4)
        (activateAt (chartB 60 80) areaA 50 true) (activateAt (chartB 100 80) areaB 80 true) ∧
      (CheckForBAActivation (chartB 100 80) (lifecyclePass (chartB 60 80) 15 stateAB)
        (1 / 4)).ActiveBalanceAreas[0]? = some (activateAt (chartB 60 80) areaA 50 true) ∧
      (activateAt (chartB 60 80) areaA 50 true).IsExtending = true ∧
      (activateAt (chartB 60 80) areaA 50 true).ExtensionEndIndex = 59 ∧
      (UpdateBAExtensions (chartB 100 80)
        (CheckForBAActivation (chartB 100 80) (lifecyclePass (chartB 60 80) 15 stateAB) (1 / 4))
        (1 / 4) 15).ActiveBalanceAreas[0]? = some (activateAt (chartB 60 80) areaA 50 true) ∧
      (activateAt (chartB 60 80) areaA 50 true).WasCut = false) := by
  decide!

/-! ## The invariant of the lifecycle engine -/

theorem sameBA_iff (a b : s_BalanceArea) : sameBA a b = true ↔ keyOf a = keyOf b := by
  unfold sameBA keyOf
  simp [Prod.ext_iff]

theorem activationBody_cases (sc : SCStudyInterface) (t : ℚ) (f : s_BalanceArea) :
    activationBody sc t f = (f, false) ∨
      (f.IsActivated = false ∧ ∃ i high, activationBody sc t f = (activateAt sc f i high, true)) := by
  unfold activationBody
  by_cases h : f.IsActivated = true
  · simp [h]
  · have h' : f.IsActivated = false := by simpa using h
    simp only [h', Bool.false_eq_true, if_false]
    split_ifs
    · exact Or.inl rfl
    · split
      · rename_i i high _
        exact Or.inr ⟨trivial, i, high, rfl⟩
      · exact Or.inl rfl

theorem CheckForBAActivation_eq (sc : SCStudyInterface) (pData : s_BAStudyPersistentData) (t : ℚ) :
    CheckForBAActivation sc pData t =
      { pData with
        FinalizedBalanceAreas :=
          (activationLoop sc t pData.FinalizedBalanceAreas pData.ActiveBalanceAreas).1
        ActiveBalanceAreas :=
          (activationLoop sc t pData.FinalizedBalanceAreas pData.ActiveBalanceAreas).2 } := by
  unfold CheckForBAActivation
  split_ifs with h
  · have : pData.FinalizedBalanceAreas = [] := by simpa using h
    cases pData
    simp only at this
    subst this
    simp [activationLoop]
  · rfl

/-- What the activation loop does to the active list. -/
theorem activationLoop_active (sc : SCStudyInterface) (t : ℚ) (l : List s_BalanceArea) :
    ∀ active : List s_BalanceArea,
      (∀ a ∈ active, a ∈ (activationLoop sc t l active).2) ∧
      (∀ a ∈ (activationLoop sc t l active).2, a ∈ active ∨
        (a.IsExtending = true ∧ ∃ f ∈ l, f.IsActivated = false ∧ a.WasCut = f.WasCut)) ∧
      ((active.map keyOf).Nodup → ((activationLoop sc t l active).2.map keyOf).Nodup) ∧
      (∀ f ∈ l, (activationBody sc t f).2 = true →
        ∃ a ∈ (activationLoop sc t l active).2, keyOf a = keyOf f) := by
  induction l with
  | nil => intro active; simp [activationLoop]
  | cons f rest ih =>
    intro active
    simp only [activationLoop]
    rcases activationBody_cases sc t f with hb | ⟨hna, i, high, hb⟩
    · rw [hb]
      simp only [Bool.false_eq_true, if_false]
      obtain ⟨h1, h2, h3, h4⟩ := ih active
      refine ⟨h1, ?_, h3, ?_⟩
      · intro a ha
        rcases h2 a ha with h | ⟨hx, g, hg, hg2⟩
        · exact Or.inl h
        · exact Or.inr ⟨hx, g, List.mem_cons_of_mem _ hg, hg2⟩
      · intro g hg hact
        rcases List.mem_cons.1 hg with rfl | hg
        · rw [hb] at hact; simp at hact
        · exact h4 g hg hact
    · rw [hb]
      simp only [if_true]
      by_cases hany : active.any (fun a => sameBA a (activateAt sc f i high)) = true
      · rw [if_pos hany]
        obtain ⟨h1, h2, h3, h4⟩ := ih active
        refine ⟨h1, ?_, h3, ?_⟩
        · intro a ha
          rcases h2 a ha with h | ⟨hx, g, hg, hg2⟩
          · exact Or.inl h
          · exact Or.inr ⟨hx, g, List.mem_cons_of_mem _ hg, hg2⟩
        · intro g hg hact
          rcases List.mem_cons.1 hg with rfl | hg
          · obtain ⟨a, ha, hs⟩ := List.any_eq_true.1 hany
            exact ⟨a, h1 a ha, (sameBA_iff _ _).1 hs⟩
          · exact h4 g hg hact
      · rw [if_neg hany]
        obtain ⟨h1, h2, h3, h4⟩ := ih (active ++ [activateAt sc f i high])
        refine ⟨fun a ha => h1 a (List.mem_append_left _ ha), ?_, ?_, ?_⟩
        · intro a ha
          rcases h2 a ha with h | ⟨hx, g, hg, hg2⟩
          · rcases List.mem_append.1 h with h | h
            · exact Or.inl h
            · have : a = activateAt sc f i high := by simpa using h
              subst this
              exact Or.inr ⟨rfl, f, List.mem_cons_self _ _, hna, rfl⟩
          · exact Or.inr ⟨hx, g, List.mem_cons_of_mem _ hg, hg2⟩
        · intro hnd
          apply h3
          rw [List.map_append, List.nodup_append]
          refine ⟨hnd, by simp, ?_⟩
          intro k hk1 hk2
          have hk2' : k = keyOf (activateAt sc f i high) := by simpa using hk2
          obtain ⟨a, ha, hka⟩ := List.mem_map.1 hk1
          apply hany
          exact List.any_eq_true.2 ⟨a, ha, (sameBA_iff _ _).2 (by rw [hka, hk2'])⟩
        · intro g hg hact
          rcases List.mem_cons.1 hg with rfl | hg
          · exact ⟨activateAt sc g i high,
              h1 _ (List.mem_append_right _ (List.mem_singleton_self _)), rfl⟩
          · exact h4 g hg hact

theorem forall₂_mem_right {α β : Type} {R : α → β → Prop} {l : List α} {l' : List β}
    (h : List.Forall₂ R l l') {b : β} (hb : b ∈ l') : ∃ a ∈ l, R a b := by
  induction h with
  | nil => simp at hb
  | cons hxy _ ih =>
    rcases List.mem_cons.1 hb with rfl | hb
    · exact ⟨_, List.mem_cons_self _ _, hxy⟩
    · obtain ⟨a, ha, hr⟩ := ih hb
      exact ⟨a, List.mem_cons_of_mem _ ha, hr⟩

theorem forall₂_mem_left {α β : Type} {R : α → β → Prop} {l : List α} {l' : List β}
    (h : List.Forall₂ R l l') {a : α} (ha : a ∈ l) : ∃ b ∈ l', R a b := by
  induction h with
  | nil => simp at ha
  | cons hxy _ ih =>
    rcases List.mem_cons.1 ha with rfl | ha
    · exact ⟨_, List.mem_cons_self _ _, hxy⟩
    · obtain ⟨b, hb, hr⟩ := ih ha
      exact ⟨b, List.mem_cons_of_mem _ hb, hr⟩

theorem cutRel_keyOf {a a1 : s_BalanceArea} (h : cutRel a a1) : keyOf a1 = keyOf a := by
  obtain ⟨h1, h2⟩ := cutRel_key h
  unfold keyOf
  rw [h1, h2]

theorem forall₂_cutRel_keys {l l' : List s_BalanceArea} (h : List.Forall₂ cutRel l l') :
    l'.map keyOf = l.map keyOf := by
  induction h with
  | nil => rfl
  | cons hxy _ ih => simp [ih, cutRel_keyOf hxy]

theorem find?_of_nodup_key {l : List s_BalanceArea} (hnd : (l.map keyOf).Nodup)
    {a f : s_BalanceArea} (ha : a ∈ l) (hk : keyOf a = keyOf f) :
    l.find? (fun x => sameBA x f) = some a := by
  induction l with
  | nil => simp at ha
  | cons b rest ih =>
    simp only [List.map_cons, List.nodup_cons] at hnd
    rcases List.mem_cons.1 ha with rfl | ha
    · simp [List.find?_cons, (sameBA_iff _ f).2 hk]
    · have hb : ¬ sameBA b f = true := by
        intro hs
        have : keyOf b = keyOf a := by rw [(sameBA_iff _ _).1 hs, hk]
        exact hnd.1 (this ▸ List.mem_map_of_mem keyOf ha)
      simp only [List.find?_cons, hb]
      exact ih hnd.2 ha

theorem UpdateBAExtensions_active_rel (sc : SCStudyInterface) (pd : s_BAStudyPersistentData)
    (t p : ℚ) :
    List.Forall₂ cutRel (sortByActivation pd.ActiveBalanceAreas)
      (UpdateBAExtensions sc pd t p).ActiveBalanceAreas := by
  unfold UpdateBAExtensions
  exact extensionLoop_rel sc t p _ _

theorem mem_sortByActivation (l : List s_BalanceArea) (a : s_BalanceArea) :
    a ∈ sortByActivation l ↔ a ∈ l :=
  (List.perm_insertionSort _ l).mem_iff

/-- Every entry of the active list has, after `UpdateBAExtensions`, a
counterpart related to it by `cutRel`, and conversely. -/
theorem UpdateBAExtensions_active_left (sc : SCStudyInterface) (pd : s_BAStudyPersistentData)
    (t p : ℚ) {a : s_BalanceArea} (ha : a ∈ pd.ActiveBalanceAreas) :
    ∃ a2 ∈ (UpdateBAExtensions sc pd t p).ActiveBalanceAreas, cutRel a a2 :=
  forall₂_mem_left (UpdateBAExtensions_active_rel sc pd t p) ((mem_sortByActivation _ a).2 ha)

theorem UpdateBAExtensions_active_right (sc : SCStudyInterface) (pd : s_BAStudyPersistentData)
    (t p : ℚ) {a2 : s_BalanceArea} (ha : a2 ∈ (UpdateBAExtensions sc pd t p).ActiveBalanceAreas) :
    ∃ a ∈ pd.ActiveBalanceAreas, cutRel a a2 := by
  obtain ⟨a, h1, h2⟩ := forall₂_mem_right (UpdateBAExtensions_active_rel sc pd t p) ha
  exact ⟨a, (mem_sortByActivation _ a).1 h1, h2⟩

theorem UpdateBAExtensions_active_nodup (sc : SCStudyInterface) (pd : s_BAStudyPersistentData)
    (t p : ℚ) (h : (pd.ActiveBalanceAreas.map keyOf).Nodup) :
    ((UpdateBAExtensions sc pd t p).ActiveBalanceAreas.map keyOf).Nodup := by
  rw [forall₂_cutRel_keys (UpdateBAExtensions_active_rel sc pd t p)]
  exact ((List.perm_insertionSort _ pd.ActiveBalanceAreas).map keyOf).nodup_iff.2 h

theorem keyOf_syncFinalized (active : List s_BalanceArea) (f : s_BalanceArea) :
    keyOf (syncFinalized active f) = keyOf f := by
  unfold syncFinalized
  split_ifs
  · rfl
  · split <;> rfl

/-- One pass preserves the invariant of the lifecycle engine. -/
theorem lifecyclePass_inv (sc : SCStudyInterface) (p : ℚ) (st : s_BAStudyPersistentData)
    (hinv : LifecycleInv st) : LifecycleInv (lifecyclePass sc p st) := by
  obtain ⟨i1, i2, i3, i4⟩ := hinv
  obtain ⟨l1, l2, l3, l4⟩ := activationLoop_active sc sc.TickSize st.FinalizedBalanceAreas
    st.ActiveBalanceAreas
  have hfin1 := CheckForBAActivation_finalized sc st sc.TickSize
  have hact1 : (CheckForBAActivation sc st sc.TickSize).ActiveBalanceAreas
      = (activationLoop sc sc.TickSize st.FinalizedBalanceAreas st.ActiveBalanceAreas).2 := by
    rw [CheckForBAActivation_eq]
  have hfin2 := UpdateBAExtensions_finalized sc (CheckForBAActivation sc st sc.TickSize)
    sc.TickSize p
  -- the active list after activation satisfies the first two parts
  have j1 : ∀ a ∈ (CheckForBAActivation sc st sc.TickSize).ActiveBalanceAreas,
      a.WasCut = true → a.IsExtending = false := by
    intro a ha hw
    rw [hact1] at ha
    rcases l2 a ha with h | ⟨_, f, hf, hna, hwf⟩
    · exact i1 a h hw
    · rw [hwf, i4 f hf hna] at hw; simp at hw
  have j2 : ((CheckForBAActivation sc st sc.TickSize).ActiveBalanceAreas.map keyOf).Nodup := by
    rw [hact1]; exact l3 i2
  -- every activated record has an active entry with its key after activation
  have j3 : ∀ f ∈ st.FinalizedBalanceAreas, (activationBody sc sc.TickSize f).1.IsActivated = true →
      ∃ a ∈ (CheckForBAActivation sc st sc.TickSize).ActiveBalanceAreas,
        keyOf a = keyOf (activationBody sc sc.TickSize f).1 := by
    intro f hf hact
    rw [hact1]
    rcases activationBody_cases sc sc.TickSize f with hb | ⟨_, i, high, hb⟩
    · rw [hb] at hact ⊢
      obtain ⟨a, ha, hk, _⟩ := i3 f hf hact
      exact ⟨a, l1 a ha, hk⟩
    · obtain ⟨a, ha, hk⟩ := l4 f hf (by rw [hb])
      exact ⟨a, ha, by rw [hk, hb]; rfl⟩
  unfold lifecyclePass
  refine ⟨?_, UpdateBAExtensions_active_nodup sc _ _ p j2, ?_, ?_⟩
  · intro a2 ha2
    obtain ⟨a, ha, hr⟩ := UpdateBAExtensions_active_right sc _ _ p ha2
    exact cutRel_wasCut hr (j1 a ha)
  · intro f2 hf2 hact2
    rw [hfin2, hfin1, List.map_map] at hf2
    obtain ⟨f, hf, rfl⟩ := List.mem_map.1 hf2
    simp only [Function.comp] at hact2 ⊢
    have hact1' : (activationBody sc sc.TickSize f).1.IsActivated = true := by
      rw [← (syncFinalized_activation _ _).1]; exact hact2
    obtain ⟨a, ha, hk⟩ := j3 f hf hact1'
    obtain ⟨a2, ha2, hr⟩ := UpdateBAExtensions_active_left sc _ sc.TickSize p ha
    have hk2 : keyOf a2 = keyOf (activationBody sc sc.TickSize f).1 := by
      rw [cutRel_keyOf hr, hk]
    have hfind := find?_of_nodup_key (UpdateBAExtensions_active_nodup sc _ sc.TickSize p j2)
      ha2 hk2
    rw [syncFinalized_of_find _ _ a2 hact1' hfind]
    exact ⟨a2, ha2, hk2, rfl, rfl, rfl⟩
  · intro f2 hf2 hna2
    rw [hfin2, hfin1, List.map_map] at hf2
    obtain ⟨f, hf, rfl⟩ := List.mem_map.1 hf2
    simp only [Function.comp] at hna2 ⊢
    have hna1 : (activationBody sc sc.TickSize f).1.IsActivated = false := by
      rw [← (syncFinalized_activation _ _).1]; exact hna2
    rw [syncFinalized_of_not_activated _ _ hna1]
    rcases activationBody_cases sc sc.TickSize f with hb | ⟨_, i, high, hb⟩
    · rw [hb] at hna1 ⊢
      exact i4 f hf hna1
    · rw [hb] at hna1
      simp [activateAt] at hna1

/-- One pass on a state that satisfies the invariant: an activated finalized
record stays activated, its extension end does not grow, and a cut record
keeps its extension state. -/
theorem lifecyclePass_extension (sc : SCStudyInterface) (p : ℚ) (st : s_BAStudyPersistentData)
    (hinv : LifecycleInv st) (k : Nat) (f : s_BalanceArea)
    (hk : st.FinalizedBalanceAreas[k]? = some f) (hact : f.IsActivated = true) :
    ∃ f', (lifecyclePass sc p st).FinalizedBalanceAreas[k]? = some f' ∧
      f'.IsActivated = true ∧ f'.ExtensionEndIndex ≤ f.ExtensionEndIndex ∧
      (f.WasCut = true → f'.ExtensionEndIndex = f.ExtensionEndIndex ∧ f'.WasCut = true ∧
        f'.IsExtending = f.IsExtending) := by
  obtain ⟨i1, i2, i3, i4⟩ := hinv
  obtain ⟨l1, l2, l3, l4⟩ := activationLoop_active sc sc.TickSize st.FinalizedBalanceAreas
    st.ActiveBalanceAreas
  have hact1 : (CheckForBAActivation sc st sc.TickSize).ActiveBalanceAreas
      = (activationLoop sc sc.TickSize st.FinalizedBalanceAreas st.ActiveBalanceAreas).2 := by
    rw [CheckForBAActivation_eq]
  have j2 : ((CheckForBAActivation sc st sc.TickSize).ActiveBalanceAreas.map keyOf).Nodup := by
    rw [hact1]; exact l3 i2
  obtain ⟨a, ha, hka, hx, he, hw⟩ := i3 f (List.getElem?_mem hk) hact
  have ha1 : a ∈ (CheckForBAActivation sc st sc.TickSize).ActiveBalanceAreas := by
    rw [hact1]; exact l1 a ha
  obtain ⟨a2, ha2, hr⟩ := UpdateBAExtensions_active_left sc _ sc.TickSize p ha1
  have hk2 : keyOf a2 = keyOf f := by rw [cutRel_keyOf hr, hka]
  have hfind := find?_of_nodup_key (UpdateBAExtensions_active_nodup sc _ sc.TickSize p j2)
    ha2 hk2
  refine ⟨syncFinalized (UpdateBAExtensions sc (CheckForBAActivation sc st sc.TickSize)
    sc.TickSize p).ActiveBalanceAreas f, ?_, ?_, ?_, ?_⟩
  · unfold lifecyclePass
    rw [UpdateBAExtensions_finalized, CheckForBAActivation_finalized]
    simp only [List.getElem?_map, hk, Option.map_some', activationBody_activated sc _ f hact]
  · rw [(syncFinalized_activation _ _).1]; exact hact
  · rw [syncFinalized_of_find _ _ a2 hact hfind]
    simp only
    rw [← he]
    exact cutRel_extensionEnd hr
  · intro hwf
    have hax : a.IsExtending = false := i1 a ha (by rw [hw]; exact hwf)
    have : a2 = a := cutRel_not_extending hr hax
    subst this
    rw [syncFinalized_of_find _ _ a2 hact hfind]
    exact ⟨he, by simp only; rw [hw]; exact hwf, hx⟩

theorem FreshState.inv {st : s_BAStudyPersistentData} (h : FreshState st) : LifecycleInv st := by
  obtain ⟨h1, h2⟩ := h
  refine ⟨?_, ?_, ?_, ?_⟩
  · intro a ha; rw [h1] at ha; simp at ha
  · rw [h1]; simp
  · intro f hf hact
    rw [(h2 f hf).1] at hact; simp at hact
  · intro f hf _; exact (h2 f hf).2

theorem runPasses_inv (passes : List (SCStudyInterface × ℚ)) :
    ∀ st : s_BAStudyPersistentData, LifecycleInv st → LifecycleInv (runPasses passes st) := by
  induction passes with
  | nil => intro st h; exact h
  | cons q rest ih =>
    intro st h
    exact ih _ (lifecyclePass_inv q.1 q.2 st h)

theorem runPasses_append (before after : List (SCStudyInterface × ℚ))
    (st : s_BAStudyPersistentData) :
    runPasses (before ++ after) st = runPasses after (runPasses before st) := by
  unfold runPasses
  rw [List.foldl_append]

theorem runPasses_extension (passes : List (SCStudyInterface × ℚ)) :
    ∀ (st : s_BAStudyPersistentData), LifecycleInv st → ∀ (k : Nat) (f : s_BalanceArea),
      st.FinalizedBalanceAreas[k]? = some f → f.IsActivated = true →
      ∃ f', (runPasses passes st).FinalizedBalanceAreas[k]? = some f' ∧
        f'.IsActivated = true ∧ f'.ExtensionEndIndex ≤ f.ExtensionEndIndex ∧
        (f.WasCut = true → f'.ExtensionEndIndex = f.ExtensionEndIndex ∧ f'.WasCut = true ∧
          f'.IsExtending = f.IsExtending) := by
  induction passes with
  | nil =>
    intro st _ k f hk hact
    exact ⟨f, hk, hact, le_refl _, fun h => ⟨rfl, h, rfl⟩⟩
  | cons q rest ih =>
    intro st hinv k f hk hact
    obtain ⟨f1, hk1, hact1, hle1, hcut1⟩ := lifecyclePass_extension q.1 q.2 st hinv k f hk hact
    obtain ⟨f2, hk2, hact2, hle2, hcut2⟩ :=
      ih _ (lifecyclePass_inv q.1 q.2 st hinv) k f1 hk1 hact1
    refine ⟨f2, hk2, hact2, le_trans hle2 hle1, ?_⟩
    intro hw
    obtain ⟨e1, w1, x1⟩ := hcut1 hw
    obtain ⟨e2, w2, x2⟩ := hcut2 w1
    exact ⟨e2.trans e1, w2, x2.trans x1⟩

/-! ## Extension ends only tighten -/

/-- C8: in a state reached from a rebuild by passes (`CheckForBAActivation`
followed by `UpdateBAExtensions`), every further pass, and every sequence of
further passes, leaves the `ExtensionEndIndex` of an activated finalized
balance area at most what it was; once `WasCut` is true, `ExtensionEndIndex`,
`WasCut` and `IsExtending` do not change any more. -/
theorem extension_end_never_grows (st0 : s_BAStudyPersistentData) (h0 : FreshState st0)
    (before after : List (SCStudyInterface × ℚ)) (k : Nat) (ba : s_BalanceArea)
    (hk : (runPasses before st0).FinalizedBalanceAreas[k]? = some ba)
    (hact : ba.IsActivated = true) :
    ∃ ba', (runPasses after (runPasses before st0)).FinalizedBalanceAreas[k]? = some ba' ∧
      ba'.ExtensionEndIndex ≤ ba.ExtensionEndIndex ∧
      (ba.WasCut = true → ba'.ExtensionEndIndex = ba.ExtensionEndIndex ∧ ba'.WasCut = true ∧
        ba'.IsExtending = ba.IsExtending) := by
  obtain ⟨f', h1, _, h3, h4⟩ := runPasses_extension after (runPasses before st0)
    (runPasses_inv before st0 h0.inv) k ba hk hact
  exact ⟨f', h1, h3, h4⟩

/-- C8 on a concrete run: `areaA` is activated at bar 50 and cut at bar 80 in
the first pass on a chart of 100 bars; a later pass on the chart grown to 120
bars leaves its extension state as it is. -/
theorem extension_end_never_grows_witness :
    FreshState stateAB ∧
    (runPasses [(chartB 100 80, 15)] stateAB).FinalizedBalanceAreas[0]?
      = some (applyCut (activateAt (chartB 100 80) areaA 50 true) 80) ∧
    ∃ ba', (runPasses [(chartB 120 80, 15)]
        (runPasses [(chartB 100 80, 15)] stateAB)).FinalizedBalanceAreas[0]? = some ba' ∧
      ba'.ExtensionEndIndex ≤ 80 ∧ ba'.WasCut = true ∧ ba'.IsExtending = false := by
  have hf : FreshState stateAB := ⟨rfl, by decide!⟩
  have hk : (runPasses [(chartB 100 80, 15)] stateAB).FinalizedBalanceAreas[0]?
      = some (applyCut (activateAt (chartB 100 80) areaA 50 true) 80) := by decide!
  obtain ⟨ba', h1, h2, h3⟩ := extension_end_never_grows stateAB hf [(chartB 100 80, 15)]
    [(chartB 120 80, 15)] 0 _ hk rfl
  obtain ⟨_, h4, h5⟩ := h3 rfl
  exact ⟨hf, hk, ba', h1, h2, h4, h5⟩

/-! ## The value-area expansion loop -/

/-- The four ways one execution of the loop body can go: nothing left on either
side, both sides consumed, the upper side consumed, the lower side consumed.
The body leaves the loop after a move only when the cursors have crossed. -/
theorem vaBody_cases (pairs : List (ℚ × ℚ)) (s : VAState) :
    (¬ (s.upperIndex + 1 < pairs.length) ∧ ¬ (0 < s.lowerIndex) ∧ vaBody pairs s = (s, false)) ∨
    (s.upperIndex + 1 < pairs.length ∧ 0 < s.lowerIndex ∧ ∃ b,
      vaBody pairs s =
        ({ currentVolumeInVA := s.currentVolumeInVA +
              ((pairs.getD (s.upperIndex + 1) (0, 0)).2 + (pairs.getD (s.lowerIndex - 1) (0, 0)).2),
           valueAreaHigh := (pairs.getD (s.upperIndex + 1) (0, 0)).1,
           valueAreaLow := (pairs.getD (s.lowerIndex - 1) (0, 0)).1,
           upperIndex := s.upperIndex + 1, lowerIndex := s.lowerIndex - 1 }, b) ∧
      (b = false → s.lowerIndex - 1 > s.upperIndex + 1)) ∨
    (s.upperIndex + 1 < pairs.length ∧ ∃ b,
      vaBody pairs s =
        ((if (pairs.getD (s.upperIndex + 1) (0, 0)).2 > VOL_EPS then
            { s with currentVolumeInVA := s.currentVolumeInVA +
                       (pairs.getD (s.upperIndex + 1) (0, 0)).2,
                     valueAreaHigh := (pairs.getD (s.upperIndex + 1) (0, 0)).1,
                     upperIndex := s.upperIndex + 1 }
          else { s with upperIndex := s.upperIndex + 1 }), b) ∧
      (b = false → s.lowerIndex > s.upperIndex + 1)) ∨
    (0 < s.lowerIndex ∧ ∃ b,
      vaBody pairs s =
        ((if (pairs.getD (s.lowerIndex - 1) (0, 0)).2 > VOL_EPS then
            { s with currentVolumeInVA := s.currentVolumeInVA +
                       (pairs.getD (s.lowerIndex - 1) (0, 0)).2,
                     valueAreaLow := (pairs.getD (s.lowerIndex - 1) (0, 0)).1,
                     lowerIndex := s.lowerIndex - 1 }
          else { s with lowerIndex := s.lowerIndex - 1 }), b) ∧
      (b = false → s.lowerIndex - 1 > s.upperIndex)) := by
  by_cases hH : s.upperIndex + 1 < pairs.length
  · by_cases hL : 0 < s.lowerIndex
    · -- both sides available
      by_cases hT : (pairs.getD (s.upperIndex + 1) (0, 0)).2 > VOL_EPS ∧
          |(pairs.getD (s.upperIndex + 1) (0, 0)).2 - (pairs.getD (s.lowerIndex - 1) (0, 0)).2|
            < VOL_EPS
      · refine Or.inr (Or.inl ⟨hH, hL, ?_⟩)
        unfold vaBody
        simp only [hH, hL, gt_iff_lt, decide_True, Bool.not_true, Bool.and_self,
          Bool.false_eq_true, if_false, if_true, true_and, hT.1, hT.2, and_self]
        split_ifs with h
        · exact ⟨false, rfl, fun _ => h.1⟩
        · exact ⟨true, rfl, fun h' => by simp at h'⟩
      · by_cases hG : (pairs.getD (s.upperIndex + 1) (0, 0)).2
            ≥ (pairs.getD (s.lowerIndex - 1) (0, 0)).2
        · refine Or.inr (Or.inr (Or.inl ⟨hH, ?_⟩))
          unfold vaBody
          simp only [hH, hL, gt_iff_lt, decide_True, Bool.not_true, Bool.and_self,
            Bool.false_eq_true, if_false, if_true, true_and, hT, hG, not_true_eq_false,
            false_or, ge_iff_le]
          split_ifs with h1 h2 h3
          · exact ⟨false, rfl, fun _ => h2.1⟩
          · exact ⟨true, rfl, fun h' => by simp at h'⟩
          · exact ⟨false, rfl, fun _ => h3.1⟩
          · exact ⟨true, rfl, fun h' => by simp at h'⟩
        · refine Or.inr (Or.inr (Or.inr ⟨hL, ?_⟩))
          unfold vaBody
          simp only [hH, hL, gt_iff_lt, decide_True, Bool.not_true, Bool.and_self,
            Bool.false_eq_true, if_false, if_true, true_and, hT, hG, not_true_eq_false,
            false_or, ge_iff_le, or_self]
          split_ifs with h1 h2 h3
          · exact ⟨false, rfl, fun _ => h2.1⟩
          · exact ⟨true, rfl, fun h' => by simp at h'⟩
          · exact ⟨false, rfl, fun _ => h3.1⟩
          · exact ⟨true, rfl, fun h' => by simp at h'⟩
    · -- only the upper side
      refine Or.inr (Or.inr (Or.inl ⟨hH, ?_⟩))
      unfold vaBody
      simp only [hH, hL, gt_iff_lt, decide_True, decide_False, Bool.not_true, Bool.not_false,
        Bool.and_true, Bool.false_eq_true, if_false, false_and, and_false, not_false_eq_true,
        true_or, and_self, if_true]
      split_ifs with h1 h2 h3
      · exact ⟨false, rfl, fun _ => h2.1⟩
      · exact ⟨true, rfl, fun h' => by simp at h'⟩
      · exact ⟨false, rfl, fun _ => h3.1⟩
      · exact ⟨true, rfl, fun h' => by simp at h'⟩
  · by_cases hL : 0 < s.lowerIndex
    · refine Or.inr (Or.inr (Or.inr ⟨hL, ?_⟩))
      unfold vaBody
      simp only [hH, hL, gt_iff_lt, decide_True, decide_False, Bool.not_true, Bool.not_false,
        Bool.and_false, Bool.false_eq_true, if_false, false_and, and_false, not_false_eq_true,
        if_true]
      split_ifs with h1 h2 h3
      · exact ⟨false, rfl, fun _ => h2.1⟩
      · exact ⟨true, rfl, fun h' => by simp at h'⟩
      · exact ⟨false, rfl, fun _ => h3.1⟩
      · exact ⟨true, rfl, fun h' => by simp at h'⟩
    · refine Or.inl ⟨hH, hL, ?_⟩
      unfold vaBody
      simp [hH, hL]

/-! ## The first scan of `CalculateProfileMetrics` -/

theorem scanLevel_pairs (s : MetricsScan) (e : ℚ × s_PriceLevelVolume) :
    (scanLevel s e).priceVolPairs =
        s.priceVolPairs ++ (if e.2.TotalVolume > VOL_EPS then [(e.1, e.2.TotalVolume)] else []) ∧
    (scanLevel s e).totalVolume =
        s.totalVolume + (if e.2.TotalVolume > VOL_EPS then e.2.TotalVolume else 0) := by
  unfold scanLevel
  simp only
  split_ifs <;> simp

theorem scan_pairs (priceMap : PriceVolumeMap) :
    ∀ s : MetricsScan,
      (priceMap.foldl scanLevel s).priceVolPairs = s.priceVolPairs ++ levelsWithVolume priceMap ∧
      (priceMap.foldl scanLevel s).totalVolume =
        s.totalVolume + ((levelsWithVolume priceMap).map Prod.snd).sum := by
  induction priceMap with
  | nil => intro s; simp [levelsWithVolume]
  | cons e rest ih =>
    intro s
    obtain ⟨h1, h2⟩ := ih (scanLevel s e)
    obtain ⟨e1, e2⟩ := scanLevel_pairs s e
    simp only [List.foldl_cons]
    rw [h1, h2, e1, e2]
    unfold levelsWithVolume
    by_cases hv : e.2.TotalVolume > VOL_EPS
    · simp only [List.filter_cons, hv, decide_True, if_true, List.map_cons, List.sum_cons,
        List.append_assoc, List.singleton_append, true_and]
      ring
    · simp only [List.filter_cons, hv, decide_False, if_false, List.append_nil, add_zero,
        Bool.false_eq_true, and_self]

/-- While no level with volume has been seen the running maximum is `0`;
afterwards the POC is the price of a seen level. -/
theorem scanLevel_poc (s : MetricsScan) (e : ℚ × s_PriceLevelVolume)
    (h1 : s.priceVolPairs = [] → s.maxVolumeAtPOC = 0)
    (h2 : s.priceVolPairs ≠ [] → s.poc ∈ s.priceVolPairs.map Prod.fst) :
    ((scanLevel s e).priceVolPairs = [] → (scanLevel s e).maxVolumeAtPOC = 0) ∧
    ((scanLevel s e).priceVolPairs ≠ [] →
      (scanLevel s e).poc ∈ (scanLevel s e).priceVolPairs.map Prod.fst) := by
  have heps : (0 : ℚ) < VOL_EPS := by unfold VOL_EPS; norm_num
  unfold scanLevel
  by_cases hv : e.2.TotalVolume > VOL_EPS
  · simp only [hv, if_true]
    by_cases hm : e.2.TotalVolume > s.maxVolumeAtPOC
    · simp only [hm, if_true]
      split_ifs <;> simp
    · simp only [hm, if_false]
      have hne : s.priceVolPairs ≠ [] := by
        intro h
        rw [h1 h] at hm
        exact hm (lt_trans heps hv)
      by_cases hp : |e.2.TotalVolume - s.maxVolumeAtPOC| < VOL_EPS ∧ e.1 > s.poc
      · simp only [hp, and_self, if_true]
        split_ifs <;> simp
      · simp only [hp, if_false]
        have := h2 hne
        simp only [List.mem_map] at this
        obtain ⟨a, ha, hae⟩ := this
        split_ifs <;> simp <;> exact Or.inl ⟨a.2, by rw [← hae]; exact ha⟩
  · simp only [hv, if_false]
    exact ⟨h1, h2⟩

theorem scan_poc (priceMap : PriceVolumeMap) :
    ∀ s : MetricsScan, (s.priceVolPairs = [] → s.maxVolumeAtPOC = 0) →
      (s.priceVolPairs ≠ [] → s.poc ∈ s.priceVolPairs.map Prod.fst) →
      ((priceMap.foldl scanLevel s).priceVolPairs ≠ [] →
        (priceMap.foldl scanLevel s).poc ∈ (priceMap.foldl scanLevel s).priceVolPairs.map Prod.fst) := by
  induction priceMap with
  | nil => intro s _ h2; exact h2
  | cons e rest ih =>
    intro s h1 h2
    obtain ⟨a, b⟩ := scanLevel_poc s e h1 h2
    exact ih _ a b

theorem levelsWithVolume_pos (priceMap : PriceVolumeMap) :
    ∀ p ∈ levelsWithVolume priceMap, p.2 > VOL_EPS := by
  intro p hp
  unfold levelsWithVolume at hp
  obtain ⟨e, he, rfl⟩ := List.mem_map.1 hp
  simpa using (List.mem_filter.1 he).2

theorem levelsWithVolume_key (priceMap : PriceVolumeMap) :
    ∀ p ∈ levelsWithVolume priceMap, ∃ e ∈ priceMap, e.1 = p.1 := by
  intro p hp
  unfold levelsWithVolume at hp
  obtain ⟨e, he, rfl⟩ := List.mem_map.1 hp
  exact ⟨e, (List.mem_filter.1 he).1, rfl⟩

/-! ## The sorted level list -/

theorem sortByPrice_sorted (l : List (ℚ × ℚ)) :
    List.Sorted (fun a b : ℚ × ℚ => a.1 ≤ b.1) (sortByPrice l) := by
  unfold sortByPrice
  have : IsTotal (ℚ × ℚ) (fun a b => a.1 ≤ b.1) := ⟨fun a b => le_total _ _⟩
  have : IsTrans (ℚ × ℚ) (fun a b => a.1 ≤ b.1) := ⟨fun a b c h1 h2 => le_trans h1 h2⟩
  exact List.sorted_insertionSort _ l

theorem sortByPrice_perm (l : List (ℚ × ℚ)) : (sortByPrice l).Perm l :=
  List.perm_insertionSort _ l

theorem sorted_getD_le {l : List (ℚ × ℚ)} (hs : List.Sorted (fun a b : ℚ × ℚ => a.1 ≤ b.1) l)
    {i j : Nat} (hij : i ≤ j) (hj : j < l.length) :
    (l.getD i (0, 0)).1 ≤ (l.getD j (0, 0)).1 := by
  have hi : i < l.length := lt_of_le_of_lt hij hj
  rw [List.getD_eq_getElem l _ hi, List.getD_eq_getElem l _ hj]
  rcases Nat.eq_or_lt_of_le hij with rfl | hlt
  · exact le_refl _
  · exact List.pairwise_iff_getElem.1 hs i j hi hj hlt

theorem getD_mem {l : List (ℚ × ℚ)} {i : Nat} (hi : i < l.length) : l.getD i (0, 0) ∈ l := by
  rw [List.getD_eq_getElem l _ hi]
  exact List.getElem_mem _

theorem vaLoop_invariant (pairs : List (ℚ × ℚ)) (target : ℚ) (P : VAState → Prop)
    (hP : ∀ s, P s → P (vaBody pairs s).1) :
    ∀ (fuel : Nat) (s : VAState), P s → P (vaLoop pairs target fuel s) := by
  intro fuel
  induction fuel with
  | zero => intro s h; exact h
  | succ n ih =>
    intro s h
    unfold vaLoop
    split_ifs with hc
    · have := hP s h
      cases hb : vaBody pairs s with
      | mk t b =>
        rw [hb] at this
        cases b with
        | true => exact ih t this
        | false => exact this
    · exact h

/-! ## The main branch of `CalculateProfileMetrics` -/

theorem levelsWithVolume_sum_pos (priceMap : PriceVolumeMap) (hne : levelsWithVolume priceMap ≠ []) :
    VOL_EPS < ((levelsWithVolume priceMap).map Prod.snd).sum := by
  have hpos := levelsWithVolume_pos priceMap
  have heps : (0 : ℚ) < VOL_EPS := by unfold VOL_EPS; norm_num
  generalize levelsWithVolume priceMap = l at hne hpos
  cases l with
  | nil => exact absurd rfl hne
  | cons p rest =>
    have h1 : p.2 > VOL_EPS := hpos p (List.mem_cons_self _ _)
    have h2 : 0 ≤ (rest.map Prod.snd).sum := by
      apply List.sum_nonneg
      intro x hx
      obtain ⟨q, hq, rfl⟩ := List.mem_map.1 hx
      exact le_of_lt (lt_trans heps (hpos q (List.mem_cons_of_mem _ hq)))
    simp only [List.map_cons, List.sum_cons]
    linarith

/-- When some level carries volume, `CalculateProfileMetrics` reaches the
expansion loop: it starts with both cursors on a position `i` of the sorted
level list and with both value-area bounds on the POC; when the tick size is
positive and distinct keys are half a tick apart, position `i` holds the
POC. -/
theorem run_main (priceMap : PriceVolumeMap) (pct tick : ℚ)
    (hne : levelsWithVolume priceMap ≠ []) :
    ∃ (i : Nat) (poc : ℚ), i < (sortByPrice (levelsWithVolume priceMap)).length ∧
      CalculateProfileMetricsRun priceMap pct tick =
        { out :=
            { poc := poc
              valueAreaHigh := (vaLoop (sortByPrice (levelsWithVolume priceMap))
                (((levelsWithVolume priceMap).map Prod.snd).sum * (pct / 100))
                (sortByPrice (levelsWithVolume priceMap)).length
                { currentVolumeInVA := ((sortByPrice (levelsWithVolume priceMap)).getD i (0, 0)).2,
                  valueAreaHigh := poc, valueAreaLow := poc,
                  upperIndex := i, lowerIndex := i }).valueAreaHigh
              valueAreaLow := (vaLoop (sortByPrice (levelsWithVolume priceMap))
                (((levelsWithVolume priceMap).map Prod.snd).sum * (pct / 100))
                (sortByPrice (levelsWithVolume priceMap)).length
                { currentVolumeInVA := ((sortByPrice (levelsWithVolume priceMap)).getD i (0, 0)).2,
                  valueAreaHigh := poc, valueAreaLow := poc,
                  upperIndex := i, lowerIndex := i }).valueAreaLow
              highestPrice := (priceMap.foldl scanLevel {}).highestPrice
              lowestPrice := (priceMap.foldl scanLevel {}).lowestPrice
              totalVolume := ((levelsWithVolume priceMap).map Prod.snd).sum }
          priceVolPairs := sortByPrice (levelsWithVolume priceMap)
          targetVolume := ((levelsWithVolume priceMap).map Prod.snd).sum * (pct / 100)
          va := some (vaLoop (sortByPrice (levelsWithVolume priceMap))
                (((levelsWithVolume priceMap).map Prod.snd).sum * (pct / 100))
                (sortByPrice (levelsWithVolume priceMap)).length
                { currentVolumeInVA := ((sortByPrice (levelsWithVolume priceMap)).getD i (0, 0)).2,
                  valueAreaHigh := poc, valueAreaLow := poc,
                  upperIndex := i, lowerIndex := i }) } ∧
      (0 < tick → keysSeparated priceMap tick →
        ((sortByPrice (levelsWithVolume priceMap)).getD i (0, 0)).1 = poc) := by
  have hmap : priceMap.isEmpty = false := by
    cases priceMap with
    | nil => exact absurd rfl hne
    | cons _ _ => rfl
  obtain ⟨hp, ht⟩ := scan_pairs priceMap {}
  simp only [List.nil_append, zero_add] at hp ht
  have hpoc := scan_poc priceMap {} (fun _ => rfl) (fun h => absurd rfl h)
  rw [hp] at hpoc
  have hpoc' := hpoc hne
  have hlen : 0 < (sortByPrice (levelsWithVolume priceMap)).length := by
    rw [(sortByPrice_perm _).length_eq]
    exact List.length_pos.2 hne
  have hV : ¬ ((priceMap.foldl scanLevel {}).totalVolume ≤ VOL_EPS ∨
      (priceMap.foldl scanLevel {}).priceVolPairs.isEmpty = true) := by
    rw [ht, hp]
    rintro (h | h)
    · exact absurd (levelsWithVolume_sum_pos priceMap hne) (not_lt.2 h)
    · exact hne (List.isEmpty_iff.1 h)
  unfold CalculateProfileMetricsRun
  simp only [hmap, Bool.false_eq_true, if_false, hV]
  rw [hp, ht]
  cases hfound : (sortByPrice (levelsWithVolume priceMap)).findIdx?
      (fun p => decide (|p.1 - (priceMap.foldl scanLevel {}).poc| < tick / 2)) with
  | some i =>
    obtain ⟨hi, hpi, _⟩ := List.findIdx?_eq_some_iff_getElem.1 hfound
    refine ⟨i, (priceMap.foldl scanLevel {}).poc, hi, ?_, ?_⟩
    · simp only [hi, if_true]
    · intro htick hsep
      rw [List.getD_eq_getElem _ _ hi]
      by_contra hneq
      have hmem : (sortByPrice (levelsWithVolume priceMap))[i] ∈ levelsWithVolume priceMap :=
        (sortByPrice_perm _).mem_iff.1 (List.getElem_mem _)
      obtain ⟨a, ha, hak⟩ := levelsWithVolume_key priceMap _ hmem
      obtain ⟨q, hq, hqk⟩ := List.mem_map.1 hpoc'
      obtain ⟨b, hb, hbk⟩ := levelsWithVolume_key priceMap _ hq
      have := hsep a ha b hb (by rw [hak, hbk, hqk]; exact hneq)
      rw [hak, hbk, hqk] at this
      have hlt : |(sortByPrice (levelsWithVolume priceMap))[i].1 -
          (priceMap.foldl scanLevel {}).poc| < tick / 2 := by simpa using hpi
      linarith
  | none =>
    simp only
    generalize (sortByPrice (levelsWithVolume priceMap)).enum.foldl pocFallbackStep
        { maxVolumeAtPOC := 0, pocIndex := 0,
          poc := ((sortByPrice (levelsWithVolume priceMap)).getD 0 (0, 0)).1 } = ps
    by_cases hi : ps.pocIndex < (sortByPrice (levelsWithVolume priceMap)).length
    · refine ⟨ps.pocIndex, ps.poc, hi, ?_, ?_⟩
      · simp only [hi, if_true]
      · intro htick _
        exfalso
        obtain ⟨q, hq, hqk⟩ := List.mem_map.1 hpoc'
        have hq' : q ∈ sortByPrice (levelsWithVolume priceMap) :=
          (sortByPrice_perm _).mem_iff.2 hq
        have := List.findIdx?_eq_none_iff.1 hfound q hq'
        simp only [decide_eq_false_iff_not, not_lt] at this
        rw [hqk, sub_self, abs_zero] at this
        linarith
    · refine ⟨0, ((sortByPrice (levelsWithVolume priceMap)).getD 0 (0, 0)).1, hlen, ?_, ?_⟩
      · simp only [hi, if_false]
      · intro _ _; rfl

theorem run_no_volume (priceMap : PriceVolumeMap) (pct tick : ℚ)
    (hnil : levelsWithVolume priceMap = []) :
    (CalculateProfileMetricsRun priceMap pct tick).out.valueAreaLow
        ≤ (CalculateProfileMetricsRun priceMap pct tick).out.poc ∧
    (CalculateProfileMetricsRun priceMap pct tick).out.poc
        ≤ (CalculateProfileMetricsRun priceMap pct tick).out.valueAreaHigh ∧
    (CalculateProfileMetricsRun priceMap pct tick).out.totalVolume = 0 ∧
    (CalculateProfileMetricsRun priceMap pct tick).va = none := by
  obtain ⟨hp, ht⟩ := scan_pairs priceMap {}
  simp only [List.nil_append, zero_add, hnil, List.map_nil, List.sum_nil] at hp ht
  unfold CalculateProfileMetricsRun
  cases hE : priceMap.isEmpty with
  | true => simp
  | false =>
    have hV : (priceMap.foldl scanLevel {}).totalVolume ≤ VOL_EPS ∨
        (priceMap.foldl scanLevel {}).priceVolPairs.isEmpty = true := Or.inr (by rw [hp]; rfl)
    simp only [Bool.false_eq_true, if_false, hV, if_true]
    generalize priceMap.foldl scanKey (true, (priceMap.foldl scanLevel {}).highestPrice,
      (priceMap.foldl scanLevel {}).lowestPrice) = k
    by_cases hvalid : k.2.1 > -FLT_MAX ∧ k.2.2 < FLT_MAX ∧ k.2.1 ≥ k.2.2
    · rw [if_pos hvalid]
      refine ⟨?_, ?_, ht, rfl⟩
      · simp only; linarith [hvalid.2.2]
      · simp only; linarith [hvalid.2.2]
    · rw [if_neg hvalid]
      exact ⟨le_refl _, le_refl _, ht, rfl⟩

/-- The loop body keeps the cursors around position `i` and the value-area
bounds around the price at position `i`. -/
theorem vaBody_bracket {pairs : List (ℚ × ℚ)}
    (hs : List.Sorted (fun a b : ℚ × ℚ => a.1 ≤ b.1) pairs) (i : Nat) (hi : i < pairs.length)
    (s : VAState)
    (h : s.lowerIndex ≤ i ∧ i ≤ s.upperIndex ∧
      s.valueAreaLow ≤ (pairs.getD i (0, 0)).1 ∧ (pairs.getD i (0, 0)).1 ≤ s.valueAreaHigh) :
    (vaBody pairs s).1.lowerIndex ≤ i ∧ i ≤ (vaBody pairs s).1.upperIndex ∧
      (vaBody pairs s).1.valueAreaLow ≤ (pairs.getD i (0, 0)).1 ∧
      (pairs.getD i (0, 0)).1 ≤ (vaBody pairs s).1.valueAreaHigh := by
  obtain ⟨h1, h2, h3, h4⟩ := h
  rcases vaBody_cases pairs s with ⟨_, _, e⟩ | ⟨hH, hL, b, e, _⟩ | ⟨hH, b, e, _⟩ | ⟨hL, b, e, _⟩
  · rw [e]; exact ⟨h1, h2, h3, h4⟩
  · rw [e]
    exact ⟨by simp only; omega, by simp only; omega,
      sorted_getD_le hs (by omega) (by omega), sorted_getD_le hs (by omega) hH⟩
  · rw [e]
    split_ifs
    · exact ⟨h1, by simp only; omega, h3, sorted_getD_le hs (by omega) hH⟩
    · exact ⟨h1, by simp only; omega, h3, h4⟩
  · rw [e]
    split_ifs
    · exact ⟨by simp only; omega, h2, sorted_getD_le hs (by omega) (by omega), h4⟩
    · exact ⟨by simp only; omega, h2, h3, h4⟩

/-! ## The POC lies in the value area -/

/-- C1: for every price-to-volume map, every value-area percentage and every
positive tick size, the outputs of `CalculateProfileMetrics` satisfy
`valueAreaLow <= poc <= valueAreaHigh`.  The keys of a price-to-volume map are
prices rounded to the tick size (line 1092); what the proof uses of this is
that distinct keys are at least half a tick apart
(`onTickGrid_keysSeparated`). -/
theorem profileMetrics_poc_within_value_area (priceMap : PriceVolumeMap) (pct tick : ℚ)
    (htick : 0 < tick) (hsep : keysSeparated priceMap tick) :
    (CalculateProfileMetrics priceMap pct tick).valueAreaLow
        ≤ (CalculateProfileMetrics priceMap pct tick).poc ∧
    (CalculateProfileMetrics priceMap pct tick).poc
        ≤ (CalculateProfileMetrics priceMap pct tick).valueAreaHigh := by
  unfold CalculateProfileMetrics
  by_cases hne : levelsWithVolume priceMap = []
  · obtain ⟨h1, h2, _⟩ := run_no_volume priceMap pct tick hne
    exact ⟨h1, h2⟩
  · obtain ⟨i, poc, hi, hrun, hpoc⟩ := run_main priceMap pct tick hne
    have hp := hpoc htick hsep
    rw [hrun]
    simp only
    have hinv := vaLoop_invariant (sortByPrice (levelsWithVolume priceMap))
      (((levelsWithVolume priceMap).map Prod.snd).sum * (pct / 100))
      (fun s => s.lowerIndex ≤ i ∧ i ≤ s.upperIndex ∧
        s.valueAreaLow ≤ ((sortByPrice (levelsWithVolume priceMap)).getD i (0, 0)).1 ∧
        ((sortByPrice (levelsWithVolume priceMap)).getD i (0, 0)).1 ≤ s.valueAreaHigh)
      (fun s h => vaBody_bracket (sortByPrice_sorted _) i hi s h)
      (sortByPrice (levelsWithVolume priceMap)).length
      { currentVolumeInVA := ((sortByPrice (levelsWithVolume priceMap)).getD i (0, 0)).2,
        valueAreaHigh := poc, valueAreaLow := poc, upperIndex := i, lowerIndex := i }
      ⟨le_refl _, le_refl _, le_of_eq hp.symm, le_of_eq hp⟩
    rw [hp] at hinv
    exact ⟨hinv.2.2.1, hinv.2.2.2⟩

/-- C1 on the three-level map (keys 10, 11, 12) with tick size 1. -/
theorem profileMetrics_poc_within_value_area_witness :
    ((0 : ℚ) < 1 ∧ keysSeparated threeLevels 1) ∧
    (CalculateProfileMetrics threeLevels 70 1).valueAreaLow
        ≤ (CalculateProfileMetrics threeLevels 70 1).poc ∧
    (CalculateProfileMetrics threeLevels 70 1).poc
        ≤ (CalculateProfileMetrics threeLevels 70 1).valueAreaHigh :=
  ⟨⟨by norm_num, by decide!⟩,
    profileMetrics_poc_within_value_area threeLevels 70 1 (by norm_num) (by decide!)⟩

/-- Off the tick grid the position search of line 442 can stop below the POC:
for the keys 10, 11, 12 with tick size 6 (keys closer than half a tick, which
`RoundToTickSize` never produces) and percentage 40 the function returns POC
12, `valueAreaLow` 12 and `valueAreaHigh` 11. -/
theorem profileMetrics_poc_above_value_area :
    (threeLevels.map Prod.fst).Nodup ∧ (0 : ℚ) < 40 ∧ (40 : ℚ) ≤ 100 ∧ (0 : ℚ) < 6 ∧
    (CalculateProfileMetrics threeLevels 40 6).poc = 12 ∧
    (CalculateProfileMetrics threeLevels 40 6).valueAreaLow = 12 ∧
    (CalculateProfileMetrics threeLevels 40 6).valueAreaHigh = 11 ∧
    ¬ ((CalculateProfileMetrics threeLevels 40 6).poc
        ≤ (CalculateProfileMetrics threeLevels 40 6).valueAreaHigh) := by
  decide!

/-! ## The accumulated volume of the value area -/

theorem prefixVolume_succ (pairs : List (ℚ × ℚ)) {n : Nat} (hn : n < pairs.length) :
    prefixVolume pairs (n + 1) = prefixVolume pairs n + (pairs.getD n (0, 0)).2 := by
  unfold prefixVolume
  rw [List.take_succ, List.getD_eq_getElem _ _ hn, List.getElem?_eq_getElem hn]
  simp only [Option.toList, List.map_append, List.map_cons, List.map_nil, List.sum_append,
    List.sum_cons, List.sum_nil, add_zero]

theorem prefixVolume_length (pairs : List (ℚ × ℚ)) :
    prefixVolume pairs pairs.length = (pairs.map Prod.snd).sum := by
  unfold prefixVolume
  rw [List.take_length]

theorem volumeBetween_eq (pairs : List (ℚ × ℚ)) {lo hi : Nat} (h : lo ≤ hi + 1) :
    volumeBetween pairs lo hi = prefixVolume pairs (hi + 1) - prefixVolume pairs lo := by
  unfold volumeBetween prefixVolume
  have h1 : pairs.take lo = (pairs.take (hi + 1)).take lo := by
    rw [List.take_take, Nat.min_eq_left h]
  have h2 := List.sum_take_add_sum_drop ((pairs.take (hi + 1)).map Prod.snd) lo
  rw [h1, ← List.map_take, ← List.map_drop] at *
  linarith

theorem prefixVolume_pred (pairs : List (ℚ × ℚ)) {n : Nat} (h0 : 0 < n) (hn : n ≤ pairs.length) :
    prefixVolume pairs n = prefixVolume pairs (n - 1) + (pairs.getD (n - 1) (0, 0)).2 := by
  have := prefixVolume_succ pairs (n := n - 1) (by omega)
  rwa [Nat.sub_add_cancel h0] at this

theorem vaBody_cursor {pairs : List (ℚ × ℚ)} (hpos : ∀ p ∈ pairs, p.2 > VOL_EPS) (s : VAState)
    (h : cursorInv pairs s) :
    cursorInv pairs (vaBody pairs s).1 ∧
    (boundsAtCursors pairs s → boundsAtCursors pairs (vaBody pairs s).1) ∧
    ((vaBody pairs s).2 = false →
      (vaBody pairs s).1 = s ∧ s.lowerIndex = 0 ∧ s.upperIndex + 1 = pairs.length) ∧
    ((vaBody pairs s).2 = true →
      (pairs.length - ((vaBody pairs s).1.upperIndex + 1)) + (vaBody pairs s).1.lowerIndex
        < (pairs.length - (s.upperIndex + 1)) + s.lowerIndex) := by
  obtain ⟨h1, h2, h3⟩ := h
  rcases vaBody_cases pairs s with ⟨nH, nL, e⟩ | ⟨hH, hL, b, e, hb⟩ | ⟨hH, b, e, hb⟩ |
      ⟨hL, b, e, hb⟩
  · rw [e]
    exact ⟨⟨h1, h2, h3⟩, fun k => k, fun _ => ⟨rfl, by omega, by omega⟩, fun k => by simp at k⟩
  · rw [e]
    refine ⟨⟨by simp only; omega, hH, ?_⟩, fun _ => ⟨rfl, rfl⟩, ?_, fun _ => by simp only; omega⟩
    · simp only
      rw [prefixVolume_succ pairs hH, h3, prefixVolume_pred pairs hL (by omega)]
      ring
    · intro hf
      simp only at hf
      have := hb hf
      omega
  · rw [e]
    have hv : (pairs.getD (s.upperIndex + 1) (0, 0)).2 > VOL_EPS := hpos _ (getD_mem hH)
    rw [if_pos hv]
    refine ⟨⟨by simp only; omega, hH, ?_⟩, fun k => ⟨k.1, rfl⟩, ?_, fun _ => by simp only; omega⟩
    · simp only
      rw [prefixVolume_succ pairs hH, h3]
      ring
    · intro hf
      simp only at hf
      have := hb hf
      omega
  · rw [e]
    have hv : (pairs.getD (s.lowerIndex - 1) (0, 0)).2 > VOL_EPS :=
      hpos _ (getD_mem (by omega))
    rw [if_pos hv]
    refine ⟨⟨by simp only; omega, h2, ?_⟩, fun k => ⟨rfl, k.2⟩, ?_, fun _ => by simp only; omega⟩
    · simp only
      rw [h3, prefixVolume_pred pairs hL (by omega)]
      ring
    · intro hf
      simp only at hf
      have := hb hf
      omega

/-- With as many iterations as there are levels the loop ends by itself: the
accumulated volume has reached the target, or both cursors are at the ends of
the level list. -/
theorem vaLoop_cursor {pairs : List (ℚ × ℚ)} (hpos : ∀ p ∈ pairs, p.2 > VOL_EPS) (target : ℚ) :
    ∀ (fuel : Nat) (s : VAState), cursorInv pairs s →
      (pairs.length - (s.upperIndex + 1)) + s.lowerIndex < fuel →
      cursorInv pairs (vaLoop pairs target fuel s) ∧
      (boundsAtCursors pairs s → boundsAtCursors pairs (vaLoop pairs target fuel s)) ∧
      (target ≤ (vaLoop pairs target fuel s).currentVolumeInVA ∨
        ((vaLoop pairs target fuel s).lowerIndex = 0 ∧
          (vaLoop pairs target fuel s).upperIndex + 1 = pairs.length)) := by
  intro fuel
  induction fuel with
  | zero => intro s _ hm; omega
  | succ n ih =>
    intro s hJ hm
    unfold vaLoop
    by_cases hc : s.currentVolumeInVA < target
    · rw [if_pos hc]
      obtain ⟨a, b, c, d⟩ := vaBody_cursor hpos s hJ
      cases hb : vaBody pairs s with
      | mk t q =>
        rw [hb] at a b c d
        cases q with
        | true =>
          simp only
          have hd := d rfl
          obtain ⟨x, y, z⟩ := ih t a (by simp only at hd; omega)
          exact ⟨x, fun k => y (b k), z⟩
        | false =>
          simp only
          obtain ⟨e1, e2, e3⟩ := c rfl
          simp only at e1
          subst e1
          exact ⟨a, b, Or.inr ⟨e2, e3⟩⟩
    · rw [if_neg hc]
      exact ⟨hJ, fun k => k, Or.inl (not_lt.1 hc)⟩

/-! ## Levels priced between the value-area bounds -/

theorem filter_le_price {l : List (ℚ × ℚ)} (hs : List.Pairwise (fun a b : ℚ × ℚ => a.1 < b.1) l) :
    ∀ {hi : Nat}, hi < l.length →
      l.filter (fun p => decide (p.1 ≤ (l.getD hi (0, 0)).1)) = l.take (hi + 1) := by
  induction l with
  | nil => intro hi h; simp at h
  | cons x rest ih =>
    intro hi h
    obtain ⟨hx, hr⟩ := List.pairwise_cons.1 hs
    cases hi with
    | zero =>
      simp only [List.getD_cons_zero, List.filter_cons, le_refl, decide_True, if_true,
        List.take_succ_cons, List.take_zero, List.cons.injEq, true_and]
      apply List.filter_eq_nil_iff.2
      intro p hp
      have := hx p hp
      simp only [decide_eq_true_eq, not_le]
      exact this
    | succ k =>
      have hk : k < rest.length := by simpa using h
      have hlt : x.1 < (rest.getD k (0, 0)).1 := hx _ (getD_mem hk)
      simp only [List.getD_cons_succ, List.filter_cons, le_of_lt hlt, decide_True, if_true,
        List.take_succ_cons, List.cons.injEq, true_and]
      exact ih hr hk

theorem filter_ge_price {l : List (ℚ × ℚ)} (hs : List.Pairwise (fun a b : ℚ × ℚ => a.1 < b.1) l) :
    ∀ {lo : Nat}, lo < l.length →
      l.filter (fun p => decide ((l.getD lo (0, 0)).1 ≤ p.1)) = l.drop lo := by
  induction l with
  | nil => intro lo h; simp at h
  | cons x rest ih =>
    intro lo h
    obtain ⟨hx, hr⟩ := List.pairwise_cons.1 hs
    cases lo with
    | zero =>
      simp only [List.getD_cons_zero, List.drop_zero]
      apply List.filter_eq_self.2
      intro p hp
      rcases List.mem_cons.1 hp with rfl | hp
      · simp
      · simpa using le_of_lt (hx p hp)
    | succ k =>
      have hk : k < rest.length := by simpa using h
      have hlt : x.1 < (rest.getD k (0, 0)).1 := hx _ (getD_mem hk)
      simp only [List.getD_cons_succ, List.filter_cons, not_le.2 hlt, decide_False,
        Bool.false_eq_true, if_false, List.drop_succ_cons]
      exact ih hr hk

/-- In a list of levels with strictly increasing prices, the levels priced
between the prices at positions `lo` and `hi` are the levels at the positions
`lo..hi`. -/
theorem volumeInPriceRange_eq {l : List (ℚ × ℚ)}
    (hs : List.Pairwise (fun a b : ℚ × ℚ => a.1 < b.1) l) {lo hi : Nat} (hlo : lo ≤ hi)
    (hhi : hi < l.length) :
    volumeInPriceRange l (l.getD lo (0, 0)).1 (l.getD hi (0, 0)).1 = volumeBetween l lo hi := by
  unfold volumeInPriceRange volumeBetween
  have h1 : l.filter (fun p => decide ((l.getD lo (0, 0)).1 ≤ p.1 ∧ p.1 ≤ (l.getD hi (0, 0)).1))
      = (l.filter (fun p => decide (p.1 ≤ (l.getD hi (0, 0)).1))).filter
          (fun p => decide ((l.getD lo (0, 0)).1 ≤ p.1)) := by
    rw [List.filter_filter]
    congr 1
    funext p
    simp [Bool.decide_and]
  rw [h1, filter_le_price hs hhi]
  have hs' : List.Pairwise (fun a b : ℚ × ℚ => a.1 < b.1) (l.take (hi + 1)) :=
    hs.sublist (List.take_sublist _ _)
  have hlen : lo < (l.take (hi + 1)).length := by
    rw [List.length_take]; omega
  have hget : (l.take (hi + 1)).getD lo (0, 0) = l.getD lo (0, 0) := by
    rw [List.getD_eq_getElem _ _ hlen, List.getD_eq_getElem _ _ (by omega), List.getElem_take]
  rw [← hget, filter_ge_price hs' hlen]

theorem sortByPrice_strict (priceMap : PriceVolumeMap) (hnd : (priceMap.map Prod.fst).Nodup) :
    List.Pairwise (fun a b : ℚ × ℚ => a.1 < b.1) (sortByPrice (levelsWithVolume priceMap)) := by
  have h1 : List.Sorted (fun x y : ℚ => x ≤ y)
      ((sortByPrice (levelsWithVolume priceMap)).map Prod.fst) :=
    List.pairwise_map.2 (sortByPrice_sorted _)
  have h2 : ((levelsWithVolume priceMap).map Prod.fst).Nodup := by
    unfold levelsWithVolume
    rw [List.map_map]
    have : (Prod.fst ∘ fun e : ℚ × s_PriceLevelVolume => (e.1, e.2.TotalVolume)) = Prod.fst := rfl
    rw [this]
    exact hnd.sublist ((List.filter_sublist _).map _)
  have h3 : ((sortByPrice (levelsWithVolume priceMap)).map Prod.fst).Nodup :=
    ((sortByPrice_perm _).map Prod.fst).nodup_iff.2 h2
  exact List.pairwise_map.1 (List.Sorted.lt_of_le h1 h3)

/-! ## The value area reaches its target -/

/-- The accumulated volume with exact arithmetic: for every map with positive
total volume, when `CalculateProfileMetricsRun` returns, the volume accumulated
in the value area is the sum of the volumes of the levels between the lower
and upper expansion cursors, and it is at least `totalVolume * pct / 100`
unless every level with volume has been consumed, in which case it equals
`totalVolume`.  When the tick size is positive and the (pairwise distinct)
keys are at least half a tick apart, the levels between the cursors are the
levels priced in `[valueAreaLow, valueAreaHigh]`. -/
theorem valueArea_volume_reaches_target (priceMap : PriceVolumeMap) (pct tick : ℚ)
    (hvol : 0 < (CalculateProfileMetrics priceMap pct tick).totalVolume) :
    ∃ s, (CalculateProfileMetricsRun priceMap pct tick).va = some s ∧
      s.lowerIndex ≤ s.upperIndex ∧
      s.upperIndex < (CalculateProfileMetricsRun priceMap pct tick).priceVolPairs.length ∧
      s.currentVolumeInVA = volumeBetween
        (CalculateProfileMetricsRun priceMap pct tick).priceVolPairs s.lowerIndex s.upperIndex ∧
      ((CalculateProfileMetrics priceMap pct tick).totalVolume * (pct / 100)
          ≤ s.currentVolumeInVA ∨
        (s.lowerIndex = 0 ∧
          s.upperIndex + 1 = (CalculateProfileMetricsRun priceMap pct tick).priceVolPairs.length ∧
          s.currentVolumeInVA = (CalculateProfileMetrics priceMap pct tick).totalVolume)) ∧
      (0 < tick → keysSeparated priceMap tick → (priceMap.map Prod.fst).Nodup →
        s.currentVolumeInVA = volumeInPriceRange
          (CalculateProfileMetricsRun priceMap pct tick).priceVolPairs
          (CalculateProfileMetrics priceMap pct tick).valueAreaLow
          (CalculateProfileMetrics priceMap pct tick).valueAreaHigh) := by
  unfold CalculateProfileMetrics at hvol ⊢
  by_cases hne : levelsWithVolume priceMap = []
  · obtain ⟨_, _, h0, _⟩ := run_no_volume priceMap pct tick hne
    rw [h0] at hvol
    exact absurd hvol (lt_irrefl _)
  · obtain ⟨i, poc, hi, hrun, hpoc⟩ := run_main priceMap pct tick hne
    have hpos : ∀ p ∈ sortByPrice (levelsWithVolume priceMap), p.2 > VOL_EPS := fun p hp =>
      levelsWithVolume_pos priceMap p ((sortByPrice_perm _).mem_iff.1 hp)
    obtain ⟨⟨c1, c2, c3⟩, cb, cend⟩ := vaLoop_cursor hpos
      (((levelsWithVolume priceMap).map Prod.snd).sum * (pct / 100))
      (sortByPrice (levelsWithVolume priceMap)).length
      { currentVolumeInVA := ((sortByPrice (levelsWithVolume priceMap)).getD i (0, 0)).2,
        valueAreaHigh := poc, valueAreaLow := poc, upperIndex := i, lowerIndex := i }
      ⟨le_refl _, hi, by simp only; rw [prefixVolume_succ _ hi]; ring⟩
      (by simp only; omega)
    rw [hrun]
    refine ⟨_, rfl, c1, c2, ?_, ?_, ?_⟩
    · rw [volumeBetween_eq _ (by omega)]; exact c3
    · rcases cend with h | ⟨h1, h2⟩
      · exact Or.inl h
      · refine Or.inr ⟨h1, h2, ?_⟩
        rw [c3, h1, h2, prefixVolume_length]
        simp only [prefixVolume, List.take_zero, List.map_nil, List.sum_nil, sub_zero]
        exact ((sortByPrice_perm _).map Prod.snd).sum_eq
    · intro htick hsep hnd
      have hp := hpoc htick hsep
      obtain ⟨b1, b2⟩ := cb ⟨by simp only; exact hp.symm, by simp only; exact hp.symm⟩
      simp only
      rw [b1, b2, volumeInPriceRange_eq (sortByPrice_strict priceMap hnd) c1 c2,
        volumeBetween_eq _ (by omega)]
      exact c3

/-- The accumulated volume with exact arithmetic on the three-level map with
percentage 70 and tick size 1. -/
theorem valueArea_volume_reaches_target_witness :
    0 < (CalculateProfileMetrics threeLevels 70 1).totalVolume ∧
    ∃ s, (CalculateProfileMetricsRun threeLevels 70 1).va = some s ∧
      s.currentVolumeInVA = 7 ∧
      (CalculateProfileMetrics threeLevels 70 1).totalVolume * (70 / 100)
        ≤ s.currentVolumeInVA := by
  have h0 : 0 < (CalculateProfileMetrics threeLevels 70 1).totalVolume := by decide!
  obtain ⟨s, h1, _, _, _, _, _⟩ := valueArea_volume_reaches_target threeLevels 70 1 h0
  have h2 : (CalculateProfileMetricsRun threeLevels 70 1).va
      = some { currentVolumeInVA := 7, valueAreaHigh := 12, valueAreaLow := 11,
               upperIndex := 2, lowerIndex := 1 } := by decide!
  rw [h2] at h1
  simp only [Option.some.injEq] at h1
  subst h1
  exact ⟨h0, _, h2, rfl, by decide!⟩

/-- Off the tick grid the levels between the cursors are not the levels
priced in `[valueAreaLow, valueAreaHigh]`: for the keys 10, 11, 12 with tick
size 6 and percentage 40 the loop stops with the cursors on positions 0..1
(accumulated volume 4 of 9, target 3.6), but the bounds are `valueAreaLow` 12
and `valueAreaHigh` 11, between which no level is priced. -/
theorem valueArea_price_range_misses_target :
    0 < (CalculateProfileMetrics threeLevels 40 6).totalVolume ∧
    (CalculateProfileMetricsRun threeLevels 40 6).va
      = some { currentVolumeInVA := 4, valueAreaHigh := 11, valueAreaLow := 12,
               upperIndex := 1, lowerIndex := 0 } ∧
    (CalculateProfileMetricsRun threeLevels 40 6).priceVolPairs.length = 3 ∧
    volumeInPriceRange (CalculateProfileMetricsRun threeLevels 40 6).priceVolPairs
      (CalculateProfileMetrics threeLevels 40 6).valueAreaLow
      (CalculateProfileMetrics threeLevels 40 6).valueAreaHigh = 0 ∧
    ¬ ((CalculateProfileMetrics threeLevels 40 6).totalVolume * (40 / 100) ≤ 0) := by
  decide!

/-! ## Flag vectors -/

theorem getD_set_flag (l : List Bool) (k x : Nat) (v : Bool) :
    (l.set k v).getD x false = if x = k ∧ k < l.length then v else l.getD x false := by
  simp only [List.getD_eq_getElem?_getD, List.getElem?_set]
  by_cases h : k = x
  · subst h
    by_cases h2 : k < l.length
    · simp [h2]
    · have : l[k]? = none := List.getElem?_eq_none (by omega)
      simp [h2, this]
  · have h' : ¬ x = k := fun e => h e.symm
    simp [h, h']

/-! ## Composite detection -/

theorem compositeLoop_zero (inp : StudyInputs) (t : ℚ) (profiles : List s_SessionProfile)
    (finalized : List s_BalanceArea) (j : Nat) (s : List Bool × List s_CompositeBalanceArea) :
    compositeLoop inp t profiles finalized 0 j s = s := rfl

theorem compositeLoop_succ (inp : StudyInputs) (t : ℚ) (profiles : List s_SessionProfile)
    (finalized : List s_BalanceArea) (n j : Nat) (s : List Bool × List s_CompositeBalanceArea) :
    compositeLoop inp t profiles finalized (n + 1) j s =
      if (s.1.getD j false || s.1.getD (j + 1) false || s.1.getD (j + 2) false) = true then
        compositeLoop inp t profiles finalized n (j + 1) s
      else
        match compositeReason inp t profiles finalized j with
        | some finalReason =>
          compositeLoop inp t profiles finalized n (j + 1)
            (((s.1.set j true).set (j + 1) true).set (j + 2) true,
              s.2 ++ [newComposite finalized j finalReason])
        | none => compositeLoop inp t profiles finalized n (j + 1) s := rfl

theorem compositeLoop_inv (inp : StudyInputs) (t : ℚ) (profiles : List s_SessionProfile)
    (finalized : List s_BalanceArea) :
    ∀ (n j : Nat) (s : List Bool × List s_CompositeBalanceArea),
      j + n + 2 ≤ finalized.length → compositeInv finalized.length j s →
      compositeInv finalized.length (j + n) (compositeLoop inp t profiles finalized n j s) := by
  intro n
  induction n with
  | zero => intro j s _ h; rw [compositeLoop_zero]; exact h
  | succ n ih =>
    intro j s hj hinv
    have hnext : j + 1 + n = j + (n + 1) := by omega
    have hskip : compositeInv finalized.length (j + 1) s := by
      obtain ⟨h1, h2, h3⟩ := hinv
      refine ⟨h1, ?_, h3⟩
      intro c hc
      obtain ⟨m, hm, rest⟩ := h2 c hc
      exact ⟨m, by omega, rest⟩
    rw [compositeLoop_succ]
    by_cases hattr : (s.1.getD j false || s.1.getD (j + 1) false || s.1.getD (j + 2) false) = true
    · rw [if_pos hattr, ← hnext]
      exact ih (j + 1) s (by omega) hskip
    · rw [if_neg hattr]
      cases hq : compositeReason inp t profiles finalized j with
      | none =>
        simp only
        rw [← hnext]
        exact ih (j + 1) s (by omega) hskip
      | some finalReason =>
        simp only
        rw [← hnext]
        apply ih (j + 1) _ (by omega)
        obtain ⟨h1, h2, h3⟩ := hinv
        have hj0 : s.1.getD j false = false := by
          cases h : s.1.getD j false <;> simp_all
        simp only [Bool.or_eq_true, not_or, Bool.not_eq_true] at hattr
        refine ⟨by simp [h1], ?_, ?_⟩
        · intro c hc
          rcases List.mem_append.1 hc with hc | hc
          · obtain ⟨m, hm, hlen, e1, e2, e3, a1, a2, a3⟩ := h2 c hc
            refine ⟨m, by omega, hlen, e1, e2, e3, ?_, ?_, ?_⟩
            · simp only [getD_set_flag, List.length_set]
              split_ifs <;> first | rfl | exact a1
            · simp only [getD_set_flag, List.length_set]
              split_ifs <;> first | rfl | exact a2
            · simp only [getD_set_flag, List.length_set]
              split_ifs <;> first | rfl | exact a3
          · have hc' : c = newComposite finalized j finalReason := by simpa using hc
            subst hc'
            refine ⟨j, by omega, by omega, rfl, rfl, rfl, ?_, ?_, ?_⟩
            · simp only [getD_set_flag, List.length_set, h1]
              have : j < finalized.length := by omega
              simp [this]
            · simp only [getD_set_flag, List.length_set, h1]
              have : j + 1 < finalized.length := by omega
              simp [this]
            · simp only [getD_set_flag, List.length_set, h1]
              have : j + 2 < finalized.length := by omega
              simp [this]
        · rw [List.pairwise_append]
          refine ⟨h3, List.pairwise_singleton _ _, ?_⟩
          intro c hc d hd
          have hd' : d = newComposite finalized j finalReason := by simpa using hd
          subst hd'
          obtain ⟨m, hm, hlen, e1, e2, e3, a1, a2, a3⟩ := h2 c hc
          have hlt : m + 2 < j := by
            by_contra hge
            have hcases : j = m + 1 ∨ j = m + 2 := by omega
            rcases hcases with e | e
            · rw [e, a2] at hj0; simp at hj0
            · rw [e, a3] at hj0; simp at hj0
          rw [e3]
          show ((m : Int) + 2) < (j : Int)
          omega

/-- C6: the composites recorded by the composite detector are triples of
consecutive positions `j, j+1, j+2` of the finalized list, later composites
lie entirely after earlier ones, and so no finalized balance area is a member
of two different composites. -/
theorem detectComposites_disjoint (inp : StudyInputs) (TickSize : ℚ)
    (SessionProfiles : List s_SessionProfile) (finalized : List s_BalanceArea) :
    (∀ c ∈ detectComposites inp TickSize SessionProfiles finalized,
      ∃ j : Nat, j + 2 < finalized.length ∧ c.FirstBAIndex = j ∧ c.SecondBAIndex = j + 1 ∧
        c.ThirdBAIndex = j + 2) ∧
    (detectComposites inp TickSize SessionProfiles finalized).Pairwise
      (fun c d => c.ThirdBAIndex < d.FirstBAIndex ∧ ∀ x ∈ c.members, x ∉ d.members) := by
  unfold detectComposites
  by_cases hlen : finalized.length ≥ 3
  · rw [if_pos hlen]
    have h0 : compositeInv finalized.length 0
        (List.replicate finalized.length false, ([] : List s_CompositeBalanceArea)) :=
      ⟨by simp, by simp, List.Pairwise.nil⟩
    obtain ⟨_, h2, h3⟩ := compositeLoop_inv inp TickSize SessionProfiles finalized
      (finalized.length - 2) 0 _ (by omega) h0
    have hcons : ∀ c ∈ (compositeLoop inp TickSize SessionProfiles finalized
        (finalized.length - 2) 0 (List.replicate finalized.length false, [])).2,
        ∃ j : Nat, j + 2 < finalized.length ∧ c.FirstBAIndex = j ∧ c.SecondBAIndex = j + 1 ∧
          c.ThirdBAIndex = j + 2 := by
      intro c hc
      obtain ⟨m, _, hl, e1, e2, e3, _⟩ := h2 c hc
      exact ⟨m, hl, e1, e2, e3⟩
    refine ⟨hcons, ?_⟩
    have h4 := List.Pairwise.and_mem.1 h3
    refine h4.imp ?_
    rintro c d ⟨hc, hd, hlt⟩
    refine ⟨hlt, ?_⟩
    obtain ⟨m, _, c1, c2, c3⟩ := hcons c hc
    obtain ⟨k, _, d1, d2, d3⟩ := hcons d hd
    intro x hx hx'
    simp only [s_CompositeBalanceArea.members, List.mem_cons, List.mem_singleton,
      List.not_mem_nil, or_false] at hx hx'
    rw [c1, c2, c3] at hx
    rw [d1, d2, d3] at hx'
    rw [c3, d1] at hlt
    omega
  · rw [if_neg hlen]
    exact ⟨by simp, List.Pairwise.nil⟩

/-! ## The extension loop of the formation -/

theorem profileRun_succ (i e : Nat) (h : i ≤ e + 1) :
    profileRun i (e + 1) = profileRun i e ++ [((e + 1 : Nat) : Int)] := by
  unfold profileRun
  have e2 : e + 1 + 1 - i = (e + 1 - i) + 1 := by omega
  have e3 : i + 1 * (e + 1 - i) = e + 1 := by omega
  rw [e2, List.range'_concat, e3, List.map_append]
  rfl

theorem profileRun_getLastD (i e : Nat) (h : i ≤ e) : (profileRun i e).getLastD (-1) = e := by
  cases e with
  | zero =>
    have : i = 0 := by omega
    subst this
    rfl
  | succ e =>
    by_cases hi : i ≤ e
    · rw [profileRun_succ i e (by omega), List.getLastD_concat]
    · have : i = e + 1 := by omega
      subst this
      unfold profileRun
      have : e + 1 + 1 - (e + 1) = 1 := by omega
      rw [this]
      rfl

theorem extensionProfiles_zero (sc : SCStudyInterface) (inp : StudyInputs)
    (profiles : List s_SessionProfile) (k : Nat) (s : ExtensionState) :
    extensionProfiles sc inp profiles 0 k s = s := rfl

theorem extensionProfiles_succ (sc : SCStudyInterface) (inp : StudyInputs)
    (profiles : List s_SessionProfile) (n k : Nat) (s : ExtensionState) :
    extensionProfiles sc inp profiles (n + 1) k s =
      match extensionBody sc inp profiles k s with
      | (t, true) => extensionProfiles sc inp profiles n (k + 1) t
      | (t, false) => t := rfl

/-- The three ways one iteration of the extension loop can go: stop without a
change, absorb profile `k` and roll the absorption back, or absorb profile
`k`. -/
theorem extensionBody_cases (sc : SCStudyInterface) (inp : StudyInputs)
    (profiles : List s_SessionProfile) (k : Nat) (s : ExtensionState) :
    extensionBody sc inp profiles k s = (s, false) ∨
    (∃ t, extensionBody sc inp profiles k s = (t, false) ∧
      t.currentBA.StartProfileChronoIndex = s.currentBA.StartProfileChronoIndex ∧
      t.currentBA.IncludedProfileIndices = s.currentBA.IncludedProfileIndices ∧
      t.currentBA.EndProfileChronoIndex = s.currentBA.IncludedProfileIndices.getLastD (-1) ∧
      t.currentBA.IsActivated = s.currentBA.IsActivated ∧
      t.currentBA.WasCut = s.currentBA.WasCut ∧
      t.profileUsed = (s.profileUsed.set k true).set k false) ∨
    (∃ t, extensionBody sc inp profiles k s = (t, true) ∧
      t.currentBA.StartProfileChronoIndex = s.currentBA.StartProfileChronoIndex ∧
      t.currentBA.IncludedProfileIndices = s.currentBA.IncludedProfileIndices ++ [(k : Int)] ∧
      t.currentBA.EndProfileChronoIndex = k ∧
      t.currentBA.IsActivated = s.currentBA.IsActivated ∧
      t.currentBA.WasCut = s.currentBA.WasCut ∧
      t.profileUsed = s.profileUsed.set k true) := by
  unfold extensionBody
  simp only
  by_cases h1 : invalidHL (profiles.getD k {}).HighestPrice (profiles.getD k {}).LowestPrice = true
  · rw [if_pos h1]
    exact Or.inl rfl
  · rw [if_neg h1]
    cases hr : extensionReason sc inp sc.TickSize s.currentBA s.currentMergedMap
        (profiles.getD k {}) with
    | none => exact Or.inl rfl
    | some reason =>
      simp only
      by_cases h2 : invalidHL
          (CalculateProfileMetrics (MergeMultipleVolumeProfiles
            (s.mapsToMerge ++ [(profiles.getD k {}).PriceMap]))
            inp.ValueAreaPercentage sc.TickSize).highestPrice
          (CalculateProfileMetrics (MergeMultipleVolumeProfiles
            (s.mapsToMerge ++ [(profiles.getD k {}).PriceMap]))
            inp.ValueAreaPercentage sc.TickSize).lowestPrice = true
      · rw [if_pos h2]
        refine Or.inr (Or.inl ⟨_, rfl, rfl, ?_, ?_, rfl, rfl, rfl⟩)
        · simp only [List.dropLast_concat]
        · simp only [List.dropLast_concat]
      · rw [if_neg h2]
        by_cases h3 : (reason == "Close Above BA Low (Low Fail)" ||
            reason == "Close Below BA High (High Fail)") = true
        · rw [if_pos h3]
          exact Or.inr (Or.inr ⟨_, rfl, rfl, rfl, rfl, rfl, rfl, rfl⟩)
        · rw [if_neg h3]
          exact Or.inr (Or.inr ⟨_, rfl, rfl, rfl, rfl, rfl, rfl, rfl⟩)

theorem extensionProfiles_inv (sc : SCStudyInterface) (inp : StudyInputs)
    (profiles : List s_SessionProfile) (used0 : List Bool) (i : Nat)
    (h0 : ∀ x, i ≤ x → used0.getD x false = false) :
    ∀ (n k : Nat) (s : ExtensionState), k + n = used0.length → candidateInv used0 i k s →
      ∃ k', candidateInv used0 i k' (extensionProfiles sc inp profiles n k s) := by
  intro n
  induction n with
  | zero => intro k s _ h; exact ⟨k, h⟩
  | succ n ih =>
    intro k s hk hinv
    rw [extensionProfiles_succ]
    obtain ⟨c1, c2, c3, c4, c5, c6, c7, c8, c9⟩ := hinv
    rcases extensionBody_cases sc inp profiles k s with e | ⟨t, e, t1, t2, t3, t4, t5, t6⟩ |
        ⟨t, e, t1, t2, t3, t4, t5, t6⟩
    · rw [e]
      exact ⟨k, c1, c2, c3, c4, c5, c6, c7, c8, c9⟩
    · rw [e]
      refine ⟨k, c1, c2, t1.trans c3, ?_, t2.trans c5, t4.trans c6, t5.trans c7, ?_, ?_⟩
      · rw [t3, c5, profileRun_getLastD i (k - 1) (by omega)]
        omega
      · rw [t6]; simp [c8]
      · intro x
        rw [t6, getD_set_flag, getD_set_flag]
        by_cases hx : x = k
        · subst hx
          have hlt : x < s.profileUsed.length := by rw [c8]; omega
          simp only [List.length_set, hlt, and_self, if_true]
          rw [h0 x (by omega)]
          simp
        · simp only [hx, false_and, if_false]
          exact c9 x
    · rw [e]
      apply ih (k + 1) t (by omega)
      refine ⟨by omega, by omega, t1.trans c3, ?_, ?_, t4.trans c6, t5.trans c7, ?_, ?_⟩
      · rw [t3]; push_cast; omega
      · rw [t2, c5]
        have : k + 1 - 1 = (k - 1) + 1 := by omega
        rw [this, profileRun_succ i (k - 1) (by omega)]
        congr 3
      · rw [t6]; simp [c8]
      · intro x
        rw [t6, getD_set_flag, c9 x]
        by_cases hx : x = k
        · subst hx
          have hlt : x < s.profileUsed.length := by rw [c8]; omega
          have hi : i ≤ x := by omega
          simp [hlt, hi]
        · simp only [hx, false_and, if_false]
          have : (decide (x < k + 1)) = decide (x < k) := by
            simp only [decide_eq_decide]; omega
          rw [this]

theorem formationLoop_zero (sc : SCStudyInterface) (inp : StudyInputs) (sqrtf : ℚ → ℚ)
    (profiles : List s_SessionProfile) (i : Nat) (s : FormationState) :
    formationLoop sc inp sqrtf profiles 0 i s = s := rfl

theorem formationLoop_succ (sc : SCStudyInterface) (inp : StudyInputs) (sqrtf : ℚ → ℚ)
    (profiles : List s_SessionProfile) (n i : Nat) (s : FormationState) :
    formationLoop sc inp sqrtf profiles (n + 1) i s =
      if s.profileUsed.getD i false = true then formationLoop sc inp sqrtf profiles n (i + 1) s
      else if i + 1 ≥ profiles.length then s
      else formationLoop sc inp sqrtf profiles n (i + 1)
        (formationBody sc inp sqrtf profiles i s) := rfl

/-- The body of the initiation loop leaves the state as it is, or seals a
candidate: a state of the extension loop started on the pair `i, i+1`, whose
flags it keeps and whose balance area it may append. -/
theorem formationBody_cases (sc : SCStudyInterface) (inp : StudyInputs) (sqrtf : ℚ → ℚ)
    (profiles : List s_SessionProfile) (i : Nat) (s : FormationState)
    (hlen : s.profileUsed.length = profiles.length) (hi : i + 1 < profiles.length)
    (h0 : ∀ x, i ≤ x → s.profileUsed.getD x false = false) :
    formationBody sc inp sqrtf profiles i s = s ∨
    ∃ (e : ExtensionState) (k : Nat), candidateInv s.profileUsed i k e ∧
      (formationBody sc inp sqrtf profiles i s).profileUsed = e.profileUsed ∧
      ((formationBody sc inp sqrtf profiles i s).FinalizedBalanceAreas = s.FinalizedBalanceAreas ∨
        (formationBody sc inp sqrtf profiles i s).FinalizedBalanceAreas =
          s.FinalizedBalanceAreas ++ [e.currentBA]) := by
  unfold formationBody
  simp only
  by_cases h1 : (invalidHL (profiles.getD i {}).HighestPrice (profiles.getD i {}).LowestPrice ||
      invalidHL (profiles.getD (i + 1) {}).HighestPrice (profiles.getD (i + 1) {}).LowestPrice)
      = true
  · rw [if_pos h1]; exact Or.inl rfl
  · rw [if_neg h1]
    cases hr : initiationReason inp sc.TickSize (profiles.getD i {}) (profiles.getD (i + 1) {}) with
    | none => exact Or.inl rfl
    | some reason =>
      simp only
      by_cases h2 : invalidHL
          (CalculateProfileMetrics (MergeMultipleVolumeProfiles
            [(profiles.getD i {}).PriceMap, (profiles.getD (i + 1) {}).PriceMap])
            inp.ValueAreaPercentage sc.TickSize).highestPrice
          (CalculateProfileMetrics (MergeMultipleVolumeProfiles
            [(profiles.getD i {}).PriceMap, (profiles.getD (i + 1) {}).PriceMap])
            inp.ValueAreaPercentage sc.TickSize).lowestPrice = true
      · rw [if_pos h2]; exact Or.inl rfl
      · rw [if_neg h2]
        right
        -- the state in which the extension loop starts
        have hstart : candidateInv s.profileUsed i (i + 2)
            { currentBA :=
                { StartProfileChronoIndex := i
                  EndProfileChronoIndex := i + 1
                  StartDateTime := (profiles.getD i {}).StartDateTime
                  StartBarIndex := (profiles.getD i {}).BeginIndex
                  EndDateTime := (profiles.getD (i + 1) {}).EndDateTime
                  EndBarIndex := (profiles.getD (i + 1) {}).EndIndex
                  IncludedProfileIndices := [(i : Int), (i : Int) + 1]
                  InitiationReason := reason
                  POC := (CalculateProfileMetrics (MergeMultipleVolumeProfiles
                    [(profiles.getD i {}).PriceMap, (profiles.getD (i + 1) {}).PriceMap])
                    inp.ValueAreaPercentage sc.TickSize).poc
                  ValueAreaHigh := (CalculateProfileMetrics (MergeMultipleVolumeProfiles
                    [(profiles.getD i {}).PriceMap, (profiles.getD (i + 1) {}).PriceMap])
                    inp.ValueAreaPercentage sc.TickSize).valueAreaHigh
                  ValueAreaLow := (CalculateProfileMetrics (MergeMultipleVolumeProfiles
                    [(profiles.getD i {}).PriceMap, (profiles.getD (i + 1) {}).PriceMap])
                    inp.ValueAreaPercentage sc.TickSize).valueAreaLow
                  TotalVolume := (CalculateProfileMetrics (MergeMultipleVolumeProfiles
                    [(profiles.getD i {}).PriceMap, (profiles.getD (i + 1) {}).PriceMap])
                    inp.ValueAreaPercentage sc.TickSize).totalVolume
                  HighestPrice := (CalculateProfileMetrics (MergeMultipleVolumeProfiles
                    [(profiles.getD i {}).PriceMap, (profiles.getD (i + 1) {}).PriceMap])
                    inp.ValueAreaPercentage sc.TickSize).highestPrice
                  LowestPrice := (CalculateProfileMetrics (MergeMultipleVolumeProfiles
                    [(profiles.getD i {}).PriceMap, (profiles.getD (i + 1) {}).PriceMap])
                    inp.ValueAreaPercentage sc.TickSize).lowestPrice }
              mapsToMerge := [(profiles.getD i {}).PriceMap, (profiles.getD (i + 1) {}).PriceMap]
              currentMergedMap := MergeMultipleVolumeProfiles
                [(profiles.getD i {}).PriceMap, (profiles.getD (i + 1) {}).PriceMap]
              profileUsed := (s.profileUsed.set i true).set (i + 1) true
              ProbeLinesToDraw := s.ProbeLinesToDraw } := by
          refine ⟨le_refl _, by omega, rfl, by simp only; push_cast; omega, ?_, rfl, rfl,
            by simp, ?_⟩
          · simp only
            have : i + 2 - 1 = i + 1 := by omega
            rw [this, profileRun_succ i i (by omega)]
            have : profileRun i i = [(i : Int)] := by
              unfold profileRun
              have : i + 1 - i = 1 := by omega
              rw [this]; rfl
            rw [this]
            simp
          · intro x
            simp only [getD_set_flag, List.length_set]
            by_cases hx1 : x = i + 1
            · subst hx1
              have : i + 1 < s.profileUsed.length := by omega
              simp [this]
            · by_cases hx0 : x = i
              · subst hx0
                have : x < s.profileUsed.length := by omega
                simp [this, hx1]
              · have : ¬ (i ≤ x ∧ x < i + 2) := by omega
                simp only [hx1, hx0, false_and, if_false]
                by_cases ha : i ≤ x
                · have hb : ¬ x < i + 2 := fun h => this ⟨ha, h⟩
                  simp [ha, hb]
                · simp [ha]
        obtain ⟨k', hk'⟩ := extensionProfiles_inv sc inp profiles s.profileUsed i h0
          (profiles.length - (i + 2)) (i + 2) _ (by omega) hstart
        refine ⟨_, k', hk', ?_, ?_⟩
        · split_ifs <;> rfl
        · split_ifs
          · exact Or.inr rfl
          · exact Or.inl rfl
          · exact Or.inl rfl

theorem formationInv_step (sc : SCStudyInterface) (inp : StudyInputs) (sqrtf : ℚ → ℚ)
    (profiles : List s_SessionProfile) (i : Nat) (s : FormationState)
    (hinv : formationInv profiles.length i s) (hi : i + 1 < profiles.length)
    (hu : ¬ s.profileUsed.getD i false = true) :
    formationInv profiles.length (i + 1) (formationBody sc inp sqrtf profiles i s) := by
  obtain ⟨hlen, B, b1, b2, b3, b4⟩ := hinv
  have hB : B ≤ i := by
    by_contra hc
    exact hu (b2 i (le_refl _) (by omega))
  have h0 : ∀ x, i ≤ x → s.profileUsed.getD x false = false := by
    intro x hx
    cases hg : s.profileUsed.getD x false with
    | false => rfl
    | true => have := b1 x hg; omega
  rcases formationBody_cases sc inp sqrtf profiles i s hlen hi h0 with e | ⟨e, k, hc, e1, e2⟩
  · rw [e]
    exact ⟨hlen, B, b1, fun x hx hxB => by omega, b3, b4⟩
  · obtain ⟨c1, c2, c3, c4, c5, c6, c7, c8, c9⟩ := hc
    have hflag : ∀ x, (formationBody sc inp sqrtf profiles i s).profileUsed.getD x false = true →
        x < k := by
      intro x hx
      rw [e1, c9 x] at hx
      simp only [Bool.or_eq_true, Bool.and_eq_true, decide_eq_true_eq] at hx
      rcases hx with hx | hx
      · have := b1 x hx; omega
      · exact hx.2
    have hset : ∀ x, i + 1 ≤ x → x < k →
        (formationBody sc inp sqrtf profiles i s).profileUsed.getD x false = true := by
      intro x hx hxk
      rw [e1, c9 x]
      have : i ≤ x := by omega
      simp [this, hxk]
    have hold : ∀ a ∈ s.FinalizedBalanceAreas, a.EndProfileChronoIndex < (k : Int) ∧
        a.EndProfileChronoIndex < (profiles.length : Int) ∧ contiguousRun a ∧
        a.IsActivated = false ∧ a.WasCut = false := by
      intro a ha
      obtain ⟨a1, a2, a3, a4, a5⟩ := b3 a ha
      exact ⟨by omega, a2, a3, a4, a5⟩
    refine ⟨by rw [e1, c8, hlen], k, hflag, hset, ?_, ?_⟩
    · rcases e2 with e2 | e2
      · rw [e2]; exact hold
      · rw [e2]
        intro a ha
        rcases List.mem_append.1 ha with ha | ha
        · exact hold a ha
        · rw [List.mem_singleton.1 ha]
          refine ⟨by rw [c4]; omega, by rw [c4, ← hlen]; omega, ?_, c6, c7⟩
          exact ⟨i, k - 1, by omega, c3, by rw [c4]; omega, c5⟩
    · rcases e2 with e2 | e2
      · rw [e2]; exact b4
      · rw [e2, List.pairwise_append]
        refine ⟨b4, List.pairwise_singleton _ _, ?_⟩
        intro a ha b hb
        rw [List.mem_singleton.1 hb, c3]
        have := (b3 a ha).1
        omega

theorem formationLoop_inv (sc : SCStudyInterface) (inp : StudyInputs) (sqrtf : ℚ → ℚ)
    (profiles : List s_SessionProfile) :
    ∀ (n i : Nat) (s : FormationState), formationInv profiles.length i s →
      ∃ j, formationInv profiles.length j (formationLoop sc inp sqrtf profiles n i s) := by
  intro n
  induction n with
  | zero => intro i s h; exact ⟨i, h⟩
  | succ n ih =>
    intro i s h
    rw [formationLoop_succ]
    by_cases hu : s.profileUsed.getD i false = true
    · rw [if_pos hu]
      apply ih (i + 1) s
      obtain ⟨hlen, B, b1, b2, b3, b4⟩ := h
      exact ⟨hlen, B, b1, fun x hx hxB => b2 x (by omega) hxB, b3, b4⟩
    · rw [if_neg hu]
      by_cases hl : i + 1 ≥ profiles.length
      · rw [if_pos hl]; exact ⟨i, h⟩
      · rw [if_neg hl]
        exact ih (i + 1) _ (formationInv_step sc inp sqrtf profiles i s h (by omega) hu)

theorem formBalanceAreas_inv (sc : SCStudyInterface) (inp : StudyInputs) (sqrtf : ℚ → ℚ)
    (SessionProfiles : List s_SessionProfile) :
    ∃ j, formationInv SessionProfiles.length j
      (formBalanceAreas sc inp sqrtf SessionProfiles) := by
  unfold formBalanceAreas
  apply formationLoop_inv
  refine ⟨by simp, 0, ?_, ?_, ?_, ?_⟩
  · intro x hx
    exfalso
    rw [List.getD_eq_getElem?_getD] at hx
    by_cases hl : x < SessionProfiles.length
    · rw [List.getElem?_eq_getElem (by simpa using hl)] at hx
      simp at hx
    · rw [List.getElem?_eq_none (by simpa using hl)] at hx
      simp at hx
  · intro x _ hx; omega
  · intro a ha; simp at ha
  · simp

/-- C5: for every sequence of session profiles and every parameter setting,
each finalized balance area produced by the formation loop has as its
`IncludedProfileIndices` exactly the consecutive run from its
`StartProfileChronoIndex` to its `EndProfileChronoIndex`, of at least two
members and inside the profile list, and of any two entries of
`FinalizedBalanceAreas` (so of any two consecutive ones) the earlier ends
strictly before the later starts. -/
theorem formBalanceAreas_contiguous_disjoint (sc : SCStudyInterface) (inp : StudyInputs)
    (sqrtf : ℚ → ℚ) (SessionProfiles : List s_SessionProfile) :
    (∀ b ∈ (formBalanceAreas sc inp sqrtf SessionProfiles).FinalizedBalanceAreas,
      ∃ i e : Nat, i + 1 ≤ e ∧ e < SessionProfiles.length ∧
        b.StartProfileChronoIndex = i ∧ b.EndProfileChronoIndex = e ∧
        b.IncludedProfileIndices = profileRun i e ∧
        b.IncludedProfileIndices.length = e - i + 1) ∧
    (formBalanceAreas sc inp sqrtf SessionProfiles).FinalizedBalanceAreas.Pairwise
      (fun a b => a.EndProfileChronoIndex < b.StartProfileChronoIndex) ∧
    (formBalanceAreas sc inp sqrtf SessionProfiles).FinalizedBalanceAreas.Chain'
      (fun a b => a.EndProfileChronoIndex < b.StartProfileChronoIndex) := by
  obtain ⟨j, _, B, _, _, b3, b4⟩ := formBalanceAreas_inv sc inp sqrtf SessionProfiles
  refine ⟨?_, b4, List.Pairwise.chain' b4⟩
  intro b hb
  obtain ⟨_, a2, ⟨i, e, h1, h2, h3, h4⟩, _, _⟩ := b3 b hb
  refine ⟨i, e, h1, ?_, h2, h3, h4, ?_⟩
  · rw [h3] at a2; exact_mod_cast a2
  · rw [h4]; unfold profileRun; simp; omega

/-- On five sessions the formation yields the runs 0..2 and 3..4. -/
theorem formBalanceAreas_fiveSessions :
    (formBalanceAreas chartFive plainInputs (fun x => x) fiveSessions).FinalizedBalanceAreas.map
      (fun b => (b.StartProfileChronoIndex, b.EndProfileChronoIndex, b.IncludedProfileIndices)) =
    [(0, 2, [0, 1, 2]), (3, 4, [3, 4])] := by
  decide!

/-- The state after a rebuild is fresh: no active balance area, and no
finalized balance area activated or cut. -/
theorem rebuildState_fresh (sc : SCStudyInterface) (inp : StudyInputs) (sqrtf : ℚ → ℚ)
    (SessionProfiles : List s_SessionProfile) :
    FreshState (rebuildState sc inp sqrtf SessionProfiles) := by
  obtain ⟨j, _, B, _, _, b3, _⟩ := formBalanceAreas_inv sc inp sqrtf SessionProfiles
  refine ⟨rfl, ?_⟩
  intro f hf
  exact (b3 f hf).2.2.2

/-- C14: `CalculateValueAreaOverlap` gives the same percentage when the two
value areas are exchanged, for all bounds and every tick size. -/
theorem CalculateValueAreaOverlap_symmetric (VAH1 VAL1 VAH2 VAL2 TickSize : ℚ) :
    CalculateValueAreaOverlap VAH1 VAL1 VAH2 VAL2 TickSize =
      CalculateValueAreaOverlap VAH2 VAL2 VAH1 VAL1 TickSize := by
  unfold CalculateValueAreaOverlap
  simp only [or_comm (a := VAH1 < VAL1), and_comm (a := VAH1 - VAL1 < TickSize / 2),
    or_comm (a := VAH1 - VAL1 < TickSize / 2), abs_sub_comm VAL1 VAL2, max_comm VAL1 VAL2,
    min_comm VAH1 VAH2, min_comm VAL1 VAL2, max_comm VAH1 VAH2]

/-- Two valid balance areas that are both narrower than half a tick never get
the percentage 100: their intersection is narrower than half a tick as well,
and the function returns 0 at its first tolerance test. -/
theorem rangeOverlap_degenerate_zero (ba1 ba2 : s_BalanceArea) (TickSize : ℚ)
    (h1 : invalidHL ba1.HighestPrice ba1.LowestPrice = false)
    (hd1 : ba1.GetRange < TickSize / 2) :
    CalculateRangeOverlapPercent_RelativeToSmaller ba1 ba2 TickSize = 0 := by
  unfold CalculateRangeOverlapPercent_RelativeToSmaller
  by_cases hv : (invalidHL ba1.HighestPrice ba1.LowestPrice ||
      invalidHL ba2.HighestPrice ba2.LowestPrice) = true
  · rw [if_pos hv]
  · rw [if_neg hv]
    simp only [invalidHL, Bool.or_eq_false_iff, decide_eq_false_iff_not, not_le, not_lt] at h1
    have hr : ba1.GetRange = ba1.HighestPrice - ba1.LowestPrice := by
      unfold s_BalanceArea.GetRange
      rw [if_neg]
      intro h
      rcases h with h | h | h
      · linarith [h1.1.1]
      · linarith [h1.1.2]
      · linarith [h1.2]
    rw [hr] at hd1
    have : min ba1.HighestPrice ba2.HighestPrice - max ba1.LowestPrice ba2.LowestPrice
        < TickSize / 2 := by
      have a := min_le_left ba1.HighestPrice ba2.HighestPrice
      have b := le_max_left ba1.LowestPrice ba2.LowestPrice
      linarith
    simp only [this, if_true]

theorem lookup_append_single (m : PriceVolumeMap) (e : ℚ × s_PriceLevelVolume) (p : ℚ) :
    (m ++ [e]).lookup p = (m.lookup p).orElse (fun _ => if e.1 = p then some e.2 else none) := by
  induction m with
  | nil =>
    by_cases h : e.1 = p
    · subst h; simp [List.lookup]
    · have : (p == e.1) = false := by simpa using fun h2 => h h2.symm
      simp [List.lookup, this, h]
  | cons x xs ih =>
    by_cases hx : (p == x.1) = true
    · simp [List.lookup, hx]
    · simp only [Bool.not_eq_true] at hx
      simp only [List.cons_append, List.lookup, hx]
      exact ih

theorem lookup_none_of_not_any (m : PriceVolumeMap) (p : ℚ)
    (h : m.any (fun x => x.1 == p) = false) : m.lookup p = none := by
  induction m with
  | nil => rfl
  | cons x xs ih =>
    simp only [List.any_cons, Bool.or_eq_false_iff] at h
    have : (p == x.1) = false := by
      have := h.1
      simp only [beq_eq_false_iff_ne, ne_eq] at this ⊢
      exact fun h2 => this h2.symm
    simp only [List.lookup, this]
    exact ih h.2

theorem lookup_some_of_any (m : PriceVolumeMap) (p : ℚ)
    (h : m.any (fun x => x.1 == p) = true) : ∃ r, m.lookup p = some r := by
  induction m with
  | nil => simp at h
  | cons x xs ih =>
    by_cases hx : (p == x.1) = true
    · exact ⟨x.2, by simp [List.lookup, hx]⟩
    · simp only [Bool.not_eq_true] at hx
      simp only [List.any_cons, Bool.or_eq_true] at h
      rcases h with h | h
      · exfalso
        simp only [beq_iff_eq] at h
        simp only [beq_eq_false_iff_ne, ne_eq] at hx
        exact hx h.symm
      · simp only [List.lookup, hx]
        exact ih h

theorem lookup_map_update (m : PriceVolumeMap) (k p : ℚ)
    (f : s_PriceLevelVolume → s_PriceLevelVolume) :
    (m.map (fun x => if x.1 = k then (x.1, f x.2) else x)).lookup p =
      if k = p then (m.lookup p).map f else m.lookup p := by
  induction m with
  | nil => simp [List.lookup]
  | cons x xs ih =>
    obtain ⟨a, b⟩ := x
    have hhead : List.map (fun x : ℚ × s_PriceLevelVolume => if x.1 = k then (x.1, f x.2) else x)
        ((a, b) :: xs) = (if a = k then (a, f b) else (a, b)) ::
          List.map (fun x : ℚ × s_PriceLevelVolume => if x.1 = k then (x.1, f x.2) else x) xs :=
      rfl
    rw [hhead]
    by_cases hk : a = k
    · rw [if_pos hk]
      by_cases hp : p = a
      · have hpa : (p == a) = true := by simpa using hp
        have hkp : k = p := by rw [← hk, hp]
        simp only [List.lookup, hpa, if_pos hkp, Option.map]
      · have hpa : (p == a) = false := by simpa using hp
        simp only [List.lookup, hpa]
        exact ih
    · rw [if_neg hk]
      by_cases hp : p = a
      · have hpa : (p == a) = true := by simpa using hp
        have hkp : ¬ k = p := fun h => hk (by rw [h, hp])
        simp only [List.lookup, hpa, if_neg hkp]
      · have hpa : (p == a) = false := by simpa using hp
        simp only [List.lookup, hpa]
        exact ih

/-- The level at `p` after one entry was merged in. -/
theorem levelAt_mergeEntry (m : PriceVolumeMap) (e : ℚ × s_PriceLevelVolume) (p : ℚ) :
    levelAt (mergeEntry m e) p =
      if e.1 = p then mergedLevel (levelAt m p) (some e.2) else levelAt m p := by
  unfold mergeEntry levelAt
  cases ha : m.any (fun x => x.1 == e.1) with
  | true =>
    simp only [if_true]
    refine Eq.trans (lookup_map_update m e.1 p (fun r => addLevel r e.2)) ?_
    by_cases hp : e.1 = p
    · obtain ⟨r, hr⟩ := lookup_some_of_any m e.1 ha
      subst hp
      simp [hr, mergedLevel]
    · simp [hp]
  | false =>
    simp only [Bool.false_eq_true, if_false]
    rw [lookup_append_single]
    by_cases hp : e.1 = p
    · subst hp
      rw [lookup_none_of_not_any m e.1 ha]
      simp [mergedLevel]
    · simp only [hp, if_false]
      cases m.lookup p <;> simp [Option.orElse]

theorem mergedLevel_none_right (a : Option s_PriceLevelVolume) : mergedLevel a none = a := by
  cases a <;> rfl

theorem levelAt_cons (e : ℚ × s_PriceLevelVolume) (m : PriceVolumeMap) (p : ℚ) :
    levelAt (e :: m) p = if e.1 = p then some e.2 else levelAt m p := by
  obtain ⟨a, b⟩ := e
  unfold levelAt
  by_cases hp : a = p
  · have : (p == a) = true := by simpa using hp.symm
    simp only [List.lookup, this, if_pos hp]
  · have : (p == a) = false := by simpa using fun h : p = a => hp h.symm
    simp only [List.lookup, this, if_neg hp]

theorem levelAt_none_of_not_key (m : PriceVolumeMap) (p : ℚ) (h : p ∉ m.map Prod.fst) :
    levelAt m p = none := by
  induction m with
  | nil => rfl
  | cons e m ih =>
    simp only [List.map_cons, List.mem_cons, not_or] at h
    rw [levelAt_cons, if_neg (fun h2 => h.1 h2.symm)]
    exact ih h.2

theorem levelAt_mem (m : PriceVolumeMap) (p : ℚ) (r : s_PriceLevelVolume)
    (h : levelAt m p = some r) : (p, r) ∈ m := by
  induction m with
  | nil => simp [levelAt] at h
  | cons e m ih =>
    rw [levelAt_cons] at h
    by_cases hp : e.1 = p
    · rw [if_pos hp] at h
      simp only [Option.some.injEq] at h
      rw [← hp, ← h]
      exact List.mem_cons_self _ _
    · rw [if_neg hp] at h
      exact List.mem_cons_of_mem _ (ih h)

/-- The level at `p` after a whole map with unique keys was merged in. -/
theorem levelAt_foldl_mergeEntry (A : PriceVolumeMap) (hA : uniqueKeys A) (p : ℚ) :
    ∀ M : PriceVolumeMap,
      levelAt (A.foldl mergeEntry M) p = mergedLevel (levelAt M p) (levelAt A p) := by
  induction A with
  | nil => intro M; simp [levelAt, mergedLevel_none_right]
  | cons e A ih =>
    intro M
    unfold uniqueKeys at hA
    simp only [List.map_cons, List.nodup_cons] at hA
    rw [List.foldl_cons, ih hA.2, levelAt_mergeEntry, levelAt_cons]
    by_cases hp : e.1 = p
    · rw [if_pos hp, if_pos hp, levelAt_none_of_not_key A p (hp ▸ hA.1), mergedLevel_none_right]
    · rw [if_neg hp, if_neg hp]

theorem levelAt_merge_pair (A B : PriceVolumeMap) (hA : uniqueKeys A) (hB : uniqueKeys B)
    (p : ℚ) :
    levelAt (MergeMultipleVolumeProfiles [A, B]) p = mergedLevel (levelAt A p) (levelAt B p) := by
  unfold MergeMultipleVolumeProfiles
  simp only [List.foldl_cons, List.foldl_nil]
  rw [levelAt_foldl_mergeEntry B hB, levelAt_foldl_mergeEntry A hA]
  cases levelAt A p <;> rfl

/-- C12 (amended): for all maps `A` and `B` with unique keys, the merge of
`[A, B]` and the merge of `[B, A]` have the same keys and hold at every key
the same total volume and number of trades, the sums on a collision; when the
level records of both maps carry their own key as `Price`, the two merges are
the same map, with the same level record at every key. -/
theorem MergeMultipleVolumeProfiles_commutative (A B : PriceVolumeMap)
    (hA : uniqueKeys A) (hB : uniqueKeys B) :
    (∀ p, levelAt (MergeMultipleVolumeProfiles [A, B]) p
        = mergedLevel (levelAt A p) (levelAt B p)) ∧
    (∀ p, (levelAt (MergeMultipleVolumeProfiles [A, B]) p).map
          (fun r => (r.TotalVolume, r.NumberOfTrades)) =
        (levelAt (MergeMultipleVolumeProfiles [B, A]) p).map
          (fun r => (r.TotalVolume, r.NumberOfTrades))) ∧
    (carriesKey A → carriesKey B →
      sameMap (MergeMultipleVolumeProfiles [A, B]) (MergeMultipleVolumeProfiles [B, A])) := by
  refine ⟨levelAt_merge_pair A B hA hB, ?_, ?_⟩
  · intro p
    rw [levelAt_merge_pair A B hA hB, levelAt_merge_pair B A hB hA]
    cases levelAt A p <;> cases levelAt B p <;>
      simp [mergedLevel, addLevel, add_comm]
  · intro kA kB p
    rw [levelAt_merge_pair A B hA hB, levelAt_merge_pair B A hB hA]
    cases ha : levelAt A p with
    | none => cases levelAt B p <;> rfl
    | some a =>
      cases hb : levelAt B p with
      | none => rfl
      | some b =>
        have h1 : a.Price = p := kA _ (levelAt_mem A p a ha)
        have h2 : b.Price = p := kB _ (levelAt_mem B p b hb)
        simp only [mergedLevel, addLevel, Option.some.injEq]
        rw [h1, h2, add_comm a.TotalVolume, add_comm a.NumberOfTrades]

/-- C12 (amended) on the three-level map and a two-level map that share the key
12: the merges in both orders are the same map. -/
theorem MergeMultipleVolumeProfiles_commutative_witness :
    uniqueKeys threeLevels ∧ uniqueKeys twoLevels ∧
    sameMap (MergeMultipleVolumeProfiles [threeLevels, twoLevels])
      (MergeMultipleVolumeProfiles [twoLevels, threeLevels]) :=
  ⟨by decide!, by decide!,
    (MergeMultipleVolumeProfiles_commutative threeLevels twoLevels (by decide!) (by decide!)).2.2
      (by decide!) (by decide!)⟩

/-- C12 as stated fails: two maps with the single key 10, one whose record has
`Price` 10 and one whose record has `Price` 0, merge to a record with `Price`
10 in one order and with `Price` 0 in the other, so the merges are not the same
map. -/
theorem MergeMultipleVolumeProfiles_order_dependent :
    uniqueKeys keyedLevel ∧ uniqueKeys unkeyedLevel ∧
    levelAt (MergeMultipleVolumeProfiles [keyedLevel, unkeyedLevel]) 10
      = some { Price := 10, TotalVolume := 3, NumberOfTrades := 2 } ∧
    levelAt (MergeMultipleVolumeProfiles [unkeyedLevel, keyedLevel]) 10
      = some { Price := 0, TotalVolume := 3, NumberOfTrades := 2 } ∧
    ¬ sameMap (MergeMultipleVolumeProfiles [keyedLevel, unkeyedLevel])
      (MergeMultipleVolumeProfiles [unkeyedLevel, keyedLevel]) := by
  refine ⟨by decide!, by decide!, by decide!, by decide!, ?_⟩
  intro h
  have h10 := h 10
  revert h10
  decide!

theorem mergeEntry_keys (m : PriceVolumeMap) (e : ℚ × s_PriceLevelVolume) :
    (mergeEntry m e).map Prod.fst =
      if e.1 ∈ m.map Prod.fst then m.map Prod.fst else m.map Prod.fst ++ [e.1] := by
  unfold mergeEntry
  by_cases h : e.1 ∈ m.map Prod.fst
  · have ha : m.any (fun x => x.1 == e.1) = true := by
      simp only [List.mem_map] at h
      obtain ⟨x, hx, hxe⟩ := h
      simp only [List.any_eq_true, beq_iff_eq]
      exact ⟨x, hx, hxe⟩
    rw [if_pos ha, if_pos h, List.map_map]
    apply List.map_congr_left
    intro x _
    by_cases hk : x.1 = e.1
    · simp [hk]
    · simp [hk]
  · have ha : ¬ m.any (fun x => x.1 == e.1) = true := by
      intro ha
      simp only [List.any_eq_true, beq_iff_eq] at ha
      obtain ⟨x, hx, hxe⟩ := ha
      exact h (List.mem_map.2 ⟨x, hx, hxe⟩)
    rw [if_neg ha, if_neg h, List.map_append]
    rfl

theorem mergeEntry_uniqueKeys (m : PriceVolumeMap) (e : ℚ × s_PriceLevelVolume)
    (h : uniqueKeys m) : uniqueKeys (mergeEntry m e) := by
  unfold uniqueKeys at *
  rw [mergeEntry_keys]
  by_cases hk : e.1 ∈ m.map Prod.fst
  · rw [if_pos hk]; exact h
  · rw [if_neg hk]
    rw [List.nodup_append]
    refine ⟨h, List.nodup_singleton _, ?_⟩
    intro a ha hb
    rw [List.mem_singleton] at hb
    exact hk (hb ▸ ha)

theorem foldl_mergeEntry_uniqueKeys (A : PriceVolumeMap) :
    ∀ M : PriceVolumeMap, uniqueKeys M → uniqueKeys (A.foldl mergeEntry M) := by
  induction A with
  | nil => intro M h; exact h
  | cons e A ih => intro M h; exact ih _ (mergeEntry_uniqueKeys M e h)

/-- The result of a merge is a map with unique keys. -/
theorem MergeMultipleVolumeProfiles_uniqueKeys (maps : List PriceVolumeMap) :
    uniqueKeys (MergeMultipleVolumeProfiles maps) := by
  unfold MergeMultipleVolumeProfiles
  have : ∀ (l : List PriceVolumeMap) (M : PriceVolumeMap), uniqueKeys M →
      uniqueKeys (l.foldl (fun mergedProfile profileMap => profileMap.foldl mergeEntry mergedProfile)
        M) := by
    intro l
    induction l with
    | nil => intro M h; exact h
    | cons A l ih => intro M h; exact ih _ (foldl_mergeEntry_uniqueKeys A M h)
  exact this maps [] (by simp [uniqueKeys])

/-- Merging a map whose keys are new and pairwise different into a map appends
its entries. -/
theorem foldl_mergeEntry_append (A : PriceVolumeMap) :
    ∀ P : PriceVolumeMap, uniqueKeys (P ++ A) → A.foldl mergeEntry P = P ++ A := by
  induction A with
  | nil => intro P _; simp
  | cons e A ih =>
    intro P h
    have hne : ¬ P.any (fun x => x.1 == e.1) = true := by
      intro ha
      simp only [List.any_eq_true, beq_iff_eq] at ha
      obtain ⟨x, hx, hxe⟩ := ha
      unfold uniqueKeys at h
      rw [List.map_append, List.nodup_append] at h
      exact h.2.2 (List.mem_map.2 ⟨x, hx, hxe⟩) (by simp)
    have hstep : mergeEntry P e = P ++ [e] := by
      unfold mergeEntry
      rw [if_neg hne]
    rw [List.foldl_cons, hstep, ih (P ++ [e]) (by simpa using h)]
    simp

/-- C13: for all volume profiles `A`, `B` and `C`, merging `[A, B, C]` gives
the same map as merging the merge of `[A, B]` with `C`: the same entries with
the same level records, in the same iteration order. -/
theorem MergeMultipleVolumeProfiles_associative (A B C : PriceVolumeMap) :
    MergeMultipleVolumeProfiles [A, B, C] =
      MergeMultipleVolumeProfiles [MergeMultipleVolumeProfiles [A, B], C] := by
  have hu := MergeMultipleVolumeProfiles_uniqueKeys [A, B]
  have hid : (MergeMultipleVolumeProfiles [A, B]).foldl mergeEntry [] =
      MergeMultipleVolumeProfiles [A, B] := by
    rw [foldl_mergeEntry_append _ [] (by simpa using hu)]
    simp
  have h3 : MergeMultipleVolumeProfiles [A, B, C] =
      C.foldl mergeEntry (MergeMultipleVolumeProfiles [A, B]) := rfl
  have h2 : MergeMultipleVolumeProfiles [MergeMultipleVolumeProfiles [A, B], C] =
      C.foldl mergeEntry ((MergeMultipleVolumeProfiles [A, B]).foldl mergeEntry []) := rfl
  rw [h3, h2, hid]

theorem VOL_EPS_pos : 0 < VOL_EPS := by unfold VOL_EPS; norm_num

theorem pocPick_inv (L : List (ℚ × ℚ)) (s : ℚ × ℚ) (l : ℚ × ℚ)
    (h : (L = [] ∧ s.1 = 0) ∨ pocInv L s) (hl : 0 < l.2) :
    pocInv (L ++ [l]) (pocPick s l) := by
  have heps := VOL_EPS_pos
  unfold pocPick
  by_cases h1 : l.2 > s.1
  · rw [if_pos h1]
    have hall : ∀ q ∈ L, q.2 ≤ s.1 := by
      rcases h with ⟨hL, _⟩ | hI
      · subst hL; intro q hq; simp at hq
      · exact hI.1
    refine ⟨?_, ⟨l, by simp, rfl⟩, ⟨l.2, by simp, by simp only; linarith⟩, ?_⟩
    · intro q hq
      rcases List.mem_append.1 hq with hq | hq
      · exact le_of_lt (lt_of_le_of_lt (hall q hq) h1)
      · rw [List.mem_singleton.1 hq]
    · intro q hq hqv
      rcases List.mem_append.1 hq with hq | hq
      · exfalso
        have := hall q hq
        simp only at hqv
        linarith
      · rw [List.mem_singleton.1 hq]
  · rw [if_neg h1]
    have hI : pocInv L s := by
      rcases h with ⟨_, h0⟩ | hI
      · exfalso; rw [h0] at h1; exact h1 hl
      · exact hI
    obtain ⟨i1, ⟨q0, hq0, hq0v⟩, ⟨v, hv, hvlt⟩, i4⟩ := hI
    have hle : l.2 ≤ s.1 := not_lt.1 h1
    by_cases h2 : |l.2 - s.1| < VOL_EPS ∧ l.1 > s.2
    · rw [if_pos h2]
      have habs := abs_lt.1 h2.1
      refine ⟨?_, ⟨q0, List.mem_append_left _ hq0, hq0v⟩, ⟨l.2, by simp, by simp only; linarith⟩,
        ?_⟩
      · intro q hq
        rcases List.mem_append.1 hq with hq | hq
        · exact i1 q hq
        · rw [List.mem_singleton.1 hq]; exact hle
      · intro q hq hqv
        rcases List.mem_append.1 hq with hq | hq
        · exact le_of_lt (lt_of_le_of_lt (i4 q hq hqv) h2.2)
        · rw [List.mem_singleton.1 hq]
    · rw [if_neg h2]
      refine ⟨?_, ⟨q0, List.mem_append_left _ hq0, hq0v⟩, ⟨v, List.mem_append_left _ hv, hvlt⟩, ?_⟩
      · intro q hq
        rcases List.mem_append.1 hq with hq | hq
        · exact i1 q hq
        · rw [List.mem_singleton.1 hq]; exact hle
      · intro q hq hqv
        rcases List.mem_append.1 hq with hq | hq
        · exact i4 q hq hqv
        · rw [List.mem_singleton.1 hq] at hqv ⊢
          by_contra hc
          apply h2
          refine ⟨?_, not_le.1 hc⟩
          rw [hqv, sub_self, abs_zero]
          exact heps

theorem pocPick_foldl (L2 : List (ℚ × ℚ)) (hpos : ∀ q ∈ L2, 0 < q.2) :
    ∀ (L1 : List (ℚ × ℚ)) (s : ℚ × ℚ), ((L1 = [] ∧ s.1 = 0) ∨ pocInv L1 s) → L2 ≠ [] →
      pocInv (L1 ++ L2) (L2.foldl pocPick s) := by
  induction L2 with
  | nil => intro _ _ _ h; exact absurd rfl h
  | cons l L2 ih =>
    intro L1 s h _
    have hstep := pocPick_inv L1 s l h (hpos l (List.mem_cons_self _ _))
    rw [List.foldl_cons]
    by_cases hL2 : L2 = []
    · subst hL2; exact hstep
    · have := ih (fun q hq => hpos q (List.mem_cons_of_mem _ hq)) (L1 ++ [l]) _ (Or.inr hstep) hL2
      simpa using this

theorem scanLevel_pick (s : MetricsScan) (e : ℚ × s_PriceLevelVolume) :
    ((scanLevel s e).maxVolumeAtPOC, (scanLevel s e).poc) =
      if e.2.TotalVolume > VOL_EPS then pocPick (s.maxVolumeAtPOC, s.poc) (e.1, e.2.TotalVolume)
      else (s.maxVolumeAtPOC, s.poc) := by
  unfold scanLevel pocPick
  by_cases hv : e.2.TotalVolume > VOL_EPS
  · simp only [hv, if_true]
    by_cases h1 : e.2.TotalVolume > s.maxVolumeAtPOC
    · simp only [h1, if_true]
      split_ifs <;> rfl
    · simp only [h1, if_false]
      by_cases h2 : |e.2.TotalVolume - s.maxVolumeAtPOC| < VOL_EPS ∧ e.1 > s.poc
      · simp only [h2, and_self, if_true]
        split_ifs <;> rfl
      · simp only [h2, if_false]
        split_ifs <;> rfl
  · simp only [hv, if_false]

theorem scan_pick (priceMap : PriceVolumeMap) :
    ∀ s : MetricsScan,
      ((priceMap.foldl scanLevel s).maxVolumeAtPOC, (priceMap.foldl scanLevel s).poc) =
        (levelsWithVolume priceMap).foldl pocPick (s.maxVolumeAtPOC, s.poc) := by
  induction priceMap with
  | nil => intro s; rfl
  | cons e m ih =>
    intro s
    rw [List.foldl_cons, ih (scanLevel s e), scanLevel_pick]
    unfold levelsWithVolume
    by_cases hv : e.2.TotalVolume > VOL_EPS
    · simp only [List.filter_cons, hv, decide_True, if_true, List.map_cons, List.foldl_cons]
    · simp only [List.filter_cons, hv, decide_False, if_false, Bool.false_eq_true]

theorem pocFallbackStep_pick (s : PocScan) (ie : Nat × (ℚ × ℚ)) :
    ((pocFallbackStep s ie).maxVolumeAtPOC, (pocFallbackStep s ie).poc) =
      pocPick (s.maxVolumeAtPOC, s.poc) ie.2 ∧
    ((pocFallbackStep s ie).pocIndex = s.pocIndex ∨ (pocFallbackStep s ie).pocIndex = ie.1) := by
  unfold pocFallbackStep pocPick
  by_cases h1 : ie.2.2 > s.maxVolumeAtPOC
  · simp only [h1, if_true, or_true, and_self]
  · simp only [h1, if_false]
    by_cases h2 : |ie.2.2 - s.maxVolumeAtPOC| < VOL_EPS ∧ ie.2.1 > s.poc
    · simp only [h2, and_self, if_true, or_true]
    · simp only [h2, if_false, true_or, and_self]

theorem fallback_pick (B : Nat) (l : List (ℚ × ℚ)) :
    ∀ (n : Nat) (s : PocScan), n + l.length ≤ B → s.pocIndex < B →
      (((l.enumFrom n).foldl pocFallbackStep s).maxVolumeAtPOC,
        ((l.enumFrom n).foldl pocFallbackStep s).poc) =
        l.foldl pocPick (s.maxVolumeAtPOC, s.poc) ∧
      ((l.enumFrom n).foldl pocFallbackStep s).pocIndex < B := by
  induction l with
  | nil => intro n s _ hs; exact ⟨rfl, hs⟩
  | cons x l ih =>
    intro n s hB hs
    simp only [List.enumFrom_cons, List.foldl_cons]
    simp only [List.length_cons] at hB
    obtain ⟨h1, h2⟩ := pocFallbackStep_pick s (n, x)
    have hidx : (pocFallbackStep s (n, x)).pocIndex < B := by
      rcases h2 with h2 | h2
      · rw [h2]; exact hs
      · rw [h2]; simp only; omega
    obtain ⟨i1, i2⟩ := ih (n + 1) (pocFallbackStep s (n, x)) (by omega) hidx
    exact ⟨by rw [i1, h1], i2⟩

/-- The POC returned on the main path is the result of the POC search over the
levels with volume, in iteration order or (in the fallback) sorted by price. -/
theorem run_poc (priceMap : PriceVolumeMap) (pct tick : ℚ)
    (hne : levelsWithVolume priceMap ≠ []) :
    ∃ (L : List (ℚ × ℚ)) (p0 : ℚ), L.Perm (levelsWithVolume priceMap) ∧
      (CalculateProfileMetricsRun priceMap pct tick).out.poc = (L.foldl pocPick (0, p0)).2 := by
  have hmap : priceMap.isEmpty = false := by
    cases priceMap with
    | nil => exact absurd rfl hne
    | cons _ _ => rfl
  obtain ⟨hp, ht⟩ := scan_pairs priceMap {}
  simp only [List.nil_append, zero_add] at hp ht
  have hlen : 0 < (sortByPrice (levelsWithVolume priceMap)).length := by
    rw [(sortByPrice_perm _).length_eq]
    exact List.length_pos.2 hne
  have hV : ¬ ((priceMap.foldl scanLevel {}).totalVolume ≤ VOL_EPS ∨
      (priceMap.foldl scanLevel {}).priceVolPairs.isEmpty = true) := by
    rw [ht, hp]
    rintro (h | h)
    · exact absurd (levelsWithVolume_sum_pos priceMap hne) (not_lt.2 h)
    · exact hne (List.isEmpty_iff.1 h)
  unfold CalculateProfileMetricsRun
  simp only [hmap, Bool.false_eq_true, if_false, hV]
  rw [hp]
  cases hfound : (sortByPrice (levelsWithVolume priceMap)).findIdx?
      (fun p => decide (|p.1 - (priceMap.foldl scanLevel {}).poc| < tick / 2)) with
  | some i =>
    obtain ⟨hi, _, _⟩ := List.findIdx?_eq_some_iff_getElem.1 hfound
    refine ⟨levelsWithVolume priceMap, 0, List.Perm.refl _, ?_⟩
    simp only [hi, if_true]
    have := congrArg Prod.snd (scan_pick priceMap {})
    exact this
  | none =>
    simp only
    obtain ⟨f1, f2⟩ := fallback_pick (sortByPrice (levelsWithVolume priceMap)).length
      (sortByPrice (levelsWithVolume priceMap)) 0
      { maxVolumeAtPOC := 0, pocIndex := 0,
        poc := ((sortByPrice (levelsWithVolume priceMap)).getD 0 (0, 0)).1 } (by omega) hlen
    refine ⟨sortByPrice (levelsWithVolume priceMap),
      ((sortByPrice (levelsWithVolume priceMap)).getD 0 (0, 0)).1, sortByPrice_perm _, ?_⟩
    rw [← f1]
    unfold List.enum
    simp only [f2, if_true]

theorem mem_levelsWithVolume (priceMap : PriceVolumeMap) (q : ℚ × ℚ) :
    q ∈ levelsWithVolume priceMap ↔
      ∃ e ∈ priceMap, e.2.TotalVolume > VOL_EPS ∧ (e.1, e.2.TotalVolume) = q := by
  unfold levelsWithVolume
  simp only [List.mem_map, List.mem_filter, decide_eq_true_eq]
  constructor
  · rintro ⟨e, ⟨he, hv⟩, rfl⟩; exact ⟨e, he, hv, rfl⟩
  · rintro ⟨e, he, hv, rfl⟩; exact ⟨e, ⟨he, hv⟩, rfl⟩

/-- C15 (amended): for every price-to-volume map with positive total volume,
the POC returned by `CalculateProfileMetrics` is the price of a level whose
volume equals the maximum volume within the epsilon, and no level of maximum
volume is priced higher; when any two volumes of the map are equal or differ
by at least the epsilon, the POC is a price of maximum volume and the
highest-priced of the levels whose volume equals the maximum within the
epsilon. -/
theorem profileMetrics_poc_max_volume (priceMap : PriceVolumeMap) (pct tick : ℚ)
    (hvol : 0 < (CalculateProfileMetrics priceMap pct tick).totalVolume) :
    (∃ e ∈ priceMap, e.1 = (CalculateProfileMetrics priceMap pct tick).poc ∧
      nearMaxVolume priceMap e) ∧
    (∀ d ∈ priceMap, (∀ c ∈ priceMap, c.2.TotalVolume ≤ d.2.TotalVolume) →
      d.1 ≤ (CalculateProfileMetrics priceMap pct tick).poc) ∧
    (volumesSeparated priceMap →
      isMaxVolumePrice priceMap (CalculateProfileMetrics priceMap pct tick).poc ∧
      isTopOfNearMax priceMap (CalculateProfileMetrics priceMap pct tick).poc) := by
  have heps := VOL_EPS_pos
  have hne : levelsWithVolume priceMap ≠ [] := by
    intro hnil
    obtain ⟨_, _, h0, _⟩ := run_no_volume priceMap pct tick hnil
    unfold CalculateProfileMetrics at hvol
    rw [h0] at hvol
    exact lt_irrefl _ hvol
  obtain ⟨L, p0, hperm, hpoc⟩ := run_poc priceMap pct tick hne
  have hL : L ≠ [] := fun h => hne (by rw [h] at hperm; exact hperm.symm.eq_nil)
  have hmem : ∀ q, q ∈ L ↔ ∃ e ∈ priceMap, e.2.TotalVolume > VOL_EPS ∧ (e.1, e.2.TotalVolume) = q :=
    fun q => (hperm.mem_iff).trans (mem_levelsWithVolume priceMap q)
  have hpos : ∀ q ∈ L, 0 < q.2 := by
    intro q hq
    obtain ⟨e, _, hv, rfl⟩ := (hmem q).1 hq
    exact lt_trans heps hv
  have hinv := pocPick_foldl L hpos [] (0, p0) (Or.inl ⟨rfl, rfl⟩) hL
  rw [List.nil_append] at hinv
  unfold CalculateProfileMetrics
  rw [hpoc]
  generalize L.foldl pocPick (0, p0) = s at hinv
  obtain ⟨i1, ⟨q0, hq0, hq0v⟩, ⟨v, hv, hvlt⟩, i4⟩ := hinv
  obtain ⟨e0, he0, he0v, rfl⟩ := (hmem q0).1 hq0
  obtain ⟨e1, he1, he1v, he1q⟩ := (hmem _).1 hv
  simp only [Prod.mk.injEq] at he1q
  simp only at hq0v
  have hM : VOL_EPS < s.1 := by rw [← hq0v]; exact he0v
  have hle : ∀ d ∈ priceMap, d.2.TotalVolume ≤ s.1 := by
    intro d hd
    by_cases hdv : d.2.TotalVolume > VOL_EPS
    · exact i1 _ ((hmem _).2 ⟨d, hd, hdv, rfl⟩)
    · linarith
  have hnear : nearMaxVolume priceMap e1 := by
    intro c hc
    have := hle c hc
    rw [he1q.2]
    linarith
  have htop : ∀ d ∈ priceMap, d.2.TotalVolume = s.1 → d.1 ≤ s.2 := by
    intro d hd hdv
    exact i4 _ ((hmem _).2 ⟨d, hd, by rw [hdv]; exact hM, rfl⟩) hdv
  refine ⟨⟨e1, he1, he1q.1, hnear⟩, ?_, ?_⟩
  · intro d hd hmax
    exact htop d hd (le_antisymm (hle d hd) (by rw [← hq0v]; exact hmax e0 he0))
  · intro hsep
    have hnm : ∀ d ∈ priceMap, nearMaxVolume priceMap d → d.2.TotalVolume = s.1 := by
      intro d hd hn
      have h1 := hn e0 he0
      have h2 := hle d hd
      rw [← hq0v]
      apply hsep d hd e0 he0
      rw [abs_lt]
      constructor <;> linarith
    have hv1 : e1.2.TotalVolume = s.1 := hnm e1 he1 hnear
    refine ⟨⟨e1, he1, he1q.1, ?_⟩, ⟨e1, he1, he1q.1, hnear⟩, ?_⟩
    · intro d hd; rw [hv1]; exact hle d hd
    · intro d hd hn
      exact htop d hd (hnm d hd hn)

/-- C15 (amended) on the three-level map with percentage 70 and tick size 1:
the POC is 12, the price of the level of maximum volume 5. -/
theorem profileMetrics_poc_max_volume_witness :
    0 < (CalculateProfileMetrics threeLevels 70 1).totalVolume ∧
    volumesSeparated threeLevels ∧
    (CalculateProfileMetrics threeLevels 70 1).poc = 12 ∧
    isMaxVolumePrice threeLevels (CalculateProfileMetrics threeLevels 70 1).poc ∧
    isTopOfNearMax threeLevels (CalculateProfileMetrics threeLevels 70 1).poc :=
  ⟨by decide!, by decide!, by decide!,
    (profileMetrics_poc_max_volume threeLevels 70 1 (by decide!)).2.2 (by decide!)⟩

/-- C15 as stated fails: for the map with the levels 11 (volume 4.999995) and
10 (volume 5), iterated in this order, the POC is 10, although the level 11 has
a volume equal to the maximum within the epsilon and a higher price; iterated
in the other order the POC is 11, which is not a price of maximum volume. -/
theorem profileMetrics_poc_near_tie :
    0 < (CalculateProfileMetrics nearTieLevels 70 1).totalVolume ∧
    (CalculateProfileMetrics nearTieLevels 70 1).poc = 10 ∧
    ¬ isTopOfNearMax nearTieLevels (CalculateProfileMetrics nearTieLevels 70 1).poc ∧
    0 < (CalculateProfileMetrics nearTieLevels.reverse 70 1).totalVolume ∧
    (CalculateProfileMetrics nearTieLevels.reverse 70 1).poc = 11 ∧
    ¬ isMaxVolumePrice nearTieLevels.reverse
      (CalculateProfileMetrics nearTieLevels.reverse 70 1).poc := by
  decide!

/-- The body of the initiation loop, in terms of its three stages. -/
theorem formationBody_eq (sc : SCStudyInterface) (inp : StudyInputs) (sqrtf : ℚ → ℚ)
    (profiles : List s_SessionProfile) (i : Nat) (s : FormationState) :
    formationBody sc inp sqrtf profiles i s =
      if invalidHL (profiles.getD i {}).HighestPrice (profiles.getD i {}).LowestPrice ||
          invalidHL (profiles.getD (i + 1) {}).HighestPrice (profiles.getD (i + 1) {}).LowestPrice
      then s
      else
        match initiationReason inp sc.TickSize (profiles.getD i {}) (profiles.getD (i + 1) {}) with
        | none => s
        | some reason =>
          if invalidHL (initialCandidate sc inp profiles i reason).HighestPrice
              (initialCandidate sc inp profiles i reason).LowestPrice then s
          else
            sealCandidate sqrtf inp sc.TickSize s
              (extensionProfiles sc inp profiles (profiles.length - (i + 2)) (i + 2)
                (extensionStart sc inp profiles i reason s)) := by
  rfl

/-- The three ways one iteration of the extension loop can go, with the merged
map and the metrics each of them leaves in the balance area. -/
theorem extensionBody_metrics (sc : SCStudyInterface) (inp : StudyInputs)
    (profiles : List s_SessionProfile) (k : Nat) (s : ExtensionState) :
    (extensionBody sc inp profiles k s = (s, false) ∧
      (invalidHL (profiles.getD k {}).HighestPrice (profiles.getD k {}).LowestPrice = true ∨
        extensionReason sc inp sc.TickSize s.currentBA s.currentMergedMap (profiles.getD k {})
          = none)) ∨
    (∃ t reason, extensionBody sc inp profiles k s = (t, false) ∧
      extensionReason sc inp sc.TickSize s.currentBA s.currentMergedMap (profiles.getD k {})
        = some reason ∧
      t.mapsToMerge = s.mapsToMerge ∧
      t.currentMergedMap = MergeMultipleVolumeProfiles s.mapsToMerge ∧
      t.currentBA.IncludedProfileIndices = s.currentBA.IncludedProfileIndices ∧
      t.currentBA.InitiationReason = s.currentBA.InitiationReason ∧
      t.currentBA.POC = (mergedMetrics sc inp s.mapsToMerge).poc ∧
      t.currentBA.ValueAreaHigh = (mergedMetrics sc inp s.mapsToMerge).valueAreaHigh ∧
      t.currentBA.ValueAreaLow = (mergedMetrics sc inp s.mapsToMerge).valueAreaLow ∧
      t.currentBA.TotalVolume = (mergedMetrics sc inp s.mapsToMerge).totalVolume ∧
      t.currentBA.HighestPrice = (mergedMetrics sc inp s.mapsToMerge).highestPrice ∧
      t.currentBA.LowestPrice = (mergedMetrics sc inp s.mapsToMerge).lowestPrice) ∨
    (∃ t reason, extensionBody sc inp profiles k s = (t, true) ∧
      extensionReason sc inp sc.TickSize s.currentBA s.currentMergedMap (profiles.getD k {})
        = some reason ∧
      t.mapsToMerge = s.mapsToMerge ++ [(profiles.getD k {}).PriceMap] ∧
      t.currentMergedMap = MergeMultipleVolumeProfiles t.mapsToMerge ∧
      t.currentBA.IncludedProfileIndices = s.currentBA.IncludedProfileIndices ++ [(k : Int)] ∧
      t.currentBA.InitiationReason = s.currentBA.InitiationReason ∧
      t.currentBA.POC = (mergedMetrics sc inp t.mapsToMerge).poc ∧
      t.currentBA.ValueAreaHigh = (mergedMetrics sc inp t.mapsToMerge).valueAreaHigh ∧
      t.currentBA.ValueAreaLow = (mergedMetrics sc inp t.mapsToMerge).valueAreaLow ∧
      t.currentBA.TotalVolume = (mergedMetrics sc inp t.mapsToMerge).totalVolume ∧
      (isConditionalClose reason →
        t.currentBA.HighestPrice = s.currentBA.HighestPrice ∧
        t.currentBA.LowestPrice = s.currentBA.LowestPrice) ∧
      (¬ isConditionalClose reason →
        t.currentBA.HighestPrice = (mergedMetrics sc inp t.mapsToMerge).highestPrice ∧
        t.currentBA.LowestPrice = (mergedMetrics sc inp t.mapsToMerge).lowestPrice)) := by
  unfold extensionBody
  simp only
  by_cases h1 : invalidHL (profiles.getD k {}).HighestPrice (profiles.getD k {}).LowestPrice = true
  · rw [if_pos h1]
    exact Or.inl ⟨rfl, Or.inl h1⟩
  · rw [if_neg h1]
    cases hr : extensionReason sc inp sc.TickSize s.currentBA s.currentMergedMap
        (profiles.getD k {}) with
    | none => exact Or.inl ⟨rfl, Or.inr rfl⟩
    | some reason =>
      simp only
      by_cases h2 : invalidHL
          (CalculateProfileMetrics (MergeMultipleVolumeProfiles
            (s.mapsToMerge ++ [(profiles.getD k {}).PriceMap]))
            inp.ValueAreaPercentage sc.TickSize).highestPrice
          (CalculateProfileMetrics (MergeMultipleVolumeProfiles
            (s.mapsToMerge ++ [(profiles.getD k {}).PriceMap]))
            inp.ValueAreaPercentage sc.TickSize).lowestPrice = true
      · rw [if_pos h2]
        refine Or.inr (Or.inl ⟨_, reason, rfl, rfl, ?_, ?_, ?_, rfl, ?_, ?_, ?_, ?_, ?_, ?_⟩) <;>
          simp only [List.dropLast_concat, mergedMetrics]
      · rw [if_neg h2]
        by_cases h3 : (reason == "Close Above BA Low (Low Fail)" ||
            reason == "Close Below BA High (High Fail)") = true
        · rw [if_pos h3]
          have hc : isConditionalClose reason := by
            simpa [isConditionalClose] using h3
          exact Or.inr (Or.inr ⟨_, reason, rfl, rfl, rfl, rfl, rfl, rfl, rfl, rfl, rfl, rfl,
            fun _ => ⟨rfl, rfl⟩, fun h => absurd hc h⟩)
        · rw [if_neg h3]
          have hc : ¬ isConditionalClose reason := by
            simpa [isConditionalClose] using h3
          exact Or.inr (Or.inr ⟨_, reason, rfl, rfl, rfl, rfl, rfl, rfl, rfl, rfl, rfl, rfl,
            fun h => absurd h hc, fun _ => ⟨rfl, rfl⟩⟩)

theorem memberMaps_append (profiles : List s_SessionProfile) (included : List Int) (k : Nat) :
    memberMaps profiles (included ++ [(k : Int)]) =
      memberMaps profiles included ++ [(profiles.getD k {}).PriceMap] := by
  unfold memberMaps
  simp

/-- C19 (amended): after every successful absorption of a profile `k` by the
extension loop, the balance area has `k` as its new last member and its `POC`,
`ValueAreaHigh`, `ValueAreaLow` and `TotalVolume` are the values that
`CalculateProfileMetrics` returns for the merged volume profile of all its
member profiles; its `HighestPrice` and `LowestPrice` are those of the merged
profile as well when the absorption was by volume overlap, range containment
or geometric proximity, and are left as they were when it was by the
conditional close. -/
theorem extensionBody_absorbs (sc : SCStudyInterface) (inp : StudyInputs)
    (profiles : List s_SessionProfile) (k : Nat) (s t : ExtensionState)
    (hmaps : s.mapsToMerge = memberMaps profiles s.currentBA.IncludedProfileIndices)
    (h : extensionBody sc inp profiles k s = (t, true)) :
    t.currentBA.IncludedProfileIndices = s.currentBA.IncludedProfileIndices ++ [(k : Int)] ∧
    t.mapsToMerge = memberMaps profiles t.currentBA.IncludedProfileIndices ∧
    t.currentBA.POC
      = (mergedMetrics sc inp (memberMaps profiles t.currentBA.IncludedProfileIndices)).poc ∧
    t.currentBA.ValueAreaHigh
      = (mergedMetrics sc inp
          (memberMaps profiles t.currentBA.IncludedProfileIndices)).valueAreaHigh ∧
    t.currentBA.ValueAreaLow
      = (mergedMetrics sc inp
          (memberMaps profiles t.currentBA.IncludedProfileIndices)).valueAreaLow ∧
    t.currentBA.TotalVolume
      = (mergedMetrics sc inp
          (memberMaps profiles t.currentBA.IncludedProfileIndices)).totalVolume ∧
    ∃ reason,
      extensionReason sc inp sc.TickSize s.currentBA s.currentMergedMap (profiles.getD k {})
        = some reason ∧
      (¬ isConditionalClose reason →
        t.currentBA.HighestPrice
          = (mergedMetrics sc inp
              (memberMaps profiles t.currentBA.IncludedProfileIndices)).highestPrice ∧
        t.currentBA.LowestPrice
          = (mergedMetrics sc inp
              (memberMaps profiles t.currentBA.IncludedProfileIndices)).lowestPrice) ∧
      (isConditionalClose reason →
        t.currentBA.HighestPrice = s.currentBA.HighestPrice ∧
        t.currentBA.LowestPrice = s.currentBA.LowestPrice) := by
  rcases extensionBody_metrics sc inp profiles k s with ⟨e, _⟩ | ⟨u, _, e, _⟩ |
      ⟨u, reason, e, hr, m1, _, m3, _, m5, m6, m7, m8, m9, m10⟩
  · rw [e] at h; simp only [Prod.mk.injEq] at h; exact absurd h.2 (by decide)
  · rw [e] at h; simp only [Prod.mk.injEq] at h; exact absurd h.2 (by decide)
  · rw [e] at h
    simp only [Prod.mk.injEq, and_true] at h
    subst h
    have hm : u.mapsToMerge = memberMaps profiles u.currentBA.IncludedProfileIndices := by
      rw [m1, m3, memberMaps_append, hmaps]
    rw [← hm]
    exact ⟨m3, rfl, m5, m6, m7, m8, reason, hr, m10, m9⟩

/-- C19 (amended) on the five sessions: the third session is absorbed by volume
overlap into the balance area of the first two, and the metrics of the balance
area are those of the merge of the three profiles. -/
theorem extensionBody_absorbs_witness :
    ∃ t, extensionBody chartFive plainInputs fiveSessions 2
        (extensionStart chartFive plainInputs fiveSessions 0 "Volume Overlap"
          { profileUsed := List.replicate 5 false }) = (t, true) ∧
      t.currentBA.IncludedProfileIndices = [0, 1, 2] ∧
      t.currentBA.POC = (mergedMetrics chartFive plainInputs
        (memberMaps fiveSessions t.currentBA.IncludedProfileIndices)).poc := by
  have h : extensionBody chartFive plainInputs fiveSessions 2
      (extensionStart chartFive plainInputs fiveSessions 0 "Volume Overlap"
        { profileUsed := List.replicate 5 false }) =
      ((extensionBody chartFive plainInputs fiveSessions 2
        (extensionStart chartFive plainInputs fiveSessions 0 "Volume Overlap"
          { profileUsed := List.replicate 5 false })).1, true) :=
    Prod.ext rfl (by decide!)
  obtain ⟨a, _, c, _⟩ := extensionBody_absorbs chartFive plainInputs fiveSessions 2 _ _
    (by decide!) h
  exact ⟨_, h, a, c⟩

/-- C19 as stated fails on the conditional-close path: the third session, with
the levels 11 and 20 and a close of 11, is absorbed into the balance area
10..12 with the reason "Close Below BA High (High Fail)"; the merged profile of
the three members has the highest price 20, and the balance area keeps 12. -/
theorem extensionBody_conditional_close_range :
    (extensionBody chartFive plainInputs probeSessions 2
      (extensionStart chartFive plainInputs probeSessions 0 "Volume Overlap"
        { profileUsed := List.replicate 3 false })).2 = true ∧
    extensionReason chartFive plainInputs chartFive.TickSize
      (initialCandidate chartFive plainInputs probeSessions 0 "Volume Overlap")
      (MergeMultipleVolumeProfiles [threeLevels, threeLevels]) (probeSessions.getD 2 {})
      = some "Close Below BA High (High Fail)" ∧
    (extensionBody chartFive plainInputs probeSessions 2
      (extensionStart chartFive plainInputs probeSessions 0 "Volume Overlap"
        { profileUsed := List.replicate 3 false })).1.currentBA.IncludedProfileIndices
      = [0, 1, 2] ∧
    (extensionBody chartFive plainInputs probeSessions 2
      (extensionStart chartFive plainInputs probeSessions 0 "Volume Overlap"
        { profileUsed := List.replicate 3 false })).1.currentBA.HighestPrice = 12 ∧
    (mergedMetrics chartFive plainInputs (memberMaps probeSessions [0, 1, 2])).highestPrice
      = 20 := by
  decide!

theorem extensionStart_metricsInv (sc : SCStudyInterface) (inp : StudyInputs)
    (profiles : List s_SessionProfile) (i : Nat) (reason : String) (s : FormationState) :
    candidateMetricsInv sc inp profiles reason (extensionStart sc inp profiles i reason s) := by
  refine ⟨?_, rfl, rfl, rfl, rfl, rfl, rfl⟩
  show [(profiles.getD i {}).PriceMap, (profiles.getD (i + 1) {}).PriceMap] =
    memberMaps profiles [(i : Int), (i : Int) + 1]
  unfold memberMaps
  have : ((i : Int) + 1).toNat = i + 1 := by omega
  simp [this]

theorem extensionProfiles_metricsInv (sc : SCStudyInterface) (inp : StudyInputs)
    (profiles : List s_SessionProfile) (reason : String) :
    ∀ (n k : Nat) (s : ExtensionState), candidateMetricsInv sc inp profiles reason s →
      candidateMetricsInv sc inp profiles reason (extensionProfiles sc inp profiles n k s) := by
  intro n
  induction n with
  | zero => intro k s h; exact h
  | succ n ih =>
    intro k s h
    rw [extensionProfiles_succ]
    obtain ⟨c1, c2, c3, c4, c5, c6, c7⟩ := h
    rcases extensionBody_metrics sc inp profiles k s with ⟨e, _⟩ |
        ⟨t, _, e, _, m1, m2, m3, m4, m5, m6, m7, m8, _, _⟩ |
        ⟨t, _, e, _, m1, m2, m3, m4, m5, m6, m7, m8, _, _⟩
    · rw [e]; exact ⟨c1, c2, c3, c4, c5, c6, c7⟩
    · rw [e]
      refine ⟨by rw [m1, m3, c1], by rw [m1, m2], ?_, ?_, ?_, ?_, m4.trans c7⟩
      · rw [m1, m5]
      · rw [m1, m6]
      · rw [m1, m7]
      · rw [m1, m8]
    · rw [e]
      apply ih
      exact ⟨by rw [m1, m3, memberMaps_append, c1], m2, m5, m6, m7, m8, m4.trans c7⟩

/-- The initiation reason is the first criterion that holds, and there is none
when no criterion holds. -/
theorem initiationReason_spec (inp : StudyInputs) (TickSize : ℚ) (p q : s_SessionProfile) :
    (volumeCriterion inp p q → initiationReason inp TickSize p q = some "Volume Overlap") ∧
    (¬ volumeCriterion inp p q → valueAreaCriterion inp TickSize p q →
      initiationReason inp TickSize p q = some "VA Overlap") ∧
    (¬ volumeCriterion inp p q → ¬ valueAreaCriterion inp TickSize p q →
      geometricCriterion inp TickSize p q →
      initiationReason inp TickSize p q = some "Geometric Proximity") ∧
    (¬ volumeCriterion inp p q → ¬ valueAreaCriterion inp TickSize p q →
      ¬ geometricCriterion inp TickSize p q → initiationReason inp TickSize p q = none) := by
  unfold initiationReason volumeCriterion valueAreaCriterion geometricCriterion CheckRangeSimilarity
  refine ⟨fun a => ?_, fun a b => ?_, fun a b c => ?_, fun a b c => ?_⟩
  · rw [if_pos a]
  · rw [if_neg a, if_pos b]
  · rw [if_neg a, if_neg b]
    simp only
    rw [if_pos]
    simp only [Bool.and_eq_true, decide_eq_true_eq]
    exact ⟨⟨c.1, c.2.1⟩, c.2.2⟩
  · rw [if_neg a, if_neg b]
    simp only
    rw [if_neg]
    simp only [Bool.and_eq_true, decide_eq_true_eq]
    exact fun h => c ⟨h.1.1, h.1.2, h.2⟩

/-- An iteration of the extension loop whose profile meets no extension
criterion leaves the loop without a change. -/
theorem extensionBody_no_reason (sc : SCStudyInterface) (inp : StudyInputs)
    (profiles : List s_SessionProfile) (k : Nat) (s : ExtensionState)
    (h : extensionReason sc inp sc.TickSize s.currentBA s.currentMergedMap (profiles.getD k {})
      = none) :
    extensionBody sc inp profiles k s = (s, false) := by
  rcases extensionBody_metrics sc inp profiles k s with ⟨e, _⟩ | ⟨_, _, _, hr, _⟩ |
      ⟨_, _, _, hr, _⟩
  · exact e
  · rw [h] at hr; exact absurd hr (by simp)
  · rw [h] at hr; exact absurd hr (by simp)

/-- A profile that fails the volume overlap, the range containment and both
geometric checks has no extension reason. -/
theorem extensionReason_none (sc : SCStudyInterface) (inp : StudyInputs) (TickSize : ℚ)
    (currentBA : s_BalanceArea) (currentMergedMap : PriceVolumeMap) (profile_k : s_SessionProfile)
    (hvol : CalculateVolumeProfileOverlap currentMergedMap profile_k.PriceMap < inp.MinVolOverlap)
    (hcont : ¬ (profile_k.HighestPrice ≤ currentBA.HighestPrice + TickSize / 2 ∧
      profile_k.LowestPrice ≥ currentBA.LowestPrice - TickSize / 2))
    (hhigh : CheckHighPosition profile_k.HighestPrice
      (CalculateMaxAllowedHigh currentBA.HighestPrice currentBA.GetRange
        inp.HighLowTolerancePercent TickSize) = false)
    (hlow : CheckLowPosition profile_k.LowestPrice
      (CalculateMinAllowedLow currentBA.LowestPrice currentBA.GetRange
        inp.HighLowTolerancePercent TickSize) = false) :
    extensionReason sc inp TickSize currentBA currentMergedMap profile_k = none := by
  unfold extensionReason
  rw [if_neg (not_le.2 hvol)]
  simp only
  rw [if_neg, hhigh, hlow]
  · rfl
  · simp only [Bool.and_eq_true, decide_eq_true_eq]
    exact hcont

/-- C11: when the adjacent valid profiles `i` and `i+1`, reached unconsumed,
have a volume overlap of at least the threshold, and
profile `i+2` fails every extension check (volume overlap with the merged
profile below the threshold, range not contained in the range of the balance
area widened by half a tick, and both the high and the low geometric check
failing), the extension loop stops at once: the balance area initiated at `i`
is sealed with `IncludedProfileIndices` exactly `[i, i+1]` and
`EndProfileChronoIndex = i+1`; unless it is discarded for an invalid merged
range, only `i` and `i+1` are consumed, and it is this balance area that is
appended when it passes the finalization. -/
theorem formationBody_two_members (sc : SCStudyInterface) (inp : StudyInputs) (sqrtf : ℚ → ℚ)
    (profiles : List s_SessionProfile) (i : Nat) (s : FormationState)
    (hv : invalidHL (profiles.getD i {}).HighestPrice (profiles.getD i {}).LowestPrice = false)
    (hv1 : invalidHL (profiles.getD (i + 1) {}).HighestPrice
      (profiles.getD (i + 1) {}).LowestPrice = false)
    (ha : volumeCriterion inp (profiles.getD i {}) (profiles.getD (i + 1) {}))
    (hvol : CalculateVolumeProfileOverlap
      (MergeMultipleVolumeProfiles
        [(profiles.getD i {}).PriceMap, (profiles.getD (i + 1) {}).PriceMap])
      (profiles.getD (i + 2) {}).PriceMap < inp.MinVolOverlap)
    (hcont : ¬ ((profiles.getD (i + 2) {}).HighestPrice
        ≤ (initialCandidate sc inp profiles i "Volume Overlap").HighestPrice + sc.TickSize / 2 ∧
      (profiles.getD (i + 2) {}).LowestPrice
        ≥ (initialCandidate sc inp profiles i "Volume Overlap").LowestPrice - sc.TickSize / 2))
    (hhigh : CheckHighPosition (profiles.getD (i + 2) {}).HighestPrice
      (CalculateMaxAllowedHigh (initialCandidate sc inp profiles i "Volume Overlap").HighestPrice
        (initialCandidate sc inp profiles i "Volume Overlap").GetRange
        inp.HighLowTolerancePercent sc.TickSize) = false)
    (hlow : CheckLowPosition (profiles.getD (i + 2) {}).LowestPrice
      (CalculateMinAllowedLow (initialCandidate sc inp profiles i "Volume Overlap").LowestPrice
        (initialCandidate sc inp profiles i "Volume Overlap").GetRange
        inp.HighLowTolerancePercent sc.TickSize) = false) :
    (initialCandidate sc inp profiles i "Volume Overlap").IncludedProfileIndices
      = [(i : Int), (i : Int) + 1] ∧
    (initialCandidate sc inp profiles i "Volume Overlap").EndProfileChronoIndex = (i : Int) + 1 ∧
    extensionProfiles sc inp profiles (profiles.length - (i + 2)) (i + 2)
        (extensionStart sc inp profiles i "Volume Overlap" s)
      = extensionStart sc inp profiles i "Volume Overlap" s ∧
    formationBody sc inp sqrtf profiles i s =
      (if invalidHL (initialCandidate sc inp profiles i "Volume Overlap").HighestPrice
          (initialCandidate sc inp profiles i "Volume Overlap").LowestPrice then s
       else sealCandidate sqrtf inp sc.TickSize s
        (extensionStart sc inp profiles i "Volume Overlap" s)) ∧
    (invalidHL (initialCandidate sc inp profiles i "Volume Overlap").HighestPrice
        (initialCandidate sc inp profiles i "Volume Overlap").LowestPrice = false →
      (formationBody sc inp sqrtf profiles i s).profileUsed
        = (s.profileUsed.set i true).set (i + 1) true ∧
      ((formationBody sc inp sqrtf profiles i s).FinalizedBalanceAreas
          = s.FinalizedBalanceAreas ++ [initialCandidate sc inp profiles i "Volume Overlap"] ∨
        (formationBody sc inp sqrtf profiles i s).FinalizedBalanceAreas
          = s.FinalizedBalanceAreas)) := by
  have hnone : extensionReason sc inp sc.TickSize
      (extensionStart sc inp profiles i "Volume Overlap" s).currentBA
      (extensionStart sc inp profiles i "Volume Overlap" s).currentMergedMap
      (profiles.getD (i + 2) {}) = none :=
    extensionReason_none sc inp sc.TickSize
      (initialCandidate sc inp profiles i "Volume Overlap")
      (MergeMultipleVolumeProfiles
        [(profiles.getD i {}).PriceMap, (profiles.getD (i + 1) {}).PriceMap])
      (profiles.getD (i + 2) {}) hvol hcont hhigh hlow
  have hbody0 := extensionBody_no_reason sc inp profiles (i + 2)
    (extensionStart sc inp profiles i "Volume Overlap" s) hnone
  have hstop : extensionProfiles sc inp profiles (profiles.length - (i + 2)) (i + 2)
        (extensionStart sc inp profiles i "Volume Overlap" s)
      = extensionStart sc inp profiles i "Volume Overlap" s := by
    cases profiles.length - (i + 2) with
    | zero => rfl
    | succ n =>
      rw [extensionProfiles_succ, hbody0]
  have hvv : ¬ (invalidHL (profiles.getD i {}).HighestPrice (profiles.getD i {}).LowestPrice ||
      invalidHL (profiles.getD (i + 1) {}).HighestPrice (profiles.getD (i + 1) {}).LowestPrice)
      = true := by
    rw [hv, hv1]; decide
  have hr := (initiationReason_spec inp sc.TickSize (profiles.getD i {})
    (profiles.getD (i + 1) {})).1 ha
  have hbody : formationBody sc inp sqrtf profiles i s =
      (if invalidHL (initialCandidate sc inp profiles i "Volume Overlap").HighestPrice
          (initialCandidate sc inp profiles i "Volume Overlap").LowestPrice then s
       else sealCandidate sqrtf inp sc.TickSize s
        (extensionStart sc inp profiles i "Volume Overlap" s)) := by
    rw [formationBody_eq, if_neg hvv, hr]
    simp only
    rw [hstop]
  refine ⟨rfl, rfl, hstop, hbody, ?_⟩
  intro hm
  rw [hbody, hm]
  simp only [Bool.false_eq_true, if_false]
  unfold sealCandidate
  constructor
  · split_ifs <;> rfl
  · split_ifs
    · exact Or.inl rfl
    · exact Or.inr rfl
    · exact Or.inr rfl

/-- C11 on three sessions of which the third, with the levels 5 and 45, fails
every extension check: the formation yields one balance area with the members
0 and 1. -/
theorem formationBody_two_members_witness :
    (formationBody chartFive plainInputs (fun x => x) wideSessions 0
      { profileUsed := List.replicate 3 false }).profileUsed = [true, true, false] ∧
    (formationBody chartFive plainInputs (fun x => x) wideSessions 0
      { profileUsed := List.replicate 3 false }).FinalizedBalanceAreas
      = [initialCandidate chartFive plainInputs wideSessions 0 "Volume Overlap"] ∧
    (initialCandidate chartFive plainInputs wideSessions 0 "Volume Overlap").IncludedProfileIndices
      = [0, 1] := by
  obtain ⟨_, _, _, h4, h5⟩ :=
    formationBody_two_members chartFive plainInputs (fun x => x) wideSessions 0
      { profileUsed := List.replicate 3 false } (by decide!) (by decide!) (by decide!)
      (by decide!) (by decide!) (by decide!) (by decide!)
  refine ⟨(h5 (by decide!)).1, ?_, rfl⟩
  rw [h4]
  decide!

theorem foldl_mergeEntry_key (A : PriceVolumeMap) :
    ∀ (M : PriceVolumeMap) (k : ℚ), k ∈ (A.foldl mergeEntry M).map Prod.fst →
      k ∈ M.map Prod.fst ∨ k ∈ A.map Prod.fst := by
  induction A with
  | nil => intro M k h; exact Or.inl h
  | cons e A ih =>
    intro M k h
    rw [List.foldl_cons] at h
    rcases ih _ k h with h | h
    · rw [mergeEntry_keys] at h
      by_cases hk : e.1 ∈ M.map Prod.fst
      · rw [if_pos hk] at h; exact Or.inl h
      · rw [if_neg hk, List.mem_append, List.mem_singleton] at h
        rcases h with h | h
        · exact Or.inl h
        · exact Or.inr (by rw [h]; simp)
    · exact Or.inr (List.mem_cons_of_mem _ h)

/-- Every key of a merge is a key of one of the merged maps. -/
theorem merge_key (maps : List PriceVolumeMap) (k : ℚ)
    (h : k ∈ (MergeMultipleVolumeProfiles maps).map Prod.fst) :
    ∃ m ∈ maps, k ∈ m.map Prod.fst := by
  unfold MergeMultipleVolumeProfiles at h
  have : ∀ (l : List PriceVolumeMap) (M : PriceVolumeMap),
      k ∈ (l.foldl (fun mergedProfile profileMap => profileMap.foldl mergeEntry mergedProfile)
        M).map Prod.fst → k ∈ M.map Prod.fst ∨ ∃ m ∈ l, k ∈ m.map Prod.fst := by
    intro l
    induction l with
    | nil => intro M h; exact Or.inl h
    | cons A l ih =>
      intro M h
      rw [List.foldl_cons] at h
      rcases ih _ h with h | ⟨m, hm, hk⟩
      · rcases foldl_mergeEntry_key A M k h with h | h
        · exact Or.inl h
        · exact Or.inr ⟨A, List.mem_cons_self _ _, h⟩
      · exact Or.inr ⟨m, List.mem_cons_of_mem _ hm, hk⟩
  rcases this maps [] h with h | h
  · simp at h
  · exact h

theorem memberMaps_key (profiles : List s_SessionProfile) (included : List Int)
    (m : PriceVolumeMap) (hm : m ∈ memberMaps profiles included) (k : ℚ)
    (hk : k ∈ m.map Prod.fst) : ∃ p ∈ profiles, ∃ a ∈ p.PriceMap, a.1 = k := by
  unfold memberMaps at hm
  obtain ⟨j, _, rfl⟩ := List.mem_map.1 hm
  obtain ⟨a, ha, rfl⟩ := List.mem_map.1 hk
  by_cases hj : j.toNat < profiles.length
  · rw [List.getD_eq_getElem _ _ hj] at ha
    exact ⟨_, List.getElem_mem _, a, ha, rfl⟩
  · rw [List.getD_eq_default _ _ (by omega)] at ha
    simp at ha

theorem merged_keysSeparated (profiles : List s_SessionProfile) (tick : ℚ)
    (hsep : sessionKeysSeparated profiles tick) (included : List Int) :
    keysSeparated (MergeMultipleVolumeProfiles (memberMaps profiles included)) tick := by
  intro a ha b hb hab
  obtain ⟨m1, hm1, hk1⟩ := merge_key _ a.1 (List.mem_map.2 ⟨a, ha, rfl⟩)
  obtain ⟨m2, hm2, hk2⟩ := merge_key _ b.1 (List.mem_map.2 ⟨b, hb, rfl⟩)
  obtain ⟨p, hp, x, hx, hxa⟩ := memberMaps_key profiles included m1 hm1 a.1 hk1
  obtain ⟨q, hq, y, hy, hyb⟩ := memberMaps_key profiles included m2 hm2 b.1 hk2
  have := hsep p hp q hq x hx y hy (by rw [hxa, hyb]; exact hab)
  rw [hxa, hyb] at this
  exact this

/-- For a map whose distinct keys differ by at least half a tick, the value
area bounds are in order. -/
theorem valueArea_ordered (priceMap : PriceVolumeMap) (pct tick : ℚ)
    (htick : 0 < tick) (hsep : keysSeparated priceMap tick) :
    (CalculateProfileMetrics priceMap pct tick).valueAreaLow
      ≤ (CalculateProfileMetrics priceMap pct tick).valueAreaHigh := by
  unfold CalculateProfileMetrics
  by_cases hne : levelsWithVolume priceMap = []
  · obtain ⟨h1, h2, _⟩ := run_no_volume priceMap pct tick hne
    exact le_trans h1 h2
  · obtain ⟨i, poc, hi, hrun, hpoc⟩ := run_main priceMap pct tick hne
    have hp := hpoc htick hsep
    rw [hrun]
    simp only
    have hinv := vaLoop_invariant (sortByPrice (levelsWithVolume priceMap))
      (((levelsWithVolume priceMap).map Prod.snd).sum * (pct / 100))
      (fun s => s.lowerIndex ≤ i ∧ i ≤ s.upperIndex ∧
        s.valueAreaLow ≤ ((sortByPrice (levelsWithVolume priceMap)).getD i (0, 0)).1 ∧
        ((sortByPrice (levelsWithVolume priceMap)).getD i (0, 0)).1 ≤ s.valueAreaHigh)
      (fun s h => vaBody_bracket (sortByPrice_sorted _) i hi s h)
      (sortByPrice (levelsWithVolume priceMap)).length
      { currentVolumeInVA := ((sortByPrice (levelsWithVolume priceMap)).getD i (0, 0)).2,
        valueAreaHigh := poc, valueAreaLow := poc, upperIndex := i, lowerIndex := i }
      ⟨le_refl _, le_refl _, le_of_eq hp.symm, le_of_eq hp⟩
    exact le_trans hinv.2.2.1 hinv.2.2.2

theorem getRange_of_valid (b : s_BalanceArea) (h1 : b.HighestPrice > -FLT_MAX)
    (h2 : b.LowestPrice < FLT_MAX) (h3 : b.HighestPrice ≥ b.LowestPrice) :
    b.GetRange = b.HighestPrice - b.LowestPrice := by
  unfold s_BalanceArea.GetRange
  rw [if_neg]
  rintro (h | h | h) <;> linarith

/-- Sealing appends nothing or a candidate that passes the final range
check. -/
theorem sealCandidate_finalized (sqrtf : ℚ → ℚ) (inp : StudyInputs) (TickSize : ℚ)
    (s : FormationState) (e : ExtensionState) :
    (sealCandidate sqrtf inp TickSize s e).FinalizedBalanceAreas = s.FinalizedBalanceAreas ∨
    ((sealCandidate sqrtf inp TickSize s e).FinalizedBalanceAreas
        = s.FinalizedBalanceAreas ++ [e.currentBA] ∧
      e.currentBA.HighestPrice > -FLT_MAX ∧ e.currentBA.LowestPrice < FLT_MAX ∧
      e.currentBA.HighestPrice ≥ e.currentBA.LowestPrice ∧
      e.currentBA.HighestPrice - e.currentBA.LowestPrice ≥ TickSize / 2) := by
  unfold sealCandidate
  by_cases hn : meetsNormalityCriteria sqrtf inp TickSize e.currentMergedMap = true
  · rw [if_pos hn]
    by_cases hc : e.currentBA.HighestPrice > -FLT_MAX ∧ e.currentBA.LowestPrice < FLT_MAX ∧
        e.currentBA.HighestPrice ≥ e.currentBA.LowestPrice ∧
        e.currentBA.GetRange ≥ TickSize / 2
    · rw [if_pos hc]
      refine Or.inr ⟨rfl, hc.1, hc.2.1, hc.2.2.1, ?_⟩
      rw [← getRange_of_valid _ hc.1 hc.2.1 hc.2.2.1]
      exact hc.2.2.2
    · rw [if_neg hc]; exact Or.inl rfl
  · rw [if_neg hn]; exact Or.inl rfl

theorem formationBody_finalizedOk (sc : SCStudyInterface) (inp : StudyInputs) (sqrtf : ℚ → ℚ)
    (profiles : List s_SessionProfile) (i : Nat) (s : FormationState)
    (h : ∀ b ∈ s.FinalizedBalanceAreas, finalizedOk sc inp profiles b) :
    ∀ b ∈ (formationBody sc inp sqrtf profiles i s).FinalizedBalanceAreas,
      finalizedOk sc inp profiles b := by
  rw [formationBody_eq]
  split_ifs with h1
  · exact h
  · cases hr : initiationReason inp sc.TickSize (profiles.getD i {})
        (profiles.getD (i + 1) {}) with
    | none => exact h
    | some reason =>
      simp only
      split_ifs with h2
      · exact h
      · have hinv := extensionProfiles_metricsInv sc inp profiles reason
          (profiles.length - (i + 2)) (i + 2) _
          (extensionStart_metricsInv sc inp profiles i reason s)
        rcases sealCandidate_finalized sqrtf inp sc.TickSize s
          (extensionProfiles sc inp profiles (profiles.length - (i + 2)) (i + 2)
            (extensionStart sc inp profiles i reason s)) with e | ⟨e, c1, c2, c3, c4⟩
        · rw [e]; exact h
        · rw [e]
          intro b hb
          rcases List.mem_append.1 hb with hb | hb
          · exact h b hb
          · rw [List.mem_singleton.1 hb]
            obtain ⟨m1, _, _, m4, m5, _, _⟩ := hinv
            exact ⟨c1, c2, c3, c4, _, by rw [m4, m1], by rw [m5, m1]⟩

theorem formationLoop_finalizedOk (sc : SCStudyInterface) (inp : StudyInputs) (sqrtf : ℚ → ℚ)
    (profiles : List s_SessionProfile) :
    ∀ (n i : Nat) (s : FormationState),
      (∀ b ∈ s.FinalizedBalanceAreas, finalizedOk sc inp profiles b) →
      ∀ b ∈ (formationLoop sc inp sqrtf profiles n i s).FinalizedBalanceAreas,
        finalizedOk sc inp profiles b := by
  intro n
  induction n with
  | zero => intro i s h; exact h
  | succ n ih =>
    intro i s h
    rw [formationLoop_succ]
    split_ifs
    · exact ih (i + 1) s h
    · exact h
    · exact ih (i + 1) _ (formationBody_finalizedOk sc inp sqrtf profiles i s h)

/-- C16: every balance area appended to `FinalizedBalanceAreas` by the
formation loop has both ends of its price range set, `HighestPrice >=
LowestPrice`, `HighestPrice - LowestPrice` of at least half a tick, and
`ValueAreaHigh >= ValueAreaLow`.  The last part uses that the tick size is
positive and that the session profiles hold prices rounded to the tick size
(line 1092), of which the proof needs that distinct price keys are at least
half a tick apart (`sessionsOnTickGrid_keysSeparated`). -/
theorem formBalanceAreas_valid_range (sc : SCStudyInterface) (inp : StudyInputs)
    (sqrtf : ℚ → ℚ) (SessionProfiles : List s_SessionProfile)
    (b : s_BalanceArea)
    (hb : b ∈ (formBalanceAreas sc inp sqrtf SessionProfiles).FinalizedBalanceAreas) :
    b.HighestPrice > -FLT_MAX ∧ b.LowestPrice < FLT_MAX ∧ b.HighestPrice ≥ b.LowestPrice ∧
    b.HighestPrice - b.LowestPrice ≥ sc.TickSize / 2 ∧
    (0 < sc.TickSize → sessionKeysSeparated SessionProfiles sc.TickSize →
      b.ValueAreaHigh ≥ b.ValueAreaLow) := by
  have hok := formationLoop_finalizedOk sc inp sqrtf SessionProfiles SessionProfiles.length 0
    { profileUsed := List.replicate SessionProfiles.length false }
    (fun b hb => by simp at hb) b hb
  obtain ⟨h1, h2, h3, h4, included, h5, h6⟩ := hok
  refine ⟨h1, h2, h3, h4, ?_⟩
  intro htick hsep
  rw [h5, h6]
  exact valueArea_ordered _ _ _ htick (merged_keysSeparated SessionProfiles sc.TickSize hsep included)

/-- C16 on the five sessions: the first balance area has the price range
10..12 and the value area 11..12. -/
theorem formBalanceAreas_valid_range_witness :
    ∃ b ∈ (formBalanceAreas chartFive plainInputs (fun x => x) fiveSessions).FinalizedBalanceAreas,
      b.IncludedProfileIndices = [0, 1, 2] ∧
      b.HighestPrice ≥ b.LowestPrice ∧
      b.HighestPrice - b.LowestPrice ≥ chartFive.TickSize / 2 ∧
      b.ValueAreaHigh ≥ b.ValueAreaLow := by
  have hb : (formBalanceAreas chartFive plainInputs (fun x => x)
      fiveSessions).FinalizedBalanceAreas.getD 0 {} ∈
      (formBalanceAreas chartFive plainInputs (fun x => x) fiveSessions).FinalizedBalanceAreas := by
    decide!
  obtain ⟨_, _, h3, h4, h5⟩ :=
    formBalanceAreas_valid_range chartFive plainInputs (fun x => x) fiveSessions _ hb
  exact ⟨_, hb, by decide!, h3, h4, h5 (by decide!) (by decide!)⟩

/-- Off the tick grid the value area of a finalized balance area can be
inverted: two sessions with the levels 0, 10, 11 and 12, on a chart with tick
size 6 (levels closer than half a tick, which `RoundToTickSize` never
produces) and a value-area percentage of 30, form one finalized balance area
with the price range 0..12 and with `ValueAreaHigh` 11 below `ValueAreaLow`
12. -/
theorem formBalanceAreas_value_area_inverted :
    (formBalanceAreas chartSix thirtyInputs (fun x => x)
        closeKeySessions).FinalizedBalanceAreas.map
      (fun b => (b.IncludedProfileIndices, b.LowestPrice, b.HighestPrice, b.ValueAreaLow,
        b.ValueAreaHigh)) = [([0, 1], 0, 12, 12, 11)] := by
  decide!

theorem overlapClass_eq (ba1 ba2 ba3 : s_BalanceArea) (TickSize : ℚ) :
    overlapClass ba1 ba2 ba3 TickSize =
      if CalculateRangeOverlapPercent_RelativeToSmaller ba1 ba2 TickSize ≥ 30 ∧
          CalculateRangeOverlapPercent_RelativeToSmaller ba1 ba3 TickSize ≥ 30 ∧
          CalculateRangeOverlapPercent_RelativeToSmaller ba2 ba3 TickSize ≥ 30 then
        OverlapClass.strongOverlap
      else
        match (if CalculateRangeOverlapPercent_RelativeToSmaller ba1 ba2 TickSize > 0 then 1
            else 0) +
          (if CalculateRangeOverlapPercent_RelativeToSmaller ba1 ba3 TickSize > 0 then 1 else 0) +
          (if CalculateRangeOverlapPercent_RelativeToSmaller ba2 ba3 TickSize > 0 then 1 else 0)
        with
        | 3 => OverlapClass.fullOverlap
        | 2 => OverlapClass.twoOverlaps
        | 1 => OverlapClass.oneOverlap
        | _ => OverlapClass.noOverlap := by
  unfold overlapClass pairOverlaps
  generalize CalculateRangeOverlapPercent_RelativeToSmaller ba1 ba2 TickSize = a
  generalize CalculateRangeOverlapPercent_RelativeToSmaller ba1 ba3 TickSize = b
  generalize CalculateRangeOverlapPercent_RelativeToSmaller ba2 ba3 TickSize = c
  simp only [List.mem_cons, List.mem_singleton, forall_eq_or_imp, forall_eq, List.not_mem_nil,
    false_implies, implies_true, and_true]
  by_cases ha : a > 0 <;> by_cases hb : b > 0 <;> by_cases hc : c > 0 <;>
    simp [List.filter, ha, hb, hc]

theorem threshold_count (a b c : ℚ) :
    ((if a ≥ 30 then 1 else 0) + (if b ≥ 30 then 1 else 0) + (if c ≥ 30 then 1 else 0) = 3) ↔
      (a ≥ 30 ∧ b ≥ 30 ∧ c ≥ 30) := by
  by_cases ha : a ≥ 30 <;> by_cases hb : b ≥ 30 <;> by_cases hc : c ≥ 30 <;> simp [ha, hb, hc]

theorem hlh_bool (ba1 ba2 ba3 : s_BalanceArea) :
    (decide (ba1.HighestPrice > -FLT_MAX) && decide (ba1.LowestPrice < FLT_MAX) &&
      decide (ba2.HighestPrice > -FLT_MAX) && decide (ba2.LowestPrice < FLT_MAX) &&
      decide (ba3.HighestPrice > -FLT_MAX) && decide (ba3.LowestPrice < FLT_MAX) &&
      (decide (ba2.HighestPrice < ba1.HighestPrice) && decide (ba2.LowestPrice < ba1.LowestPrice) &&
        decide (ba3.HighestPrice > ba2.HighestPrice) &&
        decide (ba3.LowestPrice > ba2.LowestPrice))) = decide (isHLH ba1 ba2 ba3) := by
  rw [Bool.eq_iff_iff]
  simp only [Bool.and_eq_true, decide_eq_true_eq, isHLH, rangesSet]
  tauto

theorem lhl_bool (ba1 ba2 ba3 : s_BalanceArea) :
    (decide (ba1.HighestPrice > -FLT_MAX) && decide (ba1.LowestPrice < FLT_MAX) &&
      decide (ba2.HighestPrice > -FLT_MAX) && decide (ba2.LowestPrice < FLT_MAX) &&
      decide (ba3.HighestPrice > -FLT_MAX) && decide (ba3.LowestPrice < FLT_MAX) &&
      !decide (isHLH ba1 ba2 ba3) &&
      (decide (ba2.HighestPrice > ba1.HighestPrice) && decide (ba2.LowestPrice > ba1.LowestPrice) &&
        decide (ba3.HighestPrice < ba2.HighestPrice) &&
        decide (ba3.LowestPrice < ba2.LowestPrice))) = decide (isLHL ba1 ba2 ba3) := by
  rw [Bool.eq_iff_iff]
  simp only [Bool.and_eq_true, decide_eq_true_eq, isLHL, isHLH, rangesSet, Bool.not_eq_true',
    decide_eq_false_iff_not]
  constructor
  · tauto
  · intro h
    refine ⟨⟨⟨⟨⟨⟨⟨h.1.1, h.1.2.1⟩, h.1.2.2.1⟩, h.1.2.2.2.1⟩, h.1.2.2.2.2.1⟩, h.1.2.2.2.2.2⟩, ?_⟩,
      ⟨⟨⟨h.2.1, h.2.2.1⟩, h.2.2.2.1⟩, h.2.2.2.2⟩⟩
    intro h2
    have := h2.2.1
    have := h.2.1
    linarith

theorem not_hlh_and_lhl (ba1 ba2 ba3 : s_BalanceArea) (h1 : isHLH ba1 ba2 ba3)
    (h2 : isLHL ba1 ba2 ba3) : False := by
  have := h1.2.1
  have := h2.2.1
  linarith

/-- The triple at `j` gets a qualification reason iff it qualifies by the
rule. -/
theorem compositeReason_isSome (inp : StudyInputs) (t : ℚ) (P : List s_SessionProfile)
    (F : List s_BalanceArea) (j : Nat) :
    (compositeReason inp t P F j).isSome = true ↔ qualifiesByCheck inp t P F j := by
  unfold compositeReason qualifiesByCheck temporalCheckPassed
  simp only [overlapClass_eq, threshold_count, hlh_bool, lhl_bool]
  generalize F.getD j {} = ba1
  generalize F.getD (j + 1) {} = ba2
  generalize F.getD (j + 2) {} = ba3
  generalize CalculateRangeOverlapPercent_RelativeToSmaller ba1 ba2 t = a
  generalize CalculateRangeOverlapPercent_RelativeToSmaller ba1 ba3 t = b
  generalize CalculateRangeOverlapPercent_RelativeToSmaller ba2 ba3 t = c
  generalize CheckTemporalProximity j (j + 2) P F = g
  generalize ((if a > 0 then 1 else 0) + (if b > 0 then 1 else 0) + (if c > 0 then 1 else 0) : Nat)
    = n
  by_cases hS : a ≥ 30 ∧ b ≥ 30 ∧ c ≥ 30
  · simp [hS]
  · by_cases hH : isHLH ba1 ba2 ba3
    · have hL : ¬ isLHL ba1 ba2 ba3 := fun h => not_hlh_and_lhl ba1 ba2 ba3 hH h
      rcases n with _ | _ | _ | _ | n <;>
        simp [hS, hH, hL, passesHLH, passesLHL, containmentTolerance, shiftAmount, and_assoc]
    · by_cases hL : isLHL ba1 ba2 ba3
      · rcases n with _ | _ | _ | _ | n <;>
          simp [hS, hH, hL, passesHLH, passesLHL, containmentTolerance, shiftAmount, and_assoc]
      · rcases n with _ | _ | _ | _ | n <;>
          simp [hS, hH, hL, passesHLH, passesLHL, containmentTolerance, shiftAmount, and_assoc]

theorem compositeLoop_step (inp : StudyInputs) (t : ℚ) (P : List s_SessionProfile)
    (F : List s_BalanceArea) (n j : Nat) (s : List Bool × List s_CompositeBalanceArea) :
    compositeLoop inp t P F (n + 1) j s =
      compositeLoop inp t P F n (j + 1) (compositeStep inp t P F j s) := by
  rw [compositeLoop_succ]
  unfold compositeStep
  split_ifs
  · rfl
  · cases compositeReason inp t P F j <;> rfl

theorem compositeLoop_add (inp : StudyInputs) (t : ℚ) (P : List s_SessionProfile)
    (F : List s_BalanceArea) :
    ∀ (a b j : Nat) (s : List Bool × List s_CompositeBalanceArea),
      compositeLoop inp t P F (a + b) j s =
        compositeLoop inp t P F b (j + a) (compositeLoop inp t P F a j s) := by
  intro a
  induction a with
  | zero => intro b j s; simp [compositeLoop_zero]
  | succ a ih =>
    intro b j s
    have : a + 1 + b = (a + b) + 1 := by omega
    rw [this, compositeLoop_step, compositeLoop_step, ih]
    congr 1
    omega

theorem compositeStep_mem (inp : StudyInputs) (t : ℚ) (P : List s_SessionProfile)
    (F : List s_BalanceArea) (j : Nat) (s : List Bool × List s_CompositeBalanceArea) :
    (∀ c ∈ s.2, c ∈ (compositeStep inp t P F j s).2) ∧
    (∀ c ∈ (compositeStep inp t P F j s).2, c ∈ s.2 ∨ c.FirstBAIndex = j) := by
  unfold compositeStep
  split_ifs
  · exact ⟨fun c h => h, fun c h => Or.inl h⟩
  · cases compositeReason inp t P F j with
    | none => exact ⟨fun c h => h, fun c h => Or.inl h⟩
    | some r =>
      refine ⟨fun c h => List.mem_append_left _ h, fun c h => ?_⟩
      rcases List.mem_append.1 h with h | h
      · exact Or.inl h
      · rw [List.mem_singleton.1 h]; exact Or.inr rfl

theorem compositeLoop_mem (inp : StudyInputs) (t : ℚ) (P : List s_SessionProfile)
    (F : List s_BalanceArea) :
    ∀ (n j : Nat) (s : List Bool × List s_CompositeBalanceArea),
      (∀ c ∈ s.2, c ∈ (compositeLoop inp t P F n j s).2) ∧
      (∀ c ∈ (compositeLoop inp t P F n j s).2, c ∈ s.2 ∨ (j : Int) ≤ c.FirstBAIndex) := by
  intro n
  induction n with
  | zero => intro j s; exact ⟨fun c h => h, fun c h => Or.inl h⟩
  | succ n ih =>
    intro j s
    rw [compositeLoop_step]
    obtain ⟨i1, i2⟩ := ih (j + 1) (compositeStep inp t P F j s)
    obtain ⟨s1, s2⟩ := compositeStep_mem inp t P F j s
    refine ⟨fun c h => i1 c (s1 c h), fun c h => ?_⟩
    rcases i2 c h with h | h
    · rcases s2 c h with h | h
      · exact Or.inl h
      · exact Or.inr (by rw [h])
    · exact Or.inr (by push_cast at h; omega)

theorem detectComposites_split (inp : StudyInputs) (t : ℚ) (P : List s_SessionProfile)
    (F : List s_BalanceArea) (j : Nat) (hj : j + 2 < F.length) :
    detectComposites inp t P F =
      (compositeLoop inp t P F (F.length - 3 - j) (j + 1)
        (compositeStep inp t P F j (compositeStateAt inp t P F j))).2 := by
  unfold detectComposites compositeStateAt
  rw [if_pos (by omega)]
  have h1 : F.length - 2 = j + ((F.length - 3 - j) + 1) := by omega
  rw [h1, compositeLoop_add, compositeLoop_step]
  simp

theorem noOverlap_not_qualified (inp : StudyInputs) (t : ℚ) (P : List s_SessionProfile)
    (F : List s_BalanceArea) (j : Nat)
    (h : overlapClass (F.getD j {}) (F.getD (j + 1) {}) (F.getD (j + 2) {}) t
      = OverlapClass.noOverlap) :
    ¬ qualifiesByCheck inp t P F j := by
  unfold qualifiesByCheck
  simp only [h]
  simp

/-- The composite detector records the triple at the positions `j, j+1, j+2`
of the finalized balance areas iff the triple is unattributed when the loop
reaches it and passes the rule with the flag `temporalPassed` of the source as
temporal criterion.  A triple without a pairwise overlap is never recorded. -/
theorem detectComposites_byCheck (inp : StudyInputs) (TickSize : ℚ)
    (SessionProfiles : List s_SessionProfile) (finalized : List s_BalanceArea) (j : Nat)
    (hj : j + 2 < finalized.length) :
    ((∃ c ∈ detectComposites inp TickSize SessionProfiles finalized, c.FirstBAIndex = j) ↔
      unattributedTriple inp TickSize SessionProfiles finalized j ∧
      qualifiesByCheck inp TickSize SessionProfiles finalized j) ∧
    (unattributedTriple inp TickSize SessionProfiles finalized j →
      qualifiesByCheck inp TickSize SessionProfiles finalized j →
      ∃ reason, newComposite finalized j reason ∈
        detectComposites inp TickSize SessionProfiles finalized) ∧
    (overlapClass (finalized.getD j {}) (finalized.getD (j + 1) {}) (finalized.getD (j + 2) {})
        TickSize = OverlapClass.noOverlap →
      ¬ ∃ c ∈ detectComposites inp TickSize SessionProfiles finalized, c.FirstBAIndex = j) := by
  have hsplit := detectComposites_split inp TickSize SessionProfiles finalized j hj
  have hinv : compositeInv finalized.length (0 + j)
      (compositeStateAt inp TickSize SessionProfiles finalized j) :=
    compositeLoop_inv inp TickSize SessionProfiles finalized j 0 _ (by omega)
      ⟨by simp, by simp, List.Pairwise.nil⟩
  obtain ⟨l1, l2⟩ := compositeLoop_mem inp TickSize SessionProfiles finalized
    (finalized.length - 3 - j) (j + 1)
    (compositeStep inp TickSize SessionProfiles finalized j
      (compositeStateAt inp TickSize SessionProfiles finalized j))
  have hold : ∀ c ∈ (compositeStateAt inp TickSize SessionProfiles finalized j).2,
      c.FirstBAIndex ≠ j := by
    intro c hc
    obtain ⟨m, hm, _, e1, _⟩ := hinv.2.1 c hc
    rw [e1]
    intro h
    have : m = j := by exact_mod_cast h
    omega
  have hforward : (∃ c ∈ detectComposites inp TickSize SessionProfiles finalized,
      c.FirstBAIndex = j) →
      unattributedTriple inp TickSize SessionProfiles finalized j ∧
      qualifiesByCheck inp TickSize SessionProfiles finalized j := by
    rintro ⟨c, hc, hcj⟩
    rw [hsplit] at hc
    rcases l2 c hc with hc | hc
    · unfold compositeStep at hc
      by_cases hflag : ((compositeStateAt inp TickSize SessionProfiles finalized j).1.getD j false ||
          (compositeStateAt inp TickSize SessionProfiles finalized j).1.getD (j + 1) false ||
          (compositeStateAt inp TickSize SessionProfiles finalized j).1.getD (j + 2) false) = true
      · rw [if_pos hflag] at hc
        exact absurd hcj (hold c hc)
      · rw [if_neg hflag] at hc
        cases hr : compositeReason inp TickSize SessionProfiles finalized j with
        | none =>
          rw [hr] at hc
          exact absurd hcj (hold c hc)
        | some r =>
          refine ⟨?_, (compositeReason_isSome inp TickSize SessionProfiles finalized j).1
            (by rw [hr]; rfl)⟩
          simp only [Bool.or_eq_true, not_or, Bool.not_eq_true] at hflag
          exact ⟨hflag.1.1, hflag.1.2, hflag.2⟩
    · rw [hcj] at hc
      push_cast at hc
      omega
  have hback : unattributedTriple inp TickSize SessionProfiles finalized j →
      qualifiesByCheck inp TickSize SessionProfiles finalized j →
      ∃ reason, newComposite finalized j reason ∈
        detectComposites inp TickSize SessionProfiles finalized := by
    intro hu hq
    have hsome := (compositeReason_isSome inp TickSize SessionProfiles finalized j).2 hq
    obtain ⟨r, hr⟩ := Option.isSome_iff_exists.1 hsome
    refine ⟨r, ?_⟩
    rw [hsplit]
    apply l1
    unfold compositeStep
    have hflag : ¬ ((compositeStateAt inp TickSize SessionProfiles finalized j).1.getD j false ||
        (compositeStateAt inp TickSize SessionProfiles finalized j).1.getD (j + 1) false ||
        (compositeStateAt inp TickSize SessionProfiles finalized j).1.getD (j + 2) false) = true := by
      rw [hu.1, hu.2.1, hu.2.2]; decide
    rw [if_neg hflag, hr]
    simp
  refine ⟨⟨hforward, fun h => ?_⟩, hback, fun hno h => ?_⟩
  · obtain ⟨r, hr⟩ := hback h.1 h.2
    exact ⟨_, hr, rfl⟩
  · exact noOverlap_not_qualified inp TickSize SessionProfiles finalized j hno (hforward h).2

theorem CheckTemporalProximity_defined (i1 i3 : Nat) (P : List s_SessionProfile)
    (F : List s_BalanceArea)
    (h1 : 0 ≤ (F.getD i1 {}).EndProfileChronoIndex)
    (h2 : (F.getD i1 {}).EndProfileChronoIndex < P.length)
    (h3 : 0 ≤ (F.getD i3 {}).StartProfileChronoIndex)
    (h4 : (F.getD i3 {}).StartProfileChronoIndex < P.length) :
    CheckTemporalProximity i1 i3 P F ≠ -1 := by
  unfold CheckTemporalProximity
  simp only
  rw [if_neg (by omega)]
  split_ifs
  · decide
  · intro h
    have := Int.natCast_nonneg
      (List.filter (fun p => !(List.foldl (fun used (ib : Nat × s_BalanceArea) =>
        if ib.1 = i1 ∨ ib.1 = i3 then used
        else if ib.2.StartProfileChronoIndex ≥ (F.getD i3 {}).StartProfileChronoIndex ∨
            ib.2.EndProfileChronoIndex ≤ (F.getD i1 {}).EndProfileChronoIndex then used
        else used ++ ib.2.IncludedProfileIndices.filter (fun profileIndex =>
          decide (profileIndex > (F.getD i1 {}).EndProfileChronoIndex) &&
            decide (profileIndex < (F.getD i3 {}).StartProfileChronoIndex))) [] F.enum).contains p)
        (List.map (fun (d : Nat) => (F.getD i1 {}).EndProfileChronoIndex + 1 + (d : Int))
          (List.range ((F.getD i3 {}).StartProfileChronoIndex -
            ((F.getD i1 {}).EndProfileChronoIndex + 1)).toNat))).length
    omega

/-- For the balance areas finalized by the formation loop the temporal gap is
always defined, so the temporal-gap check is the comparison of the gap count
with 5. -/
theorem formed_temporalCheckPassed (sc : SCStudyInterface) (inp : StudyInputs) (sqrtf : ℚ → ℚ)
    (SessionProfiles : List s_SessionProfile) (j : Nat)
    (hj : j + 2 < (formBalanceAreas sc inp sqrtf SessionProfiles).FinalizedBalanceAreas.length) :
    temporalCheckPassed SessionProfiles
        (formBalanceAreas sc inp sqrtf SessionProfiles).FinalizedBalanceAreas j ↔
      CheckTemporalProximity j (j + 2) SessionProfiles
        (formBalanceAreas sc inp sqrtf SessionProfiles).FinalizedBalanceAreas ≤ 5 := by
  obtain ⟨_, _, B, _, _, b3, _⟩ := formBalanceAreas_inv sc inp sqrtf SessionProfiles
  have hmem : ∀ x, x < (formBalanceAreas sc inp sqrtf SessionProfiles).FinalizedBalanceAreas.length →
      0 ≤ ((formBalanceAreas sc inp sqrtf SessionProfiles).FinalizedBalanceAreas.getD x
        {}).StartProfileChronoIndex ∧
      ((formBalanceAreas sc inp sqrtf SessionProfiles).FinalizedBalanceAreas.getD x
        {}).StartProfileChronoIndex < SessionProfiles.length ∧
      0 ≤ ((formBalanceAreas sc inp sqrtf SessionProfiles).FinalizedBalanceAreas.getD x
        {}).EndProfileChronoIndex ∧
      ((formBalanceAreas sc inp sqrtf SessionProfiles).FinalizedBalanceAreas.getD x
        {}).EndProfileChronoIndex < SessionProfiles.length := by
    intro x hx
    rw [List.getD_eq_getElem _ _ hx]
    obtain ⟨_, a2, ⟨i, e, c1, c2, c3, _⟩, _⟩ := b3 _ (List.getElem_mem hx)
    rw [c3] at a2
    rw [c2, c3]
    omega
  unfold temporalCheckPassed
  constructor
  · exact fun h => h.2
  · intro h
    refine ⟨CheckTemporalProximity_defined j (j + 2) SessionProfiles _ ?_ ?_ ?_ ?_, h⟩
    · exact (hmem j (by omega)).2.2.1
    · exact (hmem j (by omega)).2.2.2
    · exact (hmem (j + 2) hj).1
    · exact (hmem (j + 2) hj).2.1

theorem mapTotalVolume_eq_sum (m : PriceVolumeMap) :
    mapTotalVolume m = (m.map (fun e => e.2.TotalVolume)).sum := by
  unfold mapTotalVolume
  have : ∀ (l : PriceVolumeMap) (acc : ℚ),
      l.foldl (fun acc p => acc + p.2.TotalVolume) acc
        = acc + (l.map (fun e => e.2.TotalVolume)).sum := by
    intro l
    induction l with
    | nil => intro acc; simp
    | cons e l ih => intro acc; rw [List.foldl_cons, ih]; simp [add_assoc]
  rw [this m 0, zero_add]

theorem volumes_zero_of_total_zero (m : PriceVolumeMap) (hnn : nonNegativeVolumes m)
    (h0 : mapTotalVolume m = 0) : ∀ e ∈ m, e.2.TotalVolume = 0 := by
  rw [mapTotalVolume_eq_sum] at h0
  induction m with
  | nil => intro e he; simp at he
  | cons x m ih =>
    simp only [List.map_cons, List.sum_cons] at h0
    have hx : 0 ≤ x.2.TotalVolume := hnn x (List.mem_cons_self _ _)
    have hm : nonNegativeVolumes m := fun e he => hnn e (List.mem_cons_of_mem _ he)
    have hs : 0 ≤ (m.map (fun e => e.2.TotalVolume)).sum := by
      apply List.sum_nonneg
      intro v hv
      obtain ⟨e, he, rfl⟩ := List.mem_map.1 hv
      exact hm e he
    intro e he
    rcases List.mem_cons.1 he with he | he
    · rw [he]; linarith
    · exact ih hm (by linarith) e he

theorem volumeAt_zero (m : PriceVolumeMap) (h : ∀ e ∈ m, e.2.TotalVolume = 0) (p : ℚ) :
    volumeAt m p = 0 := by
  unfold volumeAt
  cases hl : m.lookup p with
  | none => rfl
  | some r => exact h (p, r) (levelAt_mem m p r hl)

theorem volumeAt_nonneg (m : PriceVolumeMap) (h : nonNegativeVolumes m) (p : ℚ) :
    0 ≤ volumeAt m p := by
  unfold volumeAt
  cases hl : m.lookup p with
  | none => exact le_refl _
  | some r => exact h (p, r) (levelAt_mem m p r hl)

theorem foldl_add_zero (l : List ℚ) (f : ℚ → ℚ) (h : ∀ p ∈ l, f p = 0) :
    l.foldl (fun acc price => acc + f price) 0 = 0 := by
  induction l with
  | nil => rfl
  | cons x l ih =>
    rw [List.foldl_cons, h x (List.mem_cons_self _ _), add_zero]
    exact ih (fun p hp => h p (List.mem_cons_of_mem _ hp))

/-- C21: for every two volume profiles with non-negative volumes,
`CalculateVolumeProfileOverlap` returns 0 whenever the total volume of either
profile is 0. -/
theorem CalculateVolumeProfileOverlap_zero_total (profile1 profile2 : PriceVolumeMap)
    (h1 : nonNegativeVolumes profile1) (h2 : nonNegativeVolumes profile2)
    (h0 : mapTotalVolume profile1 = 0 ∨ mapTotalVolume profile2 = 0) :
    CalculateVolumeProfileOverlap profile1 profile2 = 0 := by
  have hov : (allPrices profile1 profile2).foldl
      (fun acc price => acc + min (volumeAt profile1 price) (volumeAt profile2 price)) 0 = 0 := by
    apply foldl_add_zero
    intro p _
    rcases h0 with h0 | h0
    · rw [volumeAt_zero profile1 (volumes_zero_of_total_zero profile1 h1 h0) p]
      exact min_eq_left (volumeAt_nonneg profile2 h2 p)
    · rw [volumeAt_zero profile2 (volumes_zero_of_total_zero profile2 h2 h0) p]
      exact min_eq_right (volumeAt_nonneg profile1 h1 p)
  unfold CalculateVolumeProfileOverlap
  simp only [hov, zero_div, zero_mul, ite_self]

/-- C21 on a map whose two levels have volume 0 and the three-level map of
volume 9: the overlap is 0 in both argument orders. -/
theorem CalculateVolumeProfileOverlap_zero_total_witness :
    mapTotalVolume emptyVolumeLevels = 0 ∧ mapTotalVolume threeLevels = 9 ∧
    CalculateVolumeProfileOverlap emptyVolumeLevels threeLevels = 0 ∧
    CalculateVolumeProfileOverlap threeLevels emptyVolumeLevels = 0 :=
  ⟨by decide!, by decide!,
    CalculateVolumeProfileOverlap_zero_total emptyVolumeLevels threeLevels (by decide!)
      (by decide!) (Or.inl (by decide!)),
    CalculateVolumeProfileOverlap_zero_total threeLevels emptyVolumeLevels (by decide!)
      (by decide!) (Or.inr (by decide!))⟩

/-- C22 (amended): for every two non-degenerate value areas (each `VAH - VAL`
at least half a tick) and every tick size that is not negative,
`CalculateValueAreaOverlap` returns 100 times the length of the intersection of
`[VAL1, VAH1]` and `[VAL2, VAH2]` divided by the length of their union span
when the intersection is longer than half a tick, and 0 otherwise, so also when
the intervals do not intersect. -/
theorem CalculateValueAreaOverlap_formula (VAH1 VAL1 VAH2 VAL2 TickSize : ℚ)
    (ht : 0 ≤ TickSize)
    (h1 : VAH1 - VAL1 ≥ TickSize / 2) (h2 : VAH2 - VAL2 ≥ TickSize / 2) :
    CalculateValueAreaOverlap VAH1 VAL1 VAH2 VAL2 TickSize =
      (if intersectionLength VAL1 VAH1 VAL2 VAH2 > TickSize / 2 then
        100 * intersectionLength VAL1 VAH1 VAL2 VAH2 / unionSpan VAL1 VAH1 VAL2 VAH2
       else 0) ∧
    (min VAH1 VAH2 < max VAL1 VAL2 →
      CalculateValueAreaOverlap VAH1 VAL1 VAH2 VAL2 TickSize = 0) := by
  have hmain : CalculateValueAreaOverlap VAH1 VAL1 VAH2 VAL2 TickSize =
      (if min VAH1 VAH2 - max VAL1 VAL2 > TickSize / 2 then
        (min VAH1 VAH2 - max VAL1 VAL2) / (max VAH1 VAH2 - min VAL1 VAL2) * 100
       else 0) := by
    unfold CalculateValueAreaOverlap
    have g1 : ¬ (VAH1 < VAL1 ∨ VAH2 < VAL2) := by
      rintro (h | h) <;> linarith
    have g2 : ¬ (VAH1 - VAL1 < TickSize / 2 ∧ VAH2 - VAL2 < TickSize / 2) := by
      rintro ⟨h, _⟩; linarith
    have g3 : ¬ (VAH1 - VAL1 < TickSize / 2 ∨ VAH2 - VAL2 < TickSize / 2) := by
      rintro (h | h) <;> linarith
    rw [if_neg g1]
    simp only
    rw [if_neg g2, if_neg g3]
    by_cases hlen : min VAH1 VAH2 - max VAL1 VAL2 > TickSize / 2
    · rw [if_neg (by linarith), if_pos hlen, if_neg]
      have a := le_max_left VAH1 VAH2
      have b := min_le_left VAL1 VAL2
      linarith
    · rw [if_pos (by linarith), if_neg hlen]
  have hlenEq : intersectionLength VAL1 VAH1 VAL2 VAH2 > TickSize / 2 ↔
      min VAH1 VAH2 - max VAL1 VAL2 > TickSize / 2 := by
    unfold intersectionLength
    constructor
    · intro h
      rcases max_cases 0 (min VAH1 VAH2 - max VAL1 VAL2) with ⟨e, _⟩ | ⟨e, _⟩
      · rw [e] at h; linarith
      · rw [e] at h; exact h
    · intro h
      exact lt_of_lt_of_le h (le_max_right _ _)
  constructor
  · rw [hmain]
    by_cases hlen : min VAH1 VAH2 - max VAL1 VAL2 > TickSize / 2
    · rw [if_pos hlen, if_pos (hlenEq.2 hlen)]
      have : intersectionLength VAL1 VAH1 VAL2 VAH2 = min VAH1 VAH2 - max VAL1 VAL2 := by
        unfold intersectionLength
        exact max_eq_right (by linarith)
      rw [this]
      unfold unionSpan
      ring
    · rw [if_neg hlen, if_neg (fun h => hlen (hlenEq.1 h))]
  · intro hdis
    rw [hmain, if_neg]
    linarith

/-- C22 (amended) on the value areas 10..12 and 11..14 with tick size 1: the
intersection has length 1, the union span 4, and the overlap is 25. -/
theorem CalculateValueAreaOverlap_formula_witness :
    CalculateValueAreaOverlap 12 10 14 11 1 = 25 := by
  have h := (CalculateValueAreaOverlap_formula 12 10 14 11 1 (by norm_num) (by norm_num)
    (by norm_num)).1
  rw [h]
  decide!

/-- C22 as stated fails: with tick size 1 the non-degenerate value areas 10..12
and 11.75..14 intersect in a length of 0.25 and span 4, and the function
returns 0, not 6.25; and with the tick size -4 the value areas 10..12 and
13..15, which do not intersect, get -20, not 0. -/
theorem CalculateValueAreaOverlap_short_intersection :
    ((12 : ℚ) - 10 ≥ 1 / 2 ∧ (14 : ℚ) - 47 / 4 ≥ 1 / 2) ∧
    CalculateValueAreaOverlap 12 10 14 (47 / 4) 1 = 0 ∧
    100 * intersectionLength 10 12 (47 / 4) 14 / unionSpan 10 12 (47 / 4) 14 = 25 / 4 ∧
    intersectionLength 10 12 13 15 = 0 ∧
    CalculateValueAreaOverlap 12 10 15 13 (-4) = -20 := by
  decide!

/-- C23 (amended): for every two session profiles and positive tick size,
`CalculateRangeSimilarityDiff` returns 0 when both ranges are at most half a
tick and 200 when exactly one range is at most half a tick; otherwise it
returns 200 when the average of the two ranges is at most 0.00001, and
`|range1 - range2| / ((range1 + range2)/2) * 100`, which lies in `[0, 200)`,
when the average is larger.  So 200 is the maximum of the function. -/
theorem CalculateRangeSimilarityDiff_cases (profileN profileN1 : s_SessionProfile)
    (tickSize : ℚ) (ht : 0 < tickSize) :
    (profileN.GetRange ≤ tickSize / 2 ∧ profileN1.GetRange ≤ tickSize / 2 →
      CalculateRangeSimilarityDiff profileN profileN1 tickSize = 0) ∧
    ((profileN.GetRange ≤ tickSize / 2 ∧ ¬ profileN1.GetRange ≤ tickSize / 2) ∨
        (¬ profileN.GetRange ≤ tickSize / 2 ∧ profileN1.GetRange ≤ tickSize / 2) →
      CalculateRangeSimilarityDiff profileN profileN1 tickSize = 200) ∧
    (¬ profileN.GetRange ≤ tickSize / 2 → ¬ profileN1.GetRange ≤ tickSize / 2 →
      (profileN.GetRange + profileN1.GetRange) / 2 ≤ VOL_EPS →
      CalculateRangeSimilarityDiff profileN profileN1 tickSize = 200) ∧
    (¬ profileN.GetRange ≤ tickSize / 2 → ¬ profileN1.GetRange ≤ tickSize / 2 →
      (profileN.GetRange + profileN1.GetRange) / 2 > VOL_EPS →
      CalculateRangeSimilarityDiff profileN profileN1 tickSize =
        |profileN.GetRange - profileN1.GetRange| /
          ((profileN.GetRange + profileN1.GetRange) / 2) * 100 ∧
      0 ≤ CalculateRangeSimilarityDiff profileN profileN1 tickSize ∧
      CalculateRangeSimilarityDiff profileN profileN1 tickSize < 200) ∧
    0 ≤ CalculateRangeSimilarityDiff profileN profileN1 tickSize ∧
    CalculateRangeSimilarityDiff profileN profileN1 tickSize ≤ 200 := by
  have hformula : ¬ profileN.GetRange ≤ tickSize / 2 → ¬ profileN1.GetRange ≤ tickSize / 2 →
      (profileN.GetRange + profileN1.GetRange) / 2 > VOL_EPS →
      CalculateRangeSimilarityDiff profileN profileN1 tickSize =
        |profileN.GetRange - profileN1.GetRange| /
          ((profileN.GetRange + profileN1.GetRange) / 2) * 100 ∧
      0 ≤ CalculateRangeSimilarityDiff profileN profileN1 tickSize ∧
      CalculateRangeSimilarityDiff profileN profileN1 tickSize < 200 := by
    intro a b c
    have e : CalculateRangeSimilarityDiff profileN profileN1 tickSize =
        |profileN.GetRange - profileN1.GetRange| /
          ((profileN.GetRange + profileN1.GetRange) / 2) * 100 := by
      unfold CalculateRangeSimilarityDiff
      simp only
      rw [if_neg (fun h => a h.1), if_neg (by rintro (h | h); exact a h; exact b h),
        if_neg (not_le.2 c)]
    have ha : 0 < profileN.GetRange := by linarith [not_le.1 a]
    have hb : 0 < profileN1.GetRange := by linarith [not_le.1 b]
    have havg : 0 < (profileN.GetRange + profileN1.GetRange) / 2 := by linarith
    have habs : |profileN.GetRange - profileN1.GetRange|
        < profileN.GetRange + profileN1.GetRange := by
      rw [abs_lt]; constructor <;> linarith
    refine ⟨e, ?_, ?_⟩
    · rw [e]
      exact mul_nonneg (div_nonneg (abs_nonneg _) (le_of_lt havg)) (by norm_num)
    · rw [e]
      have : |profileN.GetRange - profileN1.GetRange| /
          ((profileN.GetRange + profileN1.GetRange) / 2) < 2 := by
        rw [div_lt_iff₀ havg]
        linarith
      linarith
  have h0 : profileN.GetRange ≤ tickSize / 2 ∧ profileN1.GetRange ≤ tickSize / 2 →
      CalculateRangeSimilarityDiff profileN profileN1 tickSize = 0 := by
    intro h
    unfold CalculateRangeSimilarityDiff
    simp only
    rw [if_pos h]
  have h200 : (profileN.GetRange ≤ tickSize / 2 ∧ ¬ profileN1.GetRange ≤ tickSize / 2) ∨
        (¬ profileN.GetRange ≤ tickSize / 2 ∧ profileN1.GetRange ≤ tickSize / 2) →
      CalculateRangeSimilarityDiff profileN profileN1 tickSize = 200 := by
    intro h
    unfold CalculateRangeSimilarityDiff
    simp only
    rcases h with ⟨a, b⟩ | ⟨a, b⟩
    · rw [if_neg (fun h => b h.2), if_pos (Or.inl a)]
    · rw [if_neg (fun h => a h.1), if_pos (Or.inr b)]
  have hsmall : ¬ profileN.GetRange ≤ tickSize / 2 → ¬ profileN1.GetRange ≤ tickSize / 2 →
      (profileN.GetRange + profileN1.GetRange) / 2 ≤ VOL_EPS →
      CalculateRangeSimilarityDiff profileN profileN1 tickSize = 200 := by
    intro a b c
    unfold CalculateRangeSimilarityDiff
    simp only
    rw [if_neg (fun h => a h.1), if_neg (by rintro (h | h); exact a h; exact b h), if_pos c]
  refine ⟨h0, h200, hsmall, hformula, ?_⟩
  by_cases a : profileN.GetRange ≤ tickSize / 2
  · by_cases b : profileN1.GetRange ≤ tickSize / 2
    · rw [h0 ⟨a, b⟩]; norm_num
    · rw [h200 (Or.inl ⟨a, b⟩)]; norm_num
  · by_cases b : profileN1.GetRange ≤ tickSize / 2
    · rw [h200 (Or.inr ⟨a, b⟩)]; norm_num
    · by_cases c : (profileN.GetRange + profileN1.GetRange) / 2 ≤ VOL_EPS
      · rw [hsmall a b c]; norm_num
      · obtain ⟨_, h1, h2⟩ := hformula a b (not_le.1 c)
        exact ⟨h1, le_of_lt h2⟩

/-- C23 (amended) on the ranges 2 and 6 with tick size 1: the difference is
4 / 4 * 100 = 100. -/
theorem CalculateRangeSimilarityDiff_cases_witness :
    CalculateRangeSimilarityDiff (rangeSession 10 12) (rangeSession 10 16) 1 = 100 := by
  have h := ((CalculateRangeSimilarityDiff_cases (rangeSession 10 12) (rangeSession 10 16) 1
    (by norm_num)).2.2.2.1 (by decide!) (by decide!) (by decide!)).1
  rw [h]
  decide!

/-- C23 as stated fails: with the positive tick size 0.00001 the ranges
0.000008 and 0.000009 both exceed half a tick, their average is at most
0.00001, and the function returns 200, not 100/8.5. -/
theorem CalculateRangeSimilarityDiff_small_average :
    (0 : ℚ) < 1 / 100000 ∧
    ¬ (rangeSession 0 (8 / 1000000)).GetRange ≤ (1 / 100000 : ℚ) / 2 ∧
    ¬ (rangeSession 0 (9 / 1000000)).GetRange ≤ (1 / 100000 : ℚ) / 2 ∧
    CalculateRangeSimilarityDiff (rangeSession 0 (8 / 1000000)) (rangeSession 0 (9 / 1000000))
      (1 / 100000) = 200 ∧
    |(rangeSession 0 (8 / 1000000)).GetRange - (rangeSession 0 (9 / 1000000)).GetRange| /
      (((rangeSession 0 (8 / 1000000)).GetRange + (rangeSession 0 (9 / 1000000)).GetRange) / 2) *
      100 = 200 / 17 := by
  decide!

theorem foldl_add_snd (l : List (ℚ × ℚ)) :
    l.foldl (fun acc pv => acc + pv.2) 0 = (l.map Prod.snd).sum := by
  have : ∀ (l : List (ℚ × ℚ)) (acc : ℚ),
      l.foldl (fun acc pv => acc + pv.2) acc = acc + (l.map Prod.snd).sum := by
    intro l
    induction l with
    | nil => intro acc; simp
    | cons e l ih => intro acc; rw [List.foldl_cons, ih]; simp [add_assoc]
  rw [this l 0, zero_add]

/-- C25: for every price-to-volume map and tick size,
`CalculateVolumeDistributionStats` reports `sufficientData = true` iff at
least 3 price levels have a volume greater than 0.00001; with fewer than 3
such levels `skewness` and `excessKurtosis` are left at 0. -/
theorem CalculateVolumeDistributionStats_sufficient (sqrtf : ℚ → ℚ) (priceMap : PriceVolumeMap)
    (tickSize : ℚ) :
    ((CalculateVolumeDistributionStats sqrtf priceMap tickSize).sufficientData = true ↔
      3 ≤ (levelsWithVolume priceMap).length) ∧
    ((levelsWithVolume priceMap).length < 3 →
      (CalculateVolumeDistributionStats sqrtf priceMap tickSize).skewness = 0 ∧
      (CalculateVolumeDistributionStats sqrtf priceMap tickSize).excessKurtosis = 0) ∧
    (CalculateVolumeDistributionStats sqrtf priceMap tickSize).numPriceLevelsWithVolume
      = (levelsWithVolume priceMap).length := by
  by_cases hE : priceMap.isEmpty = true
  · have hnil : priceMap = [] := List.isEmpty_iff.1 hE
    subst hnil
    refine ⟨⟨fun h => ?_, fun h => ?_⟩, fun _ => ⟨rfl, rfl⟩, rfl⟩
    · have : (CalculateVolumeDistributionStats sqrtf [] tickSize).sufficientData = false := rfl
      rw [this] at h
      exact absurd h (by decide)
    · simp [levelsWithVolume] at h
  · have hL : (priceMap.filter (fun p => decide (p.2.TotalVolume > VOL_EPS))).map
        (fun p => (p.1, p.2.TotalVolume)) = levelsWithVolume priceMap := rfl
    unfold CalculateVolumeDistributionStats
    rw [if_neg hE]
    simp only [hL]
    by_cases hn : ((levelsWithVolume priceMap).length : Int) < 3
    · have hlt : (levelsWithVolume priceMap).length < 3 := by omega
      rw [if_pos hn]
      refine ⟨⟨fun h => ?_, fun h => by omega⟩, fun _ => ?_, ?_⟩
      · exfalso
        revert h
        split_ifs <;> simp
      · split_ifs <;> exact ⟨rfl, rfl⟩
      · split_ifs <;> rfl
    · have hge : 3 ≤ (levelsWithVolume priceMap).length := by omega
      have hne : levelsWithVolume priceMap ≠ [] := by
        intro h; rw [h] at hge; simp at hge
      have hvol : ¬ (levelsWithVolume priceMap).foldl (fun acc pv => acc + pv.2) 0 ≤ VOL_EPS := by
        rw [foldl_add_snd]
        exact not_le.2 (levelsWithVolume_sum_pos priceMap hne)
      rw [if_neg hn, if_neg hvol]
      refine ⟨⟨fun _ => hge, fun _ => ?_⟩, fun h => by omega, ?_⟩
      · split_ifs <;> rfl
      · split_ifs <;> rfl

theorem usedBetween_mem (i1 i3 : Nat) (e1 s3 : Int) (E : List (Nat × s_BalanceArea)) :
    ∀ (acc : List Int) (p : Int),
      p ∈ E.foldl (fun used (ib : Nat × s_BalanceArea) =>
          if ib.1 = i1 ∨ ib.1 = i3 then used
          else if ib.2.StartProfileChronoIndex ≥ s3 ∨ ib.2.EndProfileChronoIndex ≤ e1 then used
          else used ++ ib.2.IncludedProfileIndices.filter (fun profileIndex =>
            decide (profileIndex > e1) && decide (profileIndex < s3))) acc ↔
        p ∈ acc ∨ ∃ ib ∈ E, ib.1 ≠ i1 ∧ ib.1 ≠ i3 ∧
          ¬ (ib.2.StartProfileChronoIndex ≥ s3 ∨ ib.2.EndProfileChronoIndex ≤ e1) ∧
          p ∈ ib.2.IncludedProfileIndices ∧ p > e1 ∧ p < s3 := by
  induction E with
  | nil => intro acc p; simp
  | cons ib E ih =>
    intro acc p
    rw [List.foldl_cons, ih]
    by_cases h1 : ib.1 = i1 ∨ ib.1 = i3
    · rw [if_pos h1]
      constructor
      · rintro (h | ⟨x, hx, hr⟩)
        · exact Or.inl h
        · exact Or.inr ⟨x, List.mem_cons_of_mem _ hx, hr⟩
      · rintro (h | ⟨x, hx, hr⟩)
        · exact Or.inl h
        · rcases List.mem_cons.1 hx with hx | hx
          · subst hx
            exfalso
            rcases h1 with h1 | h1
            · exact hr.1 h1
            · exact hr.2.1 h1
          · exact Or.inr ⟨x, hx, hr⟩
    · rw [if_neg h1]
      by_cases h2 : ib.2.StartProfileChronoIndex ≥ s3 ∨ ib.2.EndProfileChronoIndex ≤ e1
      · rw [if_pos h2]
        constructor
        · rintro (h | ⟨x, hx, hr⟩)
          · exact Or.inl h
          · exact Or.inr ⟨x, List.mem_cons_of_mem _ hx, hr⟩
        · rintro (h | ⟨x, hx, hr⟩)
          · exact Or.inl h
          · rcases List.mem_cons.1 hx with hx | hx
            · subst hx
              exact absurd h2 hr.2.2.1
            · exact Or.inr ⟨x, hx, hr⟩
      · rw [if_neg h2]
        simp only [not_or] at h1
        constructor
        · rintro (h | ⟨x, hx, hr⟩)
          · rcases List.mem_append.1 h with h | h
            · exact Or.inl h
            · simp only [List.mem_filter, Bool.and_eq_true, decide_eq_true_eq] at h
              exact Or.inr ⟨ib, List.mem_cons_self _ _, h1.1, h1.2, h2, h.1, h.2.1, h.2.2⟩
          · exact Or.inr ⟨x, List.mem_cons_of_mem _ hx, hr⟩
        · rintro (h | ⟨x, hx, hr⟩)
          · exact Or.inl (List.mem_append_left _ h)
          · rcases List.mem_cons.1 hx with hx | hx
            · subst hx
              refine Or.inl (List.mem_append_right _ ?_)
              simp only [List.mem_filter, Bool.and_eq_true, decide_eq_true_eq]
              exact ⟨hr.2.2.2.1, hr.2.2.2.2.1, hr.2.2.2.2.2⟩
            · exact Or.inr ⟨x, hx, hr⟩

theorem mem_gapIndices (lo hi p : Int) : p ∈ gapIndices lo hi ↔ lo < p ∧ p < hi := by
  unfold gapIndices
  simp only [List.mem_map, List.mem_range]
  constructor
  · rintro ⟨d, hd, rfl⟩
    omega
  · intro h
    exact ⟨(p - (lo + 1)).toNat, by omega, by omega⟩

theorem gapIndices_length (lo hi : Int) : (gapIndices lo hi).length = (hi - (lo + 1)).toNat := by
  unfold gapIndices
  simp

/-- In the second branch of `CheckTemporalProximity` the result is the number
of gap indices that are not in the list of used indices. -/
theorem CheckTemporalProximity_gap (i1 i3 : Nat) (P : List s_SessionProfile)
    (F : List s_BalanceArea)
    (h1 : 0 ≤ (F.getD i1 {}).EndProfileChronoIndex)
    (h2 : (F.getD i1 {}).EndProfileChronoIndex < P.length)
    (h3 : 0 ≤ (F.getD i3 {}).StartProfileChronoIndex)
    (h4 : (F.getD i3 {}).StartProfileChronoIndex < P.length)
    (hgap : (F.getD i1 {}).EndProfileChronoIndex + 1 < (F.getD i3 {}).StartProfileChronoIndex) :
    CheckTemporalProximity i1 i3 P F =
      (((gapIndices (F.getD i1 {}).EndProfileChronoIndex
          (F.getD i3 {}).StartProfileChronoIndex).filter
        (fun p => !((F.enum.foldl (fun used (ib : Nat × s_BalanceArea) =>
          if ib.1 = i1 ∨ ib.1 = i3 then used
          else if ib.2.StartProfileChronoIndex ≥ (F.getD i3 {}).StartProfileChronoIndex ∨
              ib.2.EndProfileChronoIndex ≤ (F.getD i1 {}).EndProfileChronoIndex then used
          else used ++ ib.2.IncludedProfileIndices.filter (fun profileIndex =>
            decide (profileIndex > (F.getD i1 {}).EndProfileChronoIndex) &&
              decide (profileIndex < (F.getD i3 {}).StartProfileChronoIndex))) []).contains
          p))).length : Int) := by
  unfold CheckTemporalProximity
  simp only
  rw [if_neg (by omega), if_neg (by omega)]
  rfl

/-- In the counting case, for balance areas whose members lie between their
start and end index, the result of `CheckTemporalProximity` is the number of
gap indices that no other finalized balance area has as a member. -/
theorem CheckTemporalProximity_unclaimed (i1 i3 : Nat) (allSessionProfiles : List s_SessionProfile)
    (allFinalizedBAs : List s_BalanceArea)
    (h1 : 0 ≤ (allFinalizedBAs.getD i1 {}).EndProfileChronoIndex)
    (h2 : (allFinalizedBAs.getD i1 {}).EndProfileChronoIndex < allSessionProfiles.length)
    (h3 : 0 ≤ (allFinalizedBAs.getD i3 {}).StartProfileChronoIndex)
    (h4 : (allFinalizedBAs.getD i3 {}).StartProfileChronoIndex < allSessionProfiles.length)
    (hwithin : membersWithinBounds allFinalizedBAs)
    (hgap : (allFinalizedBAs.getD i1 {}).EndProfileChronoIndex + 1
      < (allFinalizedBAs.getD i3 {}).StartProfileChronoIndex) :
    CheckTemporalProximity i1 i3 allSessionProfiles allFinalizedBAs
      = unclaimedGapCount allFinalizedBAs i1 i3 := by
  rw [CheckTemporalProximity_gap i1 i3 allSessionProfiles allFinalizedBAs h1 h2 h3 h4 hgap]
  unfold unclaimedGapCount
  congr 2
  apply List.filter_congr
  intro p hp
  rw [mem_gapIndices] at hp
  have hiff : (List.foldl (fun used (ib : Nat × s_BalanceArea) =>
      if ib.1 = i1 ∨ ib.1 = i3 then used
      else if ib.2.StartProfileChronoIndex
            ≥ (allFinalizedBAs.getD i3 {}).StartProfileChronoIndex ∨
          ib.2.EndProfileChronoIndex
            ≤ (allFinalizedBAs.getD i1 {}).EndProfileChronoIndex then used
      else used ++ ib.2.IncludedProfileIndices.filter (fun profileIndex =>
        decide (profileIndex > (allFinalizedBAs.getD i1 {}).EndProfileChronoIndex) &&
          decide (profileIndex < (allFinalizedBAs.getD i3 {}).StartProfileChronoIndex)))
      [] allFinalizedBAs.enum).contains p = true ↔
      claimedByOther allFinalizedBAs i1 i3 p := by
    refine Iff.trans List.elem_iff ?_
    rw [usedBetween_mem]
    unfold claimedByOther
    constructor
    · rintro (h | ⟨ib, hib, c1, c2, _, c4, _⟩)
      · simp at h
      · rw [List.mem_enum_iff_getElem?] at hib
        obtain ⟨hlt, hget⟩ := List.getElem?_eq_some_iff.1 hib
        refine ⟨ib.1, List.mem_range.2 hlt, c1, c2, ?_⟩
        rw [List.getD_eq_getElem _ _ hlt, hget]
        exact c4
    · rintro ⟨x, hx, c1, c2, c4⟩
      have hlt := List.mem_range.1 hx
      rw [List.getD_eq_getElem _ _ hlt] at c4
      obtain ⟨b1, b2⟩ := hwithin _ (List.getElem_mem hlt) p c4
      refine Or.inr ⟨(x, allFinalizedBAs[x]), ?_, c1, c2, ?_, c4, hp.1, hp.2⟩
      · rw [List.mem_enum_iff_getElem?]
        exact List.getElem?_eq_getElem hlt
      · simp only
        omega
  by_cases hc : claimedByOther allFinalizedBAs i1 i3 p
  · rw [hiff.2 hc]; simp [hc]
  · have : ¬ _ = true := fun h => hc (hiff.1 h)
    rw [Bool.not_eq_true] at this
    rw [this]; simp [hc]

/-- When the second balance area starts at or before the end of the first plus
1, `CheckTemporalProximity` returns 0, and no gap index is counted. -/
theorem CheckTemporalProximity_adjacent (i1 i3 : Nat) (allSessionProfiles : List s_SessionProfile)
    (allFinalizedBAs : List s_BalanceArea)
    (h1 : 0 ≤ (allFinalizedBAs.getD i1 {}).EndProfileChronoIndex)
    (h2 : (allFinalizedBAs.getD i1 {}).EndProfileChronoIndex < allSessionProfiles.length)
    (h3 : 0 ≤ (allFinalizedBAs.getD i3 {}).StartProfileChronoIndex)
    (h4 : (allFinalizedBAs.getD i3 {}).StartProfileChronoIndex < allSessionProfiles.length)
    (hadj : (allFinalizedBAs.getD i3 {}).StartProfileChronoIndex
      ≤ (allFinalizedBAs.getD i1 {}).EndProfileChronoIndex + 1) :
    CheckTemporalProximity i1 i3 allSessionProfiles allFinalizedBAs = 0 ∧
    unclaimedGapCount allFinalizedBAs i1 i3 = 0 := by
  constructor
  · unfold CheckTemporalProximity
    simp only
    rw [if_neg (by omega), if_pos hadj]
  · unfold unclaimedGapCount
    have hlen := gapIndices_length (allFinalizedBAs.getD i1 {}).EndProfileChronoIndex
      (allFinalizedBAs.getD i3 {}).StartProfileChronoIndex
    have h0 : ((allFinalizedBAs.getD i3 {}).StartProfileChronoIndex
        - ((allFinalizedBAs.getD i1 {}).EndProfileChronoIndex + 1)).toNat = 0 := by omega
    rw [h0] at hlen
    rw [List.length_eq_zero.1 hlen]
    rfl

/-- C24 (amended): for the balance areas at the positions `i1` and `i3` of a
list of finalized balance areas (records whose members lie between their start
and end index), with the end of the first and the start of the second inside
the profile list, `CheckTemporalProximity` returns 0 when the second starts at
or before the end of the first plus 1, and otherwise exactly the number of
profile indices strictly between that end and that start which are not a
member of any other finalized balance area.  The result is at least 0, and it
is at most start minus end minus 1 when the second starts after the end of the
first. -/
theorem CheckTemporalProximity_count (i1 i3 : Nat) (allSessionProfiles : List s_SessionProfile)
    (allFinalizedBAs : List s_BalanceArea)
    (h1 : 0 ≤ (allFinalizedBAs.getD i1 {}).EndProfileChronoIndex)
    (h2 : (allFinalizedBAs.getD i1 {}).EndProfileChronoIndex < allSessionProfiles.length)
    (h3 : 0 ≤ (allFinalizedBAs.getD i3 {}).StartProfileChronoIndex)
    (h4 : (allFinalizedBAs.getD i3 {}).StartProfileChronoIndex < allSessionProfiles.length)
    (hwithin : membersWithinBounds allFinalizedBAs) :
    ((allFinalizedBAs.getD i3 {}).StartProfileChronoIndex
        ≤ (allFinalizedBAs.getD i1 {}).EndProfileChronoIndex + 1 →
      CheckTemporalProximity i1 i3 allSessionProfiles allFinalizedBAs = 0) ∧
    ((allFinalizedBAs.getD i1 {}).EndProfileChronoIndex + 1
        < (allFinalizedBAs.getD i3 {}).StartProfileChronoIndex →
      CheckTemporalProximity i1 i3 allSessionProfiles allFinalizedBAs
        = unclaimedGapCount allFinalizedBAs i1 i3) ∧
    0 ≤ CheckTemporalProximity i1 i3 allSessionProfiles allFinalizedBAs ∧
    ((allFinalizedBAs.getD i1 {}).EndProfileChronoIndex
        < (allFinalizedBAs.getD i3 {}).StartProfileChronoIndex →
      CheckTemporalProximity i1 i3 allSessionProfiles allFinalizedBAs
        ≤ (allFinalizedBAs.getD i3 {}).StartProfileChronoIndex
          - (allFinalizedBAs.getD i1 {}).EndProfileChronoIndex - 1) := by
  have hadj := CheckTemporalProximity_adjacent i1 i3 allSessionProfiles allFinalizedBAs h1 h2 h3 h4
  have hcnt := CheckTemporalProximity_unclaimed i1 i3 allSessionProfiles allFinalizedBAs h1 h2 h3
    h4 hwithin
  refine ⟨fun h => (hadj h).1, hcnt, ?_, ?_⟩
  · by_cases hg : (allFinalizedBAs.getD i1 {}).EndProfileChronoIndex + 1
        < (allFinalizedBAs.getD i3 {}).StartProfileChronoIndex
    · rw [hcnt hg]; exact Int.natCast_nonneg _
    · rw [(hadj (by omega)).1]
  · intro hlt
    by_cases hg : (allFinalizedBAs.getD i1 {}).EndProfileChronoIndex + 1
        < (allFinalizedBAs.getD i3 {}).StartProfileChronoIndex
    · rw [hcnt hg]
      unfold unclaimedGapCount
      have hle := List.length_filter_le
        (fun p => decide (¬ claimedByOther allFinalizedBAs i1 i3 p))
        (gapIndices (allFinalizedBAs.getD i1 {}).EndProfileChronoIndex
          (allFinalizedBAs.getD i3 {}).StartProfileChronoIndex)
      rw [gapIndices_length] at hle
      omega
    · rw [(hadj (by omega)).1]
      omega

/-- The balance areas finalized by the formation loop have their members
between their start and end index. -/
theorem formed_membersWithinBounds (sc : SCStudyInterface) (inp : StudyInputs) (sqrtf : ℚ → ℚ)
    (SessionProfiles : List s_SessionProfile) :
    membersWithinBounds (formBalanceAreas sc inp sqrtf SessionProfiles).FinalizedBalanceAreas := by
  obtain ⟨_, _, B, _, _, b3, _⟩ := formBalanceAreas_inv sc inp sqrtf SessionProfiles
  intro b hb p hp
  obtain ⟨_, _, ⟨i, e, c1, c2, c3, c4⟩, _⟩ := b3 b hb
  rw [c4] at hp
  unfold profileRun at hp
  simp only [List.mem_map, List.mem_range'_1] at hp
  obtain ⟨x, hx, rfl⟩ := hp
  rw [c2, c3]
  omega

/-- C24 (amended) on three balance areas over the profiles 0..1, 3..3 and
6..7: of the gap indices 2, 3, 4 and 5 between the first and the third, the
index 3 is a member of the second, and the result is 3. -/
theorem CheckTemporalProximity_count_witness :
    CheckTemporalProximity 0 2 (List.replicate 8 {}) gappedAreas = 3 ∧
    unclaimedGapCount gappedAreas 0 2 = 3 := by
  have h := (CheckTemporalProximity_count 0 2 (List.replicate 8 {}) gappedAreas (by decide!)
    (by decide!) (by decide!) (by decide!) (by decide!)).2.1 (by decide!)
  have hc : unclaimedGapCount gappedAreas 0 2 = 3 := by decide!
  rw [hc] at h
  exact ⟨h, hc⟩

/-- A record whose members lie outside its bounds is not a balance area, and
the function does not see such members: with records over 0..1 and 5..6 and a
third record with the bounds 7..8 and the member list `[3]`, the function skips
the third record because of its bounds and returns 3 for the gap 2, 3, 4,
although the index 3 is in the member list of the third record. -/
theorem CheckTemporalProximity_stray_member :
    CheckTemporalProximity 0 1 (List.replicate 9 {}) strayMemberAreas = 3 ∧
    unclaimedGapCount strayMemberAreas 0 1 = 2 := by
  decide!

/-- A profile with an invalid range stops the extension loop without a
change. -/
theorem extensionBody_invalid (sc : SCStudyInterface) (inp : StudyInputs)
    (profiles : List s_SessionProfile) (k : Nat) (s : ExtensionState)
    (h : ¬ validProfile profiles k) :
    extensionBody sc inp profiles k s = (s, false) := by
  unfold validProfile at h
  rw [Bool.not_eq_false] at h
  unfold extensionBody
  simp only
  rw [if_pos h]

theorem extensionProfiles_valid (sc : SCStudyInterface) (inp : StudyInputs)
    (profiles : List s_SessionProfile) :
    ∀ (n k : Nat) (s : ExtensionState),
      membersValid profiles s.currentBA.IncludedProfileIndices → usedValid profiles s.profileUsed →
      membersValid profiles
          (extensionProfiles sc inp profiles n k s).currentBA.IncludedProfileIndices ∧
        usedValid profiles (extensionProfiles sc inp profiles n k s).profileUsed := by
  intro n
  induction n with
  | zero => intro k s h1 h2; exact ⟨h1, h2⟩
  | succ n ih =>
    intro k s h1 h2
    rw [extensionProfiles_succ]
    rcases extensionBody_cases sc inp profiles k s with e | ⟨t, e, _, t2, _, _, _, t6⟩ |
        ⟨t, e, _, t2, _, _, _, t6⟩
    · rw [e]; exact ⟨h1, h2⟩
    · rw [e]
      refine ⟨by rw [t2]; exact h1, ?_⟩
      intro x hx
      rw [t6, getD_set_flag, getD_set_flag] at hx
      by_cases hxk : x = k ∧ k < (s.profileUsed.set k true).length
      · rw [if_pos hxk] at hx; exact absurd hx (by decide)
      · rw [if_neg hxk] at hx
        by_cases hxk2 : x = k ∧ k < s.profileUsed.length
        · exfalso
          apply hxk
          simp only [List.length_set]
          exact hxk2
        · rw [if_neg hxk2] at hx
          exact h2 x hx
    · rw [e]
      have hvalid : validProfile profiles k := by
        by_contra hc
        rw [extensionBody_invalid sc inp profiles k s hc] at e
        simp only [Prod.mk.injEq] at e
        exact absurd e.2 (by decide)
      apply ih
      · rw [t2]
        intro p hp
        rcases List.mem_append.1 hp with hp | hp
        · exact h1 p hp
        · exact ⟨k, List.mem_singleton.1 hp, hvalid⟩
      · intro x hx
        rw [t6, getD_set_flag] at hx
        by_cases hxk : x = k ∧ k < s.profileUsed.length
        · rw [hxk.1]; exact hvalid
        · rw [if_neg hxk] at hx
          exact h2 x hx

theorem formationBody_valid (sc : SCStudyInterface) (inp : StudyInputs) (sqrtf : ℚ → ℚ)
    (profiles : List s_SessionProfile) (i : Nat) (s : FormationState)
    (h1 : ∀ b ∈ s.FinalizedBalanceAreas, membersValid profiles b.IncludedProfileIndices)
    (h2 : usedValid profiles s.profileUsed) :
    (∀ b ∈ (formationBody sc inp sqrtf profiles i s).FinalizedBalanceAreas,
      membersValid profiles b.IncludedProfileIndices) ∧
    usedValid profiles (formationBody sc inp sqrtf profiles i s).profileUsed := by
  rw [formationBody_eq]
  by_cases hv : (invalidHL (profiles.getD i {}).HighestPrice (profiles.getD i {}).LowestPrice ||
      invalidHL (profiles.getD (i + 1) {}).HighestPrice (profiles.getD (i + 1) {}).LowestPrice)
      = true
  · rw [if_pos hv]; exact ⟨h1, h2⟩
  · rw [if_neg hv]
    simp only [Bool.or_eq_true, not_or, Bool.not_eq_true] at hv
    cases hr : initiationReason inp sc.TickSize (profiles.getD i {})
        (profiles.getD (i + 1) {}) with
    | none => exact ⟨h1, h2⟩
    | some reason =>
      simp only
      split_ifs with hm
      · exact ⟨h1, h2⟩
      · have hstart1 : membersValid profiles
            (extensionStart sc inp profiles i reason s).currentBA.IncludedProfileIndices := by
          intro p hp
          have hp' : p ∈ [(i : Int), (i : Int) + 1] := hp
          simp only [List.mem_cons, List.mem_singleton, List.not_mem_nil, or_false] at hp'
          rcases hp' with hp' | hp'
          · exact ⟨i, hp', hv.1⟩
          · exact ⟨i + 1, by rw [hp']; push_cast; rfl, hv.2⟩
        have hstart2 : usedValid profiles (extensionStart sc inp profiles i reason s).profileUsed := by
          intro x hx
          have hx' : ((s.profileUsed.set i true).set (i + 1) true).getD x false = true := hx
          rw [getD_set_flag, getD_set_flag] at hx'
          by_cases c1 : x = i + 1 ∧ i + 1 < (s.profileUsed.set i true).length
          · rw [c1.1]; exact hv.2
          · rw [if_neg c1] at hx'
            by_cases c2 : x = i ∧ i < s.profileUsed.length
            · rw [c2.1]; exact hv.1
            · rw [if_neg c2] at hx'
              exact h2 x hx'
        obtain ⟨e1, e2⟩ := extensionProfiles_valid sc inp profiles (profiles.length - (i + 2))
          (i + 2) _ hstart1 hstart2
        unfold sealCandidate
        split_ifs
        · refine ⟨?_, e2⟩
          intro b hb
          rcases List.mem_append.1 hb with hb | hb
          · exact h1 b hb
          · rw [List.mem_singleton.1 hb]; exact e1
        · exact ⟨h1, e2⟩
        · exact ⟨h1, e2⟩

theorem formationLoop_valid (sc : SCStudyInterface) (inp : StudyInputs) (sqrtf : ℚ → ℚ)
    (profiles : List s_SessionProfile) :
    ∀ (n i : Nat) (s : FormationState),
      (∀ b ∈ s.FinalizedBalanceAreas, membersValid profiles b.IncludedProfileIndices) →
      usedValid profiles s.profileUsed →
      (∀ b ∈ (formationLoop sc inp sqrtf profiles n i s).FinalizedBalanceAreas,
        membersValid profiles b.IncludedProfileIndices) ∧
      usedValid profiles (formationLoop sc inp sqrtf profiles n i s).profileUsed := by
  intro n
  induction n with
  | zero => intro i s h1 h2; exact ⟨h1, h2⟩
  | succ n ih =>
    intro i s h1 h2
    rw [formationLoop_succ]
    split_ifs
    · exact ih (i + 1) s h1 h2
    · exact ⟨h1, h2⟩
    · obtain ⟨b1, b2⟩ := formationBody_valid sc inp sqrtf profiles i s h1 h2
      exact ih (i + 1) _ b1 b2

/-- Every member of a finalized balance area and every consumed profile has a
valid price range. -/
theorem formed_valid (sc : SCStudyInterface) (inp : StudyInputs) (sqrtf : ℚ → ℚ)
    (profiles : List s_SessionProfile) :
    (∀ b ∈ (formBalanceAreas sc inp sqrtf profiles).FinalizedBalanceAreas,
      membersValid profiles b.IncludedProfileIndices) ∧
    usedValid profiles (formBalanceAreas sc inp sqrtf profiles).profileUsed := by
  unfold formBalanceAreas
  apply formationLoop_valid
  · intro b hb; simp at hb
  · intro x hx
    exfalso
    rw [List.getD_eq_getElem?_getD] at hx
    by_cases hl : x < profiles.length
    · rw [List.getElem?_eq_getElem (by simpa using hl)] at hx
      simp at hx
    · rw [List.getElem?_eq_none (by simpa using hl)] at hx
      simp at hx

theorem validProfile_lt (profiles : List s_SessionProfile) (k : Nat)
    (h : validProfile profiles k) : k < profiles.length := by
  by_contra hc
  unfold validProfile at h
  rw [List.getD_eq_default _ _ (by omega)] at h
  revert h
  decide!

theorem validProfile_range (profiles : List s_SessionProfile) (k : Nat)
    (h : validProfile profiles k) :
    (profiles.getD k {}).HighestPrice > -FLT_MAX ∧ (profiles.getD k {}).LowestPrice < FLT_MAX ∧
    (profiles.getD k {}).HighestPrice ≥ (profiles.getD k {}).LowestPrice := by
  unfold validProfile invalidHL at h
  simp only [Bool.or_eq_false_iff, decide_eq_false_iff_not, not_le, not_lt] at h
  exact ⟨h.1.1, h.1.2, h.2⟩

/-- C26 (amended): for every profile sequence and parameter setting, every
member of a finalized balance area is the index of a session profile of the
list whose price range is set at both ends and not negative
(`HighestPrice >= LowestPrice`). -/
theorem formBalanceAreas_members_valid (sc : SCStudyInterface) (inp : StudyInputs)
    (sqrtf : ℚ → ℚ) (SessionProfiles : List s_SessionProfile) (b : s_BalanceArea)
    (hb : b ∈ (formBalanceAreas sc inp sqrtf SessionProfiles).FinalizedBalanceAreas)
    (p : Int) (hp : p ∈ b.IncludedProfileIndices) :
    ∃ k : Nat, p = (k : Int) ∧ k < SessionProfiles.length ∧
      (SessionProfiles.getD k {}).HighestPrice > -FLT_MAX ∧
      (SessionProfiles.getD k {}).LowestPrice < FLT_MAX ∧
      (SessionProfiles.getD k {}).HighestPrice ≥ (SessionProfiles.getD k {}).LowestPrice := by
  obtain ⟨k, hk, hv⟩ := (formed_valid sc inp sqrtf SessionProfiles).1 b hb p hp
  exact ⟨k, hk, validProfile_lt SessionProfiles k hv, validProfile_range SessionProfiles k hv⟩

/-- C26 (amended) on the five sessions: the member 1 of the first balance area
is a profile with the range 10..12. -/
theorem formBalanceAreas_members_valid_witness :
    ∃ k : Nat, (1 : Int) = (k : Int) ∧ k < fiveSessions.length ∧
      (fiveSessions.getD k {}).HighestPrice > -FLT_MAX ∧
      (fiveSessions.getD k {}).LowestPrice < FLT_MAX ∧
      (fiveSessions.getD k {}).HighestPrice ≥ (fiveSessions.getD k {}).LowestPrice :=
  formBalanceAreas_members_valid chartFive plainInputs (fun x => x) fiveSessions
    ((formBalanceAreas chartFive plainInputs (fun x => x) fiveSessions).FinalizedBalanceAreas.getD
      0 {}) (by decide!) 1 (by decide!)

/-- C26 as stated fails for a zero range: the second of the two sessions has
the single level 11, so its price range is 11..11, and with a volume-overlap
threshold of 20 percent it is a member of the finalized balance area. -/
theorem formBalanceAreas_zero_range_member :
    (formBalanceAreas chartFive lowOverlapInputs (fun x => x)
      pointSessions).FinalizedBalanceAreas.map (fun b => b.IncludedProfileIndices) = [[0, 1]] ∧
    (pointSessions.getD 1 {}).HighestPrice = 11 ∧ (pointSessions.getD 1 {}).LowestPrice = 11 ∧
    (pointSessions.getD 1 {}).GetRange = 0 := by
  decide!

/-- C28 (amended): for every profile sequence, a profile `k` with an invalid
range (unset, or highest below lowest) starts no balance area, neither as the
first nor as the second profile of a pair, stops the extension loop of a
balance area that reaches it, is never marked consumed, and is not a member of
any finalized balance area. -/
theorem invalid_profile_stops_extension (sc : SCStudyInterface) (inp : StudyInputs)
    (sqrtf : ℚ → ℚ) (SessionProfiles : List s_SessionProfile) (k : Nat)
    (h : ¬ validProfile SessionProfiles k) :
    (∀ s, formationBody sc inp sqrtf SessionProfiles k s = s) ∧
    (∀ i s, i + 1 = k → formationBody sc inp sqrtf SessionProfiles i s = s) ∧
    (∀ s, extensionBody sc inp SessionProfiles k s = (s, false)) ∧
    (formBalanceAreas sc inp sqrtf SessionProfiles).profileUsed.getD k false = false ∧
    ∀ b ∈ (formBalanceAreas sc inp sqrtf SessionProfiles).FinalizedBalanceAreas,
      (k : Int) ∉ b.IncludedProfileIndices := by
  have hinv : invalidHL (SessionProfiles.getD k {}).HighestPrice
      (SessionProfiles.getD k {}).LowestPrice = true := by
    unfold validProfile at h
    rw [Bool.not_eq_false] at h
    exact h
  obtain ⟨f1, f2⟩ := formed_valid sc inp sqrtf SessionProfiles
  refine ⟨fun s => ?_, fun i s hi => ?_, fun s => extensionBody_invalid sc inp SessionProfiles k s h,
    ?_, fun b hb hk => ?_⟩
  · rw [formationBody_eq, if_pos (by rw [hinv]; rfl)]
  · subst hi
    rw [formationBody_eq, if_pos (by rw [hinv]; simp)]
  · cases hu : (formBalanceAreas sc inp sqrtf SessionProfiles).profileUsed.getD k false with
    | false => rfl
    | true => exact absurd (f2 k hu) h
  · obtain ⟨x, hx, hv⟩ := f1 b hb _ hk
    have : k = x := by exact_mod_cast hx
    rw [this] at h
    exact h hv

/-- C28 (amended) on five sessions of which the third has an unset range: it
is not consumed, and the balance areas are the pairs before and after it. -/
theorem invalid_profile_stops_extension_witness :
    (formBalanceAreas chartFive plainInputs (fun x => x) brokenSessions).profileUsed.getD 2 false
      = false ∧
    (formBalanceAreas chartFive plainInputs (fun x => x)
      brokenSessions).FinalizedBalanceAreas.map (fun b => b.IncludedProfileIndices)
      = [[0, 1], [3, 4]] :=
  ⟨(invalid_profile_stops_extension chartFive plainInputs (fun x => x) brokenSessions 2
      (by decide!)).2.2.2.1, by decide!⟩

/-- C28 as stated fails: there is no profile sequence in which a profile with
an invalid range is a member of a finalized balance area. -/
theorem no_invalid_profile_member :
    ¬ ∃ (sc : SCStudyInterface) (inp : StudyInputs) (sqrtf : ℚ → ℚ)
        (SessionProfiles : List s_SessionProfile) (b : s_BalanceArea) (k : Nat),
      b ∈ (formBalanceAreas sc inp sqrtf SessionProfiles).FinalizedBalanceAreas ∧
      (k : Int) ∈ b.IncludedProfileIndices ∧
      invalidHL (SessionProfiles.getD k {}).HighestPrice (SessionProfiles.getD k {}).LowestPrice
        = true := by
  rintro ⟨sc, inp, sqrtf, profiles, b, k, hb, hk, hinv⟩
  obtain ⟨x, hx, hv⟩ := (formed_valid sc inp sqrtf profiles).1 b hb _ hk
  have : k = x := by exact_mod_cast hx
  subst this
  unfold validProfile at hv
  rw [hv] at hinv
  exact absurd hinv (by decide)

theorem filter_of_nodup_key {l : List s_BalanceArea} (hnd : (l.map keyOf).Nodup)
    {a f : s_BalanceArea} (ha : a ∈ l) (hk : keyOf a = keyOf f) :
    l.filter (fun x => sameBA x f) = [a] := by
  induction l with
  | nil => simp at ha
  | cons b rest ih =>
    simp only [List.map_cons, List.nodup_cons] at hnd
    rcases List.mem_cons.1 ha with h | h
    · subst h
      rw [List.filter_cons_of_pos (p := fun x => sameBA x f) ((sameBA_iff a f).2 hk)]
      congr 1
      rw [List.filter_eq_nil_iff]
      intro x hx hs
      apply hnd.1
      rw [hk, ← (sameBA_iff x f).1 hs]
      exact List.mem_map_of_mem keyOf hx
    · have hb : ¬ sameBA b f = true := by
        intro hs
        apply hnd.1
        rw [(sameBA_iff b f).1 hs, ← hk]
        exact List.mem_map_of_mem keyOf h
      rw [List.filter_cons_of_neg (p := fun x => sameBA x f) hb]
      exact ih hnd.2 h

/-- C29: starting from the state right after a rebuild (no active balance
area, no finalized balance area activated or cut) and after any number of
passes, every activated finalized balance area has exactly one entry in
`ActiveBalanceAreas` with the same start and end profile index, and its
`IsExtending`, `ExtensionEndIndex`, `ExtensionEndReason` and `WasCut` equal
those of that entry. -/
theorem finalized_matches_one_active (st0 : s_BAStudyPersistentData) (h0 : FreshState st0)
    (passes : List (SCStudyInterface × ℚ)) (f : s_BalanceArea)
    (hf : f ∈ (runPasses passes st0).FinalizedBalanceAreas) (hact : f.IsActivated = true) :
    ∃ a, (runPasses passes st0).ActiveBalanceAreas.filter (fun x => sameBA x f) = [a] ∧
      a.StartProfileChronoIndex = f.StartProfileChronoIndex ∧
      a.EndProfileChronoIndex = f.EndProfileChronoIndex ∧
      f.IsExtending = a.IsExtending ∧ f.ExtensionEndIndex = a.ExtensionEndIndex ∧
      f.ExtensionEndReason = a.ExtensionEndReason ∧ f.WasCut = a.WasCut := by
  have hinv : LifecycleInv (runPasses passes st0) := runPasses_inv passes st0 h0.inv
  obtain ⟨_, hnd, hex, _⟩ := hinv
  obtain ⟨a, ha, hk, _⟩ := hex f hf hact
  have hkey : a.StartProfileChronoIndex = f.StartProfileChronoIndex ∧
      a.EndProfileChronoIndex = f.EndProfileChronoIndex := by
    unfold keyOf at hk
    exact ⟨congrArg Prod.fst hk, congrArg Prod.snd hk⟩
  refine ⟨a, filter_of_nodup_key hnd ha hk, hkey.1, hkey.2, ?_⟩
  rcases List.eq_nil_or_concat passes with hnil | ⟨init, q, hq⟩
  · subst hnil
    have : f.IsActivated = false := (h0.2 f hf).1
    rw [this] at hact
    exact absurd hact (by decide)
  · subst hq
    have hrun : runPasses (init.concat q) st0 = lifecyclePass q.1 q.2 (runPasses init st0) := by
      rw [List.concat_eq_append, runPasses_append]; rfl
    rw [hrun] at hf ha hnd
    unfold lifecyclePass at hf ha hnd
    rw [UpdateBAExtensions_finalized] at hf
    obtain ⟨g, _, hg⟩ := List.mem_map.1 hf
    have hga : g.IsActivated = true := by
      rw [← (syncFinalized_activation _ g).1, hg]; exact hact
    have hkg : keyOf a = keyOf g := by
      rw [hk, ← hg, keyOf_syncFinalized]
    have hfind := find?_of_nodup_key hnd ha hkg
    rw [syncFinalized_of_find _ g a hga hfind] at hg
    rw [← hg]
    exact ⟨rfl, rfl, rfl, rfl⟩

/-- C29 on the two areas `areaA` and `areaB` after two passes over a chart of
100 bars: the first finalized record is activated and matches exactly one
active entry. -/
theorem finalized_matches_one_active_witness :
    ∃ a, (runPasses [(chartB 90 80, 10), (chartB 100 80, 10)]
        stateAB).ActiveBalanceAreas.filter
        (fun x => sameBA x ((runPasses [(chartB 90 80, 10), (chartB 100 80, 10)]
          stateAB).FinalizedBalanceAreas.getD 0 {})) = [a] ∧
      a.StartProfileChronoIndex = ((runPasses [(chartB 90 80, 10), (chartB 100 80, 10)]
          stateAB).FinalizedBalanceAreas.getD 0 {}).StartProfileChronoIndex ∧
      a.EndProfileChronoIndex = ((runPasses [(chartB 90 80, 10), (chartB 100 80, 10)]
          stateAB).FinalizedBalanceAreas.getD 0 {}).EndProfileChronoIndex ∧
      ((runPasses [(chartB 90 80, 10), (chartB 100 80, 10)]
          stateAB).FinalizedBalanceAreas.getD 0 {}).IsExtending = a.IsExtending ∧
      ((runPasses [(chartB 90 80, 10), (chartB 100 80, 10)]
          stateAB).FinalizedBalanceAreas.getD 0 {}).ExtensionEndIndex = a.ExtensionEndIndex ∧
      ((runPasses [(chartB 90 80, 10), (chartB 100 80, 10)]
          stateAB).FinalizedBalanceAreas.getD 0 {}).ExtensionEndReason = a.ExtensionEndReason ∧
      ((runPasses [(chartB 90 80, 10), (chartB 100 80, 10)]
          stateAB).FinalizedBalanceAreas.getD 0 {}).WasCut = a.WasCut :=
  finalized_matches_one_active stateAB ⟨rfl, by decide!⟩
    [(chartB 90 80, 10), (chartB 100 80, 10)]
    ((runPasses [(chartB 90 80, 10), (chartB 100 80, 10)] stateAB).FinalizedBalanceAreas.getD 0 {})
    (by decide!) (by decide!)

theorem needRecalculation_of_changed (full : Bool) (pData : LastInputs) (n : Int)
    (inp : StudyInputs) (d : DisplayInputs) (h : comparedParameterChanged pData inp) :
    needRecalculation full pData n inp d = true := by
  unfold needRecalculation
  simp only [Bool.or_eq_true, decide_eq_true_eq]
  unfold comparedParameterChanged at h
  rcases h with h | h | h | h | h | h | h | h | h | h <;>
    simp only [h, ne_eq, not_false_eq_true, true_or, or_true]

/-- C30 (amended): in every call of the study function that gets past the
early returns, if a numeric algorithm parameter (value-area %, volume or VA
overlap threshold, range-similarity %, high/low tolerance %, range-containment
%, skew or kurtosis bound) differs by more than 0.001 from the value stored at
the last rebuild, or the normality toggle differs from it, then
`needRecalculation` is true, the current inputs are stored, and the finalized
balance areas, composites, active set and PBAL list are those of a rebuild from
the loaded profiles (cleared, formed anew) followed by the activation and
extension passes: nothing of the previous lists is kept. -/
theorem parameter_change_rebuilds (sc : SCStudyInterface) (flags : HostFlags) (sqrtf : ℚ → ℚ)
    (inp : StudyInputs) (d : DisplayInputs) (SessionProfiles : List s_SessionProfile)
    (pData : StudyState)
    (hid : d.ReferenceStudyID > 0) (htick : sc.TickSize > 0)
    (hcall : flags.LastCallToFunction = false)
    (hloaded : SessionProfiles ≠ [] ∨ d.NumberOfSessions ≤ 0)
    (hchg : comparedParameterChanged pData.last inp) :
    needRecalculation flags.IsFullRecalculation pData.last SessionProfiles.length inp d = true ∧
    scsf_BalanceAreaDetection sc flags sqrtf inp d SessionProfiles pData =
      { last := storeInputs SessionProfiles.length inp d
        data := lifecyclePass sc inp.PBALPierceThreshold
          (rebuildState sc inp sqrtf SessionProfiles) } ∧
    (rebuildState sc inp sqrtf SessionProfiles).ActiveBalanceAreas = [] ∧
    (rebuildState sc inp sqrtf SessionProfiles).PBALsToDraw = [] ∧
    (rebuildState sc inp sqrtf SessionProfiles).FinalizedBalanceAreas =
      (formBalanceAreas sc inp sqrtf SessionProfiles).FinalizedBalanceAreas ∧
    (rebuildState sc inp sqrtf SessionProfiles).CompositeBAs =
      detectComposites inp sc.TickSize SessionProfiles
        (formBalanceAreas sc inp sqrtf SessionProfiles).FinalizedBalanceAreas := by
  have hneed := needRecalculation_of_changed flags.IsFullRecalculation pData.last
    SessionProfiles.length inp d hchg
  refine ⟨hneed, ?_, rfl, rfl, rfl, rfl⟩
  have hempty : (SessionProfiles.isEmpty && decide (d.NumberOfSessions > 0)) = false := by
    rcases hloaded with h | h
    · cases SessionProfiles with
      | nil => exact absurd rfl h
      | cons _ _ => rfl
    · rw [Bool.and_eq_false_iff]
      right
      exact decide_eq_false (by omega)
  unfold scsf_BalanceAreaDetection
  rw [if_neg (by omega), if_neg (not_le.2 htick), hcall, hempty]
  simp only [Bool.false_eq_true, if_false]
  rw [hneed]
  simp only [if_true]

/-- C30 (amended) on the five sessions: after the first call, a call with the
value-area percentage changed from 70 to 68 rebuilds. -/
theorem parameter_change_rebuilds_witness :
    needRecalculation false firstCallState.last 5
      { plainInputs with ValueAreaPercentage := 68 } plainDisplay = true ∧
    scsf_BalanceAreaDetection chartFive {} (fun x => x)
        { plainInputs with ValueAreaPercentage := 68 } plainDisplay fiveSessions firstCallState =
      { last := storeInputs 5 { plainInputs with ValueAreaPercentage := 68 } plainDisplay
        data := lifecyclePass chartFive 1 (rebuildState chartFive
          { plainInputs with ValueAreaPercentage := 68 } (fun x => x) fiveSessions) } :=
  ⟨(parameter_change_rebuilds chartFive {} (fun x => x)
      { plainInputs with ValueAreaPercentage := 68 } plainDisplay fiveSessions firstCallState
      (by decide) (by decide!) rfl (Or.inl (by decide)) (by decide!)).1,
   (parameter_change_rebuilds chartFive {} (fun x => x)
      { plainInputs with ValueAreaPercentage := 68 } plainDisplay fiveSessions firstCallState
      (by decide) (by decide!) rfl (Or.inl (by decide)) (by decide!)).2.1⟩

/-- C30 as stated fails: after the first call on the five sessions, a call with
the PBAL pierce percentage changed from 1 to 25, or with the value-area
percentage changed by 0.0005, finds `needRecalculation` false and keeps the
lists, on which only the activation and extension passes run. -/
theorem pierce_change_keeps_state :
    needRecalculation false firstCallState.last 5
      { plainInputs with PBALPierceThreshold := 25 } plainDisplay = false ∧
    scsf_BalanceAreaDetection chartFive {} (fun x => x)
        { plainInputs with PBALPierceThreshold := 25 } plainDisplay fiveSessions firstCallState =
      { firstCallState with data := lifecyclePass chartFive 25 firstCallState.data } ∧
    needRecalculation false firstCallState.last 5
      { plainInputs with ValueAreaPercentage := 70 + 1 / 2000 } plainDisplay = false := by
  refine ⟨by decide!, ?_, by decide!⟩
  have h : needRecalculation false firstCallState.last 5
      { plainInputs with PBALPierceThreshold := 25 } plainDisplay = false := by decide!
  unfold scsf_BalanceAreaDetection
  rw [if_neg (by decide), if_neg (by decide!)]
  simp only [Bool.false_eq_true, if_false]
  rw [if_neg (by decide)]
  have h5 : ((fiveSessions.length : Nat) : Int) = 5 := rfl
  simp only [h5, h, Bool.false_eq_true, if_false]

theorem scanLevel_extremes (s : MetricsScan) (e : ℚ × s_PriceLevelVolume) :
    (scanLevel s e).highestPrice =
      (if e.2.TotalVolume > VOL_EPS then max s.highestPrice e.1 else s.highestPrice) ∧
    (scanLevel s e).lowestPrice =
      (if e.2.TotalVolume > VOL_EPS then min s.lowestPrice e.1 else s.lowestPrice) := by
  unfold scanLevel
  by_cases hv : e.2.TotalVolume > VOL_EPS
  · simp only [hv, if_true]
    constructor
    · split_ifs <;> simp only [] <;>
        first
        | exact (max_eq_right (by linarith)).symm
        | exact (max_eq_left (by linarith)).symm
    · split_ifs <;> simp only [] <;>
        first
        | exact (min_eq_right (by linarith)).symm
        | exact (min_eq_left (by linarith)).symm
  · simp only [hv, if_false, and_self]

theorem scan_extremes (priceMap : PriceVolumeMap) :
    ∀ s : MetricsScan,
      (priceMap.foldl scanLevel s).highestPrice =
        priceMap.foldl (fun (h : ℚ) (e : ℚ × s_PriceLevelVolume) =>
          if e.2.TotalVolume > VOL_EPS then max h e.1 else h) s.highestPrice ∧
      (priceMap.foldl scanLevel s).lowestPrice =
        priceMap.foldl (fun (h : ℚ) (e : ℚ × s_PriceLevelVolume) =>
          if e.2.TotalVolume > VOL_EPS then min h e.1 else h) s.lowestPrice := by
  induction priceMap with
  | nil => intro s; exact ⟨rfl, rfl⟩
  | cons e rest ih =>
    intro s
    obtain ⟨h1, h2⟩ := ih (scanLevel s e)
    obtain ⟨e1, e2⟩ := scanLevel_extremes s e
    simp only [List.foldl_cons]
    rw [h1, h2, e1, e2]
    exact ⟨rfl, rfl⟩

theorem scan_extremes_perm {m1 m2 : PriceVolumeMap} (hperm : m1.Perm m2) :
    (m1.foldl scanLevel {}).highestPrice = (m2.foldl scanLevel {}).highestPrice ∧
    (m1.foldl scanLevel {}).lowestPrice = (m2.foldl scanLevel {}).lowestPrice := by
  rw [(scan_extremes m1 {}).1, (scan_extremes m1 {}).2, (scan_extremes m2 {}).1,
    (scan_extremes m2 {}).2]
  constructor
  · apply List.Perm.foldl_eq' hperm
    intro x _ y _ z
    split_ifs
    · rw [max_assoc, max_comm x.1 y.1, ← max_assoc]
    · rfl
    · rfl
    · rfl
  · apply List.Perm.foldl_eq' hperm
    intro x _ y _ z
    split_ifs
    · rw [min_assoc, min_comm x.1 y.1, ← min_assoc]
    · rfl
    · rfl
    · rfl

theorem scanKey_eq (s : Bool × ℚ × ℚ) (e : ℚ × s_PriceLevelVolume) :
    scanKey s e = if s.1 then (false, e.1, e.1) else (false, max s.2.1 e.1, min s.2.2 e.1) := by
  unfold scanKey
  split_ifs with h1 h2 h3 h3
  · rfl
  · rw [max_eq_right (by linarith), min_eq_right (by linarith)]
  · rw [max_eq_right (by linarith), min_eq_left (by linarith)]
  · rw [max_eq_left (by linarith), min_eq_right (by linarith)]
  · rw [max_eq_left (by linarith), min_eq_left (by linarith)]

theorem scanKey_perm {m1 m2 : PriceVolumeMap} (hperm : m1.Perm m2) (init : Bool × ℚ × ℚ) :
    m1.foldl scanKey init = m2.foldl scanKey init := by
  apply List.Perm.foldl_eq' hperm
  intro x _ y _ z
  rw [scanKey_eq, scanKey_eq, scanKey_eq, scanKey_eq]
  cases hz : z.1 with
  | true =>
    simp only [if_true, Bool.false_eq_true, if_false]
    rw [max_comm, min_comm]
  | false =>
    simp only [Bool.false_eq_true, if_false]
    rw [max_assoc, max_comm x.1 y.1, ← max_assoc, min_assoc, min_comm x.1 y.1, ← min_assoc]

theorem levelsWithVolume_perm {m1 m2 : PriceVolumeMap} (hperm : m1.Perm m2) :
    (levelsWithVolume m1).Perm (levelsWithVolume m2) := by
  unfold levelsWithVolume
  exact (hperm.filter _).map _

theorem sortByPrice_levels_perm {m1 m2 : PriceVolumeMap} (hperm : m1.Perm m2)
    (hu : uniqueKeys m1) :
    sortByPrice (levelsWithVolume m1) = sortByPrice (levelsWithVolume m2) := by
  have hu2 : (m2.map Prod.fst).Nodup := (hperm.map Prod.fst).nodup_iff.1 hu
  have s1 := sortByPrice_strict m1 hu
  have s2 := sortByPrice_strict m2 hu2
  have hp : (sortByPrice (levelsWithVolume m1)).Perm (sortByPrice (levelsWithVolume m2)) :=
    ((sortByPrice_perm _).trans (levelsWithVolume_perm hperm)).trans (sortByPrice_perm _).symm
  haveI : IsAntisymm (ℚ × ℚ) (fun a b => a.1 < b.1) :=
    ⟨fun a b h1 h2 => absurd h1 (not_lt.2 (le_of_lt h2))⟩
  exact List.eq_of_perm_of_sorted hp s1 s2

theorem pocPick_perm {L1 L2 : List (ℚ × ℚ)} (hperm : L1.Perm L2) (hpos : ∀ q ∈ L1, 0 < q.2)
    (hsep : ∀ a ∈ L1, ∀ b ∈ L1, |a.2 - b.2| < VOL_EPS → a.2 = b.2) (p0 : ℚ) :
    L1.foldl pocPick (0, p0) = L2.foldl pocPick (0, p0) := by
  have heps := VOL_EPS_pos
  by_cases hne : L1 = []
  · subst hne
    rw [hperm.symm.eq_nil]
  · have hne2 : L2 ≠ [] := fun h => hne (by rw [h] at hperm; exact hperm.eq_nil)
    have hpos2 : ∀ q ∈ L2, 0 < q.2 := fun q hq => hpos q (hperm.mem_iff.2 hq)
    have i1 := pocPick_foldl L1 hpos [] (0, p0) (Or.inl ⟨rfl, rfl⟩) hne
    have i2 := pocPick_foldl L2 hpos2 [] (0, p0) (Or.inl ⟨rfl, rfl⟩) hne2
    simp only [List.nil_append] at i1 i2
    generalize L1.foldl pocPick (0, p0) = s1 at i1 ⊢
    generalize L2.foldl pocPick (0, p0) = s2 at i2 ⊢
    obtain ⟨a1, ⟨q1, hq1, e1⟩, ⟨v1, hv1, b1⟩, c1⟩ := i1
    obtain ⟨a2, ⟨q2, hq2, e2⟩, ⟨v2, hv2, b2⟩, c2⟩ := i2
    have hmax : s1.1 = s2.1 := by
      apply le_antisymm
      · rw [← e1]; exact a2 q1 (hperm.mem_iff.1 hq1)
      · rw [← e2]; exact a1 q2 (hperm.mem_iff.2 hq2)
    have hv1eq : v1 = s1.1 := by
      have hle : v1 ≤ s1.1 := a1 _ hv1
      have := hsep _ hv1 q1 hq1 (by
        simp only [e1]
        rw [abs_lt]; constructor <;> linarith)
      simp only at this
      rw [this, e1]
    have hv2eq : v2 = s2.1 := by
      have hle : v2 ≤ s2.1 := a2 _ hv2
      have := hsep _ (hperm.mem_iff.2 hv2) q1 hq1 (by
        simp only [e1, hmax]
        rw [abs_lt]; constructor <;> linarith)
      simp only at this
      rw [this, e1, hmax]
    have hpoc : s1.2 = s2.2 := by
      apply le_antisymm
      · have := c2 (s1.2, v1) (hperm.mem_iff.1 hv1) (by simp only; rw [hv1eq, hmax])
        exact this
      · have := c1 (s2.2, v2) (hperm.mem_iff.2 hv2) (by simp only; rw [hv2eq, hmax])
        exact this
    exact Prod.ext hmax hpoc

theorem scan_pick_perm {m1 m2 : PriceVolumeMap} (hperm : m1.Perm m2)
    (hsep : volumesSeparated m1) :
    (m1.foldl scanLevel {}).maxVolumeAtPOC = (m2.foldl scanLevel {}).maxVolumeAtPOC ∧
    (m1.foldl scanLevel {}).poc = (m2.foldl scanLevel {}).poc := by
  have h1 := scan_pick m1 {}
  have h2 := scan_pick m2 {}
  have hL : ∀ q ∈ levelsWithVolume m1, ∃ e ∈ m1, q = (e.1, e.2.TotalVolume) ∧
      e.2.TotalVolume > VOL_EPS := by
    intro q hq
    unfold levelsWithVolume at hq
    obtain ⟨e, he, rfl⟩ := List.mem_map.1 hq
    obtain ⟨hm, hv⟩ := List.mem_filter.1 he
    exact ⟨e, hm, rfl, of_decide_eq_true hv⟩
  have hp := pocPick_perm (levelsWithVolume_perm hperm)
    (fun q hq => by
      obtain ⟨e, _, rfl, hv⟩ := hL q hq
      exact lt_trans VOL_EPS_pos hv)
    (fun a ha b hb hab => by
      obtain ⟨ea, hea, rfl, _⟩ := hL a ha
      obtain ⟨eb, heb, rfl, _⟩ := hL b hb
      exact hsep ea hea eb heb hab) 0
  have h3 : ((m1.foldl scanLevel {}).maxVolumeAtPOC, (m1.foldl scanLevel {}).poc) =
      ((m2.foldl scanLevel {}).maxVolumeAtPOC, (m2.foldl scanLevel {}).poc) := by
    rw [h1, h2]; exact hp
  exact ⟨congrArg Prod.fst h3, congrArg Prod.snd h3⟩

/-- Two enumeration orders of one map with volumes that are equal or an epsilon
apart give the same run of `CalculateProfileMetrics`. -/
theorem run_perm {m1 m2 : PriceVolumeMap} (hperm : m1.Perm m2) (hu : uniqueKeys m1)
    (hsep : volumesSeparated m1) (pct tick : ℚ) :
    CalculateProfileMetricsRun m1 pct tick = CalculateProfileMetricsRun m2 pct tick := by
  obtain ⟨hp1, ht1⟩ := scan_pairs m1 {}
  obtain ⟨hp2, ht2⟩ := scan_pairs m2 {}
  simp only [List.nil_append, zero_add] at hp1 ht1 hp2 ht2
  have hT : (m1.foldl scanLevel {}).totalVolume = (m2.foldl scanLevel {}).totalVolume := by
    rw [ht1, ht2]
    exact ((levelsWithVolume_perm hperm).map Prod.snd).sum_eq
  have hE : (m1.foldl scanLevel {}).priceVolPairs.isEmpty
      = (m2.foldl scanLevel {}).priceVolPairs.isEmpty := by
    rw [hp1, hp2]
    exact (levelsWithVolume_perm hperm).isEmpty_eq
  have hS : sortByPrice (m1.foldl scanLevel {}).priceVolPairs
      = sortByPrice (m2.foldl scanLevel {}).priceVolPairs := by
    rw [hp1, hp2]
    exact sortByPrice_levels_perm hperm hu
  obtain ⟨hmax, hpoc⟩ := scan_pick_perm hperm hsep
  obtain ⟨hhi, hlo⟩ := scan_extremes_perm hperm
  have hK := scanKey_perm hperm
  have hEmpty : m1.isEmpty = m2.isEmpty := hperm.isEmpty_eq
  unfold CalculateProfileMetricsRun
  simp only [hEmpty, hT, hE, hS, hmax, hpoc, hhi, hlo, hK]

/-- Order independence with exact arithmetic: for every map with pairwise
different keys whose volumes are equal or differ by at least the epsilon
0.00001 (as whole-number volumes do), any two enumeration orders of its
entries give the same six outputs of the exact `CalculateProfileMetrics`
(POC, VAH, VAL, highest, lowest, total volume). -/
theorem CalculateProfileMetrics_order_independent (m1 m2 : PriceVolumeMap)
    (hperm : m1.Perm m2) (hu : uniqueKeys m1) (hsep : volumesSeparated m1) (pct tick : ℚ) :
    CalculateProfileMetrics m1 pct tick = CalculateProfileMetrics m2 pct tick := by
  unfold CalculateProfileMetrics
  rw [run_perm hperm hu hsep pct tick]

/-- Order independence with exact arithmetic on the three levels 10, 11, 12
enumerated forwards and backwards. -/
theorem CalculateProfileMetrics_order_independent_witness :
    CalculateProfileMetrics threeLevels 70 1 = CalculateProfileMetrics threeLevels.reverse 70 1 :=
  CalculateProfileMetrics_order_independent threeLevels threeLevels.reverse
    (List.reverse_perm threeLevels).symm (by decide!) (by decide!) 70 1

/-- With volumes closer than the epsilon the POC depends on the enumeration
order: the map with the levels 11 (volume 4.999995) and 10 (volume 5) has POC
10 in this enumeration order and POC 11 in the other. -/
theorem CalculateProfileMetrics_order_dependent :
    nearTieLevels.Perm nearTieLevels.reverse ∧ uniqueKeys nearTieLevels ∧
    (CalculateProfileMetrics nearTieLevels 70 1).poc = 10 ∧
    (CalculateProfileMetrics nearTieLevels.reverse 70 1).poc = 11 :=
  ⟨(List.reverse_perm nearTieLevels).symm, by decide!, by decide!, by decide!⟩

/-! ## Drawing identifiers -/

/-- The rectangles of two different non-overlapping balance areas with indices
in range have different line numbers. -/
theorem activeRectLineNumber_distinct (a b : s_BalanceArea) (ha : indicesInRange a)
    (hb : indicesInRange b) (hab : nonOverlapping a b) :
    activeRectLineNumber a ≠ activeRectLineNumber b := by
  unfold activeRectLineNumber
  unfold indicesInRange at ha hb
  unfold nonOverlapping at hab
  omega

/-- The rays of one balance area, and of two non-overlapping balance areas
with indices in range, have different line numbers. -/
theorem pbalLineNumber_distinct (sc : SCStudyInterface) (a b : s_BalanceArea)
    (ha : indicesInRange a) (hb : indicesInRange b) (hab : nonOverlapping a b) (x y : Bool) :
    pbalLineNumber (pbalRay sc a true) ≠ pbalLineNumber (pbalRay sc a false) ∧
    pbalLineNumber (pbalRay sc a x) ≠ pbalLineNumber (pbalRay sc b y) := by
  unfold pbalLineNumber pbalRay
  unfold indicesInRange at ha hb
  unfold nonOverlapping at hab
  simp only
  constructor
  · simp
  · cases x <;> cases y <;> simp <;> omega

/-- A rectangle whose profile indices are below 100 shares its line number
with no ray. -/
theorem lineNumbers_distinct_below_100 (sc : SCStudyInterface) (a b : s_BalanceArea)
    (ha : indicesInRange a) (hb : indicesInRange b) (hb2 : b.EndProfileChronoIndex < 100)
    (x : Bool) :
    pbalLineNumber (pbalRay sc a x) ≠ activeRectLineNumber b := by
  unfold pbalLineNumber pbalRay activeRectLineNumber
  unfold indicesInRange at ha hb
  simp only
  cases x <;> simp <;> omega

/-- C39 fails: the balance areas over the profiles 0..1 and 99..101 do not
overlap and have indices in `0..499`, yet the low-side ray of the first and the
rectangle of the second both get the line number 60001. -/
theorem lineNumbers_collide :
    indicesInRange (profileArea 0 1) ∧ indicesInRange (profileArea 99 101) ∧
    nonOverlapping (profileArea 0 1) (profileArea 99 101) ∧
    pbalLineNumber (pbalRay chartFive (profileArea 0 1) false) = 60001 ∧
    activeRectLineNumber (profileArea 99 101) = 60001 := by
  decide

/-! ## The frame of the lifecycle engine -/

theorem activationBody_sameFormation (sc : SCStudyInterface) (t : ℚ) (f : s_BalanceArea) :
    sameFormation f (activationBody sc t f).1 := by
  rcases activationBody_cases sc t f with h | ⟨_, i, high, h⟩
  · rw [h]; exact ⟨rfl, rfl, rfl, rfl, rfl, rfl, rfl, rfl, rfl, rfl, rfl⟩
  · rw [h]; exact ⟨rfl, rfl, rfl, rfl, rfl, rfl, rfl, rfl, rfl, rfl, rfl⟩

theorem syncFinalized_sameFormation (active : List s_BalanceArea) (f : s_BalanceArea) :
    sameFormation f (syncFinalized active f) := by
  unfold syncFinalized
  split_ifs
  · exact ⟨rfl, rfl, rfl, rfl, rfl, rfl, rfl, rfl, rfl, rfl, rfl⟩
  · split <;> exact ⟨rfl, rfl, rfl, rfl, rfl, rfl, rfl, rfl, rfl, rfl, rfl⟩

theorem sameFormation_trans {f g h : s_BalanceArea} (a : sameFormation f g)
    (b : sameFormation g h) : sameFormation f h := by
  obtain ⟨a1, a2, a3, a4, a5, a6, a7, a8, a9, a10, a11⟩ := a
  obtain ⟨b1, b2, b3, b4, b5, b6, b7, b8, b9, b10, b11⟩ := b
  exact ⟨b1.trans a1, b2.trans a2, b3.trans a3, b4.trans a4, b5.trans a5, b6.trans a6,
    b7.trans a7, b8.trans a8, b9.trans a9, b10.trans a10, b11.trans a11⟩

theorem forall₂_map_of_forall {R : s_BalanceArea → s_BalanceArea → Prop}
    (g : s_BalanceArea → s_BalanceArea) (l : List s_BalanceArea) (h : ∀ x, R x (g x)) :
    List.Forall₂ R l (l.map g) := by
  induction l with
  | nil => exact List.Forall₂.nil
  | cons a rest ih => exact List.Forall₂.cons (h a) ih

theorem CheckForBAActivation_composites (sc : SCStudyInterface)
    (pData : s_BAStudyPersistentData) (t : ℚ) :
    (CheckForBAActivation sc pData t).CompositeBAs = pData.CompositeBAs ∧
    (CheckForBAActivation sc pData t).PBALsToDraw = pData.PBALsToDraw := by
  rw [CheckForBAActivation_eq]
  exact ⟨rfl, rfl⟩

theorem UpdateBAExtensions_composites (sc : SCStudyInterface)
    (pData : s_BAStudyPersistentData) (t p : ℚ) :
    (UpdateBAExtensions sc pData t p).CompositeBAs = pData.CompositeBAs := by
  unfold UpdateBAExtensions
  simp only
  rw [(extensionLoop_frame sc t p _ _).2.2.1]

/-- C36: for every state, `CheckForBAActivation`, `UpdateBAExtensions` and a
pass (the first followed by the second) leave the list of finalized balance
areas with the same length and order, each finalized balance area with
unchanged `StartProfileChronoIndex`, `EndProfileChronoIndex`, `StartBarIndex`,
`EndBarIndex`, `IncludedProfileIndices`, `POC`, `ValueAreaHigh`,
`ValueAreaLow`, `HighestPrice`, `LowestPrice` and `TotalVolume`, and the
composite list unchanged. -/
theorem lifecyclePass_frame (sc : SCStudyInterface) (PBALPierceThreshold TickSize : ℚ)
    (pData : s_BAStudyPersistentData) :
    (List.Forall₂ sameFormation pData.FinalizedBalanceAreas
        (CheckForBAActivation sc pData TickSize).FinalizedBalanceAreas ∧
      (CheckForBAActivation sc pData TickSize).CompositeBAs = pData.CompositeBAs) ∧
    (List.Forall₂ sameFormation pData.FinalizedBalanceAreas
        (UpdateBAExtensions sc pData TickSize PBALPierceThreshold).FinalizedBalanceAreas ∧
      (UpdateBAExtensions sc pData TickSize PBALPierceThreshold).CompositeBAs
        = pData.CompositeBAs) ∧
    (List.Forall₂ sameFormation pData.FinalizedBalanceAreas
        (lifecyclePass sc PBALPierceThreshold pData).FinalizedBalanceAreas ∧
      (lifecyclePass sc PBALPierceThreshold pData).FinalizedBalanceAreas.length
        = pData.FinalizedBalanceAreas.length ∧
      (lifecyclePass sc PBALPierceThreshold pData).CompositeBAs = pData.CompositeBAs) := by
  have hA : ∀ (t : ℚ) (q : s_BAStudyPersistentData),
      List.Forall₂ sameFormation q.FinalizedBalanceAreas
        (CheckForBAActivation sc q t).FinalizedBalanceAreas := by
    intro t q
    rw [CheckForBAActivation_finalized]
    exact forall₂_map_of_forall _ _ (fun x => activationBody_sameFormation sc t x)
  have hU : ∀ (t p : ℚ) (q : s_BAStudyPersistentData),
      List.Forall₂ sameFormation q.FinalizedBalanceAreas
        (UpdateBAExtensions sc q t p).FinalizedBalanceAreas := by
    intro t p q
    rw [UpdateBAExtensions_finalized]
    exact forall₂_map_of_forall _ _ (fun x => syncFinalized_sameFormation _ x)
  have hP : List.Forall₂ sameFormation pData.FinalizedBalanceAreas
      (lifecyclePass sc PBALPierceThreshold pData).FinalizedBalanceAreas := by
    unfold lifecyclePass
    rw [UpdateBAExtensions_finalized, CheckForBAActivation_finalized, List.map_map]
    exact forall₂_map_of_forall _ _ (fun x =>
      sameFormation_trans (activationBody_sameFormation sc sc.TickSize x)
        (syncFinalized_sameFormation _ _))
  refine ⟨⟨hA TickSize pData, (CheckForBAActivation_composites sc pData TickSize).1⟩,
    ⟨hU TickSize PBALPierceThreshold pData, UpdateBAExtensions_composites sc pData _ _⟩,
    hP, hP.length_eq.symm, ?_⟩
  unfold lifecyclePass
  rw [UpdateBAExtensions_composites, (CheckForBAActivation_composites sc pData sc.TickSize).1]

/-! ## Activation flags -/

theorem extensionBody_flags (sc : SCStudyInterface) (inp : StudyInputs)
    (profiles : List s_SessionProfile) (k : Nat) (s : ExtensionState) :
    (extensionBody sc inp profiles k s).1.currentBA.ActivatedHigh = s.currentBA.ActivatedHigh ∧
    (extensionBody sc inp profiles k s).1.currentBA.ActivatedLow = s.currentBA.ActivatedLow := by
  unfold extensionBody
  simp only
  by_cases h1 : invalidHL (profiles.getD k {}).HighestPrice (profiles.getD k {}).LowestPrice = true
  · rw [if_pos h1]
    exact ⟨rfl, rfl⟩
  · rw [if_neg h1]
    cases hr : extensionReason sc inp sc.TickSize s.currentBA s.currentMergedMap
        (profiles.getD k {}) with
    | none => exact ⟨rfl, rfl⟩
    | some reason =>
      simp only
      split_ifs <;> exact ⟨rfl, rfl⟩

theorem extensionProfiles_flags (sc : SCStudyInterface) (inp : StudyInputs)
    (profiles : List s_SessionProfile) :
    ∀ (n k : Nat) (s : ExtensionState),
      (extensionProfiles sc inp profiles n k s).currentBA.ActivatedHigh
          = s.currentBA.ActivatedHigh ∧
        (extensionProfiles sc inp profiles n k s).currentBA.ActivatedLow
          = s.currentBA.ActivatedLow := by
  intro n
  induction n with
  | zero => intro k s; exact ⟨rfl, rfl⟩
  | succ n ih =>
    intro k s
    rw [extensionProfiles_succ]
    obtain ⟨f1, f2⟩ := extensionBody_flags sc inp profiles k s
    cases hb : extensionBody sc inp profiles k s with
    | mk t b =>
      rw [hb] at f1 f2
      cases b with
      | true =>
        obtain ⟨g1, g2⟩ := ih (k + 1) t
        exact ⟨g1.trans f1, g2.trans f2⟩
      | false => exact ⟨f1, f2⟩

theorem formationBody_flags (sc : SCStudyInterface) (inp : StudyInputs) (sqrtf : ℚ → ℚ)
    (profiles : List s_SessionProfile) (i : Nat) (s : FormationState)
    (h : ∀ b ∈ s.FinalizedBalanceAreas, flagsClear b) :
    ∀ b ∈ (formationBody sc inp sqrtf profiles i s).FinalizedBalanceAreas, flagsClear b := by
  rw [formationBody_eq]
  split_ifs with hv
  · exact h
  · cases hr : initiationReason inp sc.TickSize (profiles.getD i {})
        (profiles.getD (i + 1) {}) with
    | none => exact h
    | some reason =>
      simp only
      split_ifs with hm
      · exact h
      · obtain ⟨e1, e2⟩ := extensionProfiles_flags sc inp profiles (profiles.length - (i + 2))
          (i + 2) (extensionStart sc inp profiles i reason s)
        have hc : flagsClear (extensionProfiles sc inp profiles (profiles.length - (i + 2))
            (i + 2) (extensionStart sc inp profiles i reason s)).currentBA :=
          ⟨e1.trans rfl, e2.trans rfl⟩
        unfold sealCandidate
        split_ifs
        · intro b hb
          rcases List.mem_append.1 hb with hb | hb
          · exact h b hb
          · rw [List.mem_singleton.1 hb]; exact hc
        · exact h
        · exact h

theorem formationLoop_flags (sc : SCStudyInterface) (inp : StudyInputs) (sqrtf : ℚ → ℚ)
    (profiles : List s_SessionProfile) :
    ∀ (n i : Nat) (s : FormationState), (∀ b ∈ s.FinalizedBalanceAreas, flagsClear b) →
      ∀ b ∈ (formationLoop sc inp sqrtf profiles n i s).FinalizedBalanceAreas, flagsClear b := by
  intro n
  induction n with
  | zero => intro i s h; exact h
  | succ n ih =>
    intro i s h
    rw [formationLoop_succ]
    split_ifs
    · exact ih (i + 1) s h
    · exact h
    · exact ih (i + 1) _ (formationBody_flags sc inp sqrtf profiles i s h)

theorem rebuildState_flagsInv (sc : SCStudyInterface) (inp : StudyInputs) (sqrtf : ℚ → ℚ)
    (profiles : List s_SessionProfile) : flagsInv (rebuildState sc inp sqrtf profiles) := by
  intro f hf
  have hfresh := (rebuildState_fresh sc inp sqrtf profiles).2 f hf
  have hclear : flagsClear f := by
    have := formationLoop_flags sc inp sqrtf profiles profiles.length 0
      { profileUsed := List.replicate profiles.length false } (by intro b hb; simp at hb)
    exact this f hf
  refine ⟨fun _ => hclear, fun h => ?_⟩
  rw [hfresh.1] at h
  exact absurd h (by decide)

theorem syncFinalized_flags (active : List s_BalanceArea) (f : s_BalanceArea) :
    (syncFinalized active f).ActivatedHigh = f.ActivatedHigh ∧
    (syncFinalized active f).ActivatedLow = f.ActivatedLow := by
  unfold syncFinalized
  split_ifs
  · exact ⟨rfl, rfl⟩
  · split <;> exact ⟨rfl, rfl⟩

theorem activationBody_flags (sc : SCStudyInterface) (t : ℚ) (f : s_BalanceArea)
    (h : (f.IsActivated = false → flagsClear f) ∧ (f.IsActivated = true → oneSideSet f)) :
    ((activationBody sc t f).1.IsActivated = false → flagsClear (activationBody sc t f).1) ∧
    ((activationBody sc t f).1.IsActivated = true → oneSideSet (activationBody sc t f).1) := by
  rcases activationBody_cases sc t f with hb | ⟨hna, i, high, hb⟩
  · rw [hb]; exact h
  · rw [hb]
    obtain ⟨c1, c2⟩ := h.1 hna
    refine ⟨fun hx => absurd hx (by simp [activateAt]), fun _ => ?_⟩
    cases high with
    | true => exact Or.inl ⟨rfl, c2, rfl⟩
    | false => exact Or.inr ⟨c1, rfl, rfl⟩

theorem lifecyclePass_flagsInv (sc : SCStudyInterface) (p : ℚ) (st : s_BAStudyPersistentData)
    (h : flagsInv st) : flagsInv (lifecyclePass sc p st) := by
  intro f hf
  unfold lifecyclePass at hf
  rw [UpdateBAExtensions_finalized, CheckForBAActivation_finalized, List.map_map] at hf
  obtain ⟨g, hg, rfl⟩ := List.mem_map.1 hf
  obtain ⟨a1, a2⟩ := activationBody_flags sc sc.TickSize g (h g hg)
  simp only [Function.comp]
  obtain ⟨s1, s2⟩ := syncFinalized_flags
    (UpdateBAExtensions sc (CheckForBAActivation sc st sc.TickSize) sc.TickSize
      p).ActiveBalanceAreas (activationBody sc sc.TickSize g).1
  obtain ⟨t1, _, _, t4⟩ := syncFinalized_activation
    (UpdateBAExtensions sc (CheckForBAActivation sc st sc.TickSize) sc.TickSize
      p).ActiveBalanceAreas (activationBody sc sc.TickSize g).1
  unfold flagsClear oneSideSet at *
  rw [s1, s2, t1, t4]
  exact ⟨a1, a2⟩

theorem runPasses_flagsInv (passes : List (SCStudyInterface × ℚ)) :
    ∀ st : s_BAStudyPersistentData, flagsInv st → flagsInv (runPasses passes st) := by
  induction passes with
  | nil => intro st h; exact h
  | cons q rest ih =>
    intro st h
    exact ih _ (lifecyclePass_flagsInv q.1 q.2 st h)

/-- C37: when the first breakout bar `i` of a finalized balance area that is
not yet activated breaks both sides at once, `CheckForBAActivation` records
the activation at bar `i` as `Break_High` with `ActivationPrice` equal to the
high of that bar, and sets `ActivatedHigh` only.  In every state reached from a
rebuild by any number of passes, every activated balance area has exactly one
of `ActivatedHigh` and `ActivatedLow` set, the one named by its
`ActivationType`. -/
theorem activation_both_sides_high (sc : SCStudyInterface) (pData : s_BAStudyPersistentData)
    (TickSize : ℚ) (k : Nat) (ba : s_BalanceArea) (i : Int)
    (hk : pData.FinalizedBalanceAreas[k]? = some ba) (hna : ba.IsActivated = false)
    (h1 : ba.EndBarIndex < i) (h2 : i < sc.ArraySize)
    (hfirst : ∀ m, ba.EndBarIndex < m → m < i → ¬ breaksValueArea sc ba TickSize m)
    (hhigh : sc.High i > ba.ValueAreaHigh + TickSize / 2)
    (_hlow : sc.Low i < ba.ValueAreaLow - TickSize / 2) :
    (∃ ba', (CheckForBAActivation sc pData TickSize).FinalizedBalanceAreas[k]? = some ba' ∧
      ba'.IsActivated = true ∧ ba'.ActivationBarIndex = i ∧
      ba'.ActivationType = "Break_High" ∧ ba'.ActivationPrice = sc.High i ∧
      ba'.ActivatedHigh = true ∧ ba'.ActivatedLow = ba.ActivatedLow) ∧
    ∀ (sc0 : SCStudyInterface) (inp : StudyInputs) (sqrtf : ℚ → ℚ)
      (SessionProfiles : List s_SessionProfile) (passes : List (SCStudyInterface × ℚ)),
      ∀ f ∈ (runPasses passes
          (rebuildState sc0 inp sqrtf SessionProfiles)).FinalizedBalanceAreas,
        f.IsActivated = true →
          (f.ActivatedHigh = true ∧ f.ActivatedLow = false ∧ f.ActivationType = "Break_High") ∨
          (f.ActivatedHigh = false ∧ f.ActivatedLow = true ∧ f.ActivationType = "Break_Low") := by
  constructor
  · obtain ⟨s1, s2⟩ := activationBody_spec sc TickSize ba hna
    have hact : (activationBody sc TickSize ba).1.IsActivated = true :=
      s1.2 ⟨i, h1, h2, Or.inl hhigh⟩
    obtain ⟨⟨high, e1, e2⟩, e3, e4, e5, e6⟩ := s2 hact
    have hj : (activationBody sc TickSize ba).1.ActivationBarIndex = i := by
      apply le_antisymm
      · by_contra hc
        exact e6 i h1 (not_le.1 hc) (Or.inl hhigh)
      · by_contra hc
        exact hfirst _ e3 (not_le.1 hc) e5
    rw [hj] at e1 e2
    have hh : high = true := e2.2 hhigh
    subst hh
    refine ⟨(activationBody sc TickSize ba).1, ?_, hact, hj, ?_, ?_, ?_, ?_⟩
    · rw [CheckForBAActivation_finalized, List.getElem?_map, hk]; rfl
    · rw [e1]; rfl
    · rw [e1]; rfl
    · rw [e1]; rfl
    · rw [e1]; rfl
  · intro sc0 inp sqrtf profiles passes f hf hact
    exact (runPasses_flagsInv passes _ (rebuildState_flagsInv sc0 inp sqrtf profiles) f hf).2 hact

/-- C37 on a chart whose bar 60 has a high of 101 and a low of 89, for the
balance area `areaA` with the value area 90..100 that ends at bar 49. -/
theorem activation_both_sides_high_witness :
    ∃ ba', (CheckForBAActivation chartBoth { FinalizedBalanceAreas := [areaA] }
        (1 / 4)).FinalizedBalanceAreas[0]? = some ba' ∧
      ba'.IsActivated = true ∧ ba'.ActivationBarIndex = 60 ∧
      ba'.ActivationType = "Break_High" ∧ ba'.ActivationPrice = chartBoth.High 60 ∧
      ba'.ActivatedHigh = true ∧ ba'.ActivatedLow = areaA.ActivatedLow :=
  (activation_both_sides_high chartBoth { FinalizedBalanceAreas := [areaA] } (1 / 4) 0 areaA 60
    rfl rfl (by decide) (by decide)
    (by
      intro m hm1 hm2 hb
      have hm : m ≠ 60 := by omega
      unfold breaksValueArea chartBoth areaA at hb
      simp only [hm, if_false] at hb
      norm_num at hb)
    (by decide!) (by decide!)).1

/-! ## The value area lies inside the traded range -/

theorem foldl_high_ge (m : PriceVolumeMap) :
    ∀ h : ℚ, h ≤ m.foldl (fun (h : ℚ) (e : ℚ × s_PriceLevelVolume) =>
        if e.2.TotalVolume > VOL_EPS then max h e.1 else h) h ∧
      ∀ e ∈ m, e.2.TotalVolume > VOL_EPS →
        e.1 ≤ m.foldl (fun (h : ℚ) (e : ℚ × s_PriceLevelVolume) =>
          if e.2.TotalVolume > VOL_EPS then max h e.1 else h) h := by
  induction m with
  | nil => intro h; exact ⟨le_refl _, fun e he => by simp at he⟩
  | cons a rest ih =>
    intro h
    simp only [List.foldl_cons]
    obtain ⟨i1, i2⟩ := ih (if a.2.TotalVolume > VOL_EPS then max h a.1 else h)
    have hstep : h ≤ (if a.2.TotalVolume > VOL_EPS then max h a.1 else h) := by
      split_ifs
      · exact le_max_left _ _
      · exact le_refl _
    refine ⟨le_trans hstep i1, ?_⟩
    intro e he hv
    rcases List.mem_cons.1 he with rfl | he
    · refine le_trans ?_ i1
      rw [if_pos hv]
      exact le_max_right _ _
    · exact i2 e he hv

theorem foldl_low_le (m : PriceVolumeMap) :
    ∀ h : ℚ, m.foldl (fun (h : ℚ) (e : ℚ × s_PriceLevelVolume) =>
        if e.2.TotalVolume > VOL_EPS then min h e.1 else h) h ≤ h ∧
      ∀ e ∈ m, e.2.TotalVolume > VOL_EPS →
        m.foldl (fun (h : ℚ) (e : ℚ × s_PriceLevelVolume) =>
          if e.2.TotalVolume > VOL_EPS then min h e.1 else h) h ≤ e.1 := by
  induction m with
  | nil => intro h; exact ⟨le_refl _, fun e he => by simp at he⟩
  | cons a rest ih =>
    intro h
    simp only [List.foldl_cons]
    obtain ⟨i1, i2⟩ := ih (if a.2.TotalVolume > VOL_EPS then min h a.1 else h)
    have hstep : (if a.2.TotalVolume > VOL_EPS then min h a.1 else h) ≤ h := by
      split_ifs
      · exact min_le_left _ _
      · exact le_refl _
    refine ⟨le_trans i1 hstep, ?_⟩
    intro e he hv
    rcases List.mem_cons.1 he with rfl | he
    · refine le_trans i1 ?_
      rw [if_pos hv]
      exact min_le_right _ _
    · exact i2 e he hv

/-- The loop body keeps the value-area bounds among the prices of the level
list. -/
theorem vaBody_keys (pairs : List (ℚ × ℚ)) (s : VAState) (hc : cursorInv pairs s)
    (h : (∃ q ∈ pairs, q.1 = s.valueAreaLow) ∧ (∃ q ∈ pairs, q.1 = s.valueAreaHigh)) :
    (∃ q ∈ pairs, q.1 = (vaBody pairs s).1.valueAreaLow) ∧
    (∃ q ∈ pairs, q.1 = (vaBody pairs s).1.valueAreaHigh) := by
  obtain ⟨c1, c2, _⟩ := hc
  rcases vaBody_cases pairs s with ⟨_, _, e⟩ | ⟨hH, hL, b, e, _⟩ | ⟨hH, b, e, _⟩ | ⟨hL, b, e, _⟩
  · rw [e]; exact h
  · rw [e]
    exact ⟨⟨_, getD_mem (by omega), rfl⟩, ⟨_, getD_mem hH, rfl⟩⟩
  · rw [e]
    simp only
    split_ifs
    · exact ⟨h.1, ⟨_, getD_mem hH, rfl⟩⟩
    · exact h
  · rw [e]
    simp only
    split_ifs
    · exact ⟨⟨_, getD_mem (by omega), rfl⟩, h.2⟩
    · exact h

/-- C32: for every map with positive total volume, the outputs of
`CalculateProfileMetrics` satisfy `lowestPrice <= valueAreaLow` and
`valueAreaHigh <= highestPrice`, and `valueAreaLow` and `valueAreaHigh` are
keys of levels of the map that carry volume (more than the epsilon). -/
theorem valueArea_within_traded_range (priceMap : PriceVolumeMap) (pct tick : ℚ)
    (hvol : 0 < (CalculateProfileMetrics priceMap pct tick).totalVolume) :
    (CalculateProfileMetrics priceMap pct tick).lowestPrice
        ≤ (CalculateProfileMetrics priceMap pct tick).valueAreaLow ∧
    (CalculateProfileMetrics priceMap pct tick).valueAreaHigh
        ≤ (CalculateProfileMetrics priceMap pct tick).highestPrice ∧
    (∃ e ∈ priceMap, e.1 = (CalculateProfileMetrics priceMap pct tick).valueAreaLow ∧
      e.2.TotalVolume > VOL_EPS) ∧
    (∃ e ∈ priceMap, e.1 = (CalculateProfileMetrics priceMap pct tick).valueAreaHigh ∧
      e.2.TotalVolume > VOL_EPS) := by
  have hne : levelsWithVolume priceMap ≠ [] := by
    intro hnil
    obtain ⟨_, _, h0, _⟩ := run_no_volume priceMap pct tick hnil
    unfold CalculateProfileMetrics at hvol
    rw [h0] at hvol
    exact absurd hvol (lt_irrefl _)
  -- the POC is the key of a level with volume
  obtain ⟨L, p0, hL, hpocL⟩ := run_poc priceMap pct tick hne
  have hLne : L ≠ [] := fun h => hne (by rw [h] at hL; exact hL.symm.eq_nil)
  have hLpos : ∀ q ∈ L, 0 < q.2 := fun q hq =>
    lt_trans VOL_EPS_pos (levelsWithVolume_pos priceMap q (hL.mem_iff.1 hq))
  have hinvL := pocPick_foldl L hLpos [] (0, p0) (Or.inl ⟨rfl, rfl⟩) hLne
  simp only [List.nil_append] at hinvL
  obtain ⟨_, _, ⟨v, hv, _⟩, _⟩ := hinvL
  rw [← hpocL] at hv
  have hpocmem : ∃ q ∈ sortByPrice (levelsWithVolume priceMap),
      q.1 = (CalculateProfileMetricsRun priceMap pct tick).out.poc :=
    ⟨_, (sortByPrice_perm _).mem_iff.2 (hL.mem_iff.1 hv), rfl⟩
  obtain ⟨i, poc, hi, hrun, _⟩ := run_main priceMap pct tick hne
  have hpoceq : (CalculateProfileMetricsRun priceMap pct tick).out.poc = poc := by
    rw [hrun]
  rw [hpoceq] at hpocmem
  have hpos : ∀ p ∈ sortByPrice (levelsWithVolume priceMap), p.2 > VOL_EPS := fun p hp =>
    levelsWithVolume_pos priceMap p ((sortByPrice_perm _).mem_iff.1 hp)
  have hinv := (vaLoop_invariant (sortByPrice (levelsWithVolume priceMap))
    (((levelsWithVolume priceMap).map Prod.snd).sum * (pct / 100))
    (fun s => cursorInv (sortByPrice (levelsWithVolume priceMap)) s ∧
      (∃ q ∈ sortByPrice (levelsWithVolume priceMap), q.1 = s.valueAreaLow) ∧
      (∃ q ∈ sortByPrice (levelsWithVolume priceMap), q.1 = s.valueAreaHigh))
    (fun s h => ⟨(vaBody_cursor hpos s h.1).1, vaBody_keys _ s h.1 h.2⟩)
    (sortByPrice (levelsWithVolume priceMap)).length
    { currentVolumeInVA := ((sortByPrice (levelsWithVolume priceMap)).getD i (0, 0)).2,
      valueAreaHigh := poc, valueAreaLow := poc, upperIndex := i, lowerIndex := i }
    ⟨⟨le_refl _, hi, by simp only; rw [prefixVolume_succ _ hi]; ring⟩, hpocmem, hpocmem⟩).2
  have hkey : ∀ x : ℚ, (∃ q ∈ sortByPrice (levelsWithVolume priceMap), q.1 = x) →
      ∃ e ∈ priceMap, e.1 = x ∧ e.2.TotalVolume > VOL_EPS := by
    rintro x ⟨q, hq, rfl⟩
    obtain ⟨e, he, hev, rfl⟩ := (mem_levelsWithVolume priceMap q).1
      ((sortByPrice_perm _).mem_iff.1 hq)
    exact ⟨e, he, rfl, hev⟩
  have hlow : (CalculateProfileMetricsRun priceMap pct tick).out.lowestPrice
      = (priceMap.foldl scanLevel {}).lowestPrice := by rw [hrun]
  have hhigh : (CalculateProfileMetricsRun priceMap pct tick).out.highestPrice
      = (priceMap.foldl scanLevel {}).highestPrice := by rw [hrun]
  unfold CalculateProfileMetrics
  rw [hlow, hhigh, (scan_extremes priceMap {}).1, (scan_extremes priceMap {}).2]
  rw [hrun]
  simp only
  obtain ⟨e1, he1, hk1, hv1⟩ := hkey _ hinv.1
  obtain ⟨e2, he2, hk2, hv2⟩ := hkey _ hinv.2
  refine ⟨?_, ?_, ⟨e1, he1, hk1, hv1⟩, ⟨e2, he2, hk2, hv2⟩⟩
  · rw [← hk1]; exact (foldl_low_le priceMap _).2 e1 he1 hv1
  · rw [← hk2]; exact (foldl_high_ge priceMap _).2 e2 he2 hv2

/-- C32 on the three-level map: the value area 11..12 lies inside the traded
range 10..12. -/
theorem valueArea_within_traded_range_witness :
    (CalculateProfileMetrics threeLevels 70 1).lowestPrice
        ≤ (CalculateProfileMetrics threeLevels 70 1).valueAreaLow ∧
    (CalculateProfileMetrics threeLevels 70 1).valueAreaHigh
        ≤ (CalculateProfileMetrics threeLevels 70 1).highestPrice ∧
    (∃ e ∈ threeLevels, e.1 = (CalculateProfileMetrics threeLevels 70 1).valueAreaLow ∧
      e.2.TotalVolume > VOL_EPS) ∧
    (∃ e ∈ threeLevels, e.1 = (CalculateProfileMetrics threeLevels 70 1).valueAreaHigh ∧
      e.2.TotalVolume > VOL_EPS) :=
  valueArea_within_traded_range threeLevels 70 1 (by decide!)

/-! ## The value area at 100 percent -/

theorem fallback_index (pairs : List (ℚ × ℚ)) (l : List (ℚ × ℚ)) :
    ∀ (n : Nat) (s : PocScan),
      (∀ j, j < l.length → pairs.getD (n + j) (0, 0) = l.getD j (0, 0)) →
      (pairs.getD s.pocIndex (0, 0)).1 = s.poc →
      (pairs.getD ((l.enumFrom n).foldl pocFallbackStep s).pocIndex (0, 0)).1
        = ((l.enumFrom n).foldl pocFallbackStep s).poc := by
  induction l with
  | nil => intro n s _ hs; exact hs
  | cons x l ih =>
    intro n s h hs
    simp only [List.enumFrom_cons, List.foldl_cons]
    apply ih (n + 1)
    · intro j hj
      have := h (j + 1) (by simp only [List.length_cons]; omega)
      simp only [List.getD_cons_succ] at this
      rw [← this]
      congr 1
      omega
    · have h0 := h 0 (by simp only [List.length_cons]; omega)
      simp only [add_zero, List.getD_cons_zero] at h0
      unfold pocFallbackStep
      split_ifs
      · simp only; rw [h0]
      · simp only; rw [h0]
      · exact hs

/-- On the main path, when a positive tick comes with keys at least half a
tick apart, the expansion loop starts at a position of the sorted level list
with both value-area bounds at the price of that position. -/
theorem run_main_cursor (priceMap : PriceVolumeMap) (pct tick : ℚ)
    (hne : levelsWithVolume priceMap ≠ []) (hsep : 0 < tick → keysSeparated priceMap tick) :
    ∃ i : Nat, i < (sortByPrice (levelsWithVolume priceMap)).length ∧
      (CalculateProfileMetricsRun priceMap pct tick).out.valueAreaHigh =
        (vaLoop (sortByPrice (levelsWithVolume priceMap))
          (((levelsWithVolume priceMap).map Prod.snd).sum * (pct / 100))
          (sortByPrice (levelsWithVolume priceMap)).length
          { currentVolumeInVA := ((sortByPrice (levelsWithVolume priceMap)).getD i (0, 0)).2,
            valueAreaHigh := ((sortByPrice (levelsWithVolume priceMap)).getD i (0, 0)).1,
            valueAreaLow := ((sortByPrice (levelsWithVolume priceMap)).getD i (0, 0)).1,
            upperIndex := i, lowerIndex := i }).valueAreaHigh ∧
      (CalculateProfileMetricsRun priceMap pct tick).out.valueAreaLow =
        (vaLoop (sortByPrice (levelsWithVolume priceMap))
          (((levelsWithVolume priceMap).map Prod.snd).sum * (pct / 100))
          (sortByPrice (levelsWithVolume priceMap)).length
          { currentVolumeInVA := ((sortByPrice (levelsWithVolume priceMap)).getD i (0, 0)).2,
            valueAreaHigh := ((sortByPrice (levelsWithVolume priceMap)).getD i (0, 0)).1,
            valueAreaLow := ((sortByPrice (levelsWithVolume priceMap)).getD i (0, 0)).1,
            upperIndex := i, lowerIndex := i }).valueAreaLow ∧
      (CalculateProfileMetricsRun priceMap pct tick).out.highestPrice
        = (priceMap.foldl scanLevel {}).highestPrice ∧
      (CalculateProfileMetricsRun priceMap pct tick).out.lowestPrice
        = (priceMap.foldl scanLevel {}).lowestPrice := by
  have hmap : priceMap.isEmpty = false := by
    cases priceMap with
    | nil => exact absurd rfl hne
    | cons _ _ => rfl
  obtain ⟨hp, ht⟩ := scan_pairs priceMap {}
  simp only [List.nil_append, zero_add] at hp ht
  have hpoc := scan_poc priceMap {} (fun _ => rfl) (fun h => absurd rfl h)
  rw [hp] at hpoc
  have hpoc' := hpoc hne
  have hlen : 0 < (sortByPrice (levelsWithVolume priceMap)).length := by
    rw [(sortByPrice_perm _).length_eq]
    exact List.length_pos.2 hne
  have hV : ¬ ((priceMap.foldl scanLevel {}).totalVolume ≤ VOL_EPS ∨
      (priceMap.foldl scanLevel {}).priceVolPairs.isEmpty = true) := by
    rw [ht, hp]
    rintro (h | h)
    · exact absurd (levelsWithVolume_sum_pos priceMap hne) (not_lt.2 h)
    · exact hne (List.isEmpty_iff.1 h)
  unfold CalculateProfileMetricsRun
  simp only [hmap, Bool.false_eq_true, if_false, hV]
  rw [hp, ht]
  cases hfound : (sortByPrice (levelsWithVolume priceMap)).findIdx?
      (fun p => decide (|p.1 - (priceMap.foldl scanLevel {}).poc| < tick / 2)) with
  | some i =>
    obtain ⟨hi, hpi, _⟩ := List.findIdx?_eq_some_iff_getElem.1 hfound
    have hlt : |(sortByPrice (levelsWithVolume priceMap))[i].1 -
        (priceMap.foldl scanLevel {}).poc| < tick / 2 := by simpa using hpi
    have htick : 0 < tick := by
      have := abs_nonneg ((sortByPrice (levelsWithVolume priceMap))[i].1 -
        (priceMap.foldl scanLevel {}).poc)
      linarith
    have hkey : ((sortByPrice (levelsWithVolume priceMap)).getD i (0, 0)).1
        = (priceMap.foldl scanLevel {}).poc := by
      rw [List.getD_eq_getElem _ _ hi]
      by_contra hneq
      have hmem : (sortByPrice (levelsWithVolume priceMap))[i] ∈ levelsWithVolume priceMap :=
        (sortByPrice_perm _).mem_iff.1 (List.getElem_mem _)
      obtain ⟨a, ha, hak⟩ := levelsWithVolume_key priceMap _ hmem
      obtain ⟨q, hq, hqk⟩ := List.mem_map.1 hpoc'
      obtain ⟨b, hb, hbk⟩ := levelsWithVolume_key priceMap _ hq
      have := hsep htick a ha b hb (by rw [hak, hbk, hqk]; exact hneq)
      rw [hak, hbk, hqk] at this
      linarith
    refine ⟨i, hi, ?_⟩
    simp only [hi, if_true, hkey, and_self]
  | none =>
    simp only
    have hidx := fallback_index (sortByPrice (levelsWithVolume priceMap))
      (sortByPrice (levelsWithVolume priceMap)) 0
      { maxVolumeAtPOC := 0, pocIndex := 0,
        poc := ((sortByPrice (levelsWithVolume priceMap)).getD 0 (0, 0)).1 }
      (fun j _ => by rw [zero_add]) rfl
    have henum : (sortByPrice (levelsWithVolume priceMap)).enum
        = (sortByPrice (levelsWithVolume priceMap)).enumFrom 0 := rfl
    rw [henum]
    generalize List.foldl pocFallbackStep
        { maxVolumeAtPOC := 0, pocIndex := 0,
          poc := ((sortByPrice (levelsWithVolume priceMap)).getD 0 (0, 0)).1 }
        ((sortByPrice (levelsWithVolume priceMap)).enumFrom 0) = ps at hidx ⊢
    by_cases hi : ps.pocIndex < (sortByPrice (levelsWithVolume priceMap)).length
    · refine ⟨ps.pocIndex, hi, ?_⟩
      simp only [hi, if_true, hidx, and_self]
    · refine ⟨0, hlen, ?_⟩
      simp only [hi, if_false, and_self]

theorem prefixVolume_zero (pairs : List (ℚ × ℚ)) : prefixVolume pairs 0 = 0 := by
  unfold prefixVolume
  simp

theorem prefixVolume_lt {pairs : List (ℚ × ℚ)} (hpos : ∀ p ∈ pairs, p.2 > VOL_EPS) (a : Nat) :
    ∀ b : Nat, a < b → b ≤ pairs.length → prefixVolume pairs a < prefixVolume pairs b := by
  intro b
  induction b with
  | zero => intro h; omega
  | succ b ih =>
    intro hab hb
    have hb' : b < pairs.length := by omega
    rw [prefixVolume_succ pairs hb']
    have hv : 0 < (pairs.getD b (0, 0)).2 := lt_trans VOL_EPS_pos (hpos _ (getD_mem hb'))
    rcases Nat.eq_or_lt_of_le (Nat.lt_succ_iff.1 hab) with rfl | hlt
    · linarith
    · have := ih hlt (by omega)
      linarith

theorem foldl_low_mem (m : PriceVolumeMap) :
    ∀ h : ℚ, m.foldl (fun (h : ℚ) (e : ℚ × s_PriceLevelVolume) =>
        if e.2.TotalVolume > VOL_EPS then min h e.1 else h) h = h ∨
      ∃ e ∈ m, e.2.TotalVolume > VOL_EPS ∧
        e.1 = m.foldl (fun (h : ℚ) (e : ℚ × s_PriceLevelVolume) =>
          if e.2.TotalVolume > VOL_EPS then min h e.1 else h) h := by
  induction m with
  | nil => intro h; exact Or.inl rfl
  | cons a rest ih =>
    intro h
    simp only [List.foldl_cons]
    rcases ih (if a.2.TotalVolume > VOL_EPS then min h a.1 else h) with i | ⟨e, he, hv, hk⟩
    · rw [i]
      by_cases hv : a.2.TotalVolume > VOL_EPS
      · rw [if_pos hv]
        rcases min_choice h a.1 with c | c
        · exact Or.inl c
        · exact Or.inr ⟨a, List.mem_cons_self _ _, hv, c.symm⟩
      · rw [if_neg hv]; exact Or.inl rfl
    · exact Or.inr ⟨e, List.mem_cons_of_mem _ he, hv, hk⟩

theorem foldl_high_mem (m : PriceVolumeMap) :
    ∀ h : ℚ, m.foldl (fun (h : ℚ) (e : ℚ × s_PriceLevelVolume) =>
        if e.2.TotalVolume > VOL_EPS then max h e.1 else h) h = h ∨
      ∃ e ∈ m, e.2.TotalVolume > VOL_EPS ∧
        e.1 = m.foldl (fun (h : ℚ) (e : ℚ × s_PriceLevelVolume) =>
          if e.2.TotalVolume > VOL_EPS then max h e.1 else h) h := by
  induction m with
  | nil => intro h; exact Or.inl rfl
  | cons a rest ih =>
    intro h
    simp only [List.foldl_cons]
    rcases ih (if a.2.TotalVolume > VOL_EPS then max h a.1 else h) with i | ⟨e, he, hv, hk⟩
    · rw [i]
      by_cases hv : a.2.TotalVolume > VOL_EPS
      · rw [if_pos hv]
        rcases max_choice h a.1 with c | c
        · exact Or.inl c
        · exact Or.inr ⟨a, List.mem_cons_self _ _, hv, c.symm⟩
      · rw [if_neg hv]; exact Or.inl rfl
    · exact Or.inr ⟨e, List.mem_cons_of_mem _ he, hv, hk⟩

theorem mem_getD_index {l : List (ℚ × ℚ)} {q : ℚ × ℚ} (h : q ∈ l) :
    ∃ j, j < l.length ∧ l.getD j (0, 0) = q := by
  obtain ⟨j, hj, e⟩ := List.getElem_of_mem h
  exact ⟨j, hj, by rw [List.getD_eq_getElem _ _ hj]; exact e⟩

/-- The value area at 100 percent with exact arithmetic: for every map with
positive total volume whose distinct keys differ by at least one tick (the
keys being values of the type `float`, between `-FLT_MAX` and `FLT_MAX`), the
exact `CalculateProfileMetrics` with value-area percentage 100 returns
`valueAreaLow = lowestPrice` and `valueAreaHigh = highestPrice`. -/
theorem valueArea_full_at_100 (priceMap : PriceVolumeMap) (tick : ℚ)
    (hvol : 0 < (CalculateProfileMetrics priceMap 100 tick).totalVolume)
    (hapart : keysOneTickApart priceMap tick) (hfin : finiteKeys priceMap) :
    (CalculateProfileMetrics priceMap 100 tick).valueAreaLow
        = (CalculateProfileMetrics priceMap 100 tick).lowestPrice ∧
    (CalculateProfileMetrics priceMap 100 tick).valueAreaHigh
        = (CalculateProfileMetrics priceMap 100 tick).highestPrice := by
  have hne : levelsWithVolume priceMap ≠ [] := by
    intro hnil
    obtain ⟨_, _, h0, _⟩ := run_no_volume priceMap 100 tick hnil
    unfold CalculateProfileMetrics at hvol
    rw [h0] at hvol
    exact absurd hvol (lt_irrefl _)
  have hsep : 0 < tick → keysSeparated priceMap tick := by
    intro htick a ha b hb hab
    have := hapart a ha b hb hab
    linarith
  obtain ⟨i, hi, hVAH, hVAL, hH, hL⟩ := run_main_cursor priceMap 100 tick hne hsep
  have hpos : ∀ p ∈ sortByPrice (levelsWithVolume priceMap), p.2 > VOL_EPS := fun p hp =>
    levelsWithVolume_pos priceMap p ((sortByPrice_perm _).mem_iff.1 hp)
  have hsorted := sortByPrice_sorted (levelsWithVolume priceMap)
  obtain ⟨⟨c1, c2, c3⟩, cb, cend⟩ := vaLoop_cursor hpos
    (((levelsWithVolume priceMap).map Prod.snd).sum * (100 / 100))
    (sortByPrice (levelsWithVolume priceMap)).length
    { currentVolumeInVA := ((sortByPrice (levelsWithVolume priceMap)).getD i (0, 0)).2,
      valueAreaHigh := ((sortByPrice (levelsWithVolume priceMap)).getD i (0, 0)).1,
      valueAreaLow := ((sortByPrice (levelsWithVolume priceMap)).getD i (0, 0)).1,
      upperIndex := i, lowerIndex := i }
    ⟨le_refl _, hi, by simp only; rw [prefixVolume_succ _ hi]; ring⟩
    (by simp only; omega)
  obtain ⟨b1, b2⟩ := cb ⟨rfl, rfl⟩
  rw [← hVAL] at b1
  rw [← hVAH] at b2
  generalize vaLoop (sortByPrice (levelsWithVolume priceMap))
    (((levelsWithVolume priceMap).map Prod.snd).sum * (100 / 100))
    (sortByPrice (levelsWithVolume priceMap)).length
    { currentVolumeInVA := ((sortByPrice (levelsWithVolume priceMap)).getD i (0, 0)).2,
      valueAreaHigh := ((sortByPrice (levelsWithVolume priceMap)).getD i (0, 0)).1,
      valueAreaLow := ((sortByPrice (levelsWithVolume priceMap)).getD i (0, 0)).1,
      upperIndex := i, lowerIndex := i } = fin at c1 c2 c3 cend b1 b2
  have htotal : ((levelsWithVolume priceMap).map Prod.snd).sum
      = prefixVolume (sortByPrice (levelsWithVolume priceMap))
          (sortByPrice (levelsWithVolume priceMap)).length := by
    rw [prefixVolume_length]
    exact (((sortByPrice_perm (levelsWithVolume priceMap)).map Prod.snd).sum_eq).symm
  have hends : fin.lowerIndex = 0 ∧
      fin.upperIndex + 1 = (sortByPrice (levelsWithVolume priceMap)).length := by
    rcases cend with ht | he
    · have h100 : ((100 : ℚ) / 100) = 1 := by norm_num
      rw [h100, mul_one, htotal, c3] at ht
      constructor
      · by_contra hl
        have := prefixVolume_lt hpos 0 fin.lowerIndex (Nat.pos_of_ne_zero hl) (by omega)
        rw [prefixVolume_zero] at this
        rcases Nat.eq_or_lt_of_le (Nat.succ_le_of_lt c2) with e | e
        · rw [← e] at ht; linarith
        · have := prefixVolume_lt hpos _ _ e (le_refl _)
          linarith
      · by_contra hu
        have hlt : fin.upperIndex + 1 < (sortByPrice (levelsWithVolume priceMap)).length := by
          omega
        have h1 := prefixVolume_lt hpos _ _ hlt (le_refl _)
        have h2 : 0 ≤ prefixVolume (sortByPrice (levelsWithVolume priceMap)) fin.lowerIndex := by
          rcases Nat.eq_zero_or_pos fin.lowerIndex with e | e
          · rw [e, prefixVolume_zero]
          · have := prefixVolume_lt hpos 0 fin.lowerIndex e (by omega)
            rw [prefixVolume_zero] at this
            exact le_of_lt this
        linarith
    · exact he
  rw [hends.1] at b1
  have hu : fin.upperIndex = (sortByPrice (levelsWithVolume priceMap)).length - 1 := by omega
  -- levels of the map behind the first and the last position
  have hlevel : ∀ q ∈ sortByPrice (levelsWithVolume priceMap),
      ∃ e ∈ priceMap, e.2.TotalVolume > VOL_EPS ∧ e.1 = q.1 := by
    intro q hq
    obtain ⟨e, he, hev, rfl⟩ := (mem_levelsWithVolume priceMap q).1
      ((sortByPrice_perm _).mem_iff.1 hq)
    exact ⟨e, he, hev, rfl⟩
  have hback : ∀ e ∈ priceMap, e.2.TotalVolume > VOL_EPS →
      ∃ j, j < (sortByPrice (levelsWithVolume priceMap)).length ∧
        ((sortByPrice (levelsWithVolume priceMap)).getD j (0, 0)).1 = e.1 := by
    intro e he hev
    have hm : (e.1, e.2.TotalVolume) ∈ sortByPrice (levelsWithVolume priceMap) :=
      (sortByPrice_perm _).mem_iff.2 ((mem_levelsWithVolume priceMap _).2 ⟨e, he, hev, rfl⟩)
    obtain ⟨j, hj, ej⟩ := mem_getD_index hm
    exact ⟨j, hj, by rw [ej]⟩
  have hlen : 0 < (sortByPrice (levelsWithVolume priceMap)).length := by omega
  unfold CalculateProfileMetrics
  rw [hL, hH, (scan_extremes priceMap {}).1, (scan_extremes priceMap {}).2, b1, b2, hu]
  constructor
  · obtain ⟨e0, he0, hv0, hk0⟩ := hlevel _ (getD_mem hlen)
    apply le_antisymm
    · rcases foldl_low_mem priceMap ({} : MetricsScan).lowestPrice with h | ⟨e, he, hv, hk⟩
      · rw [h, ← hk0]; exact (hfin e0 he0).2
      · rw [← hk]
        obtain ⟨j, hj, ej⟩ := hback e he hv
        rw [← ej]
        exact sorted_getD_le hsorted (Nat.zero_le _) hj
    · rw [← hk0]
      exact (foldl_low_le priceMap _).2 e0 he0 hv0
  · obtain ⟨e0, he0, hv0, hk0⟩ := hlevel _
      (getD_mem (i := (sortByPrice (levelsWithVolume priceMap)).length - 1) (by omega))
    apply le_antisymm
    · rw [← hk0]
      exact (foldl_high_ge priceMap _).2 e0 he0 hv0
    · rcases foldl_high_mem priceMap ({} : MetricsScan).highestPrice with h | ⟨e, he, hv, hk⟩
      · rw [h, ← hk0]; exact (hfin e0 he0).1
      · rw [← hk]
        obtain ⟨j, hj, ej⟩ := hback e he hv
        rw [← ej]
        exact sorted_getD_le hsorted (by omega) (by omega)

/-- The value area at 100 percent with exact arithmetic on the three-level
map with tick 1: the traded range 10..12. -/
theorem valueArea_full_at_100_witness :
    (CalculateProfileMetrics threeLevels 100 1).valueAreaLow = 10 ∧
    (CalculateProfileMetrics threeLevels 100 1).valueAreaHigh = 12 ∧
    (CalculateProfileMetrics threeLevels 100 1).lowestPrice = 10 ∧
    (CalculateProfileMetrics threeLevels 100 1).highestPrice = 12 :=
  ⟨(valueArea_full_at_100 threeLevels 1 (by decide!) (by decide!) (by decide!)).1.trans
      (by decide!),
    (valueArea_full_at_100 threeLevels 1 (by decide!) (by decide!) (by decide!)).2.trans
      (by decide!), by decide!, by decide!⟩

/-! ## Sealed candidates of the formation loop -/

theorem formationBody_sealed (sc : SCStudyInterface) (inp : StudyInputs) (sqrtf : ℚ → ℚ)
    (profiles : List s_SessionProfile) (i : Nat) (s : FormationState) :
    formationBody sc inp sqrtf profiles i s =
      match sealedAt sc inp profiles i s with
      | none => s
      | some e => sealCandidate sqrtf inp sc.TickSize s e := by
  rw [formationBody_eq]
  unfold sealedAt
  split_ifs with h1
  · rfl
  · cases hr : initiationReason inp sc.TickSize (profiles.getD i {})
        (profiles.getD (i + 1) {}) with
    | none => rfl
    | some reason =>
      simp only
      split_ifs <;> rfl

theorem mem_profileRun (a e : Nat) (p : Int) :
    p ∈ profileRun a e ↔ ∃ x : Nat, a ≤ x ∧ x ≤ e ∧ p = (x : Int) := by
  unfold profileRun
  simp only [List.mem_map, List.mem_range'_1]
  constructor
  · rintro ⟨x, ⟨h1, h2⟩, rfl⟩
    exact ⟨x, h1, by omega, rfl⟩
  · rintro ⟨x, h1, h2, rfl⟩
    exact ⟨x, ⟨h1, by omega⟩, rfl⟩

theorem extensionStart_candidateInv (sc : SCStudyInterface) (inp : StudyInputs)
    (profiles : List s_SessionProfile) (i : Nat) (reason : String) (s : FormationState)
    (hlen : s.profileUsed.length = profiles.length) (hi : i + 1 < profiles.length) :
    candidateInv s.profileUsed i (i + 2) (extensionStart sc inp profiles i reason s) := by
  refine ⟨le_refl _, by omega, rfl, ?_, ?_, rfl, rfl, ?_, ?_⟩
  · show ((i : Int) + 1) = ((i + 2 : Nat) : Int) - 1
    push_cast; omega
  · show [(i : Int), (i : Int) + 1] = profileRun i (i + 2 - 1)
    have : i + 2 - 1 = i + 1 := by omega
    rw [this, profileRun_succ i i (by omega)]
    have : profileRun i i = [(i : Int)] := by
      unfold profileRun
      have : i + 1 - i = 1 := by omega
      rw [this]; rfl
    rw [this]
    simp
  · show ((s.profileUsed.set i true).set (i + 1) true).length = s.profileUsed.length
    simp
  · intro x
    show ((s.profileUsed.set i true).set (i + 1) true).getD x false = _
    simp only [getD_set_flag, List.length_set]
    by_cases hx1 : x = i + 1
    · subst hx1
      have : i + 1 < s.profileUsed.length := by omega
      simp [this]
    · by_cases hx0 : x = i
      · subst hx0
        have : x < s.profileUsed.length := by omega
        simp [this, hx1]
      · have : ¬ (i ≤ x ∧ x < i + 2) := by omega
        simp only [hx1, hx0, false_and, if_false]
        by_cases ha : i ≤ x
        · have hb : ¬ x < i + 2 := fun h => this ⟨ha, h⟩
          simp [ha, hb]
        · simp [ha]

theorem sealedAt_inv (sc : SCStudyInterface) (inp : StudyInputs)
    (profiles : List s_SessionProfile) (i : Nat) (s : FormationState)
    (hlen : s.profileUsed.length = profiles.length) (hi : i + 1 < profiles.length)
    (h0 : ∀ x, i ≤ x → s.profileUsed.getD x false = false) (e : ExtensionState)
    (he : sealedAt sc inp profiles i s = some e) :
    ∃ k, candidateInv s.profileUsed i k e := by
  unfold sealedAt at he
  split_ifs at he with h1
  cases hr : initiationReason inp sc.TickSize (profiles.getD i {})
      (profiles.getD (i + 1) {}) with
  | none => rw [hr] at he; simp at he
  | some reason =>
    rw [hr] at he
    simp only at he
    split_ifs at he with h2
    simp only [Option.some.injEq] at he
    rw [← he]
    exact extensionProfiles_inv sc inp profiles s.profileUsed i h0
      (profiles.length - (i + 2)) (i + 2) _ (by omega)
      (extensionStart_candidateInv sc inp profiles i reason s hlen hi)

theorem sealCandidate_cases (sqrtf : ℚ → ℚ) (inp : StudyInputs) (t : ℚ) (s : FormationState)
    (e : ExtensionState) :
    (sealCandidate sqrtf inp t s e).profileUsed = e.profileUsed ∧
    ((sealCandidate sqrtf inp t s e).FinalizedBalanceAreas = s.FinalizedBalanceAreas ∨
      (sealCandidate sqrtf inp t s e).FinalizedBalanceAreas
        = s.FinalizedBalanceAreas ++ [e.currentBA]) := by
  unfold sealCandidate
  split_ifs
  · exact ⟨rfl, Or.inr rfl⟩
  · exact ⟨rfl, Or.inl rfl⟩
  · exact ⟨rfl, Or.inl rfl⟩

theorem sealedCandidates_succ (sc : SCStudyInterface) (inp : StudyInputs) (sqrtf : ℚ → ℚ)
    (profiles : List s_SessionProfile) (n i : Nat) (s : FormationState) :
    sealedCandidates sc inp sqrtf profiles (n + 1) i s =
      if s.profileUsed.getD i false then sealedCandidates sc inp sqrtf profiles n (i + 1) s
      else if i + 1 ≥ profiles.length then []
      else
        ((sealedAt sc inp profiles i s).map (fun e => e.currentBA)).toList ++
          sealedCandidates sc inp sqrtf profiles n (i + 1)
            (formationBody sc inp sqrtf profiles i s) := rfl

/-- The invariant of the initiation loop for the sealed candidates: each is a
contiguous run that starts after everything flagged before it was sealed and
whose members are flagged at the end of the loop; the candidates are in
increasing order without overlap; the finalized balance areas added by the loop
are a sublist of them; flags are never cleared. -/
theorem sealedCandidates_inv (sc : SCStudyInterface) (inp : StudyInputs) (sqrtf : ℚ → ℚ)
    (profiles : List s_SessionProfile) :
    ∀ (n i : Nat) (s : FormationState), formationInv profiles.length i s →
      (∀ c ∈ sealedCandidates sc inp sqrtf profiles n i s,
        candidateOk profiles.length i s.profileUsed
          (formationLoop sc inp sqrtf profiles n i s).profileUsed c) ∧
      (sealedCandidates sc inp sqrtf profiles n i s).Pairwise
        (fun a b => a.EndProfileChronoIndex < b.StartProfileChronoIndex) ∧
      (∃ l, l.Sublist (sealedCandidates sc inp sqrtf profiles n i s) ∧
        (formationLoop sc inp sqrtf profiles n i s).FinalizedBalanceAreas
          = s.FinalizedBalanceAreas ++ l) ∧
      (∀ x, s.profileUsed.getD x false = true →
        (formationLoop sc inp sqrtf profiles n i s).profileUsed.getD x false = true) := by
  intro n
  induction n with
  | zero =>
    intro i s _
    exact ⟨fun c hc => by simp [sealedCandidates] at hc, List.Pairwise.nil,
      ⟨[], List.Sublist.refl _, by simp [formationLoop]⟩, fun x hx => hx⟩
  | succ n ih =>
    intro i s hinv
    rw [formationLoop_succ, sealedCandidates_succ]
    by_cases hu : s.profileUsed.getD i false = true
    · rw [if_pos hu, if_pos hu]
      obtain ⟨hlen, B, b1, b2, b3, b4⟩ := hinv
      obtain ⟨p1, p2, p3, p4⟩ := ih (i + 1) s
        ⟨hlen, B, b1, fun x hx hxB => b2 x (by omega) hxB, b3, b4⟩
      refine ⟨?_, p2, p3, p4⟩
      intro c hc
      obtain ⟨a, e, q1, q2, q3, q4, q5, q6, q7, q8⟩ := p1 c hc
      exact ⟨a, e, q1, q2, by omega, q4, q5, q6, q7, q8⟩
    · rw [if_neg hu, if_neg hu]
      by_cases hl : i + 1 ≥ profiles.length
      · rw [if_pos hl, if_pos hl]
        exact ⟨fun c hc => by simp at hc, List.Pairwise.nil,
          ⟨[], List.Sublist.refl _, by simp⟩, fun x hx => hx⟩
      · rw [if_neg hl, if_neg hl]
        have hi : i + 1 < profiles.length := by omega
        have hstep := formationInv_step sc inp sqrtf profiles i s hinv hi hu
        obtain ⟨p1, p2, p3, p4⟩ := ih (i + 1) _ hstep
        obtain ⟨hlen, B, b1, b2, b3, b4⟩ := hinv
        have hB : B ≤ i := by
          by_contra hc
          exact hu (b2 i (le_refl _) (by omega))
        have h0 : ∀ x, i ≤ x → s.profileUsed.getD x false = false := by
          intro x hx
          cases hg : s.profileUsed.getD x false with
          | false => rfl
          | true => have := b1 x hg; omega
        have hbody := formationBody_sealed sc inp sqrtf profiles i s
        cases hs : sealedAt sc inp profiles i s with
        | none =>
          rw [hs] at hbody
          simp only at hbody
          rw [hbody] at p1 p2 p3 p4 ⊢
          simp only [Option.map_none', Option.toList, List.nil_append]
          refine ⟨?_, p2, p3, p4⟩
          intro c hc
          obtain ⟨a, e, q1, q2, q3, q4, q5, q6, q7, q8⟩ := p1 c hc
          exact ⟨a, e, q1, q2, by omega, q4, q5, q6, q7, q8⟩
        | some e =>
          rw [hs] at hbody
          simp only at hbody
          obtain ⟨k, c1, c2, c3, c4, c5, c6, c7, c8, c9⟩ :=
            sealedAt_inv sc inp profiles i s hlen hi h0 e hs
          obtain ⟨u1, u2⟩ := sealCandidate_cases sqrtf inp sc.TickSize s e
          rw [← hbody] at u1 u2
          have hmono : ∀ x, s.profileUsed.getD x false = true →
              (formationBody sc inp sqrtf profiles i s).profileUsed.getD x false = true := by
            intro x hx
            rw [u1, c9 x, hx]
            rfl
          have hmem : ∀ x, i ≤ x → x < k →
              (formationBody sc inp sqrtf profiles i s).profileUsed.getD x false = true := by
            intro x hx1 hx2
            rw [u1, c9 x]
            simp [hx1, hx2]
          simp only [Option.map_some', Option.toList]
          refine ⟨?_, ?_, ?_, fun x hx => p4 x (hmono x hx)⟩
          · intro c hc
            rcases List.mem_append.1 hc with hc | hc
            · rw [List.mem_singleton.1 hc]
              refine ⟨i, k - 1, by omega, by omega, le_refl _, c3, by rw [c4]; omega, c5, ?_, ?_⟩
              · intro x hx
                have := b1 x hx
                omega
              · intro x hx1 hx2
                exact p4 x (hmem x hx1 (by omega))
            · obtain ⟨a, e', q1, q2, q3, q4, q5, q6, q7, q8⟩ := p1 c hc
              exact ⟨a, e', q1, q2, by omega, q4, q5, q6, fun x hx => q7 x (hmono x hx), q8⟩
          · rw [List.singleton_append, List.pairwise_cons]
            refine ⟨?_, p2⟩
            intro c hc
            obtain ⟨a, e', _, _, _, q4, _, _, q7, _⟩ := p1 c hc
            have := q7 (k - 1) (hmem (k - 1) (by omega) (by omega))
            rw [c4, q4]
            omega
          · obtain ⟨l, l1, l2⟩ := p3
            rcases u2 with u2 | u2
            · refine ⟨l, List.Sublist.trans l1 (List.sublist_append_right _ _), ?_⟩
              rw [l2, u2]
            · refine ⟨[e.currentBA] ++ l, List.Sublist.append (List.Sublist.refl _) l1, ?_⟩
              rw [l2, u2, List.append_assoc]

theorem formBalanceAreas_start_inv (profiles : List s_SessionProfile) :
    formationInv profiles.length 0
      ({ profileUsed := List.replicate profiles.length false } : FormationState) := by
  refine ⟨by simp, 0, ?_, ?_, ?_, ?_⟩
  · intro x hx
    exfalso
    rw [List.getD_eq_getElem?_getD] at hx
    by_cases hl : x < profiles.length
    · rw [List.getElem?_eq_getElem (by simpa using hl)] at hx
      simp at hx
    · rw [List.getElem?_eq_none (by simpa using hl)] at hx
      simp at hx
  · intro x _ hx; omega
  · intro a ha; simp at ha
  · simp

/-- C31: in the formation loop the sealed candidates, finalized or discarded,
are contiguous runs in increasing order without overlap, so every profile index
is a member of at most one of them and each initiation that follows a candidate
starts after its last member; the members of every candidate are flagged as
used at the end of the loop (a flagged index is skipped by the loop); the
finalized balance areas are a sublist of the candidates, and no member of a
discarded candidate is a member of a finalized balance area. -/
theorem sealed_candidates_disjoint (sc : SCStudyInterface) (inp : StudyInputs) (sqrtf : ℚ → ℚ)
    (SessionProfiles : List s_SessionProfile) :
    (∀ c ∈ formedCandidates sc inp sqrtf SessionProfiles,
      ∃ a e : Nat, a + 1 ≤ e ∧ e < SessionProfiles.length ∧ c.StartProfileChronoIndex = a ∧
        c.EndProfileChronoIndex = e ∧ c.IncludedProfileIndices = profileRun a e ∧
        ∀ x, a ≤ x → x ≤ e →
          (formBalanceAreas sc inp sqrtf SessionProfiles).profileUsed.getD x false = true) ∧
    (formedCandidates sc inp sqrtf SessionProfiles).Pairwise
      (fun a b => a.EndProfileChronoIndex < b.StartProfileChronoIndex) ∧
    (formedCandidates sc inp sqrtf SessionProfiles).Pairwise
      (fun a b => ∀ p ∈ a.IncludedProfileIndices, p ∉ b.IncludedProfileIndices) ∧
    (formBalanceAreas sc inp sqrtf SessionProfiles).FinalizedBalanceAreas.Sublist
      (formedCandidates sc inp sqrtf SessionProfiles) ∧
    (∀ c ∈ formedCandidates sc inp sqrtf SessionProfiles,
      c ∉ (formBalanceAreas sc inp sqrtf SessionProfiles).FinalizedBalanceAreas →
      ∀ b ∈ (formBalanceAreas sc inp sqrtf SessionProfiles).FinalizedBalanceAreas,
        ∀ p ∈ c.IncludedProfileIndices, p ∉ b.IncludedProfileIndices) ∧
    (∀ (n i : Nat) (s : FormationState), s.profileUsed.getD i false = true →
      formationLoop sc inp sqrtf SessionProfiles (n + 1) i s
        = formationLoop sc inp sqrtf SessionProfiles n (i + 1) s) := by
  obtain ⟨p1, p2, ⟨l, l1, l2⟩, _⟩ := sealedCandidates_inv sc inp sqrtf SessionProfiles
    SessionProfiles.length 0 _ (formBalanceAreas_start_inv SessionProfiles)
  have hsub : (formBalanceAreas sc inp sqrtf SessionProfiles).FinalizedBalanceAreas.Sublist
      (formedCandidates sc inp sqrtf SessionProfiles) := by
    have : (formBalanceAreas sc inp sqrtf SessionProfiles).FinalizedBalanceAreas = l := by
      unfold formBalanceAreas
      rw [l2]; rfl
    rw [this]; exact l1
  have hrun : ∀ c ∈ formedCandidates sc inp sqrtf SessionProfiles,
      ∃ a e : Nat, a + 1 ≤ e ∧ e < SessionProfiles.length ∧ c.StartProfileChronoIndex = a ∧
        c.EndProfileChronoIndex = e ∧ c.IncludedProfileIndices = profileRun a e ∧
        ∀ x, a ≤ x → x ≤ e →
          (formBalanceAreas sc inp sqrtf SessionProfiles).profileUsed.getD x false = true := by
    intro c hc
    obtain ⟨a, e, q1, q2, _, q4, q5, q6, _, q8⟩ := p1 c hc
    exact ⟨a, e, q1, q2, q4, q5, q6, q8⟩
  have hdisj : ∀ a ∈ formedCandidates sc inp sqrtf SessionProfiles,
      ∀ b ∈ formedCandidates sc inp sqrtf SessionProfiles,
      a.EndProfileChronoIndex < b.StartProfileChronoIndex →
      (∀ p ∈ a.IncludedProfileIndices, p ∉ b.IncludedProfileIndices) ∧
      (∀ p ∈ b.IncludedProfileIndices, p ∉ a.IncludedProfileIndices) := by
    intro a ha b hb hab
    obtain ⟨a1, e1, _, _, s1, t1, r1, _⟩ := hrun a ha
    obtain ⟨a2, e2, _, _, s2, t2, r2, _⟩ := hrun b hb
    rw [t1, s2] at hab
    constructor
    · intro p hp hq
      rw [r1] at hp
      rw [r2] at hq
      obtain ⟨x, _, x2, rfl⟩ := (mem_profileRun a1 e1 p).1 hp
      obtain ⟨y, y1, _, hy⟩ := (mem_profileRun a2 e2 _).1 hq
      omega
    · intro p hp hq
      rw [r2] at hp
      rw [r1] at hq
      obtain ⟨x, x1, _, rfl⟩ := (mem_profileRun a2 e2 p).1 hp
      obtain ⟨y, _, y2, hy⟩ := (mem_profileRun a1 e1 _).1 hq
      omega
  have hpair : (formedCandidates sc inp sqrtf SessionProfiles).Pairwise
      (fun a b => ∀ p ∈ a.IncludedProfileIndices, p ∉ b.IncludedProfileIndices) := by
    have := List.Pairwise.and_mem.1 p2
    refine List.Pairwise.imp ?_ this
    intro a b h
    exact (hdisj a h.1 b h.2.1 h.2.2).1
  refine ⟨hrun, p2, hpair, hsub, ?_, ?_⟩
  · intro c hc hnot b hb
    have hb' := hsub.subset hb
    have hne : c ≠ b := fun h => hnot (h ▸ hb)
    have hsym : Symmetric (fun a b : s_BalanceArea =>
        a.EndProfileChronoIndex < b.StartProfileChronoIndex ∨
        b.EndProfileChronoIndex < a.StartProfileChronoIndex) := fun a b h => h.symm
    have hor : (formedCandidates sc inp sqrtf SessionProfiles).Pairwise
        (fun a b : s_BalanceArea => a.EndProfileChronoIndex < b.StartProfileChronoIndex ∨
          b.EndProfileChronoIndex < a.StartProfileChronoIndex) :=
      List.Pairwise.imp (fun h => Or.inl h) p2
    rcases List.Pairwise.forall hsym hor hc hb' hne with h | h
    · exact (hdisj c hc b hb' h).1
    · exact (hdisj b hb' c hc h).2
  · intro n i s hu
    rw [formationLoop_succ, if_pos hu]

/-- On the five sessions with the normality filter on, both sealed candidates
(the runs 0..2 and 3..4) are discarded and all five profiles stay flagged. -/
theorem formedCandidates_discarded :
    (formedCandidates chartFive filterInputs (fun x => x) fiveSessions).map
      (fun b => b.IncludedProfileIndices) = [[0, 1, 2], [3, 4]] ∧
    (formBalanceAreas chartFive filterInputs (fun x => x) fiveSessions).FinalizedBalanceAreas = [] ∧
    (formBalanceAreas chartFive filterInputs (fun x => x) fiveSessions).profileUsed
      = [true, true, true, true, true] := by
  decide!

/-! ## The order of the bars of an activated balance area -/

theorem activationLoop_pushed (sc : SCStudyInterface) (t : ℚ) (l : List s_BalanceArea) :
    ∀ active : List s_BalanceArea, ∀ a ∈ (activationLoop sc t l active).2,
      a ∈ active ∨ ∃ f ∈ l, (activationBody sc t f).2 = true ∧ a = (activationBody sc t f).1 := by
  induction l with
  | nil => intro active a ha; exact Or.inl ha
  | cons f rest ih =>
    intro active a ha
    simp only [activationLoop] at ha
    rcases ih _ a ha with h | ⟨g, hg, h1, h2⟩
    · by_cases hb : (activationBody sc t f).2 = true
      · rw [if_pos hb] at h
        split_ifs at h
        · exact Or.inl h
        · rcases List.mem_append.1 h with h | h
          · exact Or.inl h
          · exact Or.inr ⟨f, List.mem_cons_self _ _, hb, List.mem_singleton.1 h⟩
      · rw [if_neg hb] at h
        exact Or.inl h
    · exact Or.inr ⟨g, List.mem_cons_of_mem _ hg, h1, h2⟩

theorem activationBody_now (sc : SCStudyInterface) (t : ℚ) (f : s_BalanceArea)
    (h : (activationBody sc t f).2 = true) :
    f.IsActivated = false ∧ ∃ i high, (activationBody sc t f).1 = activateAt sc f i high ∧
      f.EndBarIndex < i ∧ i < sc.ArraySize := by
  rcases activationBody_cases sc t f with hb | ⟨hna, i, high, hb⟩
  · rw [hb] at h; exact absurd h Bool.false_ne_true
  · refine ⟨hna, i, high, by rw [hb], ?_⟩
    obtain ⟨_, s2⟩ := activationBody_spec sc t f hna
    have hact : (activationBody sc t f).1.IsActivated = true := by rw [hb]; rfl
    obtain ⟨_, e3, e4, _⟩ := s2 hact
    rw [hb] at e3 e4
    exact ⟨e3, e4⟩

theorem activationBody_keyOf (sc : SCStudyInterface) (t : ℚ) (f : s_BalanceArea) :
    keyOf (activationBody sc t f).1 = keyOf f := by
  obtain ⟨h1, h2, _⟩ := activationBody_sameFormation sc t f
  unfold keyOf
  rw [h1, h2]

theorem barsOrdered_activateAt (sc : SCStudyInterface) (f : s_BalanceArea) (i : Int)
    (high : Bool) (h1 : f.EndBarIndex < i) (h2 : i < sc.ArraySize) (hw : f.WasCut = false) :
    barsOrdered (activateAt sc f i high) := by
  refine ⟨h1, ?_, ?_⟩
  · show i ≤ sc.ArraySize - 1
    omega
  · intro h
    have : f.WasCut = true := h
    rw [hw] at this
    exact absurd this (by decide)

theorem CheckForBAActivation_activationInv (sc : SCStudyInterface)
    (st : s_BAStudyPersistentData) (t : ℚ) (hL : LifecycleInv st) (hA : ActivationInv st) :
    ActivationInv (CheckForBAActivation sc st t) := by
  obtain ⟨a1, a2, a3⟩ := hA
  have hfin := CheckForBAActivation_finalized sc st t
  have hact : (CheckForBAActivation sc st t).ActiveBalanceAreas
      = (activationLoop sc t st.FinalizedBalanceAreas st.ActiveBalanceAreas).2 := by
    rw [CheckForBAActivation_eq]
  have hnew : ∀ f ∈ st.FinalizedBalanceAreas, (activationBody sc t f).2 = true →
      (activationBody sc t f).1.IsActivated = true ∧ barsOrdered (activationBody sc t f).1 := by
    intro f hf hb
    obtain ⟨hna, i, high, e, h1, h2⟩ := activationBody_now sc t f hb
    rw [e]
    exact ⟨rfl, barsOrdered_activateAt sc f i high h1 h2 (hL.2.2.2 f hf hna)⟩
  refine ⟨?_, ?_, ?_⟩
  · rw [hfin, List.map_map]
    have : (keyOf ∘ fun b => (activationBody sc t b).1) = keyOf := by
      funext b
      exact activationBody_keyOf sc t b
    rw [this]
    exact a1
  · intro a ha
    rw [hact] at ha
    rw [hfin]
    rcases activationLoop_pushed sc t _ _ a ha with h | ⟨f, hf, hb, rfl⟩
    · obtain ⟨b1, b2, g, hg, g1, g2, g3, g4⟩ := a2 a h
      refine ⟨b1, b2, g, ?_, g1, g2, g3, g4⟩
      refine List.mem_map.2 ⟨g, hg, ?_⟩
      rw [activationBody_activated sc t g g2]
    · obtain ⟨n1, n2⟩ := hnew f hf hb
      exact ⟨n1, n2, _, List.mem_map.2 ⟨f, hf, rfl⟩, rfl, n1, rfl, rfl⟩
  · intro f1 hf1 hact1
    rw [hfin] at hf1
    obtain ⟨f, hf, rfl⟩ := List.mem_map.1 hf1
    by_cases hb : (activationBody sc t f).2 = true
    · exact (hnew f hf hb).2
    · rcases activationBody_cases sc t f with e | ⟨_, i, high, e⟩
      · rw [e] at hact1 ⊢
        exact a3 f hf hact1
      · rw [e] at hb
        exact absurd rfl hb

theorem cutStep_relStrict (sc : SCStudyInterface) (t p : ℚ) (later : List s_BalanceArea)
    (pd : s_BAStudyPersistentData) (a : s_BalanceArea) :
    cutRelStrict pd.FinalizedBalanceAreas later a (cutStep sc t p later pd a).1 := by
  rw [cutStep_fst]
  split_ifs with h
  · obtain ⟨_, _, _, hs⟩ := cutSearch_spec sc pd.FinalizedBalanceAreas later t a
    rcases hs with ⟨hs, _⟩ | ⟨_, _, he, _, hX⟩
    · rw [hs] at h; exact absurd h.2.1 (by decide)
    · refine Or.inr ⟨h.1, (cutSearch sc pd.FinalizedBalanceAreas later t a).intersectingBA,
        ?_, ?_, ?_, ?_⟩
      · rcases hX with hX | hX
        · exact Or.inl hX.1
        · exact Or.inr hX.1
      · rcases hX with hX | hX
        · exact hX.2.2.1
        · exact hX.2.1
      · rw [← he]; exact h.2.2
      · rw [← he]
  · exact Or.inl rfl

theorem extensionLoop_relStrict (sc : SCStudyInterface) (t p : ℚ) (l : List s_BalanceArea) :
    ∀ pd : s_BAStudyPersistentData, ∀ a1 ∈ (extensionLoop sc t p l pd).1,
      ∃ a ∈ l, cutRelStrict pd.FinalizedBalanceAreas l a a1 := by
  induction l with
  | nil => intro pd a1 h; simp [extensionLoop] at h
  | cons a later ih =>
    intro pd a1 h
    simp only [extensionLoop, List.mem_cons] at h
    rcases h with h | h
    · refine ⟨a, List.mem_cons_self _ _, ?_⟩
      rw [h]
      rcases cutStep_relStrict sc t p later pd a with e | ⟨e1, X, e2, e3⟩
      · exact Or.inl e
      · refine Or.inr ⟨e1, X, ?_, e3⟩
        rcases e2 with e2 | e2
        · exact Or.inl e2
        · exact Or.inr (List.mem_cons_of_mem _ e2)
    · obtain ⟨b, hb, hr⟩ := ih _ a1 h
      rw [(cutStep_frame sc t p later pd a).1] at hr
      refine ⟨b, List.mem_cons_of_mem _ hb, ?_⟩
      rcases hr with e | ⟨e1, X, e2, e3⟩
      · exact Or.inl e
      · refine Or.inr ⟨e1, X, ?_, e3⟩
        rcases e2 with e2 | e2
        · exact Or.inl e2
        · exact Or.inr (List.mem_cons_of_mem _ e2)

theorem UpdateBAExtensions_active_strict (sc : SCStudyInterface)
    (pd : s_BAStudyPersistentData) (t p : ℚ) :
    ∀ a1 ∈ (UpdateBAExtensions sc pd t p).ActiveBalanceAreas,
      ∃ a ∈ pd.ActiveBalanceAreas,
        cutRelStrict pd.FinalizedBalanceAreas pd.ActiveBalanceAreas a a1 := by
  intro a1 h
  unfold UpdateBAExtensions at h
  obtain ⟨a, ha, hr⟩ := extensionLoop_relStrict sc t p _ _ a1 h
  refine ⟨a, (mem_sortByActivation _ a).1 ha, ?_⟩
  rcases hr with e | ⟨e1, X, e2, e3⟩
  · exact Or.inl e
  · refine Or.inr ⟨e1, X, ?_, e3⟩
    rcases e2 with e2 | e2
    · exact Or.inl e2
    · exact Or.inr ((mem_sortByActivation _ X).1 e2)

theorem cutRelStrict_fields {fin later : List s_BalanceArea} {a a1 : s_BalanceArea}
    (h : cutRelStrict fin later a a1) :
    keyOf a1 = keyOf a ∧ a1.IsActivated = a.IsActivated ∧
    a1.ActivationBarIndex = a.ActivationBarIndex ∧ a1.EndBarIndex = a.EndBarIndex ∧
    (barsOrdered a → barsOrdered a1) := by
  rcases h with rfl | ⟨_, X, _, h1, h2, rfl⟩
  · exact ⟨rfl, rfl, rfl, rfl, fun h => h⟩
  · refine ⟨rfl, rfl, rfl, rfl, ?_⟩
    intro hb
    exact ⟨hb.1, le_of_lt h1, fun _ => h1⟩

theorem eq_of_nodup_key {l : List s_BalanceArea} (hnd : (l.map keyOf).Nodup)
    {a b : s_BalanceArea} (ha : a ∈ l) (hb : b ∈ l) (h : keyOf a = keyOf b) : a = b :=
  List.inj_on_of_nodup_map hnd ha hb h

theorem UpdateBAExtensions_activationInv (sc : SCStudyInterface)
    (st : s_BAStudyPersistentData) (t p : ℚ) (hA : ActivationInv st) :
    ActivationInv (UpdateBAExtensions sc st t p) := by
  obtain ⟨a1, a2, a3⟩ := hA
  have hfin := UpdateBAExtensions_finalized sc st t p
  have hactive : ∀ x ∈ (UpdateBAExtensions sc st t p).ActiveBalanceAreas,
      x.IsActivated = true ∧ barsOrdered x ∧ hasCounterpart st.FinalizedBalanceAreas x := by
    intro x hx
    obtain ⟨a, ha, hr⟩ := UpdateBAExtensions_active_strict sc st t p x hx
    obtain ⟨r1, r2, r3, r4, r5⟩ := cutRelStrict_fields hr
    obtain ⟨b1, b2, g, hg, g1, g2, g3, g4⟩ := a2 a ha
    exact ⟨r2.trans b1, r5 b2, g, hg, g1.trans r1.symm, g2, g3.trans r3.symm, g4.trans r4.symm⟩
  refine ⟨?_, ?_, ?_⟩
  · rw [hfin, List.map_map]
    have : (keyOf ∘ syncFinalized (UpdateBAExtensions sc st t p).ActiveBalanceAreas) = keyOf := by
      funext b
      exact keyOf_syncFinalized _ b
    rw [this]
    exact a1
  · intro x hx
    obtain ⟨h1, h2, g, hg, g1, g2, g3, g4⟩ := hactive x hx
    refine ⟨h1, h2, syncFinalized (UpdateBAExtensions sc st t p).ActiveBalanceAreas g, ?_, ?_, ?_,
      ?_, ?_⟩
    · rw [hfin]; exact List.mem_map.2 ⟨g, hg, rfl⟩
    · rw [keyOf_syncFinalized]; exact g1
    · rw [(syncFinalized_activation _ g).1]; exact g2
    · rw [(syncFinalized_activation _ g).2.1]; exact g3
    · rw [(syncFinalized_sameFormation _ g).2.2.2.1]; exact g4
  · intro f2 hf2 hact2
    rw [hfin] at hf2
    obtain ⟨f, hf, rfl⟩ := List.mem_map.1 hf2
    have hact : f.IsActivated = true := by
      rw [← (syncFinalized_activation _ f).1]; exact hact2
    cases hfind : (UpdateBAExtensions sc st t p).ActiveBalanceAreas.find?
        (fun x => sameBA x f) with
    | none =>
      rw [syncFinalized_of_not_found _ f hfind]
      exact a3 f hf hact
    | some x =>
      have hx : x ∈ (UpdateBAExtensions sc st t p).ActiveBalanceAreas :=
        List.mem_of_find?_eq_some hfind
      have hk : keyOf x = keyOf f := (sameBA_iff x f).1 (List.find?_some (p := fun y => sameBA y f) hfind)
      obtain ⟨_, h2, g, hg, g1, _, g3, g4⟩ := hactive x hx
      have hgf : g = f := eq_of_nodup_key a1 hg hf (g1.trans hk)
      subst hgf
      rw [syncFinalized_of_find _ g x hact hfind]
      obtain ⟨o1, o2, o3⟩ := h2
      refine ⟨?_, ?_, ?_⟩
      · show g.EndBarIndex < g.ActivationBarIndex
        rw [g3, g4]; exact o1
      · show g.ActivationBarIndex ≤ x.ExtensionEndIndex
        rw [g3]; exact o2
      · intro hw
        show g.ActivationBarIndex < x.ExtensionEndIndex
        rw [g3]; exact o3 hw

theorem lifecyclePass_activationInv (sc : SCStudyInterface) (p : ℚ)
    (st : s_BAStudyPersistentData) (hL : LifecycleInv st) (hA : ActivationInv st) :
    ActivationInv (lifecyclePass sc p st) := by
  unfold lifecyclePass
  exact UpdateBAExtensions_activationInv sc _ _ p
    (CheckForBAActivation_activationInv sc st _ hL hA)

theorem runPasses_activationInv (passes : List (SCStudyInterface × ℚ)) :
    ∀ st : s_BAStudyPersistentData, LifecycleInv st → ActivationInv st →
      ActivationInv (runPasses passes st) := by
  induction passes with
  | nil => intro st _ h; exact h
  | cons q rest ih =>
    intro st hL hA
    exact ih _ (lifecyclePass_inv q.1 q.2 st hL) (lifecyclePass_activationInv q.1 q.2 st hL hA)

theorem formed_keys_nodup (sc : SCStudyInterface) (inp : StudyInputs) (sqrtf : ℚ → ℚ)
    (profiles : List s_SessionProfile) :
    ((formBalanceAreas sc inp sqrtf profiles).FinalizedBalanceAreas.map keyOf).Nodup := by
  obtain ⟨_, _, B, _, _, b3, b4⟩ := formBalanceAreas_inv sc inp sqrtf profiles
  unfold List.Nodup
  rw [List.pairwise_map]
  refine List.Pairwise.imp ?_ (List.Pairwise.and_mem.1 b4)
  intro a b h hk
  obtain ⟨_, _, ⟨i, e, c1, c2, c3, _⟩, _⟩ := b3 a h.1
  have h1 : a.StartProfileChronoIndex = b.StartProfileChronoIndex := congrArg Prod.fst hk
  have h3 := h.2.2
  rw [← h1, c2, c3] at h3
  omega

theorem rebuildState_activationInv (sc : SCStudyInterface) (inp : StudyInputs) (sqrtf : ℚ → ℚ)
    (profiles : List s_SessionProfile) : ActivationInv (rebuildState sc inp sqrtf profiles) := by
  refine ⟨formed_keys_nodup sc inp sqrtf profiles, ?_, ?_⟩
  · intro a ha
    have : a ∈ ([] : List s_BalanceArea) := ha
    simp at this
  · intro f hf hact
    have := ((rebuildState_fresh sc inp sqrtf profiles).2 f hf).1
    rw [this] at hact
    exact absurd hact (by decide)

/-- C34: in every state reached from a rebuild by any number of passes, every
activated balance area, in the finalized list or in the active list, satisfies
`EndBarIndex < ActivationBarIndex <= ExtensionEndIndex`, and every cut one
`ActivationBarIndex < ExtensionEndIndex`.  A cut made by `UpdateBAExtensions`
ends the entry at the activation bar of a balance area that was activated
strictly later, so a balance area is never cut at or before its own activation
bar and two balance areas activated on the same bar never cut each other. -/
theorem activated_bars_ordered (sc0 : SCStudyInterface) (inp : StudyInputs) (sqrtf : ℚ → ℚ)
    (SessionProfiles : List s_SessionProfile) (passes : List (SCStudyInterface × ℚ))
    (b : s_BalanceArea)
    (hb : b ∈ (runPasses passes
        (rebuildState sc0 inp sqrtf SessionProfiles)).FinalizedBalanceAreas ∨
      b ∈ (runPasses passes (rebuildState sc0 inp sqrtf SessionProfiles)).ActiveBalanceAreas)
    (hact : b.IsActivated = true) :
    (b.EndBarIndex < b.ActivationBarIndex ∧ b.ActivationBarIndex ≤ b.ExtensionEndIndex ∧
      (b.WasCut = true → b.ActivationBarIndex < b.ExtensionEndIndex)) ∧
    ∀ (sc : SCStudyInterface) (pData : s_BAStudyPersistentData) (t p : ℚ),
      ∀ a1 ∈ (UpdateBAExtensions sc pData t p).ActiveBalanceAreas,
        ∃ a ∈ pData.ActiveBalanceAreas, a1 = a ∨
          ∃ X, (X ∈ pData.FinalizedBalanceAreas ∨ X ∈ pData.ActiveBalanceAreas) ∧
            a.ActivationBarIndex < X.ActivationBarIndex ∧
            a1 = applyCut a X.ActivationBarIndex := by
  have hfresh := rebuildState_fresh sc0 inp sqrtf SessionProfiles
  obtain ⟨_, i2, i3⟩ := runPasses_activationInv passes _ hfresh.inv
    (rebuildState_activationInv sc0 inp sqrtf SessionProfiles)
  constructor
  · rcases hb with hb | hb
    · exact i3 b hb hact
    · exact (i2 b hb).2.1
  · intro sc pData t p a1 ha1
    obtain ⟨a, ha, hr⟩ := UpdateBAExtensions_active_strict sc pData t p a1 ha1
    refine ⟨a, ha, ?_⟩
    rcases hr with e | ⟨_, X, e1, e2, _, e4⟩
    · exact Or.inl e
    · exact Or.inr ⟨X, e1, e2, e4⟩

/-- C34 on the five sessions: after the rebuild and one pass on the chart of
fifty bars, the first finalized balance area (formed over bars 0..29) is
activated at bar 30 and extends to bar 49. -/
theorem activated_bars_ordered_witness :
    ((runPasses [(chartFive, 10)] (rebuildState chartFive plainInputs (fun x => x)
        fiveSessions)).FinalizedBalanceAreas.getD 0 {}).ActivationBarIndex = 30 ∧
    ((runPasses [(chartFive, 10)] (rebuildState chartFive plainInputs (fun x => x)
        fiveSessions)).FinalizedBalanceAreas.getD 0 {}).EndBarIndex
      < ((runPasses [(chartFive, 10)] (rebuildState chartFive plainInputs (fun x => x)
        fiveSessions)).FinalizedBalanceAreas.getD 0 {}).ActivationBarIndex ∧
    ((runPasses [(chartFive, 10)] (rebuildState chartFive plainInputs (fun x => x)
        fiveSessions)).FinalizedBalanceAreas.getD 0 {}).ActivationBarIndex
      ≤ ((runPasses [(chartFive, 10)] (rebuildState chartFive plainInputs (fun x => x)
        fiveSessions)).FinalizedBalanceAreas.getD 0 {}).ExtensionEndIndex :=
  ⟨by decide!,
    (activated_bars_ordered chartFive plainInputs (fun x => x) fiveSessions [(chartFive, 10)]
      ((runPasses [(chartFive, 10)] (rebuildState chartFive plainInputs (fun x => x)
        fiveSessions)).FinalizedBalanceAreas.getD 0 {})
      (Or.inl (by decide!)) (by decide!)).1.1,
    (activated_bars_ordered chartFive plainInputs (fun x => x) fiveSessions [(chartFive, 10)]
      ((runPasses [(chartFive, 10)] (rebuildState chartFive plainInputs (fun x => x)
        fiveSessions)).FinalizedBalanceAreas.getD 0 {})
      (Or.inl (by decide!)) (by decide!)).1.2.1⟩

/-! ## At most one ray per side of a balance area -/

theorem CheckForPBALCreation_list (sc : SCStudyInterface) (pData : s_BAStudyPersistentData)
    (cutBA X : s_BalanceArea) (p t : ℚ) :
    ∃ R, (CheckForPBALCreation sc pData cutBA X p t).PBALsToDraw = pData.PBALsToDraw ++ R ∧
      (R.map rayKey).Nodup ∧ ∀ r ∈ R, (rayKey r).1 = keyOf cutBA := by
  unfold CheckForPBALCreation
  simp only
  split_ifs
  · exact ⟨[], by simp, by simp, by simp⟩
  · refine ⟨[pbalRay sc cutBA true, pbalRay sc cutBA false], by simp, ?_, ?_⟩
    · simp [rayKey, pbalRay]
    · intro r hr
      simp only [List.mem_cons, List.mem_singleton, List.not_mem_nil, or_false] at hr
      rcases hr with rfl | rfl <;> rfl
  · refine ⟨[pbalRay sc cutBA false], by simp, by simp, ?_⟩
    intro r hr
    rw [List.mem_singleton.1 hr]; rfl
  · refine ⟨[pbalRay sc cutBA true], by simp, by simp, ?_⟩
    intro r hr
    rw [List.mem_singleton.1 hr]; rfl
  · exact ⟨[], by simp, by simp, by simp⟩

theorem cutStep_rays (sc : SCStudyInterface) (t p : ℚ) (later : List s_BalanceArea)
    (pd : s_BAStudyPersistentData) (a : s_BalanceArea) :
    ∃ R, (cutStep sc t p later pd a).2.PBALsToDraw = pd.PBALsToDraw ++ R ∧
      (R.map rayKey).Nodup ∧
      ∀ r ∈ R, (rayKey r).1 = keyOf a ∧ a.IsExtending = true ∧
        (cutStep sc t p later pd a).1.WasCut = true := by
  unfold cutStep
  by_cases hx : a.IsExtending = true
  · simp only [hx, Bool.not_true, Bool.false_eq_true, if_false]
    split_ifs with h1 h2
    · obtain ⟨R, r1, r2, r3⟩ := CheckForPBALCreation_list sc pd
        (applyCut a (cutSearch sc pd.FinalizedBalanceAreas later t a).earliestCutPoint)
        (cutSearch sc pd.FinalizedBalanceAreas later t a).intersectingBA p t
      exact ⟨R, r1, r2, fun r hr => ⟨r3 r hr, trivial, rfl⟩⟩
    · exact ⟨[], by simp, by simp, by simp⟩
    · exact ⟨[], by simp, by simp, by simp⟩
  · simp only [hx, Bool.not_false, if_true]
    exact ⟨[], by simp, by simp, by simp⟩

theorem extensionLoop_rays (sc : SCStudyInterface) (t p : ℚ) (l : List s_BalanceArea) :
    (l.map keyOf).Nodup → ∀ pd : s_BAStudyPersistentData,
      ∃ L, (extensionLoop sc t p l pd).2.PBALsToDraw = pd.PBALsToDraw ++ L ∧
        (L.map rayKey).Nodup ∧
        ∀ r ∈ L, ∃ a ∈ l, (rayKey r).1 = keyOf a ∧ a.IsExtending = true ∧
          ∃ a1 ∈ (extensionLoop sc t p l pd).1, keyOf a1 = keyOf a ∧ a1.WasCut = true := by
  induction l with
  | nil => intro _ pd; exact ⟨[], by simp [extensionLoop], by simp, by simp⟩
  | cons a later ih =>
    intro hnd pd
    simp only [List.map_cons, List.nodup_cons] at hnd
    obtain ⟨R, r1, r2, r3⟩ := cutStep_rays sc t p later pd a
    obtain ⟨L, l1, l2, l3⟩ := ih hnd.2 (cutStep sc t p later pd a).2
    refine ⟨R ++ L, ?_, ?_, ?_⟩
    · simp only [extensionLoop]
      rw [l1, r1, List.append_assoc]
    · rw [List.map_append, List.nodup_append]
      refine ⟨r2, l2, ?_⟩
      rw [List.disjoint_left]
      intro x hx1 hx2
      obtain ⟨r, hr, rfl⟩ := List.mem_map.1 hx1
      obtain ⟨r', hr', e⟩ := List.mem_map.1 hx2
      obtain ⟨b, hb, hk, _⟩ := l3 r' hr'
      apply hnd.1
      rw [← (r3 r hr).1, ← e, hk]
      exact List.mem_map_of_mem keyOf hb
    · intro r hr
      rcases List.mem_append.1 hr with hr | hr
      · obtain ⟨k1, k2, k3⟩ := r3 r hr
        refine ⟨a, List.mem_cons_self _ _, k1, k2, (cutStep sc t p later pd a).1, ?_, ?_, k3⟩
        · simp only [extensionLoop]; exact List.mem_cons_self _ _
        · exact cutRel_keyOf (cutStep_rel sc t p later pd a)
      · obtain ⟨b, hb, k1, k2, a1, ha1, k3, k4⟩ := l3 r hr
        refine ⟨b, List.mem_cons_of_mem _ hb, k1, k2, a1, ?_, k3, k4⟩
        simp only [extensionLoop]
        exact List.mem_cons_of_mem _ ha1

theorem UpdateBAExtensions_rays (sc : SCStudyInterface) (pd : s_BAStudyPersistentData)
    (t p : ℚ) (hnd : (pd.ActiveBalanceAreas.map keyOf).Nodup) :
    ∃ L, (UpdateBAExtensions sc pd t p).PBALsToDraw = pd.PBALsToDraw ++ L ∧
      (L.map rayKey).Nodup ∧
      ∀ r ∈ L, ∃ a ∈ pd.ActiveBalanceAreas, (rayKey r).1 = keyOf a ∧ a.IsExtending = true ∧
        ∃ a1 ∈ (UpdateBAExtensions sc pd t p).ActiveBalanceAreas,
          keyOf a1 = keyOf a ∧ a1.WasCut = true := by
  have hs : ((sortByActivation pd.ActiveBalanceAreas).map keyOf).Nodup :=
    ((List.perm_insertionSort _ pd.ActiveBalanceAreas).map keyOf).nodup_iff.2 hnd
  obtain ⟨L, l1, l2, l3⟩ := extensionLoop_rays sc t p _ hs
    { pd with ActiveBalanceAreas := sortByActivation pd.ActiveBalanceAreas }
  refine ⟨L, ?_, l2, ?_⟩
  · unfold UpdateBAExtensions
    exact l1
  · intro r hr
    obtain ⟨a, ha, k1, k2, a1, ha1, k3, k4⟩ := l3 r hr
    refine ⟨a, (mem_sortByActivation _ a).1 ha, k1, k2, a1, ?_, k3, k4⟩
    unfold UpdateBAExtensions
    exact ha1

theorem lifecyclePass_rayInv (sc : SCStudyInterface) (p : ℚ) (st : s_BAStudyPersistentData)
    (hL : LifecycleInv st) (hR : RayInv st) : RayInv (lifecyclePass sc p st) := by
  obtain ⟨i1, i2, _, i4⟩ := hL
  obtain ⟨q1, q2⟩ := hR
  obtain ⟨l1, l2, l3, _⟩ := activationLoop_active sc sc.TickSize st.FinalizedBalanceAreas
    st.ActiveBalanceAreas
  have hact1 : (CheckForBAActivation sc st sc.TickSize).ActiveBalanceAreas
      = (activationLoop sc sc.TickSize st.FinalizedBalanceAreas st.ActiveBalanceAreas).2 := by
    rw [CheckForBAActivation_eq]
  have hpb1 := (CheckForBAActivation_composites sc st sc.TickSize).2
  have j1 : ∀ a ∈ (CheckForBAActivation sc st sc.TickSize).ActiveBalanceAreas,
      a.WasCut = true → a.IsExtending = false := by
    intro a ha hw
    rw [hact1] at ha
    rcases l2 a ha with h | ⟨_, f, hf, hna, hwf⟩
    · exact i1 a h hw
    · rw [hwf, i4 f hf hna] at hw; simp at hw
  have j2 : ((CheckForBAActivation sc st sc.TickSize).ActiveBalanceAreas.map keyOf).Nodup := by
    rw [hact1]; exact l3 i2
  have q2' : ∀ r ∈ st.PBALsToDraw,
      ∃ a ∈ (CheckForBAActivation sc st sc.TickSize).ActiveBalanceAreas,
        keyOf a = (rayKey r).1 ∧ a.WasCut = true := by
    intro r hr
    obtain ⟨a, ha, k1, k2⟩ := q2 r hr
    exact ⟨a, by rw [hact1]; exact l1 a ha, k1, k2⟩
  obtain ⟨L, e1, e2, e3⟩ := UpdateBAExtensions_rays sc (CheckForBAActivation sc st sc.TickSize)
    sc.TickSize p j2
  rw [hpb1] at e1
  unfold lifecyclePass
  refine ⟨?_, ?_⟩
  · rw [e1, List.map_append, List.nodup_append]
    refine ⟨q1, e2, ?_⟩
    rw [List.disjoint_left]
    intro x hx1 hx2
    obtain ⟨r, hr, rfl⟩ := List.mem_map.1 hx1
    obtain ⟨r', hr', e⟩ := List.mem_map.1 hx2
    obtain ⟨a, ha, k1, k2⟩ := q2' r hr
    obtain ⟨b, hb, m1, m2, _⟩ := e3 r' hr'
    have hab : a = b := eq_of_nodup_key j2 ha hb (by rw [k1, ← m1, e])
    subst hab
    rw [j1 a ha k2] at m2
    exact absurd m2 (by decide)
  · intro r hr
    rw [e1] at hr
    rcases List.mem_append.1 hr with hr | hr
    · obtain ⟨a, ha, k1, k2⟩ := q2' r hr
      obtain ⟨a2, ha2, hrel⟩ := UpdateBAExtensions_active_left sc _ sc.TickSize p ha
      have : a2 = a := cutRel_not_extending hrel (j1 a ha k2)
      subst this
      exact ⟨a2, ha2, k1, k2⟩
    · obtain ⟨b, _, m1, _, a1, ha1, m3, m4⟩ := e3 r hr
      exact ⟨a1, ha1, by rw [m3, m1], m4⟩

theorem runPasses_rayInv (passes : List (SCStudyInterface × ℚ)) :
    ∀ st : s_BAStudyPersistentData, LifecycleInv st → RayInv st →
      RayInv (runPasses passes st) := by
  induction passes with
  | nil => intro st _ h; exact h
  | cons q rest ih =>
    intro st hL hR
    exact ih _ (lifecyclePass_inv q.1 q.2 st hL) (lifecyclePass_rayInv q.1 q.2 st hL hR)

/-- C35: in every state reached from a rebuild by any number of passes, no two
rays of `PBALsToDraw` have the same origin balance area
(`OriginStartProfileIndex`, `OriginEndProfileIndex`) and the same side, so
there is at most one high-side ray and at most one low-side ray per origin;
the origin of every ray is an entry of `ActiveBalanceAreas` that has been
cut. -/
theorem pbal_rays_unique (sc0 : SCStudyInterface) (inp : StudyInputs) (sqrtf : ℚ → ℚ)
    (SessionProfiles : List s_SessionProfile) (passes : List (SCStudyInterface × ℚ)) :
    ((runPasses passes (rebuildState sc0 inp sqrtf SessionProfiles)).PBALsToDraw.map
      (fun r => ((r.OriginStartProfileIndex, r.OriginEndProfileIndex), r.IsHigh))).Nodup ∧
    ∀ r ∈ (runPasses passes (rebuildState sc0 inp sqrtf SessionProfiles)).PBALsToDraw,
      ∃ a ∈ (runPasses passes (rebuildState sc0 inp sqrtf SessionProfiles)).ActiveBalanceAreas,
        a.StartProfileChronoIndex = r.OriginStartProfileIndex ∧
        a.EndProfileChronoIndex = r.OriginEndProfileIndex ∧ a.WasCut = true := by
  have hfresh := rebuildState_fresh sc0 inp sqrtf SessionProfiles
  have h0 : RayInv (rebuildState sc0 inp sqrtf SessionProfiles) := by
    refine ⟨?_, ?_⟩
    · show (([] : List s_PBALDrawingInfo).map rayKey).Nodup
      simp
    · intro r hr
      have : r ∈ ([] : List s_PBALDrawingInfo) := hr
      simp at this
  obtain ⟨r1, r2⟩ := runPasses_rayInv passes _ hfresh.inv h0
  refine ⟨r1, ?_⟩
  intro r hr
  obtain ⟨a, ha, k1, k2⟩ := r2 r hr
  exact ⟨a, ha, congrArg Prod.fst k1, congrArg Prod.snd k1, k2⟩

/-! ## The scan over the later active entries is redundant -/

theorem foldl_cutScanActive_noop (A : s_BalanceArea) (t : ℚ) (l : List s_BalanceArea)
    (s0 : CutScan)
    (h : ∀ X ∈ l, activeCutter A t X → s0.earliestCutPoint ≤ X.ActivationBarIndex) :
    l.foldl (cutScanActive A t) s0 = s0 := by
  induction l with
  | nil => rfl
  | cons X rest ih =>
    rw [List.foldl_cons]
    have hX : cutScanActive A t s0 X = s0 := by
      rw [cutScanActive_eq]
      split_ifs with hc
      · have := h X (List.mem_cons_self _ _) hc.1
        omega
      · rfl
    rw [hX]
    exact ih (fun Y hY => h Y (List.mem_cons_of_mem _ hY))

theorem cutSearch_finalizedOnly (sc : SCStudyInterface) (fin later : List s_BalanceArea)
    (t : ℚ) (A : s_BalanceArea) (h : ∀ X ∈ later, hasActivatedTwin fin X) :
    cutSearch sc fin later t A = cutSearchFinalizedOnly sc fin t A := by
  unfold cutSearch cutSearchFinalizedOnly
  apply foldl_cutScanActive_noop
  intro X hX hc
  obtain ⟨f, hf, f1, f2, f3, f4⟩ := h X hX
  obtain ⟨_, a2, _⟩ := scan_fold (finalizedCutter A t) (cutScanFinalized A t)
    (cutScanFinalized_eq A t) fin { earliestCutPoint := sc.ArraySize - 1 }
  have hfc : finalizedCutter A t f := by
    obtain ⟨c1, c2⟩ := hc
    refine ⟨f1, by rw [f2]; exact c1, ?_⟩
    unfold valueAreasIntersect at c2 ⊢
    rw [f3, f4]
    exact c2
  have := a2 f hf hfc
  rw [f2] at this
  exact this

theorem cutStep_finalizedOnly (sc : SCStudyInterface) (t p : ℚ) (later : List s_BalanceArea)
    (pd : s_BAStudyPersistentData) (a : s_BalanceArea)
    (h : ∀ X ∈ later, hasActivatedTwin pd.FinalizedBalanceAreas X) :
    cutStep sc t p later pd a = cutStepFinalizedOnly sc t p pd a := by
  unfold cutStep cutStepFinalizedOnly
  rw [cutSearch_finalizedOnly sc pd.FinalizedBalanceAreas later t a h]

theorem extensionLoop_finalizedOnly (sc : SCStudyInterface) (t p : ℚ)
    (l : List s_BalanceArea) :
    ∀ pd : s_BAStudyPersistentData, (∀ X ∈ l, hasActivatedTwin pd.FinalizedBalanceAreas X) →
      extensionLoop sc t p l pd = extensionLoopFinalizedOnly sc t p l pd := by
  induction l with
  | nil => intro pd _; rfl
  | cons a later ih =>
    intro pd h
    have hlater : ∀ X ∈ later, hasActivatedTwin pd.FinalizedBalanceAreas X :=
      fun X hX => h X (List.mem_cons_of_mem _ hX)
    have hstep := cutStep_finalizedOnly sc t p later pd a hlater
    simp only [extensionLoop, extensionLoopFinalizedOnly]
    rw [← hstep]
    have hnext := ih (cutStep sc t p later pd a).2 (by
      rw [(cutStep_frame sc t p later pd a).1]; exact hlater)
    rw [hnext]

/-- C38: when every entry of `ActiveBalanceAreas` has a finalized counterpart
with `IsActivated = true` and the same `ActivationBarIndex`, `ValueAreaHigh`
and `ValueAreaLow`, `UpdateBAExtensions` with the scan over the later active
entries removed returns the same state as the original: the same cut points
and flags in `ActiveBalanceAreas` and `FinalizedBalanceAreas`, and the same
`PBALsToDraw`. -/
theorem UpdateBAExtensions_active_scan_redundant (sc : SCStudyInterface)
    (pData : s_BAStudyPersistentData) (TickSize PBALPierceThreshold : ℚ)
    (h : activeHaveTwins pData) :
    UpdateBAExtensionsFinalizedOnly sc pData TickSize PBALPierceThreshold
      = UpdateBAExtensions sc pData TickSize PBALPierceThreshold := by
  unfold UpdateBAExtensionsFinalizedOnly UpdateBAExtensions
  have hl := extensionLoop_finalizedOnly sc TickSize PBALPierceThreshold
    (sortByActivation pData.ActiveBalanceAreas)
    { pData with ActiveBalanceAreas := sortByActivation pData.ActiveBalanceAreas }
    (fun X hX => h X ((mem_sortByActivation _ X).1 hX))
  simp only
  rw [hl]

/-- C38 on the state with `areaA` activated at bar 50 and `areaB` at bar 80:
both versions cut `areaA` at bar 80. -/
theorem UpdateBAExtensions_active_scan_redundant_witness :
    UpdateBAExtensionsFinalizedOnly (chartB 100 80) stateABActivated (1 / 4) 15
      = UpdateBAExtensions (chartB 100 80) stateABActivated (1 / 4) 15 ∧
    (UpdateBAExtensions (chartB 100 80) stateABActivated (1 / 4) 15).ActiveBalanceAreas.map
      (fun a => (a.ActivationBarIndex, a.ExtensionEndIndex, a.WasCut))
      = [(50, 80, true), (80, 99, false)] :=
  ⟨UpdateBAExtensions_active_scan_redundant (chartB 100 80) stateABActivated (1 / 4) 15
    (by decide!), by decide!⟩

theorem scanLevelRounded_id : scanLevelRounded id = scanLevel := rfl

theorem vaBodyRounded_id : vaBodyRounded id = vaBody := rfl

theorem vaLoopRounded_id (pairs : List (ℚ × ℚ)) (t : ℚ) :
    ∀ (fuel : Nat) (s : VAState), vaLoopRounded id pairs t fuel s = vaLoop pairs t fuel s := by
  intro fuel
  induction fuel with
  | zero => intro s; rfl
  | succ n ih =>
    intro s
    unfold vaLoopRounded vaLoop
    rw [vaBodyRounded_id]
    split_ifs
    · cases h : vaBody pairs s with
      | mk t b =>
        cases b with
        | true => exact ih t
        | false => rfl
    · rfl

theorem pocFallbackStepRounded_id : pocFallbackStepRounded id = pocFallbackStep := rfl

theorem vaLoopRounded_id_fun : vaLoopRounded id = vaLoop := by
  funext pairs t fuel s
  exact vaLoopRounded_id pairs t fuel s

/-- With exact arithmetic (the identity as rounding) the rounded run is the
exact run. -/
theorem CalculateProfileMetricsRunRounded_id (priceMap : PriceVolumeMap) (pct tick : ℚ) :
    CalculateProfileMetricsRunRounded id priceMap pct tick
      = CalculateProfileMetricsRun priceMap pct tick := by
  unfold CalculateProfileMetricsRunRounded
  rw [scanLevelRounded_id, pocFallbackStepRounded_id, vaLoopRounded_id_fun]
  rfl

/-! ## Rounded arithmetic that is exact on the volumes -/

theorem isWhole_iff (x : ℚ) : isWhole x ↔ ∃ n : Nat, x = n := by
  constructor
  · rintro ⟨hd, h0⟩
    refine ⟨x.num.toNat, ?_⟩
    have h1 : (x.num : ℚ) = x := Rat.coe_int_num_of_den_eq_one hd
    have h2 : 0 ≤ x.num := Rat.num_nonneg.2 h0
    calc x = (x.num : ℚ) := h1.symm
      _ = ((x.num.toNat : Int) : ℚ) := by rw [Int.toNat_of_nonneg h2]
      _ = (x.num.toNat : ℚ) := by norm_cast
  · rintro ⟨n, rfl⟩
    exact ⟨by simp, Nat.cast_nonneg n⟩

theorem exact_sub {rnd : ℚ → ℚ} {B : ℚ}
    (hrnd : ∀ n : Nat, (n : ℚ) ≤ B → rnd n = n ∧ rnd (-(n : ℚ)) = -(n : ℚ))
    (a b : Nat) (ha : (a : ℚ) ≤ B) (hb : (b : ℚ) ≤ B) : rnd ((a : ℚ) - b) = a - b := by
  have h0a : (0 : ℚ) ≤ a := Nat.cast_nonneg a
  have h0b : (0 : ℚ) ≤ b := Nat.cast_nonneg b
  rcases le_total b a with hab | hab
  · have := (hrnd (a - b) (by rw [Nat.cast_sub hab]; linarith)).1
    rwa [Nat.cast_sub hab] at this
  · have := (hrnd (b - a) (by rw [Nat.cast_sub hab]; linarith)).2
    rw [Nat.cast_sub hab, neg_sub] at this
    exact this

theorem nat_gt_eps {ε : ℚ} (h0 : 0 < ε) (h1 : ε < 1) (n : Nat) : ((n : ℚ) > ε ↔ 1 ≤ n) := by
  constructor
  · intro h
    by_contra hn
    have : n = 0 := by omega
    subst this
    simp only [Nat.cast_zero] at h
    linarith
  · intro h
    have : (1 : ℚ) ≤ n := by exact_mod_cast h
    linarith

theorem nat_sub_abs_lt_eps {ε : ℚ} (h0 : 0 < ε) (h1 : ε < 1) (a b : Nat) :
    (|(a : ℚ) - b| < ε ↔ a = b) := by
  constructor
  · intro h
    have h2 : |((a : Int) - b : Int)| < 1 := by
      have : |(((a : Int) - b : Int) : ℚ)| < 1 := by push_cast; linarith
      exact_mod_cast this
    have := Int.abs_lt_one_iff.1 h2
    omega
  · rintro rfl
    simpa using h0

/-- One map entry: with whole-number volumes inside the exact range the rounded
body of the first loop does what the exact body does. -/
theorem scanLevelRounded_exact {rnd : ℚ → ℚ} {B : ℚ}
    (heps : 0 < rnd VOL_EPS ∧ rnd VOL_EPS < 1)
    (hrnd : ∀ n : Nat, (n : ℚ) ≤ B → rnd n = n ∧ rnd (-(n : ℚ)) = -(n : ℚ))
    (s : MetricsScan) (e : ℚ × s_PriceLevelVolume) (a b c : Nat)
    (ha : s.totalVolume = a) (hb : s.maxVolumeAtPOC = b) (hc : e.2.TotalVolume = c)
    (hba : b ≤ a) (hB : (a : ℚ) + c ≤ B) :
    scanLevelRounded rnd s e = scanLevel s e ∧
    ∃ a' b' : Nat, (scanLevel s e).totalVolume = a' ∧ (scanLevel s e).maxVolumeAtPOC = b' ∧
      b' ≤ a' ∧ (a' : ℚ) ≤ a + c := by
  have h0a : (0 : ℚ) ≤ a := Nat.cast_nonneg a
  have h0c : (0 : ℚ) ≤ c := Nat.cast_nonneg c
  have hba' : (b : ℚ) ≤ a := by exact_mod_cast hba
  have e0 := VOL_EPS_pos
  have e1 : VOL_EPS < 1 := by unfold VOL_EPS; norm_num
  have c1 : (e.2.TotalVolume > rnd VOL_EPS) ↔ (e.2.TotalVolume > VOL_EPS) := by
    rw [hc, nat_gt_eps heps.1 heps.2, nat_gt_eps e0 e1]
  have c2 : rnd (s.totalVolume + e.2.TotalVolume) = s.totalVolume + e.2.TotalVolume := by
    rw [ha, hc]
    have := (hrnd (a + c) (by push_cast; exact hB)).1
    push_cast at this
    exact this
  have c3 : (|rnd (e.2.TotalVolume - s.maxVolumeAtPOC)| < rnd VOL_EPS)
      ↔ (|e.2.TotalVolume - s.maxVolumeAtPOC| < VOL_EPS) := by
    rw [hc, hb, exact_sub hrnd c b (by linarith) (by linarith),
      nat_sub_abs_lt_eps heps.1 heps.2, nat_sub_abs_lt_eps e0 e1]
  constructor
  · unfold scanLevelRounded scanLevel
    simp only [c1, c2, c3]
  · obtain ⟨_, ht⟩ := scanLevel_pairs s e
    by_cases hv : e.2.TotalVolume > VOL_EPS
    · have hmax : (scanLevel s e).maxVolumeAtPOC = b ∨ (scanLevel s e).maxVolumeAtPOC = c := by
        unfold scanLevel
        simp only [hv, if_true]
        split_ifs <;> simp [hb, hc]
      rw [if_pos hv, ha, hc] at ht
      rcases hmax with h | h
      · exact ⟨a + c, b, by rw [ht]; push_cast; rfl, h, by omega, by push_cast; linarith⟩
      · exact ⟨a + c, c, by rw [ht]; push_cast; rfl, h, by omega, by push_cast; linarith⟩
    · have hsame : scanLevel s e = s := by
        unfold scanLevel
        simp only [hv, if_false]
      rw [hsame]
      exact ⟨a, b, ha, hb, hba, by linarith⟩

theorem mapVolume_nonneg {l : PriceVolumeMap} (hw : ∀ e ∈ l, isWhole e.2.TotalVolume) :
    0 ≤ mapVolume l := by
  unfold mapVolume
  apply List.sum_nonneg
  intro x hx
  obtain ⟨e, he, rfl⟩ := List.mem_map.1 hx
  exact (hw e he).2

theorem scanRounded_fold {rnd : ℚ → ℚ} {B : ℚ}
    (heps : 0 < rnd VOL_EPS ∧ rnd VOL_EPS < 1)
    (hrnd : ∀ n : Nat, (n : ℚ) ≤ B → rnd n = n ∧ rnd (-(n : ℚ)) = -(n : ℚ)) :
    ∀ (l : PriceVolumeMap) (s : MetricsScan) (a b : Nat), s.totalVolume = a →
      s.maxVolumeAtPOC = b → b ≤ a → (∀ e ∈ l, isWhole e.2.TotalVolume) →
      (a : ℚ) + mapVolume l ≤ B →
      l.foldl (scanLevelRounded rnd) s = l.foldl scanLevel s := by
  intro l
  induction l with
  | nil => intro s a b _ _ _ _ _; rfl
  | cons e rest ih =>
    intro s a b ha hb hba hw hB
    obtain ⟨c, hc⟩ := (isWhole_iff _).1 (hw e (List.mem_cons_self _ _))
    have hrest : ∀ x ∈ rest, isWhole x.2.TotalVolume := fun x hx =>
      hw x (List.mem_cons_of_mem _ hx)
    have h0 := mapVolume_nonneg hrest
    have hsum : mapVolume (e :: rest) = c + mapVolume rest := by
      unfold mapVolume
      simp only [List.map_cons, List.sum_cons, hc]
    rw [hsum] at hB
    obtain ⟨hstep, a', b', ha', hb', hba', hle⟩ :=
      scanLevelRounded_exact heps hrnd s e a b c ha hb hc hba (by linarith)
    simp only [List.foldl_cons]
    rw [hstep]
    exact ih _ a' b' ha' hb' hba' hrest (by linarith)

/-- The first loop with rounded arithmetic is the exact first loop when the
sums of the volumes are exact. -/
theorem scanRounded_exact {rnd : ℚ → ℚ} {m : PriceVolumeMap} (hex : exactVolumeSums rnd m) :
    m.foldl (scanLevelRounded rnd) {} = m.foldl scanLevel {} := by
  obtain ⟨hw, heps, hrnd⟩ := hex
  exact scanRounded_fold heps hrnd m {} 0 0 (by simp) (by simp) (le_refl _) hw (by simp)

theorem exact_add {rnd : ℚ → ℚ} {B : ℚ}
    (hrnd : ∀ n : Nat, (n : ℚ) ≤ B → rnd n = n ∧ rnd (-(n : ℚ)) = -(n : ℚ))
    (a b : Nat) (h : (a : ℚ) + b ≤ B) : rnd ((a : ℚ) + b) = a + b := by
  have := (hrnd (a + b) (by push_cast; exact h)).1
  push_cast at this
  exact this

theorem sum_natural : ∀ L : List ℚ, (∀ x ∈ L, ∃ n : Nat, x = n) → ∃ n : Nat, L.sum = n := by
  intro L
  induction L with
  | nil => intro _; exact ⟨0, by simp⟩
  | cons x rest ih =>
    intro h
    obtain ⟨a, ha⟩ := h x (List.mem_cons_self _ _)
    obtain ⟨b, hb⟩ := ih (fun y hy => h y (List.mem_cons_of_mem _ hy))
    exact ⟨a + b, by rw [List.sum_cons, ha, hb]; push_cast; rfl⟩

/-- The volume of a stretch of whole-number levels is a whole number, at most
the volume of all levels. -/
theorem between_natural {pairs : List (ℚ × ℚ)} {B : ℚ}
    (hw : ∀ p ∈ pairs, ∃ n : Nat, p.2 = n) (hB : (pairs.map Prod.snd).sum ≤ B)
    (lo hi : Nat) (h : lo ≤ hi + 1) :
    ∃ n : Nat, prefixVolume pairs (hi + 1) - prefixVolume pairs lo = n ∧ (n : ℚ) ≤ B := by
  rw [← volumeBetween_eq pairs h]
  unfold volumeBetween
  have hsub : (((pairs.take (hi + 1)).drop lo).map Prod.snd).Sublist (pairs.map Prod.snd) :=
    ((List.drop_sublist _ _).trans (List.take_sublist _ _)).map _
  have hnat : ∀ x ∈ pairs.map Prod.snd, ∃ n : Nat, x = n := by
    intro x hx
    obtain ⟨p, hp, rfl⟩ := List.mem_map.1 hx
    exact hw p hp
  obtain ⟨n, hn⟩ := sum_natural _ (fun x hx => hnat x (hsub.subset hx))
  refine ⟨n, hn, ?_⟩
  rw [← hn]
  refine le_trans (List.Sublist.sum_le_sum hsub ?_) hB
  intro x hx
  obtain ⟨k, rfl⟩ := hnat x hx
  exact Nat.cast_nonneg k

/-- One iteration of the expansion loop: with whole-number volumes inside the
exact range the rounded body does what the exact body does. -/
theorem vaBodyRounded_exact {rnd : ℚ → ℚ} {B : ℚ}
    (heps : 0 < rnd VOL_EPS ∧ rnd VOL_EPS < 1)
    (hrnd : ∀ n : Nat, (n : ℚ) ≤ B → rnd n = n ∧ rnd (-(n : ℚ)) = -(n : ℚ))
    {pairs : List (ℚ × ℚ)} (hw : ∀ p ∈ pairs, ∃ n : Nat, p.2 = n)
    (hB : (pairs.map Prod.snd).sum ≤ B) (s : VAState) (hinv : cursorInv pairs s) :
    vaBodyRounded rnd pairs s = vaBody pairs s := by
  obtain ⟨h1, h2, h3⟩ := hinv
  have e0 := VOL_EPS_pos
  have e1 : VOL_EPS < 1 := by unfold VOL_EPS; norm_num
  -- the two neighbouring volumes and the accumulated volume are whole numbers
  -- whose sum is inside the exact range
  have hnum : ∃ nc nh nl : Nat, s.currentVolumeInVA = nc ∧
      (if decide (s.upperIndex + 1 < pairs.length) = true
        then (pairs.getD (s.upperIndex + 1) (0, 0)).2 else 0) = nh ∧
      (if decide (s.lowerIndex > 0) = true
        then (pairs.getD (s.lowerIndex - 1) (0, 0)).2 else 0) = nl ∧
      (nc : ℚ) + nh + nl ≤ B := by
    obtain ⟨nc, hnc, _⟩ := between_natural hw hB s.lowerIndex s.upperIndex (by omega)
    by_cases hH : s.upperIndex + 1 < pairs.length
    · obtain ⟨nh, hnh⟩ := hw _ (getD_mem hH)
      by_cases hL : s.lowerIndex > 0
      · obtain ⟨nl, hnl⟩ := hw _ (getD_mem (i := s.lowerIndex - 1) (by omega))
        obtain ⟨n3, hn3, hn3B⟩ :=
          between_natural hw hB (s.lowerIndex - 1) (s.upperIndex + 1) (by omega)
        refine ⟨nc, nh, nl, by rw [h3, hnc], by simp only [hH, decide_True, if_true, hnh],
          by simp only [hL, decide_True, if_true, hnl], ?_⟩
        rw [prefixVolume_succ pairs hH, hnh] at hn3
        have := prefixVolume_pred pairs hL (by omega)
        rw [hnl] at this
        rw [this] at hnc
        linarith
      · obtain ⟨n1, hn1, hn1B⟩ :=
          between_natural hw hB s.lowerIndex (s.upperIndex + 1) (by omega)
        refine ⟨nc, nh, 0, by rw [h3, hnc], by simp only [hH, decide_True, if_true, hnh],
          by simp only [hL, decide_False, Bool.false_eq_true, if_false, Nat.cast_zero], ?_⟩
        rw [prefixVolume_succ pairs hH, hnh] at hn1
        push_cast
        linarith
    · by_cases hL : s.lowerIndex > 0
      · obtain ⟨nl, hnl⟩ := hw _ (getD_mem (i := s.lowerIndex - 1) (by omega))
        obtain ⟨n2, hn2, hn2B⟩ :=
          between_natural hw hB (s.lowerIndex - 1) s.upperIndex (by omega)
        refine ⟨nc, 0, nl, by rw [h3, hnc],
          by simp only [hH, decide_False, Bool.false_eq_true, if_false, Nat.cast_zero],
          by simp only [hL, decide_True, if_true, hnl], ?_⟩
        have := prefixVolume_pred pairs hL (by omega)
        rw [hnl] at this
        rw [this] at hnc
        push_cast
        linarith
      · obtain ⟨nc', hnc', hB'⟩ := between_natural hw hB s.lowerIndex s.upperIndex (by omega)
        refine ⟨nc', 0, 0, by rw [h3, hnc'],
          by simp only [hH, decide_False, Bool.false_eq_true, if_false, Nat.cast_zero],
          by simp only [hL, decide_False, Bool.false_eq_true, if_false, Nat.cast_zero], ?_⟩
        push_cast
        linarith
  obtain ⟨nc, nh, nl, hc, hh, hl, hbound⟩ := hnum
  have h0c : (0 : ℚ) ≤ nc := Nat.cast_nonneg nc
  have h0h : (0 : ℚ) ≤ nh := Nat.cast_nonneg nh
  have h0l : (0 : ℚ) ≤ nl := Nat.cast_nonneg nl
  have f1 : rnd ((nh : ℚ) + nl) = nh + nl := exact_add hrnd nh nl (by linarith)
  have f2 : rnd ((nc : ℚ) + ((nh : ℚ) + nl)) = nc + ((nh : ℚ) + nl) := by
    have := exact_add hrnd nc (nh + nl) (by push_cast; linarith)
    push_cast at this
    exact this
  have f3 : rnd ((nc : ℚ) + nh) = nc + nh := exact_add hrnd nc nh (by linarith)
  have f4 : rnd ((nc : ℚ) + nl) = nc + nl := exact_add hrnd nc nl (by linarith)
  have f5 : rnd ((nh : ℚ) - nl) = nh - nl := exact_sub hrnd nh nl (by linarith) (by linarith)
  have g1 : ((nh : ℚ) > rnd VOL_EPS) ↔ ((nh : ℚ) > VOL_EPS) := by
    rw [nat_gt_eps heps.1 heps.2, nat_gt_eps e0 e1]
  have g2 : ((nl : ℚ) > rnd VOL_EPS) ↔ ((nl : ℚ) > VOL_EPS) := by
    rw [nat_gt_eps heps.1 heps.2, nat_gt_eps e0 e1]
  have g3 : (|(nh : ℚ) - nl| < rnd VOL_EPS) ↔ (|(nh : ℚ) - nl| < VOL_EPS) := by
    rw [nat_sub_abs_lt_eps heps.1 heps.2, nat_sub_abs_lt_eps e0 e1]
  unfold vaBodyRounded vaBody
  simp only [hc, hh, hl, f1, f2, f3, f4, f5, g1, g2, g3]

/-- The expansion loop with rounded arithmetic is the exact loop when the sums
of the volumes are exact. -/
theorem vaLoopRounded_exact {rnd : ℚ → ℚ} {B : ℚ}
    (heps : 0 < rnd VOL_EPS ∧ rnd VOL_EPS < 1)
    (hrnd : ∀ n : Nat, (n : ℚ) ≤ B → rnd n = n ∧ rnd (-(n : ℚ)) = -(n : ℚ))
    {pairs : List (ℚ × ℚ)} (hw : ∀ p ∈ pairs, ∃ n : Nat, p.2 = n)
    (hpos : ∀ p ∈ pairs, p.2 > VOL_EPS)
    (hB : (pairs.map Prod.snd).sum ≤ B) (target : ℚ) :
    ∀ (fuel : Nat) (s : VAState), cursorInv pairs s →
      vaLoopRounded rnd pairs target fuel s = vaLoop pairs target fuel s := by
  intro fuel
  induction fuel with
  | zero => intro s _; rfl
  | succ n ih =>
    intro s hinv
    unfold vaLoopRounded vaLoop
    rw [vaBodyRounded_exact heps hrnd hw hB s hinv]
    split_ifs
    · have hnext := (vaBody_cursor hpos s hinv).1
      cases hb : vaBody pairs s with
      | mk t b =>
        rw [hb] at hnext
        cases b with
        | true => exact ih t hnext
        | false => rfl
    · rfl

theorem fallbackRounded_fold {rnd : ℚ → ℚ} {B : ℚ}
    (heps : 0 < rnd VOL_EPS ∧ rnd VOL_EPS < 1)
    (hrnd : ∀ n : Nat, (n : ℚ) ≤ B → rnd n = n ∧ rnd (-(n : ℚ)) = -(n : ℚ)) :
    ∀ (l : List (Nat × (ℚ × ℚ))) (s : PocScan),
      (∀ ie ∈ l, ∃ n : Nat, ie.2.2 = n ∧ (n : ℚ) ≤ B) →
      (∃ n : Nat, s.maxVolumeAtPOC = n ∧ (n : ℚ) ≤ B) →
      l.foldl (pocFallbackStepRounded rnd) s = l.foldl pocFallbackStep s := by
  have e0 := VOL_EPS_pos
  have e1 : VOL_EPS < 1 := by unfold VOL_EPS; norm_num
  intro l
  induction l with
  | nil => intro s _ _; rfl
  | cons ie rest ih =>
    intro s hl hs
    obtain ⟨nv, hnv, hvB⟩ := hl ie (List.mem_cons_self _ _)
    obtain ⟨nm, hnm, hmB⟩ := hs
    have c : (|rnd (ie.2.2 - s.maxVolumeAtPOC)| < rnd VOL_EPS)
        ↔ (|ie.2.2 - s.maxVolumeAtPOC| < VOL_EPS) := by
      rw [hnv, hnm, exact_sub hrnd nv nm hvB hmB, nat_sub_abs_lt_eps heps.1 heps.2,
        nat_sub_abs_lt_eps e0 e1]
    have hstep : pocFallbackStepRounded rnd s ie = pocFallbackStep s ie := by
      unfold pocFallbackStepRounded pocFallbackStep
      simp only [c]
    simp only [List.foldl_cons]
    rw [hstep]
    apply ih _ (fun x hx => hl x (List.mem_cons_of_mem _ hx))
    unfold pocFallbackStep
    split_ifs
    · exact ⟨nv, hnv, hvB⟩
    · exact ⟨nm, hnm, hmB⟩
    · exact ⟨nm, hnm, hmB⟩

theorem findIdx?_congr_mem {α : Type} {p q : α → Bool} :
    ∀ (l : List α), (∀ x ∈ l, p x = q x) → l.findIdx? p = l.findIdx? q := by
  intro l h
  have : ∀ (l : List α) (n : Nat), (∀ x ∈ l, p x = q x) →
      List.findIdx? p l n = List.findIdx? q l n := by
    intro l
    induction l with
    | nil => intro n _; rfl
    | cons a rest ih =>
      intro n h
      simp only [List.findIdx?_cons]
      rw [h a (List.mem_cons_self _ _), ih (n + 1) (fun x hx => h x (List.mem_cons_of_mem _ hx))]
  exact this l 0 h

theorem levels_natural {m : PriceVolumeMap} (hw : wholeVolumes m) :
    ∀ p ∈ levelsWithVolume m, ∃ n : Nat, p.2 = n := by
  intro p hp
  unfold levelsWithVolume at hp
  obtain ⟨e, he, rfl⟩ := List.mem_map.1 hp
  exact (isWhole_iff _).1 (hw e (List.mem_filter.1 he).1)

theorem levels_sum_le {m : PriceVolumeMap} (hw : wholeVolumes m) :
    ((levelsWithVolume m).map Prod.snd).sum ≤ mapVolume m := by
  unfold levelsWithVolume mapVolume
  rw [List.map_map]
  have hsub : ((m.filter (fun e => decide (e.2.TotalVolume > VOL_EPS))).map
      (Prod.snd ∘ fun e => (e.1, e.2.TotalVolume))).Sublist (m.map (fun e => e.2.TotalVolume)) :=
    (List.filter_sublist m).map _
  refine List.Sublist.sum_le_sum hsub ?_
  intro x hx
  obtain ⟨e, he, rfl⟩ := List.mem_map.1 hx
  exact (hw e he).2

/-- On a map with volume whose volume sums are exact and on whose keys the
half-tick test is exact, the run with rounded arithmetic is the exact run with
the percentage that gives the rounded target. -/
theorem runRounded_exact {rnd : ℚ → ℚ} {m : PriceVolumeMap} (pct pct' tick : ℚ)
    (hex : exactVolumeSums rnd m) (hhalf : halfTickTestExact rnd m tick)
    (hne : levelsWithVolume m ≠ [])
    (hpct : ((levelsWithVolume m).map Prod.snd).sum * (pct' / 100)
      = rnd (((levelsWithVolume m).map Prod.snd).sum * rnd (pct / 100))) :
    CalculateProfileMetricsRunRounded rnd m pct tick = CalculateProfileMetricsRun m pct' tick := by
  have hscan := scanRounded_exact hex
  obtain ⟨hw, heps, hrnd⟩ := hex
  have e0 := VOL_EPS_pos
  have e1 : VOL_EPS < 1 := by unfold VOL_EPS; norm_num
  have hmap : m.isEmpty = false := by
    cases m with
    | nil => exact absurd rfl hne
    | cons _ _ => rfl
  obtain ⟨hp, ht⟩ := scan_pairs m {}
  simp only [List.nil_append, zero_add] at hp ht
  have hpoc := scan_poc m {} (fun _ => rfl) (fun h => absurd rfl h)
  rw [hp] at hpoc
  have hpoc' := hpoc hne
  have hlevels := levels_natural hw
  have hsumB := levels_sum_le hw
  have hpairsW : ∀ p ∈ sortByPrice (levelsWithVolume m), ∃ n : Nat, p.2 = n := fun p hp =>
    hlevels p ((sortByPrice_perm _).mem_iff.1 hp)
  have hpairsPos : ∀ p ∈ sortByPrice (levelsWithVolume m), p.2 > VOL_EPS := fun p hp =>
    levelsWithVolume_pos m p ((sortByPrice_perm _).mem_iff.1 hp)
  have hpairsB : ((sortByPrice (levelsWithVolume m)).map Prod.snd).sum ≤ mapVolume m := by
    rw [((sortByPrice_perm _).map Prod.snd).sum_eq]
    exact hsumB
  have hlen : 0 < (sortByPrice (levelsWithVolume m)).length := by
    rw [(sortByPrice_perm _).length_eq]
    exact List.length_pos.2 hne
  -- the total is a whole number above both epsilons
  obtain ⟨nT, hnT⟩ := sum_natural ((levelsWithVolume m).map Prod.snd) (by
    intro x hx
    obtain ⟨p, hp, rfl⟩ := List.mem_map.1 hx
    exact hlevels p hp)
  have hTpos := levelsWithVolume_sum_pos m hne
  have hV : ¬ ((m.foldl scanLevel {}).totalVolume ≤ VOL_EPS ∨
      (m.foldl scanLevel {}).priceVolPairs.isEmpty = true) := by
    rw [ht, hp]
    rintro (h | h)
    · exact absurd hTpos (not_lt.2 h)
    · exact hne (List.isEmpty_iff.1 h)
  have hVr : ¬ ((m.foldl scanLevel {}).totalVolume ≤ rnd VOL_EPS ∨
      (m.foldl scanLevel {}).priceVolPairs.isEmpty = true) := by
    rw [ht, hp]
    rintro (h | h)
    · rw [hnT] at h hTpos
      have := (nat_gt_eps heps.1 heps.2 nT).2 ((nat_gt_eps e0 e1 nT).1 hTpos)
      exact absurd this (not_lt.2 h)
    · exact hne (List.isEmpty_iff.1 h)
  -- the half-tick search
  have hfind : (sortByPrice (m.foldl scanLevel {}).priceVolPairs).findIdx?
      (fun p => decide (|rnd (p.1 - (m.foldl scanLevel {}).poc)| < rnd (tick / 2)))
      = (sortByPrice (m.foldl scanLevel {}).priceVolPairs).findIdx?
      (fun p => decide (|p.1 - (m.foldl scanLevel {}).poc| < tick / 2)) := by
    apply findIdx?_congr_mem
    intro x hx
    rw [hp] at hx
    obtain ⟨a, ha, hak⟩ := levelsWithVolume_key m _ ((sortByPrice_perm _).mem_iff.1 hx)
    obtain ⟨q, hq, hqk⟩ := List.mem_map.1 hpoc'
    obtain ⟨b, hb, hbk⟩ := levelsWithVolume_key m _ hq
    have := hhalf a ha b hb
    rw [hak, hbk, hqk] at this
    exact decide_eq_decide.2 this
  -- the fallback search
  have hfall : (sortByPrice (m.foldl scanLevel {}).priceVolPairs).enum.foldl
      (pocFallbackStepRounded rnd)
      { maxVolumeAtPOC := 0, pocIndex := 0,
        poc := ((sortByPrice (m.foldl scanLevel {}).priceVolPairs).getD 0 (0, 0)).1 }
      = (sortByPrice (m.foldl scanLevel {}).priceVolPairs).enum.foldl pocFallbackStep
      { maxVolumeAtPOC := 0, pocIndex := 0,
        poc := ((sortByPrice (m.foldl scanLevel {}).priceVolPairs).getD 0 (0, 0)).1 } := by
    apply fallbackRounded_fold heps hrnd
    · intro ie hie
      rw [hp] at hie
      rw [List.mem_enum_iff_getElem?] at hie
      have hmem : ie.2 ∈ sortByPrice (levelsWithVolume m) := List.getElem?_mem hie
      obtain ⟨n, hn⟩ := hpairsW _ hmem
      refine ⟨n, hn, ?_⟩
      rw [← hn]
      refine le_trans (List.single_le_sum ?_ _ (List.mem_map_of_mem Prod.snd hmem)) hpairsB
      intro x hx
      obtain ⟨p, hp', rfl⟩ := List.mem_map.1 hx
      exact le_of_lt (lt_trans e0 (hpairsPos p hp'))
    · exact ⟨0, by simp, by
        simp only [Nat.cast_zero]
        exact mapVolume_nonneg hw⟩
  have hloop := vaLoopRounded_exact heps hrnd hpairsW hpairsPos hpairsB
  unfold CalculateProfileMetricsRunRounded CalculateProfileMetricsRun
  simp only [hmap, Bool.false_eq_true, if_false, hscan, hVr, hV]
  rw [hfind, hfall]
  rw [hp, ht] at *
  rw [hpct]
  have hloop' : ∀ s, cursorInv (sortByPrice (levelsWithVolume m)) s →
      vaLoopRounded rnd (sortByPrice (levelsWithVolume m))
        (rnd (((levelsWithVolume m).map Prod.snd).sum * rnd (pct / 100)))
        (sortByPrice (levelsWithVolume m)).length s
      = vaLoop (sortByPrice (levelsWithVolume m))
        (rnd (((levelsWithVolume m).map Prod.snd).sum * rnd (pct / 100)))
        (sortByPrice (levelsWithVolume m)).length s := fun s h => hloop _ _ s h
  cases hfound : (sortByPrice (levelsWithVolume m)).findIdx?
      (fun p => decide (|p.1 - (m.foldl scanLevel {}).poc| < tick / 2)) with
  | some i =>
    obtain ⟨hi, _, _⟩ := List.findIdx?_eq_some_iff_getElem.1 hfound
    simp only [hi, if_true]
    rw [hloop' _ ⟨le_refl _, hi, by simp only; rw [prefixVolume_succ _ hi]; ring⟩]
  | none =>
    simp only
    generalize (sortByPrice (levelsWithVolume m)).enum.foldl pocFallbackStep
        { maxVolumeAtPOC := 0, pocIndex := 0,
          poc := ((sortByPrice (levelsWithVolume m)).getD 0 (0, 0)).1 } = ps
    by_cases hi : ps.pocIndex < (sortByPrice (levelsWithVolume m)).length
    · simp only [hi, if_true]
      rw [hloop' _ ⟨le_refl _, hi, by simp only; rw [prefixVolume_succ _ hi]; ring⟩]
    · simp only [hi, if_false]
      rw [hloop' _ ⟨le_refl _, hlen, by simp only; rw [prefixVolume_succ _ hlen]; ring⟩]

/-- The total volume returned with rounded arithmetic is the exact sum of the
volumes when the volume sums are exact. -/
theorem roundedTotal_exact {rnd : ℚ → ℚ} {m : PriceVolumeMap} (hex : exactVolumeSums rnd m)
    (pct tick : ℚ) :
    (CalculateProfileMetricsRounded rnd m pct tick).totalVolume
      = ((levelsWithVolume m).map Prod.snd).sum := by
  have hscan := scanRounded_exact hex
  obtain ⟨_, ht⟩ := scan_pairs m {}
  simp only [zero_add] at ht
  unfold CalculateProfileMetricsRounded CalculateProfileMetricsRunRounded
  rw [hscan]
  cases m with
  | nil => simp [levelsWithVolume]
  | cons e rest =>
    simp only [List.isEmpty_cons, Bool.false_eq_true, if_false]
    split_ifs <;> exact ht

theorem exactVolumeSums_perm {rnd : ℚ → ℚ} {m1 m2 : PriceVolumeMap} (hperm : m1.Perm m2)
    (hex : exactVolumeSums rnd m1) : exactVolumeSums rnd m2 := by
  obtain ⟨hw, heps, hrnd⟩ := hex
  refine ⟨fun e he => hw e (hperm.mem_iff.2 he), heps, fun n hn => hrnd n ?_⟩
  have : mapVolume m1 = mapVolume m2 := by
    unfold mapVolume
    exact (hperm.map _).sum_eq
  rw [this]
  exact hn

theorem wholeVolumes_separated {m : PriceVolumeMap} (hw : wholeVolumes m) :
    volumesSeparated m := by
  intro a ha b hb hlt
  obtain ⟨x, hx⟩ := (isWhole_iff _).1 (hw a ha)
  obtain ⟨y, hy⟩ := (isWhole_iff _).1 (hw b hb)
  rw [hx, hy] at hlt ⊢
  have := (nat_sub_abs_lt_eps VOL_EPS_pos (by unfold VOL_EPS; norm_num) x y).1 hlt
  rw [this]

/-- The exactness condition from a bound `N` on the total volume. -/
theorem exactVolumeSums_of_bound (rnd : ℚ → ℚ) (m : PriceVolumeMap) (N : Nat)
    (hw : wholeVolumes m) (heps : 0 < rnd VOL_EPS ∧ rnd VOL_EPS < 1)
    (hN : mapVolume m ≤ N)
    (h : ∀ n : Nat, n ≤ N → rnd n = n ∧ rnd (-(n : ℚ)) = -(n : ℚ)) :
    exactVolumeSums rnd m :=
  ⟨hw, heps, fun n hn => h n (by exact_mod_cast le_trans hn hN)⟩

theorem runRounded_perm {rnd : ℚ → ℚ} {m1 m2 : PriceVolumeMap} (hperm : m1.Perm m2)
    (hu : uniqueKeys m1) (hex : exactVolumeSums rnd m1) (pct tick : ℚ) :
    CalculateProfileMetricsRunRounded rnd m1 pct tick
      = CalculateProfileMetricsRunRounded rnd m2 pct tick := by
  have hscan1 := scanRounded_exact hex
  have hscan2 := scanRounded_exact (exactVolumeSums_perm hperm hex)
  have hsep := wholeVolumes_separated hex.1
  obtain ⟨hp1, ht1⟩ := scan_pairs m1 {}
  obtain ⟨hp2, ht2⟩ := scan_pairs m2 {}
  simp only [List.nil_append, zero_add] at hp1 ht1 hp2 ht2
  have hT : (m1.foldl scanLevel {}).totalVolume = (m2.foldl scanLevel {}).totalVolume := by
    rw [ht1, ht2]
    exact ((levelsWithVolume_perm hperm).map Prod.snd).sum_eq
  have hE : (m1.foldl scanLevel {}).priceVolPairs.isEmpty
      = (m2.foldl scanLevel {}).priceVolPairs.isEmpty := by
    rw [hp1, hp2]
    exact (levelsWithVolume_perm hperm).isEmpty_eq
  have hS : sortByPrice (m1.foldl scanLevel {}).priceVolPairs
      = sortByPrice (m2.foldl scanLevel {}).priceVolPairs := by
    rw [hp1, hp2]
    exact sortByPrice_levels_perm hperm hu
  obtain ⟨hmax, hpoc⟩ := scan_pick_perm hperm hsep
  obtain ⟨hhi, hlo⟩ := scan_extremes_perm hperm
  have hK := scanKey_perm hperm
  have hEmpty : m1.isEmpty = m2.isEmpty := hperm.isEmpty_eq
  unfold CalculateProfileMetricsRunRounded
  simp only [hEmpty, hscan1, hscan2, hT, hE, hS, hmax, hpoc, hhi, hlo, hK]

/-- C27 (amended): for every map with pairwise different keys whose volumes
are whole numbers, and every rounding that is exact on the whole numbers up to
the total volume of the map (as the rounding to `float` is up to 2 ^ 24), any
two enumeration orders of the entries give the same six outputs of
`CalculateProfileMetrics` (POC, VAH, VAL, highest, lowest, total volume). -/
theorem CalculateProfileMetricsRounded_order_independent (rnd : ℚ → ℚ)
    (m1 m2 : PriceVolumeMap) (hperm : m1.Perm m2) (hu : uniqueKeys m1)
    (hexact : exactVolumeSums rnd m1) (pct tick : ℚ) :
    CalculateProfileMetricsRounded rnd m1 pct tick
      = CalculateProfileMetricsRounded rnd m2 pct tick := by
  unfold CalculateProfileMetricsRounded
  rw [runRounded_perm hperm hu hexact pct tick]

/-- C27 (amended) on the three levels 10, 11, 12 (volumes 2, 2, 5) enumerated
forwards and backwards, with the rounding to `float`. -/
theorem CalculateProfileMetricsRounded_order_independent_witness :
    CalculateProfileMetricsRounded roundFloat threeLevels 70 1
      = CalculateProfileMetricsRounded roundFloat threeLevels.reverse 70 1 :=
  CalculateProfileMetricsRounded_order_independent roundFloat threeLevels threeLevels.reverse
    (List.reverse_perm threeLevels).symm (by decide!)
    (exactVolumeSums_of_bound roundFloat threeLevels 9 (by decide!) (by decide!) (by decide!)
      (by decide!)) 70 1

/-- C27 as stated fails: the map with the levels 10, 11 and 12 of volumes
16777216, 1 and 1 (pairwise different keys, whole-number volumes) has, with the
rounding to `float`, the total volume 16777216 and the value area 10..10 when
it is enumerated in the order 10, 11, 12, and the total volume 16777218 and the
value area 10..12 when it is enumerated in the order 11, 12, 10. -/
theorem CalculateProfileMetricsRounded_order_dependent :
    largeVolumeLevels.Perm largeVolumeLevelsReordered ∧ uniqueKeys largeVolumeLevels ∧
    wholeVolumes largeVolumeLevels ∧
    CalculateProfileMetricsRounded roundFloat largeVolumeLevels 100 1
      = { poc := 10, valueAreaHigh := 10, valueAreaLow := 10, highestPrice := 12,
          lowestPrice := 10, totalVolume := 16777216 } ∧
    CalculateProfileMetricsRounded roundFloat largeVolumeLevelsReordered 100 1
      = { poc := 10, valueAreaHigh := 12, valueAreaLow := 10, highestPrice := 12,
          lowestPrice := 10, totalVolume := 16777218 } :=
  ⟨by decide, by decide!, by decide!, by decide!, by decide!⟩

theorem levels_ne_of_total {rnd : ℚ → ℚ} {m : PriceVolumeMap} (hex : exactVolumeSums rnd m)
    {pct tick : ℚ} (hvol : 0 < (CalculateProfileMetricsRounded rnd m pct tick).totalVolume) :
    levelsWithVolume m ≠ [] := by
  intro hnil
  rw [roundedTotal_exact hex, hnil] at hvol
  simp at hvol

theorem exactTotal_main (m : PriceVolumeMap) (pct tick : ℚ) (hne : levelsWithVolume m ≠ []) :
    (CalculateProfileMetricsRun m pct tick).out.totalVolume
        = ((levelsWithVolume m).map Prod.snd).sum ∧
    (CalculateProfileMetricsRun m pct tick).targetVolume
        = ((levelsWithVolume m).map Prod.snd).sum * (pct / 100) := by
  obtain ⟨i, poc, _, hrun, _⟩ := run_main m pct tick hne
  rw [hrun]
  exact ⟨rfl, rfl⟩

/-- C33 (amended): for every map with whole-number volumes and positive total
volume whose distinct keys differ by at least one tick, and every rounding
that is exact on the whole numbers up to the total volume of the map and that
leaves the half-tick test on the keys exact, `CalculateProfileMetrics` with
value-area percentage 100 returns `valueAreaLow = lowestPrice` and
`valueAreaHigh = highestPrice`. -/
theorem valueAreaRounded_full_at_100 (rnd : ℚ → ℚ) (priceMap : PriceVolumeMap) (tick : ℚ)
    (hexact : exactVolumeSums rnd priceMap) (hhalf : halfTickTestExact rnd priceMap tick)
    (hvol : 0 < (CalculateProfileMetricsRounded rnd priceMap 100 tick).totalVolume)
    (hapart : keysOneTickApart priceMap tick) (hfin : finiteKeys priceMap) :
    (CalculateProfileMetricsRounded rnd priceMap 100 tick).valueAreaLow
        = (CalculateProfileMetricsRounded rnd priceMap 100 tick).lowestPrice ∧
    (CalculateProfileMetricsRounded rnd priceMap 100 tick).valueAreaHigh
        = (CalculateProfileMetricsRounded rnd priceMap 100 tick).highestPrice := by
  have hne := levels_ne_of_total hexact hvol
  have hT := roundedTotal_exact hexact 100 tick
  rw [hT] at hvol
  obtain ⟨nT, hnT⟩ := sum_natural ((levelsWithVolume priceMap).map Prod.snd) (by
    intro x hx
    obtain ⟨p, hp, rfl⟩ := List.mem_map.1 hx
    exact levels_natural hexact.1 p hp)
  have hle := levels_sum_le hexact.1
  have h1T : 1 ≤ nT := by
    rw [hnT] at hvol
    have : 0 < nT := by exact_mod_cast hvol
    omega
  have hr1 : rnd 1 = 1 := by
    have := (hexact.2.2 1 (by
      rw [hnT] at hle
      have : (1 : ℚ) ≤ nT := by exact_mod_cast h1T
      push_cast
      linarith)).1
    simpa using this
  have hrT : rnd (nT : ℚ) = nT := (hexact.2.2 nT (by rw [← hnT]; exact hle)).1
  have hpct : ((levelsWithVolume priceMap).map Prod.snd).sum * (100 / 100)
      = rnd (((levelsWithVolume priceMap).map Prod.snd).sum * rnd (100 / 100)) := by
    have h100 : (100 : ℚ) / 100 = 1 := by norm_num
    rw [h100, hr1, mul_one, hnT, hrT]
  have hrun := runRounded_exact 100 100 tick hexact hhalf hne hpct
  have hvol' : 0 < (CalculateProfileMetrics priceMap 100 tick).totalVolume := by
    unfold CalculateProfileMetrics
    rw [(exactTotal_main priceMap 100 tick hne).1]
    exact hvol
  unfold CalculateProfileMetricsRounded
  rw [hrun]
  exact valueArea_full_at_100 priceMap tick hvol' hapart hfin

/-- C33 (amended) on the three-level map with tick 1 and the rounding to
`float`: at 100 percent the value area is the traded range 10..12. -/
theorem valueAreaRounded_full_at_100_witness :
    (CalculateProfileMetricsRounded roundFloat threeLevels 100 1).valueAreaLow = 10 ∧
    (CalculateProfileMetricsRounded roundFloat threeLevels 100 1).valueAreaHigh = 12 ∧
    (CalculateProfileMetricsRounded roundFloat threeLevels 100 1).lowestPrice = 10 ∧
    (CalculateProfileMetricsRounded roundFloat threeLevels 100 1).highestPrice = 12 :=
  ⟨(valueAreaRounded_full_at_100 roundFloat threeLevels 1
      (exactVolumeSums_of_bound roundFloat threeLevels 9 (by decide!) (by decide!) (by decide!)
        (by decide!)) (by decide!) (by decide!) (by decide!) (by decide!)).1.trans (by decide!),
    (valueAreaRounded_full_at_100 roundFloat threeLevels 1
      (exactVolumeSums_of_bound roundFloat threeLevels 9 (by decide!) (by decide!) (by decide!)
        (by decide!)) (by decide!) (by decide!) (by decide!) (by decide!)).2.trans (by decide!),
    by decide!, by decide!⟩

/-- C33 as stated fails: the map with the levels 10, 11 and 12 of volumes
16777216, 1 and 1 (positive total volume, keys one tick apart), enumerated in
this order, gets with the rounding to `float` the total volume 16777216, which
the POC level alone reaches; at 100 percent the expansion loop does not run
and `valueAreaHigh` stays at 10 while `highestPrice` is 12. -/
theorem valueAreaRounded_not_full_at_100 :
    0 < (CalculateProfileMetricsRounded roundFloat largeVolumeLevels 100 1).totalVolume ∧
    keysOneTickApart largeVolumeLevels 1 ∧ finiteKeys largeVolumeLevels ∧
    (CalculateProfileMetricsRounded roundFloat largeVolumeLevels 100 1).valueAreaHigh = 10 ∧
    (CalculateProfileMetricsRounded roundFloat largeVolumeLevels 100 1).highestPrice = 12 ∧
    (CalculateProfileMetricsRunRounded roundFloat largeVolumeLevels 100 1).targetVolume
      = 16777216 := by
  decide!

/-- C2 (amended): for every map with whole-number volumes, positive total
volume and pairwise different keys at least half a tick apart (tick size
positive), and every rounding that is exact on the whole numbers up to the
total volume of the map and leaves the half-tick test on the keys exact: when
`CalculateProfileMetrics` returns, the volume accumulated in the value area is
the sum of the volumes of the levels between the two cursors, which are the
levels priced in `[valueAreaLow, valueAreaHigh]`, and it is at least the target
volume of line 465, the rounded product of the total volume and the rounded
`pct / 100`, unless every level has been consumed, in which case it equals the
total volume. -/
theorem valueAreaRounded_volume_reaches_target (rnd : ℚ → ℚ) (priceMap : PriceVolumeMap)
    (pct tick : ℚ)
    (hexact : exactVolumeSums rnd priceMap) (hhalf : halfTickTestExact rnd priceMap tick)
    (htick : 0 < tick) (hsep : keysSeparated priceMap tick) (hu : uniqueKeys priceMap)
    (hvol : 0 < (CalculateProfileMetricsRounded rnd priceMap pct tick).totalVolume) :
    ∃ s, (CalculateProfileMetricsRunRounded rnd priceMap pct tick).va = some s ∧
      s.lowerIndex ≤ s.upperIndex ∧
      s.upperIndex
        < (CalculateProfileMetricsRunRounded rnd priceMap pct tick).priceVolPairs.length ∧
      s.currentVolumeInVA = volumeBetween
        (CalculateProfileMetricsRunRounded rnd priceMap pct tick).priceVolPairs
        s.lowerIndex s.upperIndex ∧
      s.currentVolumeInVA = volumeInPriceRange
        (CalculateProfileMetricsRunRounded rnd priceMap pct tick).priceVolPairs
        (CalculateProfileMetricsRounded rnd priceMap pct tick).valueAreaLow
        (CalculateProfileMetricsRounded rnd priceMap pct tick).valueAreaHigh ∧
      (CalculateProfileMetricsRunRounded rnd priceMap pct tick).targetVolume
        = rnd ((CalculateProfileMetricsRounded rnd priceMap pct tick).totalVolume
            * rnd (pct / 100)) ∧
      ((CalculateProfileMetricsRunRounded rnd priceMap pct tick).targetVolume
          ≤ s.currentVolumeInVA ∨
        (s.lowerIndex = 0 ∧
          s.upperIndex + 1
            = (CalculateProfileMetricsRunRounded rnd priceMap pct tick).priceVolPairs.length ∧
          s.currentVolumeInVA
            = (CalculateProfileMetricsRounded rnd priceMap pct tick).totalVolume)) := by
  have hne := levels_ne_of_total hexact hvol
  have hT := roundedTotal_exact hexact pct tick
  rw [hT] at hvol
  have hpct : ((levelsWithVolume priceMap).map Prod.snd).sum *
      (rnd (((levelsWithVolume priceMap).map Prod.snd).sum * rnd (pct / 100)) * 100
        / ((levelsWithVolume priceMap).map Prod.snd).sum / 100)
      = rnd (((levelsWithVolume priceMap).map Prod.snd).sum * rnd (pct / 100)) := by
    have hne0 : ((levelsWithVolume priceMap).map Prod.snd).sum ≠ 0 := ne_of_gt hvol
    field_simp
    ring
  have hrun := runRounded_exact pct _ tick hexact hhalf hne hpct
  obtain ⟨ht1, ht2⟩ := exactTotal_main priceMap
    (rnd (((levelsWithVolume priceMap).map Prod.snd).sum * rnd (pct / 100)) * 100
        / ((levelsWithVolume priceMap).map Prod.snd).sum) tick hne
  rw [hpct] at ht2
  have hvol' : 0 < (CalculateProfileMetrics priceMap
      (rnd (((levelsWithVolume priceMap).map Prod.snd).sum * rnd (pct / 100)) * 100
        / ((levelsWithVolume priceMap).map Prod.snd).sum) tick).totalVolume := by
    unfold CalculateProfileMetrics
    rw [ht1]
    exact hvol
  obtain ⟨s, c1, c2, c3, c4, c5, c6⟩ := valueArea_volume_reaches_target priceMap _ tick hvol'
  have c6' := c6 htick hsep hu
  unfold CalculateProfileMetrics at c5 c6'
  rw [ht1, hpct] at c5
  unfold CalculateProfileMetricsRounded
  rw [hrun]
  refine ⟨s, c1, c2, c3, c4, c6', ?_, ?_⟩
  · rw [ht1, ht2]
  · rw [ht1, ht2]
    exact c5

/-- C2 (amended) on the three-level map with percentage 70, tick size 1 and
the rounding to `float`: the loop stops with the levels 11 and 12 consumed and
the accumulated volume 7, above the rounded target. -/
theorem valueAreaRounded_volume_reaches_target_witness :
    0 < (CalculateProfileMetricsRounded roundFloat threeLevels 70 1).totalVolume ∧
    ∃ s, (CalculateProfileMetricsRunRounded roundFloat threeLevels 70 1).va = some s ∧
      s.currentVolumeInVA = 7 ∧
      (CalculateProfileMetricsRunRounded roundFloat threeLevels 70 1).targetVolume
        ≤ s.currentVolumeInVA := by
  have h0 : 0 < (CalculateProfileMetricsRounded roundFloat threeLevels 70 1).totalVolume := by
    decide!
  obtain ⟨s, h1, _, _, _, _, _, _⟩ := valueAreaRounded_volume_reaches_target roundFloat
    threeLevels 70 1
    (exactVolumeSums_of_bound roundFloat threeLevels 9 (by decide!) (by decide!) (by decide!)
      (by decide!)) (by decide!) (by norm_num) (by decide!) (by decide!) h0
  have h2 : (CalculateProfileMetricsRunRounded roundFloat threeLevels 70 1).va
      = some { currentVolumeInVA := 7, valueAreaHigh := 12, valueAreaLow := 11,
               upperIndex := 2, lowerIndex := 1 } := by decide!
  rw [h2] at h1
  simp only [Option.some.injEq] at h1
  subst h1
  exact ⟨h0, _, h2, rfl, by decide!⟩

/-- C2 as stated fails in `float` arithmetic.  On the three-level map (volumes
2, 2, 5) with the percentage 14563557/262144, a `float` a little above 500/9,
the rounded target is 5, which the POC level alone reaches: the loop does not
run and the accumulated volume 5 is below `totalVolume * pct / 100` although
two levels are left.  On the map with the volumes 16777216, 1 and 1 enumerated
in the order 11, 12, 10 the total volume is 16777218; at 100 percent every
level is consumed, and the accumulated volume is 16777216, not the total
volume. -/
theorem valueAreaRounded_below_target :
    (roundFloat (14563557 / 262144) = 14563557 / 262144 ∧
      (CalculateProfileMetricsRounded roundFloat threeLevels (14563557 / 262144) 1).totalVolume
        = 9 ∧
      (CalculateProfileMetricsRunRounded roundFloat threeLevels (14563557 / 262144) 1).va
        = some { currentVolumeInVA := 5, valueAreaHigh := 12, valueAreaLow := 12,
                 upperIndex := 2, lowerIndex := 2 } ∧
      (CalculateProfileMetricsRunRounded roundFloat threeLevels
        (14563557 / 262144) 1).targetVolume = 5 ∧
      ¬ ((9 : ℚ) * ((14563557 / 262144) / 100) ≤ 5)) ∧
    ((CalculateProfileMetricsRounded roundFloat largeVolumeLevelsReordered 100 1).totalVolume
        = 16777218 ∧
      (CalculateProfileMetricsRunRounded roundFloat largeVolumeLevelsReordered 100 1).va
        = some { currentVolumeInVA := 16777216, valueAreaHigh := 12, valueAreaLow := 10,
                 upperIndex := 2, lowerIndex := 0 } ∧
      (CalculateProfileMetricsRunRounded roundFloat largeVolumeLevelsReordered
        100 1).priceVolPairs.length = 3 ∧
      ¬ ((16777218 : ℚ) * (100 / 100) ≤ 16777216)) := by
  decide!

/-! ## Keys on the tick grid -/

theorem grid_apart {t x y : ℚ} (ht : 0 < t) (hx : (x / t).den = 1) (hy : (y / t).den = 1)
    (hne : x ≠ y) : t ≤ |x - y| := by
  have ex : ((x / t).num : ℚ) = x / t := Rat.coe_int_num_of_den_eq_one hx
  have ey : ((y / t).num : ℚ) = y / t := Rat.coe_int_num_of_den_eq_one hy
  have hxy : x - y = (((x / t).num - (y / t).num : Int) : ℚ) * t := by
    push_cast
    rw [ex, ey]
    field_simp
  have hz : (x / t).num - (y / t).num ≠ 0 := by
    intro h
    apply hne
    have : x - y = 0 := by rw [hxy, h]; simp
    linarith
  have h1 : (1 : ℚ) ≤ |(((x / t).num - (y / t).num : Int) : ℚ)| := by
    have := Int.one_le_abs hz
    exact_mod_cast this
  rw [hxy, abs_mul, abs_of_pos ht]
  nlinarith

/-- Keys on the tick grid are at least one tick apart when they differ. -/
theorem onTickGrid_keysOneTickApart {priceMap : PriceVolumeMap} {TickSize : ℚ}
    (ht : 0 < TickSize) (h : onTickGrid priceMap TickSize) :
    keysOneTickApart priceMap TickSize :=
  fun a ha b hb hne => grid_apart ht (h a ha) (h b hb) hne

/-- Keys on the tick grid are at least half a tick apart when they differ. -/
theorem onTickGrid_keysSeparated {priceMap : PriceVolumeMap} {TickSize : ℚ}
    (ht : 0 < TickSize) (h : onTickGrid priceMap TickSize) :
    keysSeparated priceMap TickSize := by
  intro a ha b hb hne
  have := grid_apart ht (h a ha) (h b hb) hne
  linarith

/-- Sessions with keys on the tick grid have distinct keys at least half a
tick apart, within one profile and across profiles. -/
theorem sessionsOnTickGrid_keysSeparated {SessionProfiles : List s_SessionProfile}
    {TickSize : ℚ} (ht : 0 < TickSize) (h : sessionsOnTickGrid SessionProfiles TickSize) :
    sessionKeysSeparated SessionProfiles TickSize := by
  intro p hp q hq a ha b hb hne
  have := grid_apart ht (h p hp a ha) (h q hq b hb) hne
  linarith

/-! ## Degenerate ranges in `CalculateRangeOverlapPercent_RelativeToSmaller` -/

/-- C3 on a growing chart: with 60 bars on the chart, both balance areas are
finalized (they end at bars 29 and 49); `areaEarly` (value area 90..100) is
activated at bar 30, which sets its `ExtensionEndIndex` to 59, and `areaLate`
(value area 95..105) is not activated.  The chart then grows without a
rebuild; when it has 81 bars, `areaLate` is activated at the newest bar 80.
`areaLate` is a cutter of `areaEarly` (activated strictly later, value areas
intersecting in 95..100), but the test `earliestCutPoint < ExtensionEndIndex`
of line 710 compares bar 80 with the stale end 59: `areaEarly` is left
extending and uncut, with its extension end still at bar 59, in this pass and
in the pass on 100 bars, where bar 80 lies well before the chart end.  On a
chart that has 100 bars at the activation of `areaEarly` the same two balance
areas give the cut at bar 80. -/
theorem UpdateBAExtensions_stale_extension_end :
    areaEarly.EndBarIndex < 60 ∧ areaLate.EndBarIndex < 60 ∧
    (lifecyclePass (chartGrowing 60) 15 stateGrowing).ActiveBalanceAreas.map
        (fun a => (keyOf a, a.ActivationBarIndex, a.IsExtending, a.ExtensionEndIndex, a.WasCut))
      = [((0, 1), 30, true, 59, false)] ∧
    isCutterOf
      (CheckForBAActivation (chartGrowing 81) (lifecyclePass (chartGrowing 60) 15 stateGrowing)
        (1 / 4))
      (1 / 4) (activateAt (chartGrowing 60) areaEarly 30 true)
      (activateAt (chartGrowing 81) areaLate 80 true) ∧
    (runPasses [(chartGrowing 60, 15), (chartGrowing 81, 15)] stateGrowing).ActiveBalanceAreas.map
        (fun a => (keyOf a, a.ActivationBarIndex, a.IsExtending, a.ExtensionEndIndex, a.WasCut))
      = [((0, 1), 30, true, 59, false), ((2, 3), 80, true, 80, false)] ∧
    (runPasses [(chartGrowing 60, 15), (chartGrowing 81, 15), (chartGrowing 100, 15)]
        stateGrowing).ActiveBalanceAreas.map
        (fun a => (keyOf a, a.ActivationBarIndex, a.IsExtending, a.ExtensionEndIndex, a.WasCut))
      = [((0, 1), 30, true, 59, false), ((2, 3), 80, true, 80, false)] ∧
    (runPasses [(chartGrowing 100, 15)] stateGrowing).ActiveBalanceAreas.map
        (fun a => (keyOf a, a.ActivationBarIndex, a.IsExtending, a.ExtensionEndIndex, a.WasCut))
      = [((0, 1), 30, false, 80, true), ((2, 3), 80, true, 99, false)] :=
  ⟨by decide!, by decide!, by decide!, by decide!, by decide!, by decide!, by decide!⟩

/-! ## The bound on the result of `CheckTemporalProximity` -/

/-- C24 as stated fails on the bound: for the balance areas over the profiles
6..7 (as the first) and 0..1 (as the second) of a list of three balance areas,
all inside a list of eight profiles, the second starts before the end of the
first, the function returns 0, and 0 is not between 0 and
`0 - 7 - 1 = -8`. -/
theorem CheckTemporalProximity_bound_fails :
    membersWithinBounds gappedAreas ∧
    (gappedAreas.getD 2 {}).EndProfileChronoIndex = 7 ∧
    (gappedAreas.getD 0 {}).StartProfileChronoIndex = 0 ∧
    CheckTemporalProximity 2 0 (List.replicate 8 {}) gappedAreas = 0 ∧
    ¬ (CheckTemporalProximity 2 0 (List.replicate 8 {}) gappedAreas
        ≤ (gappedAreas.getD 0 {}).StartProfileChronoIndex
          - (gappedAreas.getD 2 {}).EndProfileChronoIndex - 1) := by
  decide!

/-! ## The temporal-gap criterion of the composite rule -/

/-- For balance areas that are runs of profiles of the profile list, the result
of `CheckTemporalProximity` is the number of gap profiles that belong to no
other finalized balance area. -/
theorem CheckTemporalProximity_eq_count (P : List s_SessionProfile) (F : List s_BalanceArea)
    (i1 i3 : Nat) (h1 : i1 < F.length) (h3 : i3 < F.length) (hwf : areasWithinProfiles P F) :
    CheckTemporalProximity i1 i3 P F = (unclaimedGapCount F i1 i3 : Int) := by
  have m1 : F.getD i1 {} ∈ F := by
    rw [List.getD_eq_getElem _ _ h1]; exact List.getElem_mem _
  have m3 : F.getD i3 {} ∈ F := by
    rw [List.getD_eq_getElem _ _ h3]; exact List.getElem_mem _
  obtain ⟨a1, a2, a3, _⟩ := hwf _ m1
  obtain ⟨b1, b2, b3, _⟩ := hwf _ m3
  have hwithin : membersWithinBounds F := fun b hb => (hwf b hb).2.2.2
  by_cases hg : (F.getD i1 {}).EndProfileChronoIndex + 1 < (F.getD i3 {}).StartProfileChronoIndex
  · exact CheckTemporalProximity_unclaimed i1 i3 P F (by omega) a3 b1 (by omega) hwithin hg
  · obtain ⟨e1, e2⟩ := CheckTemporalProximity_adjacent i1 i3 P F (by omega) a3 b1 (by omega)
      (by omega)
    rw [e1, e2]
    rfl

/-- For balance areas that are runs of profiles of the profile list the flag
`temporalPassed` of the source is the temporal-gap criterion. -/
theorem temporalCheckPassed_iff (P : List s_SessionProfile) (F : List s_BalanceArea) (j : Nat)
    (hj : j + 2 < F.length) (hwf : areasWithinProfiles P F) :
    temporalCheckPassed P F j ↔ temporalGapOk F j := by
  have h := CheckTemporalProximity_eq_count P F j (j + 2) (by omega) hj hwf
  unfold temporalCheckPassed temporalGapOk
  rw [h]
  constructor
  · rintro ⟨_, h2⟩
    exact_mod_cast h2
  · intro h2
    refine ⟨?_, by exact_mod_cast h2⟩
    intro hneg
    have := Int.natCast_nonneg (unclaimedGapCount F j (j + 2))
    omega

theorem qualifiesByCheck_iff (inp : StudyInputs) (t : ℚ) (P : List s_SessionProfile)
    (F : List s_BalanceArea) (j : Nat) (hj : j + 2 < F.length) (hwf : areasWithinProfiles P F) :
    qualifiesByCheck inp t P F j ↔ qualifiesAsComposite inp t F j := by
  unfold qualifiesByCheck qualifiesAsComposite
  simp only [temporalCheckPassed_iff P F j hj hwf]

/-- The balance areas finalized by the formation loop are runs of profiles of
the profile list. -/
theorem formed_areasWithinProfiles (sc : SCStudyInterface) (inp : StudyInputs) (sqrtf : ℚ → ℚ)
    (SessionProfiles : List s_SessionProfile) :
    areasWithinProfiles SessionProfiles
      (formBalanceAreas sc inp sqrtf SessionProfiles).FinalizedBalanceAreas := by
  obtain ⟨_, _, B, _, _, b3, _⟩ := formBalanceAreas_inv sc inp sqrtf SessionProfiles
  intro b hb
  obtain ⟨_, a2, ⟨i, e, c1, c2, c3, c4⟩, _⟩ := b3 b hb
  rw [c3] at a2
  refine ⟨by omega, by omega, by omega, ?_⟩
  intro p hp
  rw [c4] at hp
  unfold profileRun at hp
  simp only [List.mem_map, List.mem_range'_1] at hp
  obtain ⟨x, hx, rfl⟩ := hp
  omega

theorem UpdateBAExtensionsWith_stable (sc : SCStudyInterface) (pData : s_BAStudyPersistentData)
    (t p : ℚ) :
    UpdateBAExtensionsWith sortByActivation sc pData t p = UpdateBAExtensions sc pData t p := rfl

theorem sortByActivationReversing_sorts : sortsByActivation sortByActivationReversing := by
  intro l
  unfold sortByActivationReversing
  exact ⟨((List.perm_insertionSort _ l.reverse).trans (List.reverse_perm l)),
    sortByActivation_sorted l.reverse⟩

/-- The loop changes nothing when no entry meets the cut condition. -/
theorem extensionLoop_noop (sc : SCStudyInterface) (t p : ℚ) :
    ∀ (l : List s_BalanceArea) (pd : s_BAStudyPersistentData),
      (∀ (k : Nat) (a : s_BalanceArea), l[k]? = some a →
        ¬ (a.IsExtending = true ∧
          (cutSearch sc pd.FinalizedBalanceAreas (l.drop (k + 1)) t a).shouldCut = true ∧
          (cutSearch sc pd.FinalizedBalanceAreas (l.drop (k + 1)) t a).earliestCutPoint
            < a.ExtensionEndIndex)) →
      extensionLoop sc t p l pd = (l, pd) := by
  intro l
  induction l with
  | nil => intro pd _; rfl
  | cons a later ih =>
    intro pd h
    have h0 := cutStep_noop sc t p later pd a (by
      have := h 0 a (by simp)
      simpa using this)
    simp only [extensionLoop]
    rw [h0]
    simp only
    rw [ih pd (fun k b hb => by
      have := h (k + 1) b (by simpa using hb)
      simpa using this)]

/-- Every entry of the active list after the loop is the result of the loop
body on the entry at the same position of the list before. -/
theorem extensionLoop_mem (sc : SCStudyInterface) (t p : ℚ) (l : List s_BalanceArea)
    (pd : s_BAStudyPersistentData) {a : s_BalanceArea}
    (ha : a ∈ (extensionLoop sc t p l pd).1) :
    ∃ (k : Nat) (a0 : s_BalanceArea), l[k]? = some a0 ∧
      a = (cutStep sc t p (l.drop (k + 1)) pd a0).1 := by
  obtain ⟨k, hk⟩ := List.mem_iff_getElem?.1 ha
  have hlen := (extensionLoop_rel sc t p l pd).length_eq
  obtain ⟨hlt, _⟩ := List.getElem?_eq_some_iff.1 hk
  have hl : k < l.length := by omega
  have h0 : l[k]? = some l[k] := List.getElem?_eq_getElem hl
  have h1 := extensionLoop_getElem sc t p l pd k l[k] h0
  rw [hk] at h1
  exact ⟨k, l[k], h0, by simpa using h1⟩

/-- A second run of the loop, over any rearrangement of the result of a first
run over a sorted list and against the synchronised finalized records, changes
nothing. -/
theorem extensionLoop_second (sc : SCStudyInterface) (t p : ℚ) (l1 : List s_BalanceArea)
    (hs : List.Sorted (fun a b => a.ActivationBarIndex ≤ b.ActivationBarIndex) l1)
    (pd : s_BAStudyPersistentData) (l2 : List s_BalanceArea)
    (hperm : l2.Perm (extensionLoop sc t p l1 pd).1) (pd2 : s_BAStudyPersistentData)
    (hfin : pd2.FinalizedBalanceAreas
      = pd.FinalizedBalanceAreas.map (syncFinalized (extensionLoop sc t p l1 pd).1)) :
    extensionLoop sc t p l2 pd2 = (l2, pd2) := by
  apply extensionLoop_noop
  rintro k a hk ⟨hx, hcut, hlt⟩
  have ha2 : a ∈ l2 := List.getElem?_mem hk
  obtain ⟨k1, a0, hk1, ha⟩ := extensionLoop_mem sc t p l1 pd (hperm.mem_iff.1 ha2)
  rw [cutStep_fst] at ha
  by_cases hc : a0.IsExtending = true ∧
      (cutSearch sc pd.FinalizedBalanceAreas (l1.drop (k1 + 1)) t a0).shouldCut = true ∧
      (cutSearch sc pd.FinalizedBalanceAreas (l1.drop (k1 + 1)) t a0).earliestCutPoint
        < a0.ExtensionEndIndex
  · rw [if_pos hc] at ha
    rw [ha] at hx
    simp [applyCut] at hx
  · rw [if_neg hc] at ha
    subst ha
    apply hc
    obtain ⟨_, s2, s3, s4⟩ := cutSearch_spec sc pd.FinalizedBalanceAreas (l1.drop (k1 + 1)) t a
    obtain ⟨_, _, _, u4⟩ := cutSearch_spec sc pd2.FinalizedBalanceAreas (l2.drop (k + 1)) t a
    rcases u4 with ⟨hf, _⟩ | ⟨_, _, he, hend, hX⟩
    · rw [hf] at hcut
      exact absurd hcut (by decide)
    · -- the cutter found by the second search was seen by the first search
      have hle : (cutSearch sc pd.FinalizedBalanceAreas (l1.drop (k1 + 1)) t a).earliestCutPoint
          ≤ (cutSearch sc pd2.FinalizedBalanceAreas (l2.drop (k + 1)) t a).earliestCutPoint := by
        rw [he]
        generalize (cutSearch sc pd2.FinalizedBalanceAreas (l2.drop (k + 1)) t a).intersectingBA
          = X at hX
        rcases hX with ⟨hm, hcX⟩ | ⟨hm, hcX⟩
        · rw [hfin] at hm
          obtain ⟨X0, hX0, hX0e⟩ := List.mem_map.1 hm
          have hcore := syncFinalized_sameCore (extensionLoop sc t p l1 pd).1 X0
          rw [hX0e] at hcore
          have := s2 X0 hX0 ((finalizedCutter_congr a t X0 _ hcore).2 hcX)
          rw [hcore.2.1] at this
          exact this
        · have hm2 : X ∈ (extensionLoop sc t p l1 pd).1 :=
            hperm.mem_iff.1 (List.mem_of_mem_drop hm)
          obtain ⟨X0, hX0, hrel⟩ := forall₂_mem_right (extensionLoop_rel sc t p l1 pd) hm2
          have hcore := cutRel_sameCore hrel
          have hc0 := (activeCutter_congr a t X0 _ hcore).2 hcX
          have := s3 X0 (sorted_later_mem hs hk1 hX0 hc0.1) hc0
          rw [hcore.2.1] at this
          exact this
      rcases s4 with ⟨_, h2⟩ | ⟨h1, _⟩
      · omega
      · exact ⟨hx, h1, by omega⟩

theorem syncFinalized_perm {l l' : List s_BalanceArea} (hperm : l'.Perm l)
    (hnd : (l.map keyOf).Nodup) (g : s_BalanceArea) :
    syncFinalized l' g = syncFinalized l g := by
  have hnd' : (l'.map keyOf).Nodup := (hperm.map keyOf).nodup_iff.2 hnd
  have hfind : l'.find? (fun x => sameBA x g) = l.find? (fun x => sameBA x g) := by
    cases h : l.find? (fun x => sameBA x g) with
    | none =>
      rw [List.find?_eq_none] at h ⊢
      exact fun x hx => h x (hperm.mem_iff.1 hx)
    | some a =>
      have hmem : a ∈ l := List.mem_of_find?_eq_some h
      have hk : sameBA a g = true := by
        have := List.find?_some h
        simpa using this
      exact find?_of_nodup_key hnd' (hperm.mem_iff.2 hmem) ((sameBA_iff _ _).1 hk)
  unfold syncFinalized
  rw [hfind]

/-- A call whose loop changes nothing sorts the active list and synchronises
the finalized records. -/
theorem UpdateBAExtensionsWith_of_noop (srt : List s_BalanceArea → List s_BalanceArea)
    (sc : SCStudyInterface) (st : s_BAStudyPersistentData) (t p : ℚ)
    (h : extensionLoop sc t p (srt st.ActiveBalanceAreas)
        { st with ActiveBalanceAreas := srt st.ActiveBalanceAreas }
      = (srt st.ActiveBalanceAreas, { st with ActiveBalanceAreas := srt st.ActiveBalanceAreas })) :
    UpdateBAExtensionsWith srt sc st t p
      = { st with
          ActiveBalanceAreas := srt st.ActiveBalanceAreas
          FinalizedBalanceAreas :=
            st.FinalizedBalanceAreas.map (syncFinalized (srt st.ActiveBalanceAreas)) } := by
  unfold UpdateBAExtensionsWith
  simp only
  rw [h]

/-- C9: `UpdateBAExtensions` is idempotent up to the order in which the sort
leaves entries with equal activation bar: for every chart, every state and
every function `srt` that sorts by activation bar, the active list after two
calls is a rearrangement of the active list after one call (no entry is
un-cut or re-extended) and both are sorted by activation bar, so that they
differ at most in the order of entries with equal activation bar; the list of
rays is the same (no ray is emitted a
second time), the composites and probe lines are the same, and, the active
entries being a set (no two for the same balance area), the finalized balance
areas are the same. -/
theorem UpdateBAExtensionsWith_idempotent (srt : List s_BalanceArea → List s_BalanceArea)
    (hsrt : sortsByActivation srt) (sc : SCStudyInterface) (pData : s_BAStudyPersistentData)
    (TickSize PBALPierceThreshold : ℚ) :
    (UpdateBAExtensionsWith srt sc
        (UpdateBAExtensionsWith srt sc pData TickSize PBALPierceThreshold)
        TickSize PBALPierceThreshold).ActiveBalanceAreas.Perm
      (UpdateBAExtensionsWith srt sc pData TickSize PBALPierceThreshold).ActiveBalanceAreas ∧
    (UpdateBAExtensionsWith srt sc
        (UpdateBAExtensionsWith srt sc pData TickSize PBALPierceThreshold)
        TickSize PBALPierceThreshold).ActiveBalanceAreas.Sorted
      (fun a b => a.ActivationBarIndex ≤ b.ActivationBarIndex) ∧
    (UpdateBAExtensionsWith srt sc pData TickSize PBALPierceThreshold).ActiveBalanceAreas.Sorted
      (fun a b => a.ActivationBarIndex ≤ b.ActivationBarIndex) ∧
    (UpdateBAExtensionsWith srt sc
        (UpdateBAExtensionsWith srt sc pData TickSize PBALPierceThreshold)
        TickSize PBALPierceThreshold).PBALsToDraw
      = (UpdateBAExtensionsWith srt sc pData TickSize PBALPierceThreshold).PBALsToDraw ∧
    (UpdateBAExtensionsWith srt sc
        (UpdateBAExtensionsWith srt sc pData TickSize PBALPierceThreshold)
        TickSize PBALPierceThreshold).CompositeBAs
      = (UpdateBAExtensionsWith srt sc pData TickSize PBALPierceThreshold).CompositeBAs ∧
    (UpdateBAExtensionsWith srt sc
        (UpdateBAExtensionsWith srt sc pData TickSize PBALPierceThreshold)
        TickSize PBALPierceThreshold).ProbeLinesToDraw
      = (UpdateBAExtensionsWith srt sc pData TickSize PBALPierceThreshold).ProbeLinesToDraw ∧
    ((pData.ActiveBalanceAreas.map keyOf).Nodup →
      (UpdateBAExtensionsWith srt sc
          (UpdateBAExtensionsWith srt sc pData TickSize PBALPierceThreshold)
          TickSize PBALPierceThreshold).FinalizedBalanceAreas
        = (UpdateBAExtensionsWith srt sc pData TickSize
            PBALPierceThreshold).FinalizedBalanceAreas) := by
  obtain ⟨hp1, hs1⟩ := hsrt pData.ActiveBalanceAreas
  have hfr := extensionLoop_frame sc TickSize PBALPierceThreshold (srt pData.ActiveBalanceAreas)
    { pData with ActiveBalanceAreas := srt pData.ActiveBalanceAreas }
  have hfin1 : (UpdateBAExtensionsWith srt sc pData TickSize
      PBALPierceThreshold).FinalizedBalanceAreas
      = pData.FinalizedBalanceAreas.map (syncFinalized (UpdateBAExtensionsWith srt sc pData
        TickSize PBALPierceThreshold).ActiveBalanceAreas) := by
    unfold UpdateBAExtensionsWith
    simp only
    rw [hfr.1]
  have htwice := UpdateBAExtensionsWith_of_noop srt sc
    (UpdateBAExtensionsWith srt sc pData TickSize PBALPierceThreshold)
    TickSize PBALPierceThreshold
    (extensionLoop_second sc TickSize PBALPierceThreshold (srt pData.ActiveBalanceAreas) hs1
      { pData with ActiveBalanceAreas := srt pData.ActiveBalanceAreas } _
      (hsrt (UpdateBAExtensionsWith srt sc pData TickSize
        PBALPierceThreshold).ActiveBalanceAreas).1 _ hfin1)
  have hsorted1 : (UpdateBAExtensionsWith srt sc pData TickSize
      PBALPierceThreshold).ActiveBalanceAreas.Sorted
      (fun a b => a.ActivationBarIndex ≤ b.ActivationBarIndex) := by
    unfold UpdateBAExtensionsWith
    exact sorted_of_sameCore
      ((extensionLoop_rel sc TickSize PBALPierceThreshold _ _).imp
        (fun _ _ h => cutRel_sameCore h))
      hs1
  rw [htwice]
  refine ⟨(hsrt _).1, (hsrt _).2, hsorted1, rfl, rfl, rfl, ?_⟩
  intro hnd
  simp only
  have hnd1 : ((UpdateBAExtensionsWith srt sc pData TickSize
      PBALPierceThreshold).ActiveBalanceAreas.map keyOf).Nodup := by
    have hrel := extensionLoop_rel sc TickSize PBALPierceThreshold (srt pData.ActiveBalanceAreas)
      { pData with ActiveBalanceAreas := srt pData.ActiveBalanceAreas }
    have : (UpdateBAExtensionsWith srt sc pData TickSize
        PBALPierceThreshold).ActiveBalanceAreas.map keyOf
        = (srt pData.ActiveBalanceAreas).map keyOf := forall₂_cutRel_keys hrel
    rw [this]
    exact (hp1.map keyOf).nodup_iff.2 hnd
  conv_rhs => rw [hfin1]
  conv_lhs => rw [hfin1]
  rw [List.map_map]
  apply List.map_congr_left
  intro f _
  simp only [Function.comp]
  rw [syncFinalized_perm (hsrt _).1 hnd1, syncFinalized_idem]

/-- C9 on a state with a tie, for the sort that reverses ties: `areaA` and
`areaC` were both activated at bar 50 and `areaB` at bar 80.  The first call
cuts `areaA` and `areaC` at bar 80 and leaves the active list in the order
`areaC`, `areaA`, `areaB`; the second call leaves it in the order `areaA`,
`areaC`, `areaB`, a rearrangement with the same entries that differs only in
the order of the two entries activated at bar 50, and changes neither
the rays nor the finalized balance areas. -/
theorem UpdateBAExtensionsWith_idempotent_witness :
    (UpdateBAExtensionsWith sortByActivationReversing (chartB 100 80) stateTied (1 / 4)
        15).ActiveBalanceAreas.map (fun a => (keyOf a, a.ExtensionEndIndex, a.WasCut))
      = [((4, 5), 80, true), ((0, 1), 80, true), ((2, 3), 99, false)] ∧
    (UpdateBAExtensionsWith sortByActivationReversing (chartB 100 80)
        (UpdateBAExtensionsWith sortByActivationReversing (chartB 100 80) stateTied (1 / 4) 15)
        (1 / 4) 15).ActiveBalanceAreas.map (fun a => (keyOf a, a.ExtensionEndIndex, a.WasCut))
      = [((0, 1), 80, true), ((4, 5), 80, true), ((2, 3), 99, false)] ∧
    (UpdateBAExtensionsWith sortByActivationReversing (chartB 100 80)
        (UpdateBAExtensionsWith sortByActivationReversing (chartB 100 80) stateTied (1 / 4) 15)
        (1 / 4) 15).ActiveBalanceAreas.Perm
      (UpdateBAExtensionsWith sortByActivationReversing (chartB 100 80) stateTied (1 / 4)
        15).ActiveBalanceAreas ∧
    (UpdateBAExtensionsWith sortByActivationReversing (chartB 100 80)
        (UpdateBAExtensionsWith sortByActivationReversing (chartB 100 80) stateTied (1 / 4) 15)
        (1 / 4) 15).ActiveBalanceAreas.map (fun a => a.ActivationBarIndex) = [50, 50, 80] ∧
    (UpdateBAExtensionsWith sortByActivationReversing (chartB 100 80)
        (UpdateBAExtensionsWith sortByActivationReversing (chartB 100 80) stateTied (1 / 4) 15)
        (1 / 4) 15).PBALsToDraw
      = (UpdateBAExtensionsWith sortByActivationReversing (chartB 100 80) stateTied (1 / 4)
        15).PBALsToDraw ∧
    (UpdateBAExtensionsWith sortByActivationReversing (chartB 100 80)
        (UpdateBAExtensionsWith sortByActivationReversing (chartB 100 80) stateTied (1 / 4) 15)
        (1 / 4) 15).FinalizedBalanceAreas
      = (UpdateBAExtensionsWith sortByActivationReversing (chartB 100 80) stateTied (1 / 4)
        15).FinalizedBalanceAreas :=
  ⟨by decide!, by decide!,
    (UpdateBAExtensionsWith_idempotent sortByActivationReversing sortByActivationReversing_sorts
      (chartB 100 80) stateTied (1 / 4) 15).1,
    by decide!,
    (UpdateBAExtensionsWith_idempotent sortByActivationReversing sortByActivationReversing_sorts
      (chartB 100 80) stateTied (1 / 4) 15).2.2.2.1,
    (UpdateBAExtensionsWith_idempotent sortByActivationReversing sortByActivationReversing_sorts
      (chartB 100 80) stateTied (1 / 4) 15).2.2.2.2.2.2 (by decide!)⟩

/-! ## The rounding to `float` on whole numbers -/

theorem log2Floor_spec : ∀ (fuel n : Nat), 0 < n → n < 2 ^ fuel →
    2 ^ log2Floor fuel n ≤ n ∧ n < 2 ^ (log2Floor fuel n + 1) := by
  intro fuel
  induction fuel with
  | zero => intro n h0 h1; simp at h1; omega
  | succ f ih =>
    intro n h0 h1
    unfold log2Floor
    by_cases h2 : n < 2
    · rw [if_pos h2]
      have : n = 1 := by omega
      subst this
      simp
    · rw [if_neg h2]
      have hd : 0 < n / 2 := Nat.div_pos (by omega) (by decide)
      have hlt : n / 2 < 2 ^ f := by
        rw [Nat.div_lt_iff_lt_mul (by decide)]
        rw [pow_succ] at h1
        exact h1
      obtain ⟨a, b⟩ := ih (n / 2) hd hlt
      constructor
      · rw [pow_succ]
        have := Nat.mul_le_of_le_div 2 _ _ a
        omega
      · rw [pow_succ]
        have := (Nat.div_lt_iff_lt_mul (by decide : 0 < 2)).1 b
        omega

theorem roundHalfEven_natCast (k : Nat) : roundHalfEven (k : ℚ) = k := by
  unfold roundHalfEven
  simp

theorem twoPow_pos (e : Int) : 0 < twoPow e := by
  unfold twoPow
  split_ifs
  · exact_mod_cast Nat.pos_pow_of_pos _ (by decide)
  · apply div_pos one_pos
    exact_mod_cast Nat.pos_pow_of_pos _ (by decide)

theorem binaryExponent_natCast (n : Nat) (h0 : 0 < n) :
    binaryExponent (n : ℚ) = (log2Floor n n : Int) := by
  unfold binaryExponent
  have h1 : (1 : ℚ) ≤ n := by exact_mod_cast h0
  rw [if_pos h1]
  simp

/-- On a whole number of at most 24 binary digits, and on 2 ^ 24, the quotient
by the unit in the last place is a whole number. -/
theorem quotient_whole (n : Nat) (h0 : 0 < n) (h : n ≤ 16777216) :
    ∃ k : Nat, (n : ℚ) / twoPow ((log2Floor n n : Int) - ((24 : Nat) - 1)) = k := by
  obtain ⟨a, b⟩ := log2Floor_spec n n h0 (Nat.lt_two_pow n)
  have he : log2Floor n n ≤ 24 := by
    by_contra hc
    have h25 : 2 ^ 25 ≤ 2 ^ log2Floor n n := Nat.pow_le_pow_right (by decide) (by omega)
    have : (2 : Nat) ^ 25 = 33554432 := by norm_num
    omega
  generalize log2Floor n n = e at a b he
  unfold twoPow
  by_cases h23 : e < 23
  · rw [if_neg (by push_cast; omega)]
    refine ⟨n * 2 ^ (23 - e), ?_⟩
    have : (-((e : Int) - ((24 : Nat) - 1))).toNat = 23 - e := by push_cast; omega
    rw [this]
    push_cast
    field_simp
  · rw [if_pos (by push_cast; omega)]
    have hcases : e = 23 ∨ e = 24 := by omega
    rcases hcases with rfl | rfl
    · refine ⟨n, ?_⟩
      norm_num
    · have hn : n = 16777216 := by
        have : (2 : Nat) ^ 24 = 16777216 := by norm_num
        omega
      subst hn
      refine ⟨8388608, ?_⟩
      norm_num

/-- The rounding to `float` is exact on the whole numbers up to 2 ^ 24 =
16777216 and on their negatives. -/
theorem roundFloat_exact (n : Nat) (h : n ≤ 16777216) :
    roundFloat n = n ∧ roundFloat (-(n : ℚ)) = -(n : ℚ) := by
  rcases Nat.eq_zero_or_pos n with rfl | h0
  · unfold roundFloat roundToPrecision
    simp
  · have hpos : (0 : ℚ) < n := by exact_mod_cast h0
    obtain ⟨k, hk⟩ := quotient_whole n h0 h
    have hq := twoPow_pos ((log2Floor n n : Int) - ((24 : Nat) - 1))
    have hval : (roundHalfEven ((n : ℚ) / twoPow ((log2Floor n n : Int) - ((24 : Nat) - 1))) : ℚ)
        * twoPow ((log2Floor n n : Int) - ((24 : Nat) - 1)) = n := by
      have hkq : (k : ℚ) * twoPow ((log2Floor n n : Int) - ((24 : Nat) - 1)) = n := by
        rw [← hk]
        exact div_mul_cancel₀ _ (ne_of_gt hq)
      rw [hk, roundHalfEven_natCast]
      exact hkq
    constructor
    · unfold roundFloat roundToPrecision
      rw [if_neg (ne_of_gt hpos), abs_of_pos hpos, binaryExponent_natCast n h0]
      simp only
      rw [if_neg (not_lt.2 (le_of_lt hpos))]
      exact hval
    · unfold roundFloat roundToPrecision
      have hneg : -(n : ℚ) < 0 := by linarith
      rw [if_neg (ne_of_lt hneg), abs_neg, abs_of_pos hpos, binaryExponent_natCast n h0]
      simp only
      rw [if_pos hneg, hval]

/-- With the rounding to `float`, the volume sums of a map with whole-number
volumes and a total volume of at most 2 ^ 24 = 16777216 are exact. -/
theorem exactVolumeSums_roundFloat (m : PriceVolumeMap) (hw : wholeVolumes m)
    (hN : mapVolume m ≤ 16777216) : exactVolumeSums roundFloat m :=
  exactVolumeSums_of_bound roundFloat m 16777216 hw (by decide!) (by exact_mod_cast hN)
    roundFloat_exact

/-- For a rounding that is monotone and odd and that leaves the tick and half
the tick exact, the half-tick test on keys one tick apart is exact. -/
theorem halfTickTestExact_of_monotone (rnd : ℚ → ℚ) (m : PriceVolumeMap) (tick : ℚ)
    (hmono : Monotone rnd) (hodd : ∀ x, rnd (-x) = -rnd x)
    (htick : 0 < tick) (hhalf : rnd (tick / 2) = tick / 2) (hfull : rnd tick = tick)
    (hapart : keysOneTickApart m tick) : halfTickTestExact rnd m tick := by
  have h0 : rnd 0 = 0 := by
    have := hodd 0
    simp only [neg_zero] at this
    linarith
  intro a ha b hb
  rw [hhalf]
  by_cases hab : a.1 = b.1
  · rw [hab, sub_self, h0]
  · have hap := hapart a ha b hb hab
    constructor
    · intro hlt
      exfalso
      rcases le_abs'.1 hap with h | h
      · have := hmono h
        rw [hodd, hfull] at this
        rw [abs_lt] at hlt
        linarith
      · have := hmono h
        rw [hfull] at this
        rw [abs_lt] at hlt
        linarith
    · intro hlt
      linarith

/-- With the rounding to `float`, the half-tick test is exact on whole-number
keys up to 2 ^ 24 with tick size 1. -/
theorem halfTickTestExact_roundFloat (m : PriceVolumeMap)
    (hk : ∀ e ∈ m, ∃ n : Nat, e.1 = n ∧ n ≤ 16777216) : halfTickTestExact roundFloat m 1 := by
  intro a ha b hb
  obtain ⟨x, hx, hxB⟩ := hk a ha
  obtain ⟨y, hy, hyB⟩ := hk b hb
  have hsub : roundFloat ((x : ℚ) - y) = x - y :=
    exact_sub (B := 16777216) (fun n hn => roundFloat_exact n (by exact_mod_cast hn)) x y
      (by exact_mod_cast hxB) (by exact_mod_cast hyB)
  have hhalf : roundFloat (1 / 2) = 1 / 2 := by decide!
  rw [hx, hy, hsub, hhalf]

end AutoBAs
